import Mathlib

/-!
Giga-ALU front end: lexer, parser, two-pass assembler and instruction codec

A shallow embedding of the C sources of the Giga-ALU tool chain
(`src/lexer/lexer.c`, `src/parser/parser.c`, `src/assembler/assembler.c`,
`src/vm/vm.c`) together with theorems about them.

Conventions of the embedding

* A byte is a natural number; a byte buffer is a `List Nat`.  `uint8_t` and
  `uint16_t` arithmetic is written with explicit `% 256` and `% 65536`.
  `size_t` counters (indices, lines, columns, word counts) are plain naturals.
* A `(pointer, length)` text span that a statement or an operand keeps is the
  list of the bytes of that span.
* The linked list of statements is a `List`, the process-wide label table is an
  explicit argument and result of the functions that touch it.
* Allocation (`calloc`) is assumed to succeed.
-/

namespace Giga

/-! ## Bytes of C string literals -/

/-- Bytes of an ASCII string literal. -/
def bytes (s : String) : List Nat := s.toList.map Char.toNat

/-! ## Lexer data (`include/lexer/lexer.h`) -/

/-- Token kinds, `GigaTokenKind`. -/
inductive GigaTokenKind where
  | EOF
  | IDENTIFIER
  | NUMBER
  | COMMA
  | COLON
  | NEWLINE
  | DIRECTIVE
  | UNKNOWN
  deriving DecidableEq, Repr

/-- One token, `GigaToken`.  `text_begin` is the offset of the token text in the
buffer, `none` standing for the `NULL` pointer of the end-of-input token. -/
structure GigaToken where
  kind : GigaTokenKind
  text_begin : Option Nat
  text_length : Nat
  line_number : Nat
  column_number : Nat
  deriving DecidableEq, Repr

/-- Lexer state, `GigaLexer`. -/
structure GigaLexer where
  buffer : List Nat
  buffer_length : Nat
  current_index : Nat
  line_number : Nat
  column_number : Nat
  deriving DecidableEq, Repr

/-! ## Lexer (`src/lexer/lexer.c`) -/

/-- C library `isalpha` in the "C" locale, on a byte. -/
def isalpha (character : Nat) : Bool :=
  (65 ≤ character && character ≤ 90) || (97 ≤ character && character ≤ 122)

/-- C library `isdigit`, on a byte. -/
def isdigit (character : Nat) : Bool := 48 ≤ character && character ≤ 57

/-- C library `isalnum` in the "C" locale, on a byte. -/
def isalnum (character : Nat) : Bool := isalpha character || isdigit character

/-- C library `isxdigit`, on a byte. -/
def isxdigit (character : Nat) : Bool :=
  isdigit character || (65 ≤ character && character ≤ 70) ||
    (97 ≤ character && character ≤ 102)

/-- Start of an identifier: `giga_lexer_is_identifier_start`. -/
def giga_lexer_is_identifier_start (character : Nat) : Bool :=
  character == 95 || isalpha character

/-- Continuation of an identifier: `giga_lexer_is_identifier_continue`. -/
def giga_lexer_is_identifier_continue (character : Nat) : Bool :=
  character == 95 || isalnum character

/-- Initialisation `giga_lexer_init`. -/
def giga_lexer_init (buffer : List Nat) (buffer_length : Nat) : GigaLexer :=
  { buffer := buffer, buffer_length := buffer_length, current_index := 0, line_number := 1,
    column_number := 1 }

/-- Byte under the cursor, 0 at the end of the buffer: `giga_lexer_peek`. -/
def giga_lexer_peek (lexer : GigaLexer) : Nat :=
  if lexer.current_index ≥ lexer.buffer_length then 0
  else lexer.buffer.getD lexer.current_index 0

/-- Consumes one byte and returns it with the new state: `giga_lexer_advance`. -/
def giga_lexer_advance (lexer : GigaLexer) : Nat × GigaLexer :=
  if lexer.current_index ≥ lexer.buffer_length then (0, lexer)
  else
    let character := lexer.buffer.getD lexer.current_index 0
    if character = 10 then
      (character,
        { lexer with
          current_index := lexer.current_index + 1
          line_number := lexer.line_number + 1
          column_number := 1 })
    else
      (character,
        { lexer with
          current_index := lexer.current_index + 1
          column_number := lexer.column_number + 1 })

/-- Number of bytes between the cursor and the end of the buffer. -/
def giga_lexer_remaining (lexer : GigaLexer) : Nat :=
  lexer.buffer_length - lexer.current_index

/-- The loop `while (p(peek(lexer))) advance(lexer);` for a byte test `p` that
rejects 0.  The first argument bounds the iterations and is always the number of
bytes left: when it is used up the cursor is at the end, where `peek` is 0. -/
def giga_lexer_advance_while (p : Nat → Bool) : Nat → GigaLexer → GigaLexer
  | 0, lexer => lexer
  | fuel + 1, lexer =>
    if p (giga_lexer_peek lexer) then
      giga_lexer_advance_while p fuel (giga_lexer_advance lexer).2
    else lexer

/-- The horizontal white space of `giga_lexer_skip_spaces_and_comments`. -/
def is_horizontal_space (character : Nat) : Bool :=
  character == 32 || character == 9 || character == 13 || character == 12 || character == 11

/-- Test of the comment loop: neither NUL nor newline. -/
def is_comment_byte (character : Nat) : Bool := character != 0 && character != 10

/-- The `for (;;)` loop of `giga_lexer_skip_spaces_and_comments`; every turn
that continues consumes a `;`, so one more turn than bytes left is enough. -/
def giga_lexer_skip_loop : Nat → GigaLexer → GigaLexer
  | 0, lexer => lexer
  | fuel + 1, lexer =>
    let lexer1 := giga_lexer_advance_while is_horizontal_space (giga_lexer_remaining lexer) lexer
    if giga_lexer_peek lexer1 = 59 then
      giga_lexer_skip_loop fuel
        (giga_lexer_advance_while is_comment_byte (giga_lexer_remaining lexer1) lexer1)
    else lexer1

/-- Skips white space and comments: `giga_lexer_skip_spaces_and_comments`. -/
def giga_lexer_skip_spaces_and_comments (lexer : GigaLexer) : GigaLexer :=
  giga_lexer_skip_loop (giga_lexer_remaining lexer + 1) lexer

/-- Token from `start_index` to the cursor: `giga_lexer_make_token`. -/
def giga_lexer_make_token (lexer : GigaLexer) (kind : GigaTokenKind)
    (start_index start_line start_column : Nat) : GigaToken :=
  { kind := kind
    text_begin := some start_index
    text_length := lexer.current_index - start_index
    line_number := start_line
    column_number := start_column }

/-- Next token and new lexer state: `giga_lexer_next_token` (for a non-null
lexer and buffer). -/
def giga_lexer_next_token (lexer0 : GigaLexer) : GigaToken × GigaLexer :=
  let lexer := giga_lexer_skip_spaces_and_comments lexer0
  let start_index := lexer.current_index
  let start_line := lexer.line_number
  let start_column := lexer.column_number
  let character := giga_lexer_peek lexer
  if character = 0 ∨ lexer.current_index ≥ lexer.buffer_length then
    ({ kind := GigaTokenKind.EOF, text_begin := Option.none, text_length := 0,
       line_number := lexer.line_number, column_number := lexer.column_number }, lexer)
  else if character = 10 then
    let lexer1 := (giga_lexer_advance lexer).2
    (giga_lexer_make_token lexer1 GigaTokenKind.NEWLINE start_index start_line start_column,
      lexer1)
  else if character = 44 then
    let lexer1 := (giga_lexer_advance lexer).2
    (giga_lexer_make_token lexer1 GigaTokenKind.COMMA start_index start_line start_column,
      lexer1)
  else if character = 58 then
    let lexer1 := (giga_lexer_advance lexer).2
    (giga_lexer_make_token lexer1 GigaTokenKind.COLON start_index start_line start_column,
      lexer1)
  else if character = 46 then
    let lexer1 := (giga_lexer_advance lexer).2
    let lexer2 := giga_lexer_advance_while giga_lexer_is_identifier_continue
      (giga_lexer_remaining lexer1) lexer1
    (giga_lexer_make_token lexer2 GigaTokenKind.DIRECTIVE start_index start_line start_column,
      lexer2)
  else if isdigit character then
    let lexer1 := (giga_lexer_advance lexer).2
    if lexer1.current_index - start_index = 1 ∧ lexer1.buffer.getD start_index 0 = 48 ∧
        (giga_lexer_peek lexer1 = 120 ∨ giga_lexer_peek lexer1 = 88) then
      let lexer2 := (giga_lexer_advance lexer1).2
      let lexer3 := giga_lexer_advance_while isxdigit (giga_lexer_remaining lexer2) lexer2
      (giga_lexer_make_token lexer3 GigaTokenKind.NUMBER start_index start_line start_column,
        lexer3)
    else
      let lexer2 := giga_lexer_advance_while isdigit (giga_lexer_remaining lexer1) lexer1
      (giga_lexer_make_token lexer2 GigaTokenKind.NUMBER start_index start_line start_column,
        lexer2)
  else if giga_lexer_is_identifier_start character then
    let lexer1 := (giga_lexer_advance lexer).2
    let lexer2 := giga_lexer_advance_while giga_lexer_is_identifier_continue
      (giga_lexer_remaining lexer1) lexer1
    (giga_lexer_make_token lexer2 GigaTokenKind.IDENTIFIER start_index start_line start_column,
      lexer2)
  else
    let lexer1 := (giga_lexer_advance lexer).2
    (giga_lexer_make_token lexer1 GigaTokenKind.UNKNOWN start_index start_line start_column,
      lexer1)

/-! ## Parser data (`src/parser.h`) -/

/-- An operand, `GigaOperand`: the tag `operand_type` with the one member of the
union `value` that is valid for it (`label_name_length` is the length of the
`label` span). -/
inductive GigaOperand where
  | none
  | register (register_index : Nat)
  | immediate (immediate_value : Nat)
  | memory (memory_address : Nat)
  | label (label_name : List Nat)
  deriving DecidableEq, Repr

/-- Maximum number of operands per instruction. -/
def GIGA_MAX_OPERANDS : Nat := 3

/-- A parsed instruction, `GigaParsedInstruction`.  `mnemonic_length` is the
length of `mnemonic_text` and `operand_count` the length of `operands`. -/
structure GigaParsedInstruction where
  mnemonic_text : List Nat
  operands : List GigaOperand
  source_line : Nat
  source_column : Nat
  deriving DecidableEq, Repr

/-- A parsed label definition, `GigaParsedLabel`. -/
structure GigaParsedLabel where
  label_name : List Nat
  source_line : Nat
  source_column : Nat
  deriving DecidableEq, Repr

/-- The anonymous directive member of the statement union. -/
structure GigaParsedDirective where
  directive_name : List Nat
  source_line : Nat
  source_column : Nat
  deriving DecidableEq, Repr

/-- A statement, `GigaStatement` (tag `statement_type` and union `data`). -/
inductive GigaStatement where
  | label (l : GigaParsedLabel)
  | instruction (inst : GigaParsedInstruction)
  | directive (d : GigaParsedDirective)
  deriving DecidableEq, Repr

/-- Field `operand_count` of an instruction. -/
def GigaParsedInstruction.operand_count (inst : GigaParsedInstruction) : Nat :=
  inst.operands.length

/-- Field `mnemonic_length` of an instruction. -/
def GigaParsedInstruction.mnemonic_length (inst : GigaParsedInstruction) : Nat :=
  inst.mnemonic_text.length

/-! ## Parser (`src/parser/parser.c`) -/

/-- Parser state, `GigaParser`; `statements` is the list from `first_statement`
to `last_statement`. -/
structure GigaParser where
  lexer : GigaLexer
  current_token : GigaToken
  lookahead_token : GigaToken
  has_error : Nat
  error_message : Option String
  error_line : Nat
  error_column : Nat
  statements : List GigaStatement
  deriving DecidableEq, Repr

/-- The bytes of a token: `text_length` bytes of the buffer from `text_begin`. -/
def token_text (parser : GigaParser) (token : GigaToken) : List Nat :=
  match token.text_begin with
  | some start_index => (parser.lexer.buffer.drop start_index).take token.text_length
  | Option.none => []

/-- Records an error: `giga_parser_error`. -/
def giga_parser_error (parser : GigaParser) (message : String) (line column : Nat) :
    GigaParser :=
  { parser with
    has_error := 1
    error_message := some message
    error_line := line
    error_column := column }

/-- Shifts the lookahead into the current token: `giga_parser_advance`. -/
def giga_parser_advance (parser : GigaParser) : GigaParser :=
  { parser with
    current_token := parser.lookahead_token
    lookahead_token := (giga_lexer_next_token parser.lexer).1
    lexer := (giga_lexer_next_token parser.lexer).2 }

/-- Register operand `giga_parser_parse_register`: return value, parser and
`*operand` afterwards. -/
def giga_parser_parse_register (parser : GigaParser) (operand : GigaOperand) :
    Bool × GigaParser × GigaOperand :=
  if parser.current_token.kind ≠ GigaTokenKind.IDENTIFIER then (false, parser, operand)
  else
    let text := token_text parser parser.current_token
    let length := parser.current_token.text_length
    if length < 2 ∨ text.getD 0 0 ≠ 82 then (false, parser, operand)
    else if length > 3 then (false, parser, operand)
    else
      let reg_char := if length = 2 then text.getD 1 0 else 0
      if length = 3 ∧ text.getD 2 0 ≠ 0 then (false, parser, operand)
      else if length = 2 then
        if 48 ≤ reg_char ∧ reg_char ≤ 55 then
          (true, giga_parser_advance parser, GigaOperand.register ((reg_char - 48) % 256))
        else (false, parser, operand)
      else (false, parser, operand)

/-- The hexadecimal loop of `giga_parser_parse_number` over the bytes after
`0x`, with the `uint8_t` accumulator `value`. -/
def parse_number_hex : List Nat → Nat → Except String Nat
  | [], value => .ok value
  | c :: rest, value =>
    if 48 ≤ c ∧ c ≤ 57 then parse_number_hex rest ((value * 16 % 256 + (c - 48)) % 256)
    else if 97 ≤ c ∧ c ≤ 102 then
      parse_number_hex rest ((value * 16 % 256 + (c - 97 + 10)) % 256)
    else if 65 ≤ c ∧ c ≤ 70 then
      parse_number_hex rest ((value * 16 % 256 + (c - 65 + 10)) % 256)
    else .error "Invalid hex digit"

/-- The decimal loop of `giga_parser_parse_number`, with the `uint8_t`
accumulator `value`. -/
def parse_number_decimal : List Nat → Nat → Except String Nat
  | [], value => .ok value
  | c :: rest, value =>
    if c < 48 ∨ c > 57 then .error "Invalid decimal digit"
    else parse_number_decimal rest ((value * 10 + (c - 48)) % 256)

/-- Number operand `giga_parser_parse_number`. -/
def giga_parser_parse_number (parser : GigaParser) (operand : GigaOperand) :
    Bool × GigaParser × GigaOperand :=
  if parser.current_token.kind ≠ GigaTokenKind.NUMBER then (false, parser, operand)
  else
    let text := token_text parser parser.current_token
    let length := parser.current_token.text_length
    let digits :=
      if length ≥ 2 ∧ text.getD 0 0 = 48 ∧ (text.getD 1 0 = 120 ∨ text.getD 1 0 = 88) then
        parse_number_hex (text.drop 2) 0
      else parse_number_decimal text 0
    match digits with
    | .error message =>
      (false,
        giga_parser_error parser message parser.current_token.line_number
          parser.current_token.column_number,
        operand)
    | .ok value =>
      if value > 15 then
        (false,
          giga_parser_error parser "Immediate value exceeds 4 bits (max 15)"
            parser.current_token.line_number parser.current_token.column_number,
          operand)
      else (true, giga_parser_advance parser, GigaOperand.immediate value)

/-- Whether the current token is the one-byte unknown token `c`. -/
def current_is_symbol (parser : GigaParser) (c : Nat) : Bool :=
  parser.current_token.kind = GigaTokenKind.UNKNOWN ∧ parser.current_token.text_length = 1 ∧
    (token_text parser parser.current_token).getD 0 0 = c

/-- Memory operand `giga_parser_parse_memory_operand`. -/
def giga_parser_parse_memory_operand (parser : GigaParser) (operand : GigaOperand) :
    Bool × GigaParser × GigaOperand :=
  if ¬ current_is_symbol parser 91 then (false, parser, operand)
  else
    let parser1 := giga_parser_advance parser
    let number := giga_parser_parse_number parser1 GigaOperand.none
    let address :=
      if number.1 then number else giga_parser_parse_register number.2.1 number.2.2
    let parser2 := address.2.1
    let addr_operand := address.2.2
    if ¬ address.1 then
      (false,
        giga_parser_error parser2 "Expected number or register in memory address"
          parser2.current_token.line_number parser2.current_token.column_number,
        operand)
    else if ¬ current_is_symbol parser2 93 then
      (false,
        giga_parser_error parser2 "Expected ']' to close memory address"
          parser2.current_token.line_number parser2.current_token.column_number,
        operand)
    else
      (true, giga_parser_advance parser2,
        GigaOperand.memory
          (match addr_operand with
            | GigaOperand.immediate immediate_value => immediate_value
            | GigaOperand.register register_index => register_index
            | _ => 0))

/-- Label reference `giga_parser_parse_label_reference`. -/
def giga_parser_parse_label_reference (parser : GigaParser) (operand : GigaOperand) :
    Bool × GigaParser × GigaOperand :=
  if parser.current_token.kind ≠ GigaTokenKind.IDENTIFIER then (false, parser, operand)
  else
    (true, giga_parser_advance parser,
      GigaOperand.label (token_text parser parser.current_token))

/-- One operand, the four forms in their fixed order: `giga_parser_parse_operand`. -/
def giga_parser_parse_operand (parser : GigaParser) (operand : GigaOperand) :
    Bool × GigaParser × GigaOperand :=
  let memory := giga_parser_parse_memory_operand parser operand
  if memory.1 then memory
  else
    let register := giga_parser_parse_register memory.2.1 memory.2.2
    if register.1 then register
    else
      let number := giga_parser_parse_number register.2.1 register.2.2
      if number.1 then number
      else
        let label := giga_parser_parse_label_reference number.2.1 number.2.2
        if label.1 then label else (false, label.2.1, label.2.2)

/-- Appends a statement at the end of the list (the statement
`giga_parser_alloc_statement` linked in, with its final contents). -/
def giga_parser_append_statement (parser : GigaParser) (stmt : GigaStatement) : GigaParser :=
  { parser with statements := parser.statements ++ [stmt] }

/-- Iteration bound for the token loops of the parser: every turn of such a loop
consumes a token, and at most two tokens are buffered in front of the bytes
left. -/
def giga_parser_fuel (parser : GigaParser) : Nat :=
  giga_lexer_remaining parser.lexer + 3

/-- The operand loop of `giga_parser_parse_instruction`; `inst` is the
instruction statement under construction, linked into the list when the
function returns.  `none`: the iteration bound was used up. -/
def giga_parser_parse_instruction_loop :
    Nat → GigaParser → GigaParsedInstruction → Option GigaParser
  | 0, _, _ => Option.none
  | fuel + 1, parser, inst =>
    if parser.current_token.kind ≠ GigaTokenKind.NEWLINE ∧
        parser.current_token.kind ≠ GigaTokenKind.EOF then
      let parser1 :=
        if parser.current_token.kind = GigaTokenKind.COMMA then giga_parser_advance parser
        else parser
      if inst.operand_count ≥ GIGA_MAX_OPERANDS then
        some (giga_parser_append_statement
          (giga_parser_error parser1 "Too many operands" parser1.current_token.line_number
            parser1.current_token.column_number)
          (GigaStatement.instruction inst))
      else
        let parsed := giga_parser_parse_operand parser1 GigaOperand.none
        if ¬ parsed.1 then
          some (giga_parser_append_statement
            (giga_parser_error parsed.2.1 "Expected operand"
              parsed.2.1.current_token.line_number parsed.2.1.current_token.column_number)
            (GigaStatement.instruction inst))
        else
          giga_parser_parse_instruction_loop fuel parsed.2.1
            { inst with operands := inst.operands ++ [parsed.2.2] }
    else
      some (giga_parser_append_statement
        (if parser.current_token.kind = GigaTokenKind.NEWLINE then giga_parser_advance parser
          else parser)
        (GigaStatement.instruction inst))

/-- One instruction line: `giga_parser_parse_instruction`. -/
def giga_parser_parse_instruction (parser : GigaParser) : Option GigaParser :=
  if parser.current_token.kind ≠ GigaTokenKind.IDENTIFIER then
    some (giga_parser_error parser "Expected instruction mnemonic"
      parser.current_token.line_number parser.current_token.column_number)
  else
    giga_parser_parse_instruction_loop (giga_parser_fuel parser) (giga_parser_advance parser)
      { mnemonic_text := token_text parser parser.current_token
        operands := []
        source_line := parser.current_token.line_number
        source_column := parser.current_token.column_number }

/-- One label definition: `giga_parser_parse_label`. -/
def giga_parser_parse_label (parser : GigaParser) : GigaParser :=
  if parser.current_token.kind ≠ GigaTokenKind.IDENTIFIER then
    giga_parser_error parser "Expected label name" parser.current_token.line_number
      parser.current_token.column_number
  else
    let parser1 := giga_parser_advance
      (giga_parser_append_statement parser
        (GigaStatement.label
          { label_name := token_text parser parser.current_token
            source_line := parser.current_token.line_number
            source_column := parser.current_token.column_number }))
    if parser1.current_token.kind ≠ GigaTokenKind.COLON then
      giga_parser_error parser1 "Expected ':' after label" parser1.current_token.line_number
        parser1.current_token.column_number
    else
      let parser2 := giga_parser_advance parser1
      if parser2.current_token.kind = GigaTokenKind.NEWLINE then giga_parser_advance parser2
      else parser2

/-- The loop of `giga_parser_parse_directive` that drops the rest of the line.
`none`: the iteration bound was used up. -/
def giga_parser_skip_line : Nat → GigaParser → Option GigaParser
  | 0, _ => Option.none
  | fuel + 1, parser =>
    if parser.current_token.kind ≠ GigaTokenKind.NEWLINE ∧
        parser.current_token.kind ≠ GigaTokenKind.EOF then
      giga_parser_skip_line fuel (giga_parser_advance parser)
    else some parser

/-- One directive line: `giga_parser_parse_directive`. -/
def giga_parser_parse_directive (parser : GigaParser) : Option GigaParser :=
  if parser.current_token.kind ≠ GigaTokenKind.DIRECTIVE then
    some (giga_parser_error parser "Expected directive" parser.current_token.line_number
      parser.current_token.column_number)
  else
    match giga_parser_skip_line (giga_parser_fuel parser)
      (giga_parser_advance
        (giga_parser_append_statement parser
          (GigaStatement.directive
            { directive_name := token_text parser parser.current_token
              source_line := parser.current_token.line_number
              source_column := parser.current_token.column_number }))) with
    | Option.none => Option.none
    | some parser1 =>
      some (if parser1.current_token.kind = GigaTokenKind.NEWLINE then
        giga_parser_advance parser1 else parser1)

/-- Initialisation `giga_parser_init`. -/
def giga_parser_init (lexer : GigaLexer) : GigaParser :=
  giga_parser_advance
    { lexer := (giga_lexer_next_token lexer).2
      current_token :=
        { kind := GigaTokenKind.EOF, text_begin := Option.none, text_length := 0,
          line_number := 0, column_number := 0 }
      lookahead_token := (giga_lexer_next_token lexer).1
      has_error := 0
      error_message := Option.none
      error_line := 0
      error_column := 0
      statements := [] }

/-- The statement loop of `giga_parser_parse`: return value and final parser.
`none`: the iteration bound was used up. -/
def giga_parser_parse_loop : Nat → GigaParser → Option (Nat × GigaParser)
  | 0, _ => Option.none
  | fuel + 1, parser =>
    if parser.current_token.kind ≠ GigaTokenKind.EOF then
      if parser.has_error ≠ 0 then some (1, parser)
      else if parser.current_token.kind = GigaTokenKind.NEWLINE then
        giga_parser_parse_loop fuel (giga_parser_advance parser)
      else if parser.current_token.kind = GigaTokenKind.DIRECTIVE then
        match giga_parser_parse_directive parser with
        | Option.none => Option.none
        | some parser1 => giga_parser_parse_loop fuel parser1
      else if parser.current_token.kind = GigaTokenKind.IDENTIFIER then
        if parser.lookahead_token.kind = GigaTokenKind.COLON then
          giga_parser_parse_loop fuel (giga_parser_parse_label parser)
        else
          match giga_parser_parse_instruction parser with
          | Option.none => Option.none
          | some parser1 => giga_parser_parse_loop fuel parser1
      else
        some (1,
          giga_parser_error parser "Unexpected token at start of statement"
            parser.current_token.line_number parser.current_token.column_number)
    else some (if parser.has_error ≠ 0 then 1 else 0, parser)

/-- Entry point `giga_parser_parse` for a non-null parser. -/
def giga_parser_parse (parser : GigaParser) : Option (Nat × GigaParser) :=
  giga_parser_parse_loop (giga_parser_fuel parser) parser

/-- Lexer and parser on a source text, as the tools and tests of the repository
run them: `giga_lexer_init`, `giga_parser_init`, `giga_parser_parse`. -/
def parse_source (source : List Nat) : Option (Nat × GigaParser) :=
  giga_parser_parse (giga_parser_init (giga_lexer_init source source.length))

/-- All tokens of a lexer up to and including the first end-of-input token, by
repeated `giga_lexer_next_token`; the bound is the number of calls. -/
def giga_lexer_tokens : Nat → GigaLexer → List GigaToken
  | 0, _ => []
  | fuel + 1, lexer =>
    let next := giga_lexer_next_token lexer
    if next.1.kind = GigaTokenKind.EOF then [next.1]
    else next.1 :: giga_lexer_tokens fuel next.2

/-! ## Instruction set (`include/isa/isa.h`) -/

def GIGA_OP_NOP : Nat := 0x0
def GIGA_OP_MOV : Nat := 0x1
def GIGA_OP_MOVI : Nat := 0x2
def GIGA_OP_ADD : Nat := 0x3
def GIGA_OP_SUB : Nat := 0x4
def GIGA_OP_AND : Nat := 0x5
def GIGA_OP_OR : Nat := 0x6
def GIGA_OP_XOR : Nat := 0x7
def GIGA_OP_NOT : Nat := 0x8
def GIGA_OP_SHL : Nat := 0x9
def GIGA_OP_SHR : Nat := 0xA
def GIGA_OP_LD : Nat := 0xB
def GIGA_OP_ST : Nat := 0xC
def GIGA_OP_JMP : Nat := 0xD
def GIGA_OP_HALT : Nat := 0xF

/-- Decoded view of one instruction word, `GigaInstruction`. -/
structure GigaInstruction where
  raw : Nat
  opcode : Nat
  dest_reg : Nat
  src_reg : Nat
  imm4 : Nat
  deriving DecidableEq, Repr

/-! ## Instruction codec (`src/vm/vm.c`, `src/assembler/assembler.c`) -/

/-- Decoder `giga_decode_instruction` of `vm.c`; `raw_word` is a `uint16_t`. -/
def giga_decode_instruction (raw_word : Nat) : GigaInstruction :=
  { raw := raw_word
    opcode := (raw_word >>> 12) &&& 0x0F
    dest_reg := ((raw_word >>> 8) &&& 0x0F) % 256
    src_reg := ((raw_word >>> 4) &&& 0x0F) % 256
    imm4 := (raw_word &&& 0x0F) % 256 }

/-- Encoder `encode_instruction` of `assembler.c`; the three fields are
`uint8_t`, the result is cast to `uint16_t`. -/
def encode_instruction (opcode dest_reg src_reg imm4 : Nat) : Nat :=
  ((opcode <<< 12) ||| (dest_reg <<< 8) ||| (src_reg <<< 4) ||| imm4) % 65536

/-! ## Assembler (`src/assembler/assembler.c`) -/

/-- Capacity of the bytecode buffer. -/
def GIGA_ASSEMBLER_MAX_WORDS : Nat := 128

/-- Assembler result, `GigaAssemblerResult`.  `bytecode` is `none` for `NULL`
and otherwise the allocated array of `GIGA_ASSEMBLER_MAX_WORDS` words. -/
structure GigaAssemblerResult where
  bytecode : Option (List Nat)
  word_count : Nat
  has_error : Nat
  error_message : Option String
  error_line : Nat
  error_column : Nat
  deriving DecidableEq, Repr

/-- Entry of the label table, `LabelEntry`; the table is the list of entries,
newest first. -/
structure LabelEntry where
  name : List Nat
  address : Nat
  deriving DecidableEq, Repr

/-- C library `strncmp` on two byte spans: compares at most `n` bytes and stops
after a NUL byte; a byte past the end of a span reads as NUL. -/
def strncmp : List Nat → List Nat → Nat → Int
  | _, _, 0 => 0
  | s1, s2, n + 1 =>
    if s1.headD 0 ≠ s2.headD 0 then (s1.headD 0 : Int) - (s2.headD 0 : Int)
    else if s1.headD 0 = 0 then 0
    else strncmp s1.tail s2.tail n

/-- Prepends an entry: `label_table_add`. -/
def label_table_add (label_table : List LabelEntry) (name : List Nat) (address : Nat) :
    List LabelEntry :=
  { name := name, address := address } :: label_table

/-- Lookup `label_table_find`: the first entry of equal length whose name
compares equal; `0xFFFF` when there is none. -/
def label_table_find : List LabelEntry → List Nat → Nat
  | [], _ => 0xFFFF
  | entry :: next, name =>
    if entry.name.length = name.length ∧ strncmp entry.name name name.length = 0 then
      entry.address
    else label_table_find next name

/-- Empties the table: `label_table_free`. -/
def label_table_free (_label_table : List LabelEntry) : List LabelEntry := []

/-- Mnemonic lookup `mnemonic_to_opcode`: `some opcode` for return value 1 with
`*out_opcode = opcode`, `none` for return value 0. -/
def mnemonic_to_opcode (mnemonic : List Nat) : Option Nat :=
  if mnemonic.length = 3 ∧ strncmp mnemonic (bytes "NOP") 3 = 0 then some GIGA_OP_NOP
  else if mnemonic.length = 3 ∧ strncmp mnemonic (bytes "MOV") 3 = 0 then some GIGA_OP_MOV
  else if mnemonic.length = 4 ∧ strncmp mnemonic (bytes "MOVI") 4 = 0 then some GIGA_OP_MOVI
  else if mnemonic.length = 3 ∧ strncmp mnemonic (bytes "ADD") 3 = 0 then some GIGA_OP_ADD
  else if mnemonic.length = 3 ∧ strncmp mnemonic (bytes "SUB") 3 = 0 then some GIGA_OP_SUB
  else if mnemonic.length = 3 ∧ strncmp mnemonic (bytes "AND") 3 = 0 then some GIGA_OP_AND
  else if mnemonic.length = 2 ∧ strncmp mnemonic (bytes "OR") 2 = 0 then some GIGA_OP_OR
  else if mnemonic.length = 3 ∧ strncmp mnemonic (bytes "XOR") 3 = 0 then some GIGA_OP_XOR
  else if mnemonic.length = 3 ∧ strncmp mnemonic (bytes "NOT") 3 = 0 then some GIGA_OP_NOT
  else if mnemonic.length = 3 ∧ strncmp mnemonic (bytes "SHL") 3 = 0 then some GIGA_OP_SHL
  else if mnemonic.length = 3 ∧ strncmp mnemonic (bytes "SHR") 3 = 0 then some GIGA_OP_SHR
  else if mnemonic.length = 2 ∧ strncmp mnemonic (bytes "LD") 2 = 0 then some GIGA_OP_LD
  else if mnemonic.length = 2 ∧ strncmp mnemonic (bytes "ST") 2 = 0 then some GIGA_OP_ST
  else if mnemonic.length = 3 ∧ strncmp mnemonic (bytes "JMP") 3 = 0 then some GIGA_OP_JMP
  else if mnemonic.length = 4 ∧ strncmp mnemonic (bytes "HALT") 4 = 0 then some GIGA_OP_HALT
  else none

/-- Records an error in the result: `assembler_error`. -/
def assembler_error (result : GigaAssemblerResult) (message : String) (line column : Nat) :
    GigaAssemblerResult :=
  { result with
    has_error := 1
    error_message := some message
    error_line := line
    error_column := column }

/-- Loop of `assemble_pass1` with its local `instruction_address` (a
`uint16_t`); returns the return value, the result and the label table. -/
def assemble_pass1_loop : List GigaStatement → Nat → List LabelEntry → GigaAssemblerResult →
    Nat × GigaAssemblerResult × List LabelEntry
  | [], _, label_table, result => (0, result, label_table)
  | GigaStatement.label l :: next, instruction_address, label_table, result =>
    assemble_pass1_loop next instruction_address
      (label_table_add label_table l.label_name instruction_address) result
  | GigaStatement.instruction inst :: next, instruction_address, label_table, result =>
    if (instruction_address + 1) % 65536 ≥ GIGA_ASSEMBLER_MAX_WORDS then
      (1, assembler_error result "Program too large" inst.source_line inst.source_column,
        label_table)
    else assemble_pass1_loop next ((instruction_address + 1) % 65536) label_table result
  | GigaStatement.directive _ :: next, instruction_address, label_table, result =>
    assemble_pass1_loop next instruction_address label_table result

/-- Pass 1, `assemble_pass1`. -/
def assemble_pass1 (statements : List GigaStatement) (label_table : List LabelEntry)
    (result : GigaAssemblerResult) : Nat × GigaAssemblerResult × List LabelEntry :=
  assemble_pass1_loop statements 0 label_table result

/-- The `switch (opcode)` of `assemble_pass2`: the operand checks of one
instruction, giving either the error message or the fields
`(dest_reg, src_reg, imm4)`, each a `uint8_t`. -/
def assemble_pass2_switch (label_table : List LabelEntry) (opcode : Nat)
    (inst : GigaParsedInstruction) : Except String (Nat × Nat × Nat) :=
  if opcode = GIGA_OP_NOP then .ok (0, 0, 0)
  else if opcode = GIGA_OP_MOVI then
    if inst.operand_count < 2 then .error "MOVI requires 2 operands"
    else
      match inst.operands.getD 0 .none, inst.operands.getD 1 .none with
      | .register register_index, .immediate immediate_value =>
        .ok (register_index, 0, immediate_value)
      | .register _, _ => .error "MOVI second operand must be immediate"
      | _, _ => .error "MOVI first operand must be register"
  else if opcode = GIGA_OP_MOV ∨ opcode = GIGA_OP_ADD ∨ opcode = GIGA_OP_SUB ∨
      opcode = GIGA_OP_AND ∨ opcode = GIGA_OP_OR ∨ opcode = GIGA_OP_XOR then
    if inst.operand_count < 2 then .error "Instruction requires 2 operands"
    else
      match inst.operands.getD 0 .none, inst.operands.getD 1 .none with
      | .register r0, .register r1 => .ok (r0, r1, 0)
      | _, _ => .error "Operands must be registers"
  else if opcode = GIGA_OP_NOT ∨ opcode = GIGA_OP_SHL ∨ opcode = GIGA_OP_SHR then
    if inst.operand_count < 1 then .error "Instruction requires 1 operand"
    else
      match inst.operands.getD 0 .none with
      | .register r0 => .ok (r0, 0, 0)
      | _ => .error "Operand must be register"
  else if opcode = GIGA_OP_LD then
    if inst.operand_count < 2 then .error "LD requires 2 operands"
    else
      match inst.operands.getD 0 .none, inst.operands.getD 1 .none with
      | .register r0, .memory memory_address =>
        .ok (r0, (memory_address >>> 4) &&& 0x0F, memory_address &&& 0x0F)
      | .register _, _ => .error "LD second operand must be memory address"
      | _, _ => .error "LD first operand must be register"
  else if opcode = GIGA_OP_ST then
    if inst.operand_count < 2 then .error "ST requires 2 operands"
    else
      match inst.operands.getD 0 .none, inst.operands.getD 1 .none with
      | .memory memory_address, .register r1 =>
        .ok ((memory_address >>> 4) &&& 0x0F, r1, memory_address &&& 0x0F)
      | .memory _, _ => .error "ST second operand must be register"
      | _, _ => .error "ST first operand must be memory address"
  else if opcode = GIGA_OP_JMP then
    if inst.operand_count < 1 then .error "JMP requires 1 operand"
    else
      match inst.operands.getD 0 .none with
      | .label label_name =>
        let target := label_table_find label_table label_name
        if target = 0xFFFF then .error "Undefined label"
        else .ok ((target >>> 8) &&& 0x0F, (target >>> 4) &&& 0x0F, target &&& 0x0F)
      | .immediate immediate_value =>
        let target := immediate_value
        .ok ((target >>> 8) &&& 0x0F, (target >>> 4) &&& 0x0F, target &&& 0x0F)
      | _ => .error "JMP operand must be label or immediate"
  else if opcode = GIGA_OP_HALT then .ok (0, 0, 0)
  else .error "Unsupported opcode"

/-- Loop of `assemble_pass2` over the statements; `result.bytecode` is the
allocated array and `result.word_count` the next free index. -/
def assemble_pass2_loop : List GigaStatement → List LabelEntry → GigaAssemblerResult →
    Nat × GigaAssemblerResult
  | [], _, result => (0, result)
  | GigaStatement.instruction inst :: next, label_table, result =>
    match mnemonic_to_opcode inst.mnemonic_text with
    | Option.none =>
      (1, assembler_error result "Unknown mnemonic" inst.source_line inst.source_column)
    | some opcode =>
      match assemble_pass2_switch label_table opcode inst with
      | .error message =>
        (1, assembler_error result message inst.source_line inst.source_column)
      | .ok (dest_reg, src_reg, imm4) =>
        assemble_pass2_loop next label_table
          { result with
            bytecode := result.bytecode.map fun words =>
              words.set result.word_count (encode_instruction opcode dest_reg src_reg imm4)
            word_count := result.word_count + 1 }
  | _ :: next, label_table, result => assemble_pass2_loop next label_table result

/-- Pass 2, `assemble_pass2`: allocates the zeroed word array and runs the loop. -/
def assemble_pass2 (statements : List GigaStatement) (label_table : List LabelEntry)
    (result : GigaAssemblerResult) : Nat × GigaAssemblerResult :=
  assemble_pass2_loop statements label_table
    { result with
      bytecode := some (List.replicate GIGA_ASSEMBLER_MAX_WORDS 0)
      word_count := 0 }

/-- Entry point `giga_assemble` with a non-null `result`; the empty statement
list is the `NULL` list.  Returns the return value, the result and the label
table left behind. -/
def giga_assemble (label_table : List LabelEntry) (statements : List GigaStatement)
    (result : GigaAssemblerResult) : Nat × GigaAssemblerResult × List LabelEntry :=
  match statements with
  | [] => (1, result, label_table)
  | _ :: _ =>
    let result0 : GigaAssemblerResult :=
      { bytecode := Option.none, word_count := 0, has_error := 0, error_message := Option.none,
        error_line := 0, error_column := 0 }
    let pass1 := assemble_pass1 statements (label_table_free label_table) result0
    if pass1.1 ≠ 0 then (1, pass1.2.1, pass1.2.2)
    else
      let pass2 := assemble_pass2 statements pass1.2.2 pass1.2.1
      if pass2.1 ≠ 0 then (1, { pass2.2 with bytecode := Option.none }, pass1.2.2)
      else (0, pass2.2, pass1.2.2)

/-- Release `giga_assembler_free`. -/
def giga_assembler_free (label_table : List LabelEntry) (result : GigaAssemblerResult) :
    GigaAssemblerResult × List LabelEntry :=
  ({ result with bytecode := Option.none, word_count := 0 }, label_table_free label_table)

/-- Word `result->bytecode[i]` of a result (0 when there is no array). -/
def bytecode_word (result : GigaAssemblerResult) (i : Nat) : Nat :=
  (result.bytecode.getD []).getD i 0

/-- A result structure before its first use. -/
def empty_result : GigaAssemblerResult :=
  { bytecode := Option.none, word_count := 0, has_error := 0, error_message := Option.none,
    error_line := 0, error_column := 0 }

/-- The two-register ALU mnemonics with their opcodes in the mnemonic table. -/
def alu_mnemonics : List (String × Nat) :=
  [("ADD", 0x3), ("SUB", 0x4), ("AND", 0x5), ("OR", 0x6), ("XOR", 0x7)]

/-- The statement list holding one instruction. -/
def single_instruction (mnemonic : String) (operands : List GigaOperand) (line column : Nat) :
    List GigaStatement :=
  [GigaStatement.instruction
    { mnemonic_text := bytes mnemonic, operands := operands, source_line := line,
      source_column := column }]

/-- The Instruction statements of a list, in program order. -/
def instructions_of : List GigaStatement → List GigaParsedInstruction
  | [] => []
  | GigaStatement.instruction inst :: next => inst :: instructions_of next
  | GigaStatement.label _ :: next => instructions_of next
  | GigaStatement.directive _ :: next => instructions_of next

/-- Number of Instruction statements of a list. -/
def count_instructions (statements : List GigaStatement) : Nat :=
  (instructions_of statements).length

/-- The label entries pass 1 records for a list when it starts at address
`address`, in program order. -/
def pass1_labels : List GigaStatement → Nat → List LabelEntry
  | [], _ => []
  | GigaStatement.label l :: next, address =>
    { name := l.label_name, address := address } :: pass1_labels next address
  | GigaStatement.instruction _ :: next, address => pass1_labels next (address + 1)
  | GigaStatement.directive _ :: next, address => pass1_labels next address

/-- What one loop step of pass 2 emits for an instruction: the encoded word, or
`none` when the step reports an error. -/
def instruction_word (label_table : List LabelEntry) (inst : GigaParsedInstruction) :
    Option Nat :=
  match mnemonic_to_opcode inst.mnemonic_text with
  | Option.none => Option.none
  | some opcode =>
    match assemble_pass2_switch label_table opcode inst with
    | .error _ => Option.none
    | .ok (dest_reg, src_reg, imm4) => some (encode_instruction opcode dest_reg src_reg imm4)

/-- Whether a statement is a Label statement that defines the name `L`. -/
def defines_label (L : List Nat) : GigaStatement → Bool
  | GigaStatement.label l => decide (l.label_name = L)
  | _ => false

/-- Whether an instruction is a `JMP` whose first operand is the label
reference `L`. -/
def is_jump_to (L : List Nat) (inst : GigaParsedInstruction) : Prop :=
  inst.mnemonic_text = bytes "JMP" ∧ inst.operands.head? = some (GigaOperand.label L)

/-- A program with a jump before and a jump after the definition of `END`. -/
def forward_jump_program : List GigaStatement :=
  [ GigaStatement.instruction
      { mnemonic_text := bytes "JMP", operands := [GigaOperand.label (bytes "END")],
        source_line := 1, source_column := 1 },
    GigaStatement.instruction
      { mnemonic_text := bytes "NOP", operands := [], source_line := 2, source_column := 1 },
    GigaStatement.label { label_name := bytes "END", source_line := 3, source_column := 1 },
    GigaStatement.instruction
      { mnemonic_text := bytes "HALT", operands := [], source_line := 3, source_column := 6 },
    GigaStatement.instruction
      { mnemonic_text := bytes "JMP", operands := [GigaOperand.label (bytes "END")],
        source_line := 4, source_column := 1 } ]

/-- The whole front end on a source text: lexer and parser, then, when the
parser returns 0, `giga_assemble` on the parsed statements with a fresh result;
gives the return value of `giga_assemble` and the result.  `none` when parsing
does not return 0. -/
def assemble_source (source : List Nat) : Option (Nat × GigaAssemblerResult) :=
  match parse_source source with
  | some (0, parser) =>
    some ((giga_assemble [] parser.statements empty_result).1,
      (giga_assemble [] parser.statements empty_result).2.1)
  | _ => Option.none

/-- Decimal text of a value below 100, without leading zero. -/
def decimal_text (v : Nat) : List Nat :=
  if v < 10 then [48 + v] else [48 + v / 10, 48 + v % 10]

/-- The source text `MOVI Rr, v` with `r` one digit and `v` in decimal. -/
def movi_text (r v : Nat) : List Nat :=
  bytes "MOVI R" ++ [48 + r] ++ bytes ", " ++ decimal_text v

/-- The program of `n` instructions `NOP`, the i-th on line i, column 1. -/
def nop_program (n : Nat) : List GigaStatement :=
  (List.range n).map fun i =>
    GigaStatement.instruction
      { mnemonic_text := bytes "NOP", operands := [], source_line := i + 1, source_column := 1 }

/-- What a failed parse reports: return value, `has_error`, message, line and
column. -/
def parse_report (source : List Nat) : Option (Nat × Nat × Option String × Nat × Nat) :=
  (parse_source source).map fun r =>
    (r.1, r.2.has_error, r.2.error_message, r.2.error_line, r.2.error_column)

/-- Range condition on an operand: register index at most 7, immediate value
and memory address at most 15. -/
def operand_in_range : GigaOperand → Prop
  | GigaOperand.register register_index => register_index ≤ 7
  | GigaOperand.immediate immediate_value => immediate_value ≤ 15
  | GigaOperand.memory memory_address => memory_address ≤ 15
  | _ => True

/-- Range condition on an instruction: at most `GIGA_MAX_OPERANDS` operands, each
in range. -/
def instruction_in_range (inst : GigaParsedInstruction) : Prop :=
  inst.operands.length ≤ GIGA_MAX_OPERANDS ∧ ∀ o ∈ inst.operands, operand_in_range o

/-- Range condition on a statement. -/
def statement_in_range : GigaStatement → Prop
  | GigaStatement.instruction inst => instruction_in_range inst
  | _ => True

/-- Range condition on a statement list. -/
def statements_in_range (statements : List GigaStatement) : Prop :=
  ∀ stmt ∈ statements, statement_in_range stmt

/-- The field mapping of the opcode table of the specification (section 4.3),
written from the table: the `(dest, src, imm4)` it prescribes for an opcode and
its operands; `resolve` gives the address of a label name.  An 8-bit address
splits into high and low nibble, a 12-bit jump target into its three nibbles,
most significant first.  `none` where the table prescribes nothing. -/
def spec_field_mapping (resolve : List Nat → Nat) (opcode : Nat)
    (operands : List GigaOperand) : Option (Nat × Nat × Nat) :=
  if opcode = GIGA_OP_NOP ∨ opcode = GIGA_OP_HALT then some (0, 0, 0)
  else if opcode = GIGA_OP_MOVI then
    match operands with
    | GigaOperand.register reg :: GigaOperand.immediate imm :: _ => some (reg, 0, imm)
    | _ => Option.none
  else if opcode = GIGA_OP_MOV ∨ opcode = GIGA_OP_ADD ∨ opcode = GIGA_OP_SUB ∨
      opcode = GIGA_OP_AND ∨ opcode = GIGA_OP_OR ∨ opcode = GIGA_OP_XOR then
    match operands with
    | GigaOperand.register op0 :: GigaOperand.register op1 :: _ => some (op0, op1, 0)
    | _ => Option.none
  else if opcode = GIGA_OP_NOT ∨ opcode = GIGA_OP_SHL ∨ opcode = GIGA_OP_SHR then
    match operands with
    | GigaOperand.register op0 :: _ => some (op0, 0, 0)
    | _ => Option.none
  else if opcode = GIGA_OP_LD then
    match operands with
    | GigaOperand.register op0 :: GigaOperand.memory address :: _ =>
      some (op0, address / 16, address % 16)
    | _ => Option.none
  else if opcode = GIGA_OP_ST then
    match operands with
    | GigaOperand.memory address :: GigaOperand.register op1 :: _ =>
      some (address / 16, op1, address % 16)
    | _ => Option.none
  else if opcode = GIGA_OP_JMP then
    match operands with
    | GigaOperand.label name :: _ =>
      some (resolve name / 256, resolve name / 16 % 16, resolve name % 16)
    | GigaOperand.immediate target :: _ => some (target / 256, target / 16 % 16, target % 16)
    | _ => Option.none
  else Option.none

/-- Return value of `giga_parser_parse` on a source text (`none`: no result). -/
def parse_return (source : List Nat) : Option Nat :=
  (parse_source source).map fun out => out.1

/-- The statement list the parser leaves for a source text. -/
def parsed_statements (source : List Nat) : List GigaStatement :=
  ((parse_source source).map fun out => out.2.statements).getD []

/-- Number of tokens and bytes still in front of the parser: the bytes the
lexer has not read plus the buffered tokens that are not end-of-input. -/
def parser_measure (parser : GigaParser) : Nat :=
  giga_lexer_remaining parser.lexer
    + (if parser.lookahead_token.kind = GigaTokenKind.EOF then 0 else 1)
    + (if parser.current_token.kind = GigaTokenKind.EOF then 0 else 1)

/-- The message pass 2 reports for one instruction, `none` when the instruction
is encoded: one loop step of `assemble_pass2` seen from its error exits. -/
def instruction_error (label_table : List LabelEntry) (inst : GigaParsedInstruction) :
    Option String :=
  match mnemonic_to_opcode inst.mnemonic_text with
  | Option.none => some "Unknown mnemonic"
  | some opcode =>
    match assemble_pass2_switch label_table opcode inst with
    | .error message => some message
    | .ok _ => Option.none

/-- The first instruction in program order for which pass 2 reports an error,
with the message. -/
def first_defect (label_table : List LabelEntry) :
    List GigaStatement → Option (GigaParsedInstruction × String)
  | [] => Option.none
  | GigaStatement.instruction inst :: next =>
    match instruction_error label_table inst with
    | some message => some (inst, message)
    | Option.none => first_defect label_table next
  | GigaStatement.label _ :: next => first_defect label_table next
  | GigaStatement.directive _ :: next => first_defect label_table next

/-- The mnemonic table of the specification with the opcodes of `isa.h`. -/
def mnemonic_table : List (String × Nat) :=
  [("NOP", 0x0), ("MOV", 0x1), ("MOVI", 0x2), ("ADD", 0x3), ("SUB", 0x4), ("AND", 0x5),
   ("OR", 0x6), ("XOR", 0x7), ("NOT", 0x8), ("SHL", 0x9), ("SHR", 0xA), ("LD", 0xB),
   ("ST", 0xC), ("JMP", 0xD), ("HALT", 0xF)]

/-- Number of operands an opcode requires according to the opcode table of the
specification: 0 for NOP and HALT, 1 for NOT, SHL, SHR and JMP, 2 for the
others. -/
def required_operands (opcode : Nat) : Nat :=
  if opcode = GIGA_OP_NOT ∨ opcode = GIGA_OP_SHL ∨ opcode = GIGA_OP_SHR ∨
      opcode = GIGA_OP_JMP then 1
  else if opcode = GIGA_OP_MOVI ∨ opcode = GIGA_OP_MOV ∨ opcode = GIGA_OP_ADD ∨
      opcode = GIGA_OP_SUB ∨ opcode = GIGA_OP_AND ∨ opcode = GIGA_OP_OR ∨
      opcode = GIGA_OP_XOR ∨ opcode = GIGA_OP_LD ∨ opcode = GIGA_OP_ST then 2
  else 0

/-- Whether an operand is a register. -/
def GigaOperand.is_register : GigaOperand → Bool
  | GigaOperand.register _ => true
  | _ => false

/-- Whether an operand is an immediate. -/
def GigaOperand.is_immediate : GigaOperand → Bool
  | GigaOperand.immediate _ => true
  | _ => false

/-- Whether an operand is a memory operand. -/
def GigaOperand.is_memory : GigaOperand → Bool
  | GigaOperand.memory _ => true
  | _ => false

/-- Whether an operand is a label reference. -/
def GigaOperand.is_label : GigaOperand → Bool
  | GigaOperand.label _ => true
  | _ => false

/-- Whether the leading operands have the kinds the opcode table of the
specification requires (`reg, imm` for MOVI, `reg, reg` for MOV to XOR, `reg`
for NOT, SHL, SHR, `reg, memory` for LD, `memory, reg` for ST, `label or imm`
for JMP, nothing for NOP and HALT). -/
def operand_kinds_ok (opcode : Nat) (operands : List GigaOperand) : Bool :=
  if opcode = GIGA_OP_MOVI then
    (operands.getD 0 GigaOperand.none).is_register &&
      (operands.getD 1 GigaOperand.none).is_immediate
  else if opcode = GIGA_OP_MOV ∨ opcode = GIGA_OP_ADD ∨ opcode = GIGA_OP_SUB ∨
      opcode = GIGA_OP_AND ∨ opcode = GIGA_OP_OR ∨ opcode = GIGA_OP_XOR then
    (operands.getD 0 GigaOperand.none).is_register &&
      (operands.getD 1 GigaOperand.none).is_register
  else if opcode = GIGA_OP_NOT ∨ opcode = GIGA_OP_SHL ∨ opcode = GIGA_OP_SHR then
    (operands.getD 0 GigaOperand.none).is_register
  else if opcode = GIGA_OP_LD then
    (operands.getD 0 GigaOperand.none).is_register &&
      (operands.getD 1 GigaOperand.none).is_memory
  else if opcode = GIGA_OP_ST then
    (operands.getD 0 GigaOperand.none).is_memory &&
      (operands.getD 1 GigaOperand.none).is_register
  else if opcode = GIGA_OP_JMP then
    (operands.getD 0 GigaOperand.none).is_label ||
      (operands.getD 0 GigaOperand.none).is_immediate
  else true

/-- The instruction has an unknown mnemonic. -/
def has_unknown_mnemonic (inst : GigaParsedInstruction) : Prop :=
  mnemonic_to_opcode inst.mnemonic_text = Option.none

/-- The instruction has fewer operands than its opcode requires. -/
def has_too_few_operands (inst : GigaParsedInstruction) : Prop :=
  ∃ opcode, mnemonic_to_opcode inst.mnemonic_text = some opcode ∧
    inst.operand_count < required_operands opcode

/-- The instruction has enough operands, but one of a wrong kind. -/
def has_wrong_operand_kind (inst : GigaParsedInstruction) : Prop :=
  ∃ opcode, mnemonic_to_opcode inst.mnemonic_text = some opcode ∧
    required_operands opcode ≤ inst.operand_count ∧
    operand_kinds_ok opcode inst.operands = false

/-- The instruction is a JMP to a label name that the table does not hold. -/
def has_undefined_label (label_table : List LabelEntry) (inst : GigaParsedInstruction) :
    Prop :=
  mnemonic_to_opcode inst.mnemonic_text = some GIGA_OP_JMP ∧
    ∃ name, inst.operands.head? = some (GigaOperand.label name) ∧
      label_table_find label_table name = 0xFFFF

/-- The four defects of an instruction that pass 2 reports. -/
def instruction_defect (label_table : List LabelEntry) (inst : GigaParsedInstruction) :
    Prop :=
  has_unknown_mnemonic inst ∨ has_too_few_operands inst ∨ has_wrong_operand_kind inst ∨
    has_undefined_label label_table inst

/-- The array pass 2 starts from, in a result that pass 1 left untouched. -/
def pass2_start : GigaAssemblerResult :=
  { bytecode := some (List.replicate GIGA_ASSEMBLER_MAX_WORDS 0), word_count := 0,
    has_error := 0, error_message := Option.none, error_line := 0, error_column := 0 }

/-- A statement list without its Directive statements. -/
def remove_directives : List GigaStatement → List GigaStatement
  | [] => []
  | GigaStatement.directive _ :: next => remove_directives next
  | stmt :: next => stmt :: remove_directives next

/-- Whether a statement is a Label or an Instruction statement. -/
def is_label_or_instruction : GigaStatement → Bool
  | GigaStatement.directive _ => false
  | _ => true

/-- A valid instruction followed by one with a lowercase mnemonic. -/
def lowercase_program : List GigaStatement :=
  [ GigaStatement.instruction
      { mnemonic_text := bytes "MOVI",
        operands := [GigaOperand.register 1, GigaOperand.immediate 5],
        source_line := 1, source_column := 1 },
    GigaStatement.instruction
      { mnemonic_text := bytes "halt", operands := [], source_line := 2, source_column := 3 } ]

/-- A valid instruction followed by a jump to a label that is not defined and a
definition of another label. -/
def undefined_label_program : List GigaStatement :=
  [ GigaStatement.instruction
      { mnemonic_text := bytes "NOP", operands := [], source_line := 1, source_column := 1 },
    GigaStatement.instruction
      { mnemonic_text := bytes "JMP", operands := [GigaOperand.label (bytes "END")],
        source_line := 2, source_column := 5 },
    GigaStatement.label { label_name := bytes "START", source_line := 3, source_column := 1 } ]

/-- A program that defines the label `END`. -/
def defines_end_program : List GigaStatement :=
  [ GigaStatement.instruction
      { mnemonic_text := bytes "NOP", operands := [], source_line := 1, source_column := 1 },
    GigaStatement.label { label_name := bytes "END", source_line := 2, source_column := 1 },
    GigaStatement.instruction
      { mnemonic_text := bytes "HALT", operands := [], source_line := 2, source_column := 6 } ]

/-- A program that jumps to `END` without defining it. -/
def jumps_to_end_program : List GigaStatement :=
  [ GigaStatement.instruction
      { mnemonic_text := bytes "JMP", operands := [GigaOperand.label (bytes "END")],
        source_line := 1, source_column := 1 } ]

/-- A program with directives between its statements. -/
def directive_program : List GigaStatement :=
  [ GigaStatement.directive
      { directive_name := bytes ".org", source_line := 1, source_column := 1 },
    GigaStatement.instruction
      { mnemonic_text := bytes "JMP", operands := [GigaOperand.label (bytes "END")],
        source_line := 2, source_column := 1 },
    GigaStatement.directive
      { directive_name := bytes ".data", source_line := 3, source_column := 1 },
    GigaStatement.label { label_name := bytes "END", source_line := 4, source_column := 1 },
    GigaStatement.instruction
      { mnemonic_text := bytes "HALT", operands := [], source_line := 4, source_column := 6 } ]

/-- The bytes of the buffer that the lexer has not consumed. -/
def lexer_rest (lexer : GigaLexer) : List Nat := lexer.buffer.drop lexer.current_index

/-- The lexer runs over its whole buffer, as after
`giga_lexer_init(lexer, buffer, strlen(buffer))`. -/
def lexer_whole (lexer : GigaLexer) : Prop := lexer.buffer_length = lexer.buffer.length

/-- The lexer after `k` more bytes of the current line. -/
def lexer_shift (lexer : GigaLexer) (k : Nat) : GigaLexer :=
  { lexer with
    current_index := lexer.current_index + k
    column_number := lexer.column_number + k }

/-- The lexer after `k` more bytes the last of which is a newline. -/
def lexer_newline (lexer : GigaLexer) (k : Nat) : GigaLexer :=
  { lexer with
    current_index := lexer.current_index + k
    line_number := lexer.line_number + 1
    column_number := 1 }

/-- Number of bytes `giga_lexer_skip_loop` consumes in front of the unread bytes
`rest`, with the same iteration bound. -/
def scan_skip_len : Nat → List Nat → Nat
  | 0, _ => 0
  | fuel + 1, rest =>
    if (rest.dropWhile is_horizontal_space).headD 0 = 59 then
      (rest.takeWhile is_horizontal_space).length
        + ((rest.dropWhile is_horizontal_space).takeWhile is_comment_byte).length
        + scan_skip_len fuel
            ((rest.dropWhile is_horizontal_space).dropWhile is_comment_byte)
    else (rest.takeWhile is_horizontal_space).length

/-- Kind and length of the token `giga_lexer_next_token` cuts from unread bytes
that start behind white space and comments. -/
def scan_token : List Nat → GigaTokenKind × Nat
  | [] => (GigaTokenKind.EOF, 0)
  | c :: tail =>
    if c = 0 then (GigaTokenKind.EOF, 0)
    else if c = 10 then (GigaTokenKind.NEWLINE, 1)
    else if c = 44 then (GigaTokenKind.COMMA, 1)
    else if c = 58 then (GigaTokenKind.COLON, 1)
    else if c = 46 then
      (GigaTokenKind.DIRECTIVE,
        1 + (tail.takeWhile giga_lexer_is_identifier_continue).length)
    else if isdigit c then
      if c = 48 ∧ (tail.headD 0 = 120 ∨ tail.headD 0 = 88) then
        (GigaTokenKind.NUMBER, 2 + ((tail.drop 1).takeWhile isxdigit).length)
      else (GigaTokenKind.NUMBER, 1 + (tail.takeWhile isdigit).length)
    else if giga_lexer_is_identifier_start c then
      (GigaTokenKind.IDENTIFIER,
        1 + (tail.takeWhile giga_lexer_is_identifier_continue).length)
    else (GigaTokenKind.UNKNOWN, 1)

/-- The bytes of a token in its buffer. -/
def giga_token_text (buffer : List Nat) (token : GigaToken) : List Nat :=
  match token.text_begin with
  | some start_index => (buffer.drop start_index).take token.text_length
  | Option.none => []

/-- All tokens of a buffer, up to and including the first end-of-input token:
`giga_lexer_init` on the whole buffer and `giga_lexer_next_token` until
end-of-input. -/
def tokenize (buffer : List Nat) : List GigaToken :=
  giga_lexer_tokens (buffer.length + 1) (giga_lexer_init buffer buffer.length)

/-- Agreement of a token of the text with a comment and the token of the text
without it: same kind, same text, same line, and the same column unless the
second token starts at byte `newline_index`. -/
def comment_tokens_agree (buffer1 buffer2 : List Nat) (newline_index : Nat)
    (token1 token2 : GigaToken) : Prop :=
  token1.kind = token2.kind ∧
  giga_token_text buffer1 token1 = giga_token_text buffer2 token2 ∧
  token1.line_number = token2.line_number ∧
  (token2.text_begin ≠ some newline_index → token1.column_number = token2.column_number)

/-! ## ALU (`src/alu.h`, `src/alu/alu.c`) -/

/-- Result of one ALU operation, `AluResult`; every field is a `uint8_t`. -/
structure AluResult where
  result : Nat
  zero_flag : Nat
  carry_flag : Nat
  negative_flag : Nat
  overflow_flag : Nat
  deriving DecidableEq, Repr

/-- Low nibble of a byte: `mask4`. -/
def mask4 (value : Nat) : Nat := (value &&& 0x0F) % 256

/-- Bit 3 of a byte: `sign4`. -/
def sign4 (value : Nat) : Nat := ((value >>> 3) &&& 0x01) % 256

/-- Sets the zero and negative flags from the result:
`set_zero_and_negative_flags`. -/
def set_zero_and_negative_flags (result : AluResult) : AluResult :=
  { result with
    zero_flag := if mask4 result.result = 0 then 1 else 0
    negative_flag := sign4 result.result }

/-- Addition `alu_add` on two bytes. -/
def alu_add (operand_a operand_b : Nat) : AluResult :=
  let operand_a_4bit := mask4 operand_a
  let operand_b_4bit := mask4 operand_b
  let raw_sum := (operand_a_4bit + operand_b_4bit) % 256
  let result := mask4 raw_sum
  let carry_flag := if raw_sum &&& 0x10 ≠ 0 then 1 else 0
  let sign_a := sign4 operand_a_4bit
  let sign_b := sign4 operand_b_4bit
  let sign_result := sign4 result
  set_zero_and_negative_flags
    { result := result
      zero_flag := 0
      carry_flag := carry_flag
      negative_flag := 0
      overflow_flag := if sign_a = sign_b ∧ sign_a ≠ sign_result then 1 else 0 }

/-- Subtraction `alu_sub` on two bytes; `raw_difference` is an `int16_t`. -/
def alu_sub (operand_a operand_b : Nat) : AluResult :=
  let operand_a_4bit := mask4 operand_a
  let operand_b_4bit := mask4 operand_b
  let raw_difference0 : Int := (operand_a_4bit : Int) - (operand_b_4bit : Int)
  let carry_flag := if raw_difference0 < 0 then 0 else 1
  let raw_difference : Int := if raw_difference0 < 0 then raw_difference0 + 32 else raw_difference0
  let result := mask4 ((raw_difference % 256).toNat)
  let sign_a := sign4 operand_a_4bit
  let sign_b := sign4 operand_b_4bit
  let sign_result := sign4 result
  set_zero_and_negative_flags
    { result := result
      zero_flag := 0
      carry_flag := carry_flag
      negative_flag := 0
      overflow_flag := if sign_a ≠ sign_b ∧ sign_a ≠ sign_result then 1 else 0 }

/-! ## Virtual machine (`src/vm.h`, `src/vm/vm.c`) -/

def GIGA_VM_REGISTER_COUNT : Nat := 8
def GIGA_VM_MEMORY_SIZE : Nat := 256

/-- State of the virtual machine, `GigaVmState`. -/
structure GigaVmState where
  registers : List Nat
  flags_zero : Nat
  flags_carry : Nat
  flags_negative : Nat
  flags_overflow : Nat
  program_counter : Nat
  memory : List Nat
  loaded_program_words : Nat
  deriving DecidableEq, Repr

/-- Initialisation `giga_vm_init`: every field is overwritten. -/
def giga_vm_init (_state : GigaVmState) : GigaVmState :=
  { registers := List.replicate GIGA_VM_REGISTER_COUNT 0
    flags_zero := 0
    flags_carry := 0
    flags_negative := 0
    flags_overflow := 0
    program_counter := 0
    memory := List.replicate GIGA_VM_MEMORY_SIZE 0
    loaded_program_words := 0 }

/-- The copy loop of `giga_vm_load_program`: `count` turns are left, `index` is
the loop variable. -/
def giga_vm_load_loop (program_words : List Nat) : Nat → Nat → List Nat → List Nat
  | 0, _, memory => memory
  | count + 1, index, memory =>
    let raw_word := program_words.getD index 0
    let byte_address := index * 2
    giga_vm_load_loop program_words count (index + 1)
      ((memory.set byte_address ((raw_word &&& 0xFF) % 256)).set (byte_address + 1)
        (((raw_word >>> 8) &&& 0xFF) % 256))

/-- Program load `giga_vm_load_program` for non-null arguments: return value
and state; `word_count * 2u` is computed in `size_t` (64 bits). -/
def giga_vm_load_program (state : GigaVmState) (program_words : List Nat)
    (word_count : Nat) : Int × GigaVmState :=
  let required_bytes := (word_count * 2) % 2 ^ 64
  if required_bytes > GIGA_VM_MEMORY_SIZE then (-2, state)
  else
    (0,
      { state with
        memory := giga_vm_load_loop program_words word_count 0 state.memory
        loaded_program_words := word_count
        program_counter := 0 })

/-- Instruction fetch `giga_vm_fetch_word` for non-null arguments: return value
and the word written to `*out_word`, if any. -/
def giga_vm_fetch_word (state : GigaVmState) : Int × Option Nat :=
  if state.program_counter ≥ state.loaded_program_words then (-2, Option.none)
  else
    let byte_address := state.program_counter * 2
    let low := state.memory.getD byte_address 0
    let high := state.memory.getD (byte_address + 1) 0
    (0, some (((high <<< 8) ||| low) % 65536))

/-- The source text `ADD Ri, Rj` with a newline, `i` and `j` one digit each. -/
def add_text (i j : Nat) : List Nat :=
  bytes "ADD R" ++ [48 + i] ++ bytes ", R" ++ [48 + j] ++ bytes "\n"

/-- The operand text `[n]`, `n` in decimal. -/
def memory_number_text (n : Nat) : List Nat := bytes "[" ++ decimal_text n ++ bytes "]"

/-- The operand text `[Rk]`, `k` one digit. -/
def memory_register_text (k : Nat) : List Nat := bytes "[R" ++ [48 + k] ++ bytes "]"

/-- Return value and operand of `giga_parser_parse_operand` on a parser freshly
initialised on an operand text. -/
def parse_operand_text (text : List Nat) : Bool × GigaOperand :=
  ((giga_parser_parse_operand (giga_parser_init (giga_lexer_init text text.length))
      GigaOperand.none).1,
    (giga_parser_parse_operand (giga_parser_init (giga_lexer_init text text.length))
      GigaOperand.none).2.2)

/-- Return value and statements of the parser on a source text. -/
def parse_statements (source : List Nat) : Option (Nat × List GigaStatement) :=
  (parse_source source).map fun out => (out.1, out.2.statements)

/-- A program that defines the label `END` twice, with a jump to it between
the definitions and one behind them. -/
def duplicate_label_program : List GigaStatement :=
  [ GigaStatement.label { label_name := bytes "END", source_line := 1, source_column := 1 },
    GigaStatement.instruction
      { mnemonic_text := bytes "NOP", operands := [], source_line := 2, source_column := 1 },
    GigaStatement.instruction
      { mnemonic_text := bytes "JMP", operands := [GigaOperand.label (bytes "END")],
        source_line := 3, source_column := 1 },
    GigaStatement.label { label_name := bytes "END", source_line := 4, source_column := 1 },
    GigaStatement.instruction
      { mnemonic_text := bytes "HALT", operands := [], source_line := 5, source_column := 1 },
    GigaStatement.instruction
      { mnemonic_text := bytes "JMP", operands := [GigaOperand.label (bytes "END")],
        source_line := 6, source_column := 1 } ]

instance is_jump_to_decidable (L : List Nat) (inst : GigaParsedInstruction) : Decidable (is_jump_to L inst) := by
  unfold is_jump_to
  infer_instance

/-- Line of a buffer offset: 1 plus the number of newline bytes in front of it. -/
def line_of (buffer : List Nat) (offset : Nat) : Nat :=
  1 + (buffer.take offset).count 10

/-- Column of a buffer offset: 1 plus the number of bytes between the last
newline in front of it (or the start of the buffer) and the offset. -/
def column_of (buffer : List Nat) (offset : Nat) : Nat :=
  1 + ((buffer.take offset).reverse.takeWhile (fun c => c != 10)).length

/-- The line and column counters of a lexer are those of its cursor. -/
def lexer_positions (lexer : GigaLexer) : Prop :=
  lexer.line_number = line_of lexer.buffer lexer.current_index ∧
  lexer.column_number = column_of lexer.buffer lexer.current_index

/-- A token does not start before the token in front of it ends. -/
def token_follows (token1 token2 : GigaToken) : Prop :=
  ∀ b1 b2, token1.text_begin = some b1 → token2.text_begin = some b2 →
    b1 + token1.text_length ≤ b2

/-- Column of a position moved by `dc` bytes when it is on line 1. -/
def shift_column (dc line column : Nat) : Nat := column + (if line = 1 then dc else 0)

/-- A statement with its source position moved `dl` lines down and, on line 1,
`dc` columns to the right. -/
def shift_statement (dl dc : Nat) : GigaStatement → GigaStatement
  | GigaStatement.label l =>
    GigaStatement.label
      { l with
        source_line := l.source_line + dl
        source_column := shift_column dc l.source_line l.source_column }
  | GigaStatement.instruction inst =>
    GigaStatement.instruction
      { inst with
        source_line := inst.source_line + dl
        source_column := shift_column dc inst.source_line inst.source_column }
  | GigaStatement.directive d =>
    GigaStatement.directive
      { d with
        source_line := d.source_line + dl
        source_column := shift_column dc d.source_line d.source_column }

/-- Two tokens of two buffers that differ in position only: same kind, length
and text, the first one `dl` lines down and, if on line 1, `dc` columns to the
right. -/
def token_sim (buffer1 buffer2 : List Nat) (dl dc : Nat) (token1 token2 : GigaToken) : Prop :=
  token1.kind = token2.kind ∧ token1.text_length = token2.text_length ∧
  giga_token_text buffer1 token1 = giga_token_text buffer2 token2 ∧
  token1.line_number = token2.line_number + dl ∧
  token1.column_number = shift_column dc token2.line_number token2.column_number

/-- Two lexers with the same unread bytes whose positions differ by `dl` lines
and, on line 1, `dc` columns. -/
def lexer_sim (dl dc : Nat) (lexer1 lexer2 : GigaLexer) : Prop :=
  lexer_whole lexer1 ∧ lexer_whole lexer2 ∧ lexer_rest lexer1 = lexer_rest lexer2 ∧
  1 ≤ lexer2.line_number ∧ lexer1.line_number = lexer2.line_number + dl ∧
  lexer1.column_number = shift_column dc lexer2.line_number lexer2.column_number

/-- Two parsers in the same situation up to source positions; the first one
has the statements `front` in front of the moved statements of the second. -/
def parser_sim (front : List GigaStatement) (dl dc : Nat) (parser1 parser2 : GigaParser) :
    Prop :=
  lexer_sim dl dc parser1.lexer parser2.lexer ∧
  token_sim parser1.lexer.buffer parser2.lexer.buffer dl dc parser1.current_token
    parser2.current_token ∧
  token_sim parser1.lexer.buffer parser2.lexer.buffer dl dc parser1.lookahead_token
    parser2.lookahead_token ∧
  parser1.has_error = parser2.has_error ∧
  parser1.statements = front ++ parser2.statements.map (shift_statement dl dc)

/-- Results of an operand function on two parsers in the same situation. -/
def parsed_sim (front : List GigaStatement) (dl dc : Nat)
    (r1 r2 : Bool × GigaParser × GigaOperand) : Prop :=
  r1.1 = r2.1 ∧ parser_sim front dl dc r1.2.1 r2.2.1 ∧ r1.2.2 = r2.2.2

/-- Two optional results that are both absent or both present and related. -/
def option_sim {α : Type} (R : α → α → Prop) : Option α → Option α → Prop
  | some a, some b => R a b
  | Option.none, Option.none => True
  | _, _ => False

/-- Whether a byte string is an identifier of the lexer. -/
def is_identifier : List Nat → Bool
  | [] => false
  | c :: cs => giga_lexer_is_identifier_start c && cs.all giga_lexer_is_identifier_continue

/-- Bitwise AND `alu_and` on two bytes. -/
def alu_and (operand_a operand_b : Nat) : AluResult :=
  set_zero_and_negative_flags
    { result := mask4 (mask4 operand_a &&& mask4 operand_b)
      zero_flag := 0
      carry_flag := 0
      negative_flag := 0
      overflow_flag := 0 }

/-- Bitwise OR `alu_or` on two bytes. -/
def alu_or (operand_a operand_b : Nat) : AluResult :=
  set_zero_and_negative_flags
    { result := mask4 (mask4 operand_a ||| mask4 operand_b)
      zero_flag := 0
      carry_flag := 0
      negative_flag := 0
      overflow_flag := 0 }

/-- Bitwise XOR `alu_xor` on two bytes. -/
def alu_xor (operand_a operand_b : Nat) : AluResult :=
  set_zero_and_negative_flags
    { result := mask4 (mask4 operand_a ^^^ mask4 operand_b)
      zero_flag := 0
      carry_flag := 0
      negative_flag := 0
      overflow_flag := 0 }

/-- Bitwise NOT `alu_not` on a byte: `~` is taken on the operand promoted to
`int` (32 bits) and the value is cast back to `uint8_t`. -/
def alu_not (operand : Nat) : AluResult :=
  set_zero_and_negative_flags
    { result := mask4 ((mask4 operand ^^^ 0xFFFFFFFF) % 256)
      zero_flag := 0
      carry_flag := 0
      negative_flag := 0
      overflow_flag := 0 }

/-- Shift left by one bit, `alu_shl`. -/
def alu_shl (operand : Nat) : AluResult :=
  let operand_4bit := mask4 operand
  set_zero_and_negative_flags
    { result := mask4 ((operand_4bit <<< 1) % 256)
      zero_flag := 0
      carry_flag := ((operand_4bit >>> 3) &&& 0x01) % 256
      negative_flag := 0
      overflow_flag := 0 }

/-- Shift right by one bit, `alu_shr`. -/
def alu_shr (operand : Nat) : AluResult :=
  let operand_4bit := mask4 operand
  set_zero_and_negative_flags
    { result := mask4 ((operand_4bit >>> 1) % 256)
      zero_flag := 0
      carry_flag := (operand_4bit &&& 0x01) % 256
      negative_flag := 0
      overflow_flag := 0 }

/-- A nibble read as a 4-bit two's-complement number, in -8..7. -/
def signed4 (a : Nat) : Int := if a ≥ 8 then (a : Int) - 16 else (a : Int)

/-- A lexer on the buffer `ADD R1` that has read the mnemonic. -/
def lexer_behind_add : GigaLexer :=
  { buffer := bytes "ADD R1", buffer_length := 6, current_index := 3, line_number := 1,
    column_number := 4 }

/-- Value of a digit byte: `0`..`9`, `a`..`f` or `A`..`F`. -/
def digit_value (c : Nat) : Nat :=
  if 48 ≤ c ∧ c ≤ 57 then c - 48
  else if 97 ≤ c ∧ c ≤ 102 then c - 97 + 10
  else c - 65 + 10

/-- The number that a digit string denotes in a base, most significant digit
first, as an unbounded natural number. -/
def digits_value (base : Nat) (digits : List Nat) : Nat :=
  digits.foldl (fun value c => value * base + digit_value c) 0

/-- A decimal literal: one or more decimal digits. -/
def is_decimal_literal (text : List Nat) : Bool :=
  !text.isEmpty && text.all isdigit

/-- A hexadecimal literal: `0x` or `0X` and any number of hexadecimal digits,
none included. -/
def is_hex_literal : List Nat → Bool
  | z :: x :: digits => z == 48 && (x == 120 || x == 88) && digits.all isxdigit
  | _ => false

/-- Numeric value of a number literal as the specification reads it: the digits
after the prefix in base 16 for a hexadecimal literal, all digits in base 10
otherwise. -/
def literal_value (text : List Nat) : Nat :=
  if is_hex_literal text then digits_value 16 (text.drop 2) else digits_value 10 text

/-- A parser whose current token is the whole text `text` as a NUMBER token. -/
def parser_at_number (text : List Nat) : GigaParser :=
  { lexer := giga_lexer_init text text.length
    current_token :=
      { kind := GigaTokenKind.NUMBER, text_begin := some 0, text_length := text.length,
        line_number := 1, column_number := 1 }
    lookahead_token :=
      { kind := GigaTokenKind.EOF, text_begin := Option.none, text_length := 0,
        line_number := 1, column_number := 1 }
    has_error := 0
    error_message := Option.none
    error_line := 0
    error_column := 0
    statements := [] }

/-- One turn of the operand loop of `giga_parser_parse_instruction` below the
operand cap: the optional comma and one operand.  `none` at the end of the
line and where no operand can be parsed. -/
def loop_operand (parser : GigaParser) : Option (GigaParser × GigaOperand) :=
  if parser.current_token.kind ≠ GigaTokenKind.NEWLINE ∧
      parser.current_token.kind ≠ GigaTokenKind.EOF then
    let parser1 :=
      if parser.current_token.kind = GigaTokenKind.COMMA then giga_parser_advance parser
      else parser
    let parsed := giga_parser_parse_operand parser1 GigaOperand.none
    if parsed.1 then some (parsed.2.1, parsed.2.2) else Option.none
  else Option.none

/-- The first three turns of the operand loop for the instruction whose
mnemonic is the current token: the parser behind three operands, and the
operands. -/
def three_operands (parser : GigaParser) : Option (GigaParser × List GigaOperand) :=
  (loop_operand (giga_parser_advance parser)).bind fun first =>
    (loop_operand first.1).bind fun second =>
      (loop_operand second.1).map fun third => (third.1, [first.2, second.2, third.2])

/-- The token at which the fourth operand of an instruction line starts, behind
three operands and an optional comma; `none` for a line with fewer operands. -/
def fourth_operand_token (parser : GigaParser) : Option GigaToken :=
  (three_operands parser).bind fun behind =>
    if behind.1.current_token.kind ≠ GigaTokenKind.NEWLINE ∧
        behind.1.current_token.kind ≠ GigaTokenKind.EOF then
      some (if behind.1.current_token.kind = GigaTokenKind.COMMA then
        giga_parser_advance behind.1 else behind.1).current_token
    else Option.none

/-- The messages that the statement loop of `giga_parser_parse` and the
functions under it can leave in the parser when they return. -/
def parse_messages : List String :=
  ["Too many operands", "Expected operand", "Unexpected token at start of statement",
    "Expected number or register in memory address", "Expected ']' to close memory address"]

/-- The error message `after` is the message `before` or one of
`parse_messages`. -/
def message_kept_or_set (before after : Option String) : Prop :=
  after = before ∨ ∃ message ∈ parse_messages, after = some message

/-- The messages that `giga_parser_parse_number` sets. -/
def number_messages : List String :=
  ["Immediate value exceeds 4 bits (max 15)", "Invalid hex digit", "Invalid decimal digit"]

/-! ## Theorems -/

/-! ### Bit packing -/

theorem and_15_eq_mod (x : Nat) : x &&& 15 = x % 16 :=
  Nat.and_pow_two_sub_one_eq_mod x 4

theorem lor_shift4 (c d : Nat) (hd : d < 16) : c <<< 4 ||| d = c * 16 + d := by
  have hd2 : d < 2 ^ 4 := by omega
  rw [Nat.shiftLeft_eq, Nat.mul_comm c (2 ^ 4), ← Nat.mul_add_lt_is_or hd2 c]

theorem lor_shift8 (c d : Nat) (hd : d < 256) : c <<< 8 ||| d = c * 256 + d := by
  have hd2 : d < 2 ^ 8 := by omega
  rw [Nat.shiftLeft_eq, Nat.mul_comm c (2 ^ 8), ← Nat.mul_add_lt_is_or hd2 c]

theorem lor_shift12 (c d : Nat) (hd : d < 4096) : c <<< 12 ||| d = c * 4096 + d := by
  have hd2 : d < 2 ^ 12 := by omega
  rw [Nat.shiftLeft_eq, Nat.mul_comm c (2 ^ 12), ← Nat.mul_add_lt_is_or hd2 c]

/-- The packed word as a sum, for fields that fit their nibbles. -/
theorem pack_eq_sum (opcode dest src imm4 : Nat) (hd : dest < 16) (hs : src < 16)
    (hi : imm4 < 16) :
    opcode <<< 12 ||| dest <<< 8 ||| src <<< 4 ||| imm4
      = opcode * 4096 + dest * 256 + src * 16 + imm4 := by
  rw [Nat.lor_assoc, Nat.lor_assoc, lor_shift4 src imm4 hi,
    lor_shift8 dest _ (by omega), lor_shift12 opcode _ (by omega)]
  omega

theorem encode_instruction_eq_sum (opcode dest src imm4 : Nat) (ho : opcode < 16)
    (hd : dest < 16) (hs : src < 16) (hi : imm4 < 16) :
    encode_instruction opcode dest src imm4
      = opcode * 4096 + dest * 256 + src * 16 + imm4 := by
  unfold encode_instruction
  rw [pack_eq_sum opcode dest src imm4 hd hs hi]
  omega

theorem decode_eq_div_mod (w : Nat) :
    giga_decode_instruction w
      = { raw := w, opcode := w / 4096 % 16, dest_reg := w / 256 % 16,
          src_reg := w / 16 % 16, imm4 := w % 16 } := by
  unfold giga_decode_instruction
  simp only [and_15_eq_mod, Nat.shiftRight_eq_div_pow]
  congr 1 <;> omega

theorem decode_encode (opcode dest src imm4 : Nat) (ho : opcode < 16)
    (hd : dest < 16) (hs : src < 16) (hi : imm4 < 16) :
    giga_decode_instruction (encode_instruction opcode dest src imm4)
      = { raw := encode_instruction opcode dest src imm4, opcode := opcode,
          dest_reg := dest, src_reg := src, imm4 := imm4 } := by
  rw [decode_eq_div_mod, encode_instruction_eq_sum opcode dest src imm4 ho hd hs hi]
  congr 1 <;> omega



/-! ### Name comparison -/

theorem strncmp_self (s : List Nat) (n : Nat) : strncmp s s n = 0 := by
  induction n generalizing s with
  | zero => simp [strncmp]
  | succ n ih => simp [strncmp, ih]

theorem strncmp_eq_zero_imp_eq (s1 s2 : List Nat) (hlen : s1.length = s2.length)
    (hnul : 0 ∉ s2) (h : strncmp s1 s2 s2.length = 0) : s1 = s2 := by
  induction s2 generalizing s1 with
  | nil => simpa using hlen
  | cons c cs ih =>
    cases s1 with
    | nil => simp at hlen
    | cons d ds =>
      simp only [List.mem_cons, not_or] at hnul
      simp only [List.length_cons, strncmp, List.headD_cons, List.tail_cons, ne_eq,
        ite_not] at h
      by_cases hdc : d = c
      · subst hdc
        have hd0 : d ≠ 0 := fun h0 => hnul.1 h0.symm
        simp only [↓reduceIte, hd0] at h
        rw [ih ds (by simpa using hlen) hnul.2 h]
      · simp only [hdc, ↓reduceIte] at h
        omega

/-- On a name without NUL byte the comparison of `label_table_find` is byte
equality. -/
theorem name_match_iff (s1 s2 : List Nat) (hnul : 0 ∉ s2) :
    (s1.length = s2.length ∧ strncmp s1 s2 s2.length = 0) ↔ s1 = s2 := by
  constructor
  · rintro ⟨hlen, h⟩
    exact strncmp_eq_zero_imp_eq s1 s2 hlen hnul h
  · rintro rfl
    exact ⟨rfl, strncmp_self _ _⟩

/-! ### Pass 1 -/

theorem instructions_of_append (xs ys : List GigaStatement) :
    instructions_of (xs ++ ys) = instructions_of xs ++ instructions_of ys := by
  induction xs with
  | nil => simp [instructions_of]
  | cons x xs ih => cases x <;> simp [instructions_of, ih]

theorem count_instructions_append (xs ys : List GigaStatement) :
    count_instructions (xs ++ ys) = count_instructions xs + count_instructions ys := by
  simp [count_instructions, instructions_of_append]

theorem pass1_labels_append (xs ys : List GigaStatement) (a : Nat) :
    pass1_labels (xs ++ ys) a
      = pass1_labels xs a ++ pass1_labels ys (a + count_instructions xs) := by
  induction xs generalizing a with
  | nil => simp [pass1_labels, count_instructions, instructions_of]
  | cons x xs ih =>
    cases x with
    | label l => simp [pass1_labels, ih, count_instructions, instructions_of]
    | instruction inst =>
      simp [pass1_labels, ih, count_instructions, instructions_of]
      congr 1
      omega
    | directive d => simp [pass1_labels, ih, count_instructions, instructions_of]

/-- Pass 1 succeeds below the limit and leaves the recorded labels, newest
first, in front of the table. -/
theorem pass1_loop_ok (statements : List GigaStatement) (a : Nat)
    (label_table : List LabelEntry) (result : GigaAssemblerResult)
    (h : a + count_instructions statements < 128) :
    assemble_pass1_loop statements a label_table result
      = (0, result, (pass1_labels statements a).reverse ++ label_table) := by
  induction statements generalizing a label_table with
  | nil => simp [assemble_pass1_loop, pass1_labels]
  | cons x xs ih =>
    cases x with
    | label l =>
      simp only [count_instructions, instructions_of] at h
      simp [assemble_pass1_loop, pass1_labels, label_table_add, ih _ _ h]
    | instruction inst =>
      simp only [count_instructions, instructions_of, List.length_cons] at h
      have h1 : (a + 1) % 65536 = a + 1 := by omega
      have h2 : ¬ (a + 1 ≥ GIGA_ASSEMBLER_MAX_WORDS) := by
        simp only [GIGA_ASSEMBLER_MAX_WORDS]; omega
      simp only [assemble_pass1_loop, h1, h2, ↓reduceIte, pass1_labels]
      exact ih (a + 1) label_table (by simp only [count_instructions]; omega)
    | directive d =>
      simp only [count_instructions, instructions_of] at h
      simp [assemble_pass1_loop, pass1_labels, ih _ _ h]

/-- Pass 1 fails as soon as the address counter reaches the limit, reporting
the instruction that made it reach it. -/
theorem pass1_loop_fail (statements : List GigaStatement) (a : Nat)
    (label_table : List LabelEntry) (result : GigaAssemblerResult)
    (ha : a < 128) (h : 128 ≤ a + count_instructions statements) :
    ∃ inst, (instructions_of statements)[127 - a]? = some inst ∧
      (assemble_pass1_loop statements a label_table result).1 = 1 ∧
      (assemble_pass1_loop statements a label_table result).2.1
        = assembler_error result "Program too large" inst.source_line inst.source_column := by
  induction statements generalizing a label_table with
  | nil => simp [count_instructions, instructions_of] at h; omega
  | cons x xs ih =>
    cases x with
    | label l =>
      simp only [count_instructions, instructions_of] at h
      simpa [assemble_pass1_loop, instructions_of] using ih a _ ha h
    | instruction inst =>
      simp only [count_instructions, instructions_of, List.length_cons] at h
      have h1 : (a + 1) % 65536 = a + 1 := by omega
      by_cases h2 : a + 1 ≥ GIGA_ASSEMBLER_MAX_WORDS
      · have ha' : 127 - a = 0 := by simp only [GIGA_ASSEMBLER_MAX_WORDS] at h2; omega
        exact ⟨inst, by simp [instructions_of, ha'], by
          simp [assemble_pass1_loop, h1, h2], by simp [assemble_pass1_loop, h1, h2]⟩
      · simp only [GIGA_ASSEMBLER_MAX_WORDS] at h2
        obtain ⟨i2, hi2, hr⟩ := ih (a + 1) label_table (by omega)
          (by simp only [count_instructions]; omega)
        have hidx : 127 - a = (127 - (a + 1)) + 1 := by omega
        refine ⟨i2, by rw [hidx]; simpa [instructions_of] using hi2, ?_⟩
        have h2' : ¬ (a + 1 ≥ GIGA_ASSEMBLER_MAX_WORDS) := by
          simp only [GIGA_ASSEMBLER_MAX_WORDS]; omega
        simpa only [assemble_pass1_loop, h1, h2', ↓reduceIte] using hr
    | directive d =>
      simp only [count_instructions, instructions_of] at h
      simpa [assemble_pass1_loop, instructions_of] using ih a _ ha h

/-! ### Pass 2 -/

/-- A successful run of the pass 2 loop writes, for every instruction in
program order, the word of that instruction at the next free index and touches
nothing else. -/
theorem pass2_loop_ok (statements : List GigaStatement) (label_table : List LabelEntry)
    (result result' : GigaAssemblerResult) (ws : List Nat)
    (hb : result.bytecode = some ws)
    (hcap : result.word_count + count_instructions statements ≤ ws.length)
    (h : assemble_pass2_loop statements label_table result = (0, result')) :
    ∃ ws', result' = { result with
          bytecode := some ws'
          word_count := result.word_count + count_instructions statements } ∧
      ws'.length = ws.length ∧
      (∀ i, i < result.word_count ∨ result.word_count + count_instructions statements ≤ i →
        ws'.getD i 0 = ws.getD i 0) ∧
      (∀ j inst, (instructions_of statements)[j]? = some inst →
        instruction_word label_table inst = some (ws'.getD (result.word_count + j) 0)) := by
  induction statements generalizing result ws with
  | nil =>
    simp only [assemble_pass2_loop, Prod.mk.injEq, true_and] at h
    subst h
    refine ⟨ws, ?_, rfl, fun _ _ => rfl, ?_⟩
    · cases result; simp_all [count_instructions, instructions_of]
    · intro j inst hj; simp [instructions_of] at hj
  | cons x xs ih =>
    cases x with
    | label l =>
      simp only [assemble_pass2_loop] at h
      simpa [count_instructions, instructions_of] using ih result ws hb hcap h
    | directive d =>
      simp only [assemble_pass2_loop] at h
      simpa [count_instructions, instructions_of] using ih result ws hb hcap h
    | instruction inst =>
      simp only [count_instructions, instructions_of, List.length_cons] at hcap
      simp only [assemble_pass2_loop] at h
      cases hm : mnemonic_to_opcode inst.mnemonic_text with
      | none => simp [hm] at h
      | some opcode =>
        simp only [hm] at h
        cases hs : assemble_pass2_switch label_table opcode inst with
        | error message => simp [hs] at h
        | ok fields =>
          obtain ⟨dest_reg, src_reg, imm4⟩ := fields
          simp only [hs] at h
          obtain ⟨ws', hres, hlen, hkeep, hnew⟩ :=
            ih _ (ws.set result.word_count (encode_instruction opcode dest_reg src_reg imm4))
              (by simp [hb]) (by simp only [List.length_set, count_instructions]; omega) h
          refine ⟨ws', ?_, by simpa using hlen, ?_, ?_⟩
          · rw [hres]
            simp only [count_instructions, instructions_of, List.length_cons,
              GigaAssemblerResult.mk.injEq, and_true, true_and]
            omega
          · intro i hi
            simp only [count_instructions, instructions_of, List.length_cons] at hi
            rw [hkeep i (by simp only [count_instructions]; omega)]
            simp only [List.getD_eq_getElem?_getD]
            rw [List.getElem?_set_ne (by omega)]
          · intro j inst' hj
            cases j with
            | zero =>
              simp only [instructions_of, List.getElem?_cons_zero, Option.some.injEq] at hj
              subst hj
              have hk := hkeep result.word_count (Or.inl (by simp))
              simp only [Nat.add_zero, hk]
              simp only [instruction_word, hm, hs, List.getD_eq_getElem?_getD]
              rw [List.getElem?_set_eq_of_lt _ (by omega)]
              rfl
            | succ j =>
              simp only [instructions_of, List.getElem?_cons_succ] at hj
              have := hnew j inst' hj
              simpa [Nat.add_assoc, Nat.add_comm 1 j] using this

/-- The pass 2 loop returns 0 or 1. -/
theorem pass2_loop_ret (statements : List GigaStatement) (label_table : List LabelEntry)
    (result : GigaAssemblerResult) :
    (assemble_pass2_loop statements label_table result).1 = 0 ∨
      (assemble_pass2_loop statements label_table result).1 = 1 := by
  induction statements generalizing result with
  | nil => simp [assemble_pass2_loop]
  | cons x xs ih =>
    cases x with
    | label l => simpa [assemble_pass2_loop] using ih result
    | directive d => simpa [assemble_pass2_loop] using ih result
    | instruction inst =>
      simp only [assemble_pass2_loop]
      cases hm : mnemonic_to_opcode inst.mnemonic_text with
      | none => simp
      | some opcode =>
        cases hs : assemble_pass2_switch label_table opcode inst with
        | error message => simp [hs]
        | ok fields => simp only [hs]; exact ih _

/-- Shape of a successful assembly: fewer than 128 instructions, the result
holds the 128-word array with one word per instruction in program order, and
the label table is the one recorded by pass 1. -/
theorem giga_assemble_success (label_table : List LabelEntry)
    (statements : List GigaStatement) (result : GigaAssemblerResult)
    (hok : (giga_assemble label_table statements result).1 = 0) :
    statements ≠ [] ∧ count_instructions statements < 128 ∧
    (giga_assemble label_table statements result).2.2 = (pass1_labels statements 0).reverse ∧
    ∃ ws, (giga_assemble label_table statements result).2.1
        = { bytecode := some ws, word_count := count_instructions statements, has_error := 0,
            error_message := Option.none, error_line := 0, error_column := 0 } ∧
      ws.length = 128 ∧
      (∀ i, count_instructions statements ≤ i → ws.getD i 0 = 0) ∧
      (∀ j inst, (instructions_of statements)[j]? = some inst →
        instruction_word (pass1_labels statements 0).reverse inst = some (ws.getD j 0)) := by
  cases statements with
  | nil => simp [giga_assemble] at hok
  | cons x xs =>
    by_cases hcount : count_instructions (x :: xs) < 128
    · have hp1 := pass1_loop_ok (x :: xs) 0 []
        { bytecode := Option.none, word_count := 0, has_error := 0,
          error_message := Option.none, error_line := 0, error_column := 0 } (by omega)
      rcases pass2_loop_ret (x :: xs) (pass1_labels (x :: xs) 0).reverse
        { bytecode := some (List.replicate GIGA_ASSEMBLER_MAX_WORDS 0), word_count := 0,
          has_error := 0, error_message := Option.none, error_line := 0, error_column := 0 }
        with h0 | h1
      · obtain ⟨ws', hres, hlen, hkeep, hnew⟩ := pass2_loop_ok (x :: xs)
          (pass1_labels (x :: xs) 0).reverse _ _ (List.replicate GIGA_ASSEMBLER_MAX_WORDS 0)
          rfl (by simp only [GIGA_ASSEMBLER_MAX_WORDS, List.length_replicate]; omega)
          (Prod.ext h0 rfl)
        have hga : giga_assemble label_table (x :: xs) result
            = (0, { bytecode := some ws', word_count := count_instructions (x :: xs),
                    has_error := 0, error_message := Option.none, error_line := 0,
                    error_column := 0 }, (pass1_labels (x :: xs) 0).reverse) := by
          simp only [Nat.zero_add] at hres
          simp [giga_assemble, assemble_pass1, label_table_free, hp1, assemble_pass2, h0, hres]
        rw [hga]
        refine ⟨by simp, hcount, rfl, ws', rfl,
          by simpa [GIGA_ASSEMBLER_MAX_WORDS] using hlen, ?_, ?_⟩
        · intro i hi
          rw [hkeep i (Or.inr (by simpa using hi))]
          simp only [List.getD_eq_getElem?_getD, List.getElem?_replicate]
          split <;> rfl
        · intro j inst hj
          simpa using hnew j inst hj
      · simp [giga_assemble, assemble_pass1, label_table_free, hp1, assemble_pass2, h1] at hok
    · obtain ⟨inst, _, hret, _⟩ := pass1_loop_fail (x :: xs) 0 []
        { bytecode := Option.none, word_count := 0, has_error := 0,
          error_message := Option.none, error_line := 0, error_column := 0 } (by omega)
        (by omega)
      simp [giga_assemble, assemble_pass1, label_table_free, hret] at hok

/-- With 128 or more instructions the assembly fails in pass 1, at the 128th
instruction. -/
theorem giga_assemble_too_large (label_table : List LabelEntry)
    (statements : List GigaStatement) (result : GigaAssemblerResult)
    (h : 128 ≤ count_instructions statements) :
    ∃ inst, (instructions_of statements)[127]? = some inst ∧
      (giga_assemble label_table statements result).1 = 1 ∧
      (giga_assemble label_table statements result).2.1
        = { bytecode := Option.none, word_count := 0, has_error := 1,
            error_message := some "Program too large", error_line := inst.source_line,
            error_column := inst.source_column } := by
  cases statements with
  | nil => simp [count_instructions, instructions_of] at h
  | cons x xs =>
    obtain ⟨inst, hinst, hret, hres⟩ := pass1_loop_fail (x :: xs) 0 []
      { bytecode := Option.none, word_count := 0, has_error := 0,
        error_message := Option.none, error_line := 0, error_column := 0 } (by omega)
      (by omega)
    refine ⟨inst, hinst, ?_, ?_⟩
    · simp [giga_assemble, assemble_pass1, label_table_free, hret]
    · simp [giga_assemble, assemble_pass1, label_table_free, hret, hres, assembler_error]

/-! ### Label lookup -/

theorem label_table_find_append_of_no_match (l1 l2 : List LabelEntry) (name : List Nat)
    (h : ∀ e ∈ l1, ¬ (e.name.length = name.length ∧ strncmp e.name name name.length = 0)) :
    label_table_find (l1 ++ l2) name = label_table_find l2 name := by
  induction l1 with
  | nil => rfl
  | cons e es ih =>
    have he := h e (List.mem_cons_self _ _)
    simp only [List.cons_append, label_table_find, he, ↓reduceIte]
    exact ih fun e' he' => h e' (List.mem_cons_of_mem _ he')

theorem pass1_labels_names (statements : List GigaStatement) (a : Nat) :
    ∀ e ∈ pass1_labels statements a,
      ∃ l, GigaStatement.label l ∈ statements ∧ l.label_name = e.name := by
  induction statements generalizing a with
  | nil => simp [pass1_labels]
  | cons x xs ih =>
    intro e he
    cases x with
    | label l =>
      simp only [pass1_labels, List.mem_cons] at he
      rcases he with rfl | he
      · exact ⟨l, by simp, rfl⟩
      · obtain ⟨l', hl', hn⟩ := ih a e he
        exact ⟨l', List.mem_cons_of_mem _ hl', hn⟩
    | instruction inst =>
      obtain ⟨l', hl', hn⟩ := ih (a + 1) e (by simpa [pass1_labels] using he)
      exact ⟨l', List.mem_cons_of_mem _ hl', hn⟩
    | directive d =>
      obtain ⟨l', hl', hn⟩ := ih a e (by simpa [pass1_labels] using he)
      exact ⟨l', List.mem_cons_of_mem _ hl', hn⟩

theorem pass1_labels_address (statements : List GigaStatement) (a : Nat) :
    ∀ e ∈ pass1_labels statements a,
      a ≤ e.address ∧ e.address ≤ a + count_instructions statements := by
  induction statements generalizing a with
  | nil => simp [pass1_labels]
  | cons x xs ih =>
    intro e he
    cases x with
    | label l =>
      simp only [pass1_labels, List.mem_cons] at he
      rcases he with rfl | he
      · simp
      · simpa [count_instructions, instructions_of] using ih a e he
    | instruction inst =>
      have := ih (a + 1) e (by simpa [pass1_labels] using he)
      simp only [count_instructions, instructions_of, List.length_cons] at this ⊢
      omega
    | directive d =>
      simpa [count_instructions, instructions_of] using
        ih a e (by simpa [pass1_labels] using he)

/-- A lookup in a table built by pass 1 gives `0xFFFF` or an address that is at
most the number of instructions. -/
theorem label_table_find_bound (entries : List LabelEntry) (bound : Nat) (name : List Nat)
    (h : ∀ e ∈ entries, e.address ≤ bound) :
    label_table_find entries name = 0xFFFF ∨ label_table_find entries name ≤ bound := by
  induction entries with
  | nil => left; rfl
  | cons e es ih =>
    simp only [label_table_find]
    split
    · right; exact h e (List.mem_cons_self _ _)
    · exact ih fun e' he' => h e' (List.mem_cons_of_mem _ he')

/-- The address pass 1 records for a name that no later Label statement
defines: the number of instructions in front of its definition. -/
theorem label_table_find_pass1 (pre post : List GigaStatement) (lab : GigaParsedLabel)
    (a : Nat) (hnul : 0 ∉ lab.label_name)
    (hpost : ∀ l, GigaStatement.label l ∈ post → l.label_name ≠ lab.label_name) :
    label_table_find (pass1_labels (pre ++ GigaStatement.label lab :: post) a).reverse
        lab.label_name
      = a + count_instructions pre := by
  rw [pass1_labels_append]
  simp only [pass1_labels, List.reverse_append, List.reverse_cons, List.append_assoc,
    List.singleton_append]
  rw [label_table_find_append_of_no_match]
  · simp [label_table_find, strncmp_self]
  · intro e he hmatch
    rw [List.mem_reverse] at he
    obtain ⟨l, hl, hn⟩ := pass1_labels_names post _ e he
    have := (name_match_iff e.name lab.label_name hnul).1 hmatch
    exact hpost l hl (hn.trans this)

theorem jmp_word (k : Nat) (hk : k < 4096) :
    encode_instruction GIGA_OP_JMP ((k >>> 8) &&& 0x0F) ((k >>> 4) &&& 0x0F) (k &&& 0x0F)
      = 0xD000 ||| k := by
  have h1 : (0xD000 : Nat) = 13 <<< 12 := by decide
  rw [h1, lor_shift12 13 k hk]
  simp only [and_15_eq_mod, Nat.shiftRight_eq_div_pow, GIGA_OP_JMP]
  rw [encode_instruction_eq_sum _ _ _ _ (by omega) (Nat.mod_lt _ (by omega))
    (Nat.mod_lt _ (by omega)) (Nat.mod_lt _ (by omega))]
  omega

/-! ### Progress of the lexer -/

theorem advance_buffer_length (lexer : GigaLexer) :
    (giga_lexer_advance lexer).2.buffer_length = lexer.buffer_length := by
  unfold giga_lexer_advance
  simp only []
  split_ifs <;> rfl

theorem advance_buffer (lexer : GigaLexer) :
    (giga_lexer_advance lexer).2.buffer = lexer.buffer := by
  unfold giga_lexer_advance
  simp only []
  split_ifs <;> rfl

theorem advance_current_index (lexer : GigaLexer) :
    (giga_lexer_advance lexer).2.current_index
      = if lexer.current_index ≥ lexer.buffer_length then lexer.current_index
        else lexer.current_index + 1 := by
  unfold giga_lexer_advance
  simp only []
  split_ifs <;> rfl

theorem advance_remaining_le (lexer : GigaLexer) :
    giga_lexer_remaining (giga_lexer_advance lexer).2 ≤ giga_lexer_remaining lexer := by
  simp only [giga_lexer_remaining, advance_buffer_length, advance_current_index]
  split_ifs <;> omega

theorem advance_remaining_lt (lexer : GigaLexer)
    (h : lexer.current_index < lexer.buffer_length) :
    giga_lexer_remaining (giga_lexer_advance lexer).2 < giga_lexer_remaining lexer := by
  simp only [giga_lexer_remaining, advance_buffer_length, advance_current_index]
  split_ifs <;> omega

theorem advance_while_remaining_le (p : Nat → Bool) (fuel : Nat) (lexer : GigaLexer) :
    giga_lexer_remaining (giga_lexer_advance_while p fuel lexer)
      ≤ giga_lexer_remaining lexer := by
  induction fuel generalizing lexer with
  | zero => simp [giga_lexer_advance_while]
  | succ fuel ih =>
    unfold giga_lexer_advance_while
    split_ifs
    · exact (ih _).trans (advance_remaining_le lexer)
    · exact le_refl _

theorem skip_loop_remaining_le (fuel : Nat) (lexer : GigaLexer) :
    giga_lexer_remaining (giga_lexer_skip_loop fuel lexer) ≤ giga_lexer_remaining lexer := by
  induction fuel generalizing lexer with
  | zero => simp [giga_lexer_skip_loop]
  | succ fuel ih =>
    unfold giga_lexer_skip_loop
    simp only []
    split_ifs
    · exact (ih _).trans ((advance_while_remaining_le _ _ _).trans
        (advance_while_remaining_le _ _ _))
    · exact advance_while_remaining_le _ _ _

theorem skip_remaining_le (lexer : GigaLexer) :
    giga_lexer_remaining (giga_lexer_skip_spaces_and_comments lexer)
      ≤ giga_lexer_remaining lexer :=
  skip_loop_remaining_le _ _

theorem peek_eq_zero_of_end (lexer : GigaLexer)
    (h : lexer.buffer_length ≤ lexer.current_index) : giga_lexer_peek lexer = 0 := by
  unfold giga_lexer_peek
  rw [if_pos h]

/-- The bounded loop `giga_lexer_advance_while` ends because its test fails, not
because the bound is used up, when the bound is at least the number of bytes
left. -/
theorem advance_while_stops (p : Nat → Bool) (hp : p 0 = false) (fuel : Nat)
    (lexer : GigaLexer) (h : giga_lexer_remaining lexer ≤ fuel) :
    p (giga_lexer_peek (giga_lexer_advance_while p fuel lexer)) = false := by
  induction fuel generalizing lexer with
  | zero =>
    simp only [giga_lexer_advance_while]
    rw [peek_eq_zero_of_end lexer (by unfold giga_lexer_remaining at h; omega)]
    exact hp
  | succ fuel ih =>
    unfold giga_lexer_advance_while
    by_cases hc : p (giga_lexer_peek lexer) = true
    · rw [if_pos hc]
      have hidx : lexer.current_index < lexer.buffer_length := by
        by_contra hge
        rw [peek_eq_zero_of_end lexer (by omega), hp] at hc
        exact Bool.false_ne_true hc
      have := advance_remaining_lt lexer hidx
      exact ih _ (by omega)
    · rw [if_neg hc]
      simpa using hc

/-- The skip loop ends in front of a byte that is neither white space nor the
start of a comment. -/
theorem skip_loop_stops (fuel : Nat) (lexer : GigaLexer)
    (h : giga_lexer_remaining lexer < fuel) :
    is_horizontal_space (giga_lexer_peek (giga_lexer_skip_loop fuel lexer)) = false ∧
      giga_lexer_peek (giga_lexer_skip_loop fuel lexer) ≠ 59 := by
  induction fuel generalizing lexer with
  | zero => omega
  | succ fuel ih =>
    unfold giga_lexer_skip_loop
    simp only []
    have hsp := advance_while_stops is_horizontal_space (by decide)
      (giga_lexer_remaining lexer) lexer (le_refl _)
    have hle := advance_while_remaining_le is_horizontal_space
      (giga_lexer_remaining lexer) lexer
    generalize giga_lexer_advance_while is_horizontal_space
      (giga_lexer_remaining lexer) lexer = lexer1 at hsp hle ⊢
    by_cases hc : giga_lexer_peek lexer1 = 59
    · rw [if_pos hc]
      have hidx : lexer1.current_index < lexer1.buffer_length := by
        by_contra hge
        rw [peek_eq_zero_of_end lexer1 (by omega)] at hc
        omega
      have hpos : giga_lexer_remaining lexer1
          = (giga_lexer_remaining lexer1 - 1) + 1 := by
        unfold giga_lexer_remaining; omega
      have hlt : giga_lexer_remaining (giga_lexer_advance_while is_comment_byte
          (giga_lexer_remaining lexer1) lexer1) < giga_lexer_remaining lexer1 := by
        rw [hpos]
        unfold giga_lexer_advance_while
        rw [if_pos (by rw [hc]; decide)]
        have h1 := advance_while_remaining_le is_comment_byte
          (giga_lexer_remaining lexer1 - 1) (giga_lexer_advance lexer1).2
        have h2 := advance_remaining_lt lexer1 hidx
        omega
      exact ih _ (by omega)
    · rw [if_neg hc]
      exact ⟨hsp, hc⟩

/-- A call of the lexer never moves the cursor backwards. -/
theorem next_token_remaining_le (lexer : GigaLexer) :
    giga_lexer_remaining (giga_lexer_next_token lexer).2 ≤ giga_lexer_remaining lexer := by
  have hs := skip_remaining_le lexer
  unfold giga_lexer_next_token
  simp only []
  generalize giga_lexer_skip_spaces_and_comments lexer = lx at hs ⊢
  have ha := advance_remaining_le lx
  have ha2 := advance_remaining_le (giga_lexer_advance lx).2
  have hw := fun p n l => advance_while_remaining_le p n l
  split_ifs
  all_goals first
    | exact hs
    | exact ha.trans hs
    | exact (hw _ _ _).trans (ha.trans hs)
    | exact (hw _ _ _).trans (ha2.trans (ha.trans hs))

/-- A call of the lexer that returns a token other than end-of-input consumes
at least one byte. -/
theorem next_token_remaining_lt (lexer : GigaLexer)
    (h : (giga_lexer_next_token lexer).1.kind ≠ GigaTokenKind.EOF) :
    giga_lexer_remaining (giga_lexer_next_token lexer).2 < giga_lexer_remaining lexer := by
  have hs := skip_remaining_le lexer
  unfold giga_lexer_next_token at h ⊢
  simp only [] at h ⊢
  generalize giga_lexer_skip_spaces_and_comments lexer = lx at hs h ⊢
  have ha := advance_remaining_lt lx
  have ha2 := advance_remaining_le (giga_lexer_advance lx).2
  have hw := fun p n l => advance_while_remaining_le p n l
  by_cases h0 : giga_lexer_peek lx = 0 ∨ lx.current_index ≥ lx.buffer_length
  · rw [if_pos h0] at h
    exact absurd rfl h
  · rw [if_neg h0]
    have hidx : lx.current_index < lx.buffer_length := by
      simp only [not_or, not_le, ge_iff_le] at h0
      exact h0.2
    have ha' := ha hidx
    clear h
    split_ifs
    all_goals first
      | exact lt_of_lt_of_le ha' hs
      | exact lt_of_le_of_lt (hw _ _ _) (lt_of_lt_of_le ha' hs)
      | exact lt_of_le_of_lt (hw _ _ _) (lt_of_le_of_lt ha2 (lt_of_lt_of_le ha' hs))

/-! ### Range of the operands the parser builds -/

@[simp] theorem giga_parser_advance_statements (parser : GigaParser) :
    (giga_parser_advance parser).statements = parser.statements := rfl

@[simp] theorem giga_parser_error_statements (parser : GigaParser) (message : String)
    (line column : Nat) :
    (giga_parser_error parser message line column).statements = parser.statements := rfl

theorem parse_register_spec (parser : GigaParser) (operand : GigaOperand) :
    (giga_parser_parse_register parser operand).2.1.statements = parser.statements ∧
    ((giga_parser_parse_register parser operand).1 = true →
      ∃ i, i ≤ 7 ∧ (giga_parser_parse_register parser operand).2.2 = GigaOperand.register i) ∧
    ((giga_parser_parse_register parser operand).1 = false →
      (giga_parser_parse_register parser operand).2.2 = operand) := by
  unfold giga_parser_parse_register
  simp only []
  generalize (token_text parser parser.current_token).getD 1 0 = c
  split_ifs with h1 h2 h3 h4 h5 h6 <;>
    simp only [giga_parser_advance_statements, Bool.false_eq_true, false_implies, true_and,
      implies_true, and_true, Bool.true_eq_false, forall_const]
  exact ⟨(c - 48) % 256, by omega, rfl⟩

theorem parse_number_spec (parser : GigaParser) (operand : GigaOperand) :
    (giga_parser_parse_number parser operand).2.1.statements = parser.statements ∧
    ((giga_parser_parse_number parser operand).1 = true →
      ∃ v, v ≤ 15 ∧ (giga_parser_parse_number parser operand).2.2 = GigaOperand.immediate v) ∧
    ((giga_parser_parse_number parser operand).1 = false →
      (giga_parser_parse_number parser operand).2.2 = operand) := by
  unfold giga_parser_parse_number
  simp only []
  split_ifs
  · simp
  all_goals
    split
    · simp
    · split_ifs with hv
      · simp
      · simp only [giga_parser_advance_statements, Bool.true_eq_false, false_implies,
          and_true, forall_const, true_and]
        exact ⟨_, by omega, rfl⟩

theorem parse_label_reference_spec (parser : GigaParser) (operand : GigaOperand) :
    (giga_parser_parse_label_reference parser operand).2.1.statements = parser.statements ∧
    ((giga_parser_parse_label_reference parser operand).1 = true →
      ∃ n, (giga_parser_parse_label_reference parser operand).2.2 = GigaOperand.label n) ∧
    ((giga_parser_parse_label_reference parser operand).1 = false →
      (giga_parser_parse_label_reference parser operand).2.2 = operand) := by
  unfold giga_parser_parse_label_reference
  split_ifs <;> simp

theorem parse_memory_operand_spec (parser : GigaParser) (operand : GigaOperand) :
    (giga_parser_parse_memory_operand parser operand).2.1.statements = parser.statements ∧
    ((giga_parser_parse_memory_operand parser operand).1 = true →
      ∃ m, m ≤ 15 ∧
        (giga_parser_parse_memory_operand parser operand).2.2 = GigaOperand.memory m) ∧
    ((giga_parser_parse_memory_operand parser operand).1 = false →
      (giga_parser_parse_memory_operand parser operand).2.2 = operand) := by
  obtain ⟨hn1, hn2, hn3⟩ := parse_number_spec (giga_parser_advance parser) GigaOperand.none
  obtain ⟨hr1, hr2, hr3⟩ := parse_register_spec
    (giga_parser_parse_number (giga_parser_advance parser) GigaOperand.none).2.1
    (giga_parser_parse_number (giga_parser_advance parser) GigaOperand.none).2.2
  rw [giga_parser_advance_statements] at hn1
  rw [hn1] at hr1
  unfold giga_parser_parse_memory_operand
  simp only []
  by_cases hsym : current_is_symbol parser 91 = true
  · simp only [hsym, not_true_eq_false, ↓reduceIte]
    by_cases hnum : (giga_parser_parse_number (giga_parser_advance parser)
        GigaOperand.none).1 = true
    · obtain ⟨v, hv, hop⟩ := hn2 hnum
      simp only [hnum, ↓reduceIte, not_true_eq_false, hop]
      split_ifs
      · simp only [giga_parser_advance_statements, hn1, true_and, Bool.true_eq_false,
          false_implies, and_true, forall_const]
        exact ⟨v, hv, rfl⟩
      · simp [hn1]
    · simp only [Bool.not_eq_true] at hnum
      simp only [hnum, Bool.false_eq_true, ↓reduceIte]
      by_cases hreg : (giga_parser_parse_register
          (giga_parser_parse_number (giga_parser_advance parser) GigaOperand.none).2.1
          (giga_parser_parse_number (giga_parser_advance parser) GigaOperand.none).2.2).1 = true
      · obtain ⟨i, hi, hop⟩ := hr2 hreg
        simp only [hreg, not_true_eq_false, ↓reduceIte, hop]
        split_ifs
        · simp only [giga_parser_advance_statements, hr1, true_and, Bool.true_eq_false,
            false_implies, and_true, forall_const]
          exact ⟨i, by omega, rfl⟩
        · simp [hr1]
      · simp only [Bool.not_eq_true] at hreg
        simp [hreg, hr1]
  · simp [hsym]

theorem parse_operand_spec (parser : GigaParser) (operand : GigaOperand) :
    (giga_parser_parse_operand parser operand).2.1.statements = parser.statements ∧
    ((giga_parser_parse_operand parser operand).1 = true →
      operand_in_range (giga_parser_parse_operand parser operand).2.2) := by
  obtain ⟨hm1, hm2, hm3⟩ := parse_memory_operand_spec parser operand
  obtain ⟨hr1, hr2, hr3⟩ := parse_register_spec
    (giga_parser_parse_memory_operand parser operand).2.1
    (giga_parser_parse_memory_operand parser operand).2.2
  obtain ⟨hn1, hn2, hn3⟩ := parse_number_spec
    (giga_parser_parse_register (giga_parser_parse_memory_operand parser operand).2.1
      (giga_parser_parse_memory_operand parser operand).2.2).2.1
    (giga_parser_parse_register (giga_parser_parse_memory_operand parser operand).2.1
      (giga_parser_parse_memory_operand parser operand).2.2).2.2
  obtain ⟨hl1, hl2, hl3⟩ := parse_label_reference_spec
    (giga_parser_parse_number
      (giga_parser_parse_register (giga_parser_parse_memory_operand parser operand).2.1
        (giga_parser_parse_memory_operand parser operand).2.2).2.1
      (giga_parser_parse_register (giga_parser_parse_memory_operand parser operand).2.1
        (giga_parser_parse_memory_operand parser operand).2.2).2.2).2.1
    (giga_parser_parse_number
      (giga_parser_parse_register (giga_parser_parse_memory_operand parser operand).2.1
        (giga_parser_parse_memory_operand parser operand).2.2).2.1
      (giga_parser_parse_register (giga_parser_parse_memory_operand parser operand).2.1
        (giga_parser_parse_memory_operand parser operand).2.2).2.2).2.2
  unfold giga_parser_parse_operand
  simp only []
  split_ifs with h1 h2 h3 h4
  · obtain ⟨m, hm, hop⟩ := hm2 h1
    exact ⟨hm1, fun _ => by rw [hop]; exact hm⟩
  · obtain ⟨i, hi, hop⟩ := hr2 h2
    exact ⟨hr1.trans hm1, fun _ => by rw [hop]; exact hi⟩
  · obtain ⟨v, hv, hop⟩ := hn2 h3
    exact ⟨hn1.trans (hr1.trans hm1), fun _ => by rw [hop]; exact hv⟩
  · obtain ⟨n, hop⟩ := hl2 h4
    exact ⟨hl1.trans (hn1.trans (hr1.trans hm1)), fun _ => by rw [hop]; trivial⟩
  · exact ⟨hl1.trans (hn1.trans (hr1.trans hm1)), fun h => by simp at h⟩

@[simp] theorem giga_parser_append_statement_statements (parser : GigaParser)
    (stmt : GigaStatement) :
    (giga_parser_append_statement parser stmt).statements = parser.statements ++ [stmt] := rfl

theorem statements_in_range_append (statements : List GigaStatement) (stmt : GigaStatement)
    (h : statements_in_range statements) (hs : statement_in_range stmt) :
    statements_in_range (statements ++ [stmt]) := by
  intro x hx
  rw [List.mem_append, List.mem_singleton] at hx
  rcases hx with hx | rfl
  · exact h x hx
  · exact hs

theorem parse_instruction_loop_in_range (fuel : Nat) (parser parser' : GigaParser)
    (inst : GigaParsedInstruction) (hp : statements_in_range parser.statements)
    (hi : instruction_in_range inst)
    (h : giga_parser_parse_instruction_loop fuel parser inst = some parser') :
    statements_in_range parser'.statements := by
  induction fuel generalizing parser inst with
  | zero => simp [giga_parser_parse_instruction_loop] at h
  | succ fuel ih =>
    unfold giga_parser_parse_instruction_loop at h
    simp only [] at h
    have hp1 : (if parser.current_token.kind = GigaTokenKind.COMMA then
        giga_parser_advance parser else parser).statements = parser.statements := by
      split_ifs <;> rfl
    have hp2 : (if parser.current_token.kind = GigaTokenKind.NEWLINE then
        giga_parser_advance parser else parser).statements = parser.statements := by
      split_ifs <;> rfl
    generalize (if parser.current_token.kind = GigaTokenKind.COMMA then
        giga_parser_advance parser else parser) = parser1 at h hp1
    generalize (if parser.current_token.kind = GigaTokenKind.NEWLINE then
        giga_parser_advance parser else parser) = parser2 at h hp2
    obtain ⟨hs, hr⟩ := parse_operand_spec parser1 GigaOperand.none
    split_ifs at h with h1 h2 h3
    · simp only [Option.some.injEq] at h
      subst h
      simp only [giga_parser_append_statement_statements, giga_parser_error_statements, hp1]
      exact statements_in_range_append _ _ hp hi
    · refine ih _ _ (by rw [hs, hp1]; exact hp) ?_ h
      have hopnd := hr h3
      simp only [GigaParsedInstruction.operand_count, ge_iff_le, not_le,
        GIGA_MAX_OPERANDS] at h2
      refine ⟨by simp only [List.length_append, List.length_singleton, GIGA_MAX_OPERANDS]; omega,
        ?_⟩
      intro o ho
      rw [List.mem_append, List.mem_singleton] at ho
      rcases ho with ho | rfl
      · exact hi.2 o ho
      · exact hopnd
    · simp only [Option.some.injEq] at h
      subst h
      simp only [giga_parser_append_statement_statements, giga_parser_error_statements, hs,
        hp1]
      exact statements_in_range_append _ _ hp hi
    · simp only [Option.some.injEq] at h
      subst h
      simp only [giga_parser_append_statement_statements, hp2]
      exact statements_in_range_append _ _ hp hi

theorem parse_instruction_in_range (parser parser' : GigaParser)
    (hp : statements_in_range parser.statements)
    (h : giga_parser_parse_instruction parser = some parser') :
    statements_in_range parser'.statements := by
  unfold giga_parser_parse_instruction at h
  split_ifs at h
  · simp only [Option.some.injEq] at h
    subst h
    exact hp
  · refine parse_instruction_loop_in_range _ (giga_parser_advance parser) _ _ hp ?_ h
    exact ⟨by simp [GIGA_MAX_OPERANDS], by simp⟩

theorem parse_label_in_range (parser : GigaParser)
    (hp : statements_in_range parser.statements) :
    statements_in_range (giga_parser_parse_label parser).statements := by
  unfold giga_parser_parse_label
  simp only []
  split_ifs <;>
    simp only [giga_parser_error_statements, giga_parser_advance_statements,
      giga_parser_append_statement_statements]
  · exact hp
  all_goals exact statements_in_range_append _ _ hp trivial

theorem skip_line_statements (fuel : Nat) (parser parser' : GigaParser)
    (h : giga_parser_skip_line fuel parser = some parser') :
    parser'.statements = parser.statements := by
  induction fuel generalizing parser with
  | zero => simp [giga_parser_skip_line] at h
  | succ fuel ih =>
    unfold giga_parser_skip_line at h
    split_ifs at h
    · rw [ih _ h, giga_parser_advance_statements]
    · simp only [Option.some.injEq] at h
      rw [← h]

theorem parse_directive_in_range (parser parser' : GigaParser)
    (hp : statements_in_range parser.statements)
    (h : giga_parser_parse_directive parser = some parser') :
    statements_in_range parser'.statements := by
  unfold giga_parser_parse_directive at h
  split_ifs at h
  · simp only [Option.some.injEq] at h
    subst h
    exact hp
  · split at h
    · simp at h
    · rename_i parser1 hskip
      simp only [Option.some.injEq] at h
      have hst := skip_line_statements _ _ _ hskip
      simp only [giga_parser_advance_statements, giga_parser_append_statement_statements]
        at hst
      have : parser'.statements = parser1.statements := by
        rw [← h]; split_ifs <;> rfl
      rw [this, hst]
      exact statements_in_range_append _ _ hp trivial

theorem parse_loop_in_range (fuel : Nat) (parser : GigaParser) (out : Nat × GigaParser)
    (hp : statements_in_range parser.statements)
    (h : giga_parser_parse_loop fuel parser = some out) :
    statements_in_range out.2.statements := by
  induction fuel generalizing parser with
  | zero => simp [giga_parser_parse_loop] at h
  | succ fuel ih =>
    unfold giga_parser_parse_loop at h
    split_ifs at h
    · simp only [Option.some.injEq] at h
      subst h
      exact hp
    · exact ih _ (by simpa using hp) h
    · split at h
      · simp at h
      · rename_i parser1 hd
        exact ih _ (parse_directive_in_range _ _ hp hd) h
    · exact ih _ (parse_label_in_range _ hp) h
    · split at h
      · simp at h
      · rename_i parser1 hd
        exact ih _ (parse_instruction_in_range _ _ hp hd) h
    all_goals
      simp only [Option.some.injEq] at h
      subst h
      exact hp

/-- Every statement list the parser hands over satisfies the range
conditions. -/
theorem parse_source_in_range (source : List Nat) (out : Nat × GigaParser)
    (h : parse_source source = some out) : statements_in_range out.2.statements := by
  unfold parse_source giga_parser_parse at h
  refine parse_loop_in_range _ _ _ ?_ h
  intro stmt hstmt
  simp [giga_parser_init] at hstmt

/-! ### Termination of the parser within its iteration bounds -/

@[simp] theorem parser_measure_error (parser : GigaParser) (message : String)
    (line column : Nat) :
    parser_measure (giga_parser_error parser message line column) = parser_measure parser :=
  rfl

@[simp] theorem parser_measure_append (parser : GigaParser) (stmt : GigaStatement) :
    parser_measure (giga_parser_append_statement parser stmt) = parser_measure parser := rfl

theorem parser_measure_lt_fuel (parser : GigaParser) :
    parser_measure parser < giga_parser_fuel parser := by
  unfold parser_measure giga_parser_fuel
  split_ifs <;> omega

theorem advance_measure_le (parser : GigaParser) :
    parser_measure (giga_parser_advance parser) ≤ parser_measure parser := by
  have hle := next_token_remaining_le parser.lexer
  have hlt := next_token_remaining_lt parser.lexer
  unfold parser_measure giga_parser_advance
  simp only []
  by_cases hk : (giga_lexer_next_token parser.lexer).1.kind = GigaTokenKind.EOF
  · split_ifs <;> omega
  · have hlt' := hlt hk
    split_ifs <;> omega

theorem advance_measure_lt (parser : GigaParser)
    (h : parser.current_token.kind ≠ GigaTokenKind.EOF) :
    parser_measure (giga_parser_advance parser) < parser_measure parser := by
  have hle := next_token_remaining_le parser.lexer
  have hlt := next_token_remaining_lt parser.lexer
  unfold parser_measure giga_parser_advance
  simp only []
  by_cases hk : (giga_lexer_next_token parser.lexer).1.kind = GigaTokenKind.EOF
  · split_ifs <;> omega
  · have hlt' := hlt hk
    split_ifs <;> omega

theorem parse_register_measure (parser : GigaParser) (operand : GigaOperand) :
    parser_measure (giga_parser_parse_register parser operand).2.1 ≤ parser_measure parser ∧
    ((giga_parser_parse_register parser operand).1 = true →
      parser_measure (giga_parser_parse_register parser operand).2.1
        < parser_measure parser) := by
  unfold giga_parser_parse_register
  simp only []
  split_ifs with h1 <;>
    simp only [Bool.false_eq_true, false_implies, and_true, le_refl, forall_const]
  have hk : parser.current_token.kind ≠ GigaTokenKind.EOF := by
    simp only [ne_eq, Decidable.not_not] at h1
    rw [h1]; decide
  exact ⟨advance_measure_le _, advance_measure_lt _ hk⟩

theorem parse_number_measure (parser : GigaParser) (operand : GigaOperand) :
    parser_measure (giga_parser_parse_number parser operand).2.1 ≤ parser_measure parser ∧
    ((giga_parser_parse_number parser operand).1 = true →
      parser_measure (giga_parser_parse_number parser operand).2.1
        < parser_measure parser) := by
  unfold giga_parser_parse_number
  simp only []
  split_ifs with h1
  · simp
  all_goals
    have hk : parser.current_token.kind ≠ GigaTokenKind.EOF := by
      simp only [ne_eq, Decidable.not_not] at h1
      rw [h1]; decide
    split
    · simp
    · split_ifs
      · simp
      · exact ⟨advance_measure_le _, fun _ => advance_measure_lt _ hk⟩

theorem parse_label_reference_measure (parser : GigaParser) (operand : GigaOperand) :
    parser_measure (giga_parser_parse_label_reference parser operand).2.1
        ≤ parser_measure parser ∧
    ((giga_parser_parse_label_reference parser operand).1 = true →
      parser_measure (giga_parser_parse_label_reference parser operand).2.1
        < parser_measure parser) := by
  unfold giga_parser_parse_label_reference
  split_ifs with h1
  · simp
  · have hk : parser.current_token.kind ≠ GigaTokenKind.EOF := by
      simp only [ne_eq, Decidable.not_not] at h1
      rw [h1]; decide
    exact ⟨advance_measure_le _, fun _ => advance_measure_lt _ hk⟩

theorem parse_memory_operand_measure (parser : GigaParser) (operand : GigaOperand) :
    parser_measure (giga_parser_parse_memory_operand parser operand).2.1
        ≤ parser_measure parser ∧
    ((giga_parser_parse_memory_operand parser operand).1 = true →
      parser_measure (giga_parser_parse_memory_operand parser operand).2.1
        < parser_measure parser) := by
  have hn := (parse_number_measure (giga_parser_advance parser) GigaOperand.none).1
  have hr := (parse_register_measure
    (giga_parser_parse_number (giga_parser_advance parser) GigaOperand.none).2.1
    (giga_parser_parse_number (giga_parser_advance parser) GigaOperand.none).2.2).1
  unfold giga_parser_parse_memory_operand
  simp only []
  by_cases hsym : current_is_symbol parser 91 = true
  · have hk : parser.current_token.kind ≠ GigaTokenKind.EOF := by
      simp only [current_is_symbol, Bool.decide_and, Bool.and_eq_true,
        decide_eq_true_eq] at hsym
      rw [hsym.1]; decide
    have ha := advance_measure_lt parser hk
    simp only [hsym, not_true_eq_false, ↓reduceIte]
    generalize giga_parser_parse_number (giga_parser_advance parser) GigaOperand.none
      = number at hn hr ⊢
    generalize giga_parser_parse_register number.2.1 number.2.2 = register at hr ⊢
    have hadv1 := advance_measure_le number.2.1
    have hadv2 := advance_measure_le register.2.1
    split_ifs <;>
      simp only [parser_measure_error, Bool.false_eq_true, false_implies, and_true,
        forall_const] <;>
      omega
  · simp [hsym]

theorem parse_operand_measure (parser : GigaParser) (operand : GigaOperand) :
    parser_measure (giga_parser_parse_operand parser operand).2.1 ≤ parser_measure parser ∧
    ((giga_parser_parse_operand parser operand).1 = true →
      parser_measure (giga_parser_parse_operand parser operand).2.1
        < parser_measure parser) := by
  have hm := parse_memory_operand_measure parser operand
  unfold giga_parser_parse_operand
  simp only []
  generalize giga_parser_parse_memory_operand parser operand = memory at hm ⊢
  have hr := parse_register_measure memory.2.1 memory.2.2
  generalize giga_parser_parse_register memory.2.1 memory.2.2 = register at hr ⊢
  have hn := parse_number_measure register.2.1 register.2.2
  generalize giga_parser_parse_number register.2.1 register.2.2 = number at hn ⊢
  have hl := parse_label_reference_measure number.2.1 number.2.2
  generalize giga_parser_parse_label_reference number.2.1 number.2.2 = label at hl ⊢
  split_ifs with h1 h2 h3 h4
  · exact ⟨hm.1, fun _ => hm.2 h1⟩
  · exact ⟨hr.1.trans hm.1, fun _ => lt_of_lt_of_le (hr.2 h2) hm.1⟩
  · exact ⟨hn.1.trans (hr.1.trans hm.1),
      fun _ => lt_of_lt_of_le (hn.2 h3) (hr.1.trans hm.1)⟩
  · exact ⟨hl.1.trans (hn.1.trans (hr.1.trans hm.1)),
      fun _ => lt_of_lt_of_le (hl.2 h4) (hn.1.trans (hr.1.trans hm.1))⟩
  · exact ⟨hl.1.trans (hn.1.trans (hr.1.trans hm.1)), fun h => by simp at h⟩

theorem parse_instruction_loop_total (fuel : Nat) (parser : GigaParser)
    (inst : GigaParsedInstruction) (h : parser_measure parser < fuel) :
    ∃ parser', giga_parser_parse_instruction_loop fuel parser inst = some parser' ∧
      parser_measure parser' ≤ parser_measure parser := by
  induction fuel generalizing parser inst with
  | zero => omega
  | succ fuel ih =>
    unfold giga_parser_parse_instruction_loop
    simp only []
    have hc : parser_measure (if parser.current_token.kind = GigaTokenKind.COMMA then
        giga_parser_advance parser else parser) ≤ parser_measure parser := by
      split_ifs
      · exact advance_measure_le _
      · exact le_refl _
    have hn : parser_measure (if parser.current_token.kind = GigaTokenKind.NEWLINE then
        giga_parser_advance parser else parser) ≤ parser_measure parser := by
      split_ifs
      · exact advance_measure_le _
      · exact le_refl _
    generalize (if parser.current_token.kind = GigaTokenKind.COMMA then
        giga_parser_advance parser else parser) = parser1 at hc ⊢
    generalize (if parser.current_token.kind = GigaTokenKind.NEWLINE then
        giga_parser_advance parser else parser) = parser2 at hn ⊢
    obtain ⟨ho1, ho2⟩ := parse_operand_measure parser1 GigaOperand.none
    split_ifs with h1 h2 h3
    · exact ⟨_, rfl, by simpa using hc⟩
    · have hlt := ho2 h3
      obtain ⟨parser', hp', hm'⟩ := ih (giga_parser_parse_operand parser1 GigaOperand.none).2.1
        { inst with operands := inst.operands ++
            [(giga_parser_parse_operand parser1 GigaOperand.none).2.2] } (by omega)
      exact ⟨parser', hp', by omega⟩
    · exact ⟨_, rfl, by simpa using ho1.trans hc⟩
    · exact ⟨_, rfl, by simpa using hn⟩

theorem parse_instruction_total (parser : GigaParser)
    (hk : parser.current_token.kind = GigaTokenKind.IDENTIFIER) :
    ∃ parser', giga_parser_parse_instruction parser = some parser' ∧
      parser_measure parser' < parser_measure parser := by
  unfold giga_parser_parse_instruction
  rw [if_neg (by simp [hk])]
  have ha : parser_measure (giga_parser_advance parser) < parser_measure parser :=
    advance_measure_lt parser (by rw [hk]; decide)
  have hf := parser_measure_lt_fuel parser
  obtain ⟨parser', hp', hm'⟩ := parse_instruction_loop_total (giga_parser_fuel parser)
    (giga_parser_advance parser)
    { mnemonic_text := token_text parser parser.current_token, operands := [],
      source_line := parser.current_token.line_number,
      source_column := parser.current_token.column_number } (by omega)
  exact ⟨parser', hp', by omega⟩

theorem parse_label_measure (parser : GigaParser)
    (hk : parser.current_token.kind = GigaTokenKind.IDENTIFIER) :
    parser_measure (giga_parser_parse_label parser) < parser_measure parser := by
  unfold giga_parser_parse_label
  simp only []
  rw [if_neg (by simp [hk])]
  have ha : parser_measure (giga_parser_advance (giga_parser_append_statement parser
      (GigaStatement.label
        { label_name := token_text parser parser.current_token
          source_line := parser.current_token.line_number
          source_column := parser.current_token.column_number })))
      < parser_measure parser := by
    have := advance_measure_lt (giga_parser_append_statement parser
      (GigaStatement.label
        { label_name := token_text parser parser.current_token
          source_line := parser.current_token.line_number
          source_column := parser.current_token.column_number }))
      (by show parser.current_token.kind ≠ GigaTokenKind.EOF; rw [hk]; decide)
    simpa using this
  generalize giga_parser_advance (giga_parser_append_statement parser
      (GigaStatement.label
        { label_name := token_text parser parser.current_token
          source_line := parser.current_token.line_number
          source_column := parser.current_token.column_number })) = parser1 at ha ⊢
  have h2 := advance_measure_le parser1
  have h3 := advance_measure_le (giga_parser_advance parser1)
  split_ifs <;> (try simp only [parser_measure_error]) <;> omega

theorem skip_line_total (fuel : Nat) (parser : GigaParser)
    (h : parser_measure parser < fuel) :
    ∃ parser', giga_parser_skip_line fuel parser = some parser' ∧
      parser_measure parser' ≤ parser_measure parser := by
  induction fuel generalizing parser with
  | zero => omega
  | succ fuel ih =>
    unfold giga_parser_skip_line
    split_ifs with h1
    · have hlt := advance_measure_lt parser h1.2
      obtain ⟨parser', hp', hm'⟩ := ih (giga_parser_advance parser) (by omega)
      exact ⟨parser', hp', by omega⟩
    · exact ⟨parser, rfl, le_refl _⟩

theorem parse_directive_total (parser : GigaParser)
    (hk : parser.current_token.kind = GigaTokenKind.DIRECTIVE) :
    ∃ parser', giga_parser_parse_directive parser = some parser' ∧
      parser_measure parser' < parser_measure parser := by
  unfold giga_parser_parse_directive
  rw [if_neg (by simp [hk])]
  have ha : parser_measure (giga_parser_advance (giga_parser_append_statement parser
      (GigaStatement.directive
        { directive_name := token_text parser parser.current_token
          source_line := parser.current_token.line_number
          source_column := parser.current_token.column_number })))
      < parser_measure parser := by
    have := advance_measure_lt (giga_parser_append_statement parser
      (GigaStatement.directive
        { directive_name := token_text parser parser.current_token
          source_line := parser.current_token.line_number
          source_column := parser.current_token.column_number }))
      (by show parser.current_token.kind ≠ GigaTokenKind.EOF; rw [hk]; decide)
    simpa using this
  have hf := parser_measure_lt_fuel parser
  obtain ⟨parser1, hp1, hm1⟩ := skip_line_total (giga_parser_fuel parser) _
    (lt_trans ha hf)
  rw [hp1]
  refine ⟨_, rfl, ?_⟩
  have h2 := advance_measure_le parser1
  split_ifs <;> omega

theorem parse_loop_total (fuel : Nat) (parser : GigaParser)
    (h : parser_measure parser < fuel) :
    ∃ out, giga_parser_parse_loop fuel parser = some out := by
  induction fuel generalizing parser with
  | zero => omega
  | succ fuel ih =>
    unfold giga_parser_parse_loop
    split_ifs with h1 h2 h3 h4 h5 h6
    · exact ⟨_, rfl⟩
    · have := advance_measure_lt parser h1
      exact ih _ (by omega)
    · obtain ⟨parser1, hp1, hm1⟩ := parse_directive_total parser h4
      rw [hp1]
      exact ih _ (by omega)
    · have := parse_label_measure parser h5
      exact ih _ (by omega)
    · obtain ⟨parser1, hp1, hm1⟩ := parse_instruction_total parser h5
      rw [hp1]
      exact ih _ (by omega)
    all_goals exact ⟨_, rfl⟩

/-- The parser returns within its iteration bounds, whatever the state. -/
theorem giga_parser_parse_total (parser : GigaParser) :
    ∃ out, giga_parser_parse parser = some out :=
  parse_loop_total _ _ (parser_measure_lt_fuel parser)

/-- Lexer and parser return a result on every source text. -/
theorem parse_source_total (source : List Nat) : ∃ out, parse_source source = some out :=
  giga_parser_parse_total _

/-! ### The operand switch against the opcode table -/

theorem operands_two (ops : List GigaOperand) (h : ¬ ops.length < 2) :
    ∃ rest, ops = ops.getD 0 GigaOperand.none :: ops.getD 1 GigaOperand.none :: rest := by
  rcases ops with _ | ⟨o0, _ | ⟨o1, rest⟩⟩
  · simp at h
  · simp at h
  · exact ⟨rest, by simp⟩

theorem operands_one (ops : List GigaOperand) (h : ¬ ops.length < 1) :
    ∃ rest, ops = ops.getD 0 GigaOperand.none :: rest := by
  rcases ops with _ | ⟨o0, rest⟩
  · simp at h
  · exact ⟨rest, by simp⟩

theorem operand_getD_in_range (ops : List GigaOperand) (k : Nat)
    (h : ∀ o ∈ ops, operand_in_range o) : operand_in_range (ops.getD k GigaOperand.none) := by
  rw [List.getD_eq_getElem?_getD]
  cases hk : ops[k]? with
  | none => trivial
  | some o => exact h o (List.getElem?_mem hk)

theorem ite_some_cases {c : Prop} [Decidable c] {a o : Nat} {x : Option Nat}
    (h : (if c then some a else x) = some o) : a = o ∨ x = some o := by
  split_ifs at h
  · exact Or.inl (Option.some.inj h)
  · exact Or.inr h

theorem mnemonic_to_opcode_lt (mnemonic : List Nat) (opcode : Nat)
    (h : mnemonic_to_opcode mnemonic = some opcode) : opcode < 16 := by
  unfold mnemonic_to_opcode at h
  rcases ite_some_cases h with h' | h
  · rw [← h']; decide
  rcases ite_some_cases h with h' | h
  · rw [← h']; decide
  rcases ite_some_cases h with h' | h
  · rw [← h']; decide
  rcases ite_some_cases h with h' | h
  · rw [← h']; decide
  rcases ite_some_cases h with h' | h
  · rw [← h']; decide
  rcases ite_some_cases h with h' | h
  · rw [← h']; decide
  rcases ite_some_cases h with h' | h
  · rw [← h']; decide
  rcases ite_some_cases h with h' | h
  · rw [← h']; decide
  rcases ite_some_cases h with h' | h
  · rw [← h']; decide
  rcases ite_some_cases h with h' | h
  · rw [← h']; decide
  rcases ite_some_cases h with h' | h
  · rw [← h']; decide
  rcases ite_some_cases h with h' | h
  · rw [← h']; decide
  rcases ite_some_cases h with h' | h
  · rw [← h']; decide
  rcases ite_some_cases h with h' | h
  · rw [← h']; decide
  rcases ite_some_cases h with h' | h
  · rw [← h']; decide
  cases h

/-- Whenever the operand switch of pass 2 accepts an instruction whose operands
are in range, against a table whose addresses fit 12 bits, the fields it
computes are those of the opcode table and each fits its nibble. -/
theorem switch_agrees_with_table (label_table : List LabelEntry) (opcode : Nat)
    (inst : GigaParsedInstruction) (dest src imm4 : Nat)
    (hi : ∀ o ∈ inst.operands, operand_in_range o)
    (htbl : ∀ name, label_table_find label_table name = 0xFFFF ∨
      label_table_find label_table name < 4096)
    (h : assemble_pass2_switch label_table opcode inst = .ok (dest, src, imm4)) :
    spec_field_mapping (label_table_find label_table) opcode inst.operands
        = some (dest, src, imm4) ∧
      dest < 16 ∧ src < 16 ∧ imm4 < 16 := by
  have h0 := operand_getD_in_range inst.operands 0 hi
  have h1 := operand_getD_in_range inst.operands 1 hi
  rcases Nat.lt_or_ge opcode 16 with hlt | hge
  · interval_cases opcode <;>
      simp only [assemble_pass2_switch, spec_field_mapping, GIGA_OP_JMP, GIGA_OP_NOP,
        GIGA_OP_MOVI, GIGA_OP_MOV, GIGA_OP_ADD, GIGA_OP_SUB, GIGA_OP_AND, GIGA_OP_OR,
        GIGA_OP_XOR, GIGA_OP_NOT, GIGA_OP_SHL, GIGA_OP_SHR, GIGA_OP_LD, GIGA_OP_ST,
        GIGA_OP_HALT, GigaParsedInstruction.operand_count, ↓reduceIte, Nat.reduceEqDiff,
        or_false, false_or, or_true, true_or, or_self] at h ⊢
    case «13» =>
      split_ifs at h with hlen
      obtain ⟨rest, hops⟩ := operands_one _ hlen
      generalize inst.operands.getD 0 GigaOperand.none = o0 at h h0 hops
      rw [hops]
      cases o0 with
      | label name =>
        simp only at h ⊢
        split_ifs at h with hund
        rcases htbl name with ht | ht
        · exact absurd ht hund
        · simp only [and_15_eq_mod, Nat.shiftRight_eq_div_pow, Except.ok.injEq,
            Prod.mk.injEq] at h
          simp only [Option.some.injEq, Prod.mk.injEq]
          omega
      | immediate target =>
        simp only [operand_in_range] at h0
        simp only [and_15_eq_mod, Nat.shiftRight_eq_div_pow, Except.ok.injEq,
          Prod.mk.injEq] at h
        simp only [Option.some.injEq, Prod.mk.injEq]
        omega
      | none => simp at h
      | register r => simp at h
      | memory m => simp at h
    all_goals first
      | (cases h; done)
      | (simp only [Except.ok.injEq, Prod.mk.injEq] at h
         simp only [Option.some.injEq, Prod.mk.injEq]
         omega)
      | (split_ifs at h with hlen
         obtain ⟨rest, hops⟩ := operands_two _ hlen
         generalize inst.operands.getD 0 GigaOperand.none = o0 at h h0 hops
         generalize inst.operands.getD 1 GigaOperand.none = o1 at h h1 hops
         rw [hops]
         cases o0 <;> cases o1 <;>
           (simp only [operand_in_range, and_15_eq_mod, Nat.shiftRight_eq_div_pow,
             Except.ok.injEq, Prod.mk.injEq, reduceCtorEq, Option.some.injEq] at h h0 h1 ⊢
            all_goals omega))
      | (split_ifs at h with hlen
         obtain ⟨rest, hops⟩ := operands_one _ hlen
         generalize inst.operands.getD 0 GigaOperand.none = o0 at h h0 hops
         rw [hops]
         cases o0 <;>
           (simp only [operand_in_range, Except.ok.injEq, Prod.mk.injEq, reduceCtorEq,
             Option.some.injEq] at h h0 ⊢
            all_goals omega))
  · have hne : ∀ k, k < 16 → ¬ opcode = k := fun k hk => by omega
    simp only [assemble_pass2_switch, GIGA_OP_JMP, GIGA_OP_NOP,
      GIGA_OP_MOVI, GIGA_OP_MOV, GIGA_OP_ADD, GIGA_OP_SUB, GIGA_OP_AND, GIGA_OP_OR,
      GIGA_OP_XOR, GIGA_OP_NOT, GIGA_OP_SHL, GIGA_OP_SHR, GIGA_OP_LD, GIGA_OP_ST,
      GIGA_OP_HALT, hne 0 (by decide), hne 1 (by decide), hne 2 (by decide),
      hne 3 (by decide), hne 4 (by decide), hne 5 (by decide), hne 6 (by decide),
      hne 7 (by decide), hne 8 (by decide), hne 9 (by decide), hne 10 (by decide),
      hne 11 (by decide), hne 12 (by decide), hne 13 (by decide), hne 15 (by decide),
      ↓reduceIte, or_self] at h
    cases h

/-! ### Codec claims -/

/-- C2: for opcode, dest, src and imm4 in 0..15 the encoder yields the word
`opcode<<12 | dest<<8 | src<<4 | imm4`, and decoding that word returns exactly
that opcode, `dest_reg = dest`, `src_reg = src` and `imm4 = imm4`. -/
theorem C2_decode_encode_roundtrip (opcode dest src imm4 : Nat) (ho : opcode ≤ 15)
    (hd : dest ≤ 15) (hs : src ≤ 15) (hi : imm4 ≤ 15) :
    encode_instruction opcode dest src imm4
        = (opcode <<< 12 ||| dest <<< 8 ||| src <<< 4 ||| imm4) ∧
      (giga_decode_instruction (encode_instruction opcode dest src imm4)).opcode = opcode ∧
      (giga_decode_instruction (encode_instruction opcode dest src imm4)).dest_reg = dest ∧
      (giga_decode_instruction (encode_instruction opcode dest src imm4)).src_reg = src ∧
      (giga_decode_instruction (encode_instruction opcode dest src imm4)).imm4 = imm4 := by
  have hdec := decode_encode opcode dest src imm4 (by omega) (by omega) (by omega) (by omega)
  refine ⟨?_, ?_, ?_, ?_, ?_⟩
  · unfold encode_instruction
    rw [pack_eq_sum opcode dest src imm4 (by omega) (by omega) (by omega)]
    omega
  all_goals rw [hdec]

theorem C2_decode_encode_roundtrip_witness :
    encode_instruction 2 0 0 15 = (2 <<< 12 ||| 0 <<< 8 ||| 0 <<< 4 ||| 15) ∧
      (giga_decode_instruction (encode_instruction 2 0 0 15)).opcode = 2 ∧
      (giga_decode_instruction (encode_instruction 2 0 0 15)).dest_reg = 0 ∧
      (giga_decode_instruction (encode_instruction 2 0 0 15)).src_reg = 0 ∧
      (giga_decode_instruction (encode_instruction 2 0 0 15)).imm4 = 15 :=
  C2_decode_encode_roundtrip 2 0 0 15 (by decide) (by decide) (by decide) (by decide)

/-- C3: for every 16-bit word `w` the decoder returns `raw = w`, opcode = bits
15..12, `dest_reg` = bits 11..8, `src_reg` = bits 7..4 and `imm4` = bits 3..0
of `w` (as quotients and remainders, and bit by bit); the decoder is a total
function, so no word is rejected; `0x2005` decodes to MOVI, dest 0, imm4 5 and
`0x3102` to ADD, dest 1, src 0, imm4 2. -/
theorem C3_decode_splits_nibbles (w : Nat) (hw : w < 65536) :
    giga_decode_instruction w
        = { raw := w, opcode := w / 4096, dest_reg := w / 256 % 16,
            src_reg := w / 16 % 16, imm4 := w % 16 } ∧
      (∀ j, j < 4 →
        (giga_decode_instruction w).opcode.testBit j = w.testBit (12 + j) ∧
        (giga_decode_instruction w).dest_reg.testBit j = w.testBit (8 + j) ∧
        (giga_decode_instruction w).src_reg.testBit j = w.testBit (4 + j) ∧
        (giga_decode_instruction w).imm4.testBit j = w.testBit j) ∧
      giga_decode_instruction 0x2005
        = { raw := 0x2005, opcode := GIGA_OP_MOVI, dest_reg := 0, src_reg := 0, imm4 := 5 } ∧
      giga_decode_instruction 0x3102
        = { raw := 0x3102, opcode := GIGA_OP_ADD, dest_reg := 1, src_reg := 0, imm4 := 2 } := by
  refine ⟨?_, ?_, by decide, by decide⟩
  · rw [decode_eq_div_mod]
    congr 1
    omega
  · intro j hj
    have h16 : (16 : Nat) = 2 ^ 4 := by norm_num
    have h4096 : (4096 : Nat) = 2 ^ 12 := by norm_num
    have h256 : (256 : Nat) = 2 ^ 8 := by norm_num
    rw [decode_eq_div_mod]
    have e12 : w / 2 ^ 12 = w >>> 12 := (Nat.shiftRight_eq_div_pow w 12).symm
    have e8 : w / 2 ^ 8 = w >>> 8 := (Nat.shiftRight_eq_div_pow w 8).symm
    have e4 : w / 2 ^ 4 = w >>> 4 := (Nat.shiftRight_eq_div_pow w 4).symm
    simp only [h16, h4096, h256, Nat.testBit_mod_two_pow, hj, decide_True, Bool.true_and,
      e12, e8, e4, Nat.testBit_shiftRight, and_self]

theorem C3_decode_splits_nibbles_witness :
    giga_decode_instruction 0xD07F
        = { raw := 0xD07F, opcode := 0xD07F / 4096, dest_reg := 0xD07F / 256 % 16,
            src_reg := 0xD07F / 16 % 16, imm4 := 0xD07F % 16 } ∧
      (∀ j, j < 4 →
        (giga_decode_instruction 0xD07F).opcode.testBit j = (0xD07F).testBit (12 + j) ∧
        (giga_decode_instruction 0xD07F).dest_reg.testBit j = (0xD07F).testBit (8 + j) ∧
        (giga_decode_instruction 0xD07F).src_reg.testBit j = (0xD07F).testBit (4 + j) ∧
        (giga_decode_instruction 0xD07F).imm4.testBit j = (0xD07F).testBit j) ∧
      giga_decode_instruction 0x2005
        = { raw := 0x2005, opcode := GIGA_OP_MOVI, dest_reg := 0, src_reg := 0, imm4 := 5 } ∧
      giga_decode_instruction 0x3102
        = { raw := 0x3102, opcode := GIGA_OP_ADD, dest_reg := 1, src_reg := 0, imm4 := 2 } :=
  C3_decode_splits_nibbles 0xD07F (by decide)

/-! ### Assembling one instruction -/

theorem giga_assemble_single (label_table : List LabelEntry) (result : GigaAssemblerResult)
    (inst : GigaParsedInstruction) (opcode dest src imm4 : Nat)
    (hm : mnemonic_to_opcode inst.mnemonic_text = some opcode)
    (hs : assemble_pass2_switch [] opcode inst = .ok (dest, src, imm4)) :
    giga_assemble label_table [GigaStatement.instruction inst] result
      = (0,
          { bytecode := some ((List.replicate 128 0).set 0
              (encode_instruction opcode dest src imm4))
            word_count := 1, has_error := 0, error_message := Option.none,
            error_line := 0, error_column := 0 },
          []) := by
  simp [giga_assemble, assemble_pass1, assemble_pass1_loop, assemble_pass2,
    assemble_pass2_loop, hm, hs, label_table_free, GIGA_ASSEMBLER_MAX_WORDS]

theorem giga_assemble_single_decoded (label_table : List LabelEntry)
    (result : GigaAssemblerResult) (mnemonic : String) (operands : List GigaOperand)
    (line column opcode dest src imm4 : Nat)
    (hm : mnemonic_to_opcode (bytes mnemonic) = some opcode)
    (hs : assemble_pass2_switch [] opcode
      { mnemonic_text := bytes mnemonic, operands := operands, source_line := line,
        source_column := column } = .ok (dest, src, imm4))
    (ho : opcode < 16) (hd : dest < 16) (hsr : src < 16) (hi : imm4 < 16) :
    (giga_assemble label_table (single_instruction mnemonic operands line column) result).1 = 0 ∧
    (giga_assemble label_table (single_instruction mnemonic operands line column)
      result).2.1.has_error = 0 ∧
    (giga_assemble label_table (single_instruction mnemonic operands line column)
      result).2.1.word_count = 1 ∧
    giga_decode_instruction (bytecode_word (giga_assemble label_table
      (single_instruction mnemonic operands line column) result).2.1 0)
      = { raw := opcode * 4096 + dest * 256 + src * 16 + imm4, opcode := opcode,
          dest_reg := dest, src_reg := src, imm4 := imm4 } := by
  unfold single_instruction
  rw [giga_assemble_single label_table result _ opcode dest src imm4 hm hs]
  refine ⟨rfl, rfl, rfl, ?_⟩
  have hw : bytecode_word
      { bytecode := some ((List.replicate 128 0).set 0
          (encode_instruction opcode dest src imm4))
        word_count := 1, has_error := 0, error_message := Option.none,
        error_line := 0, error_column := 0 } 0 = encode_instruction opcode dest src imm4 := by
    rfl
  simp only [hw]
  rw [decode_encode opcode dest src imm4 ho hd hsr hi,
    encode_instruction_eq_sum opcode dest src imm4 ho hd hsr hi]

/-- C5: for each of ADD, SUB, AND, OR, XOR (table opcodes 3, 4, 5, 6, 7) and all
register indices a, b in 0..15, assembling the single instruction `M a, b`
succeeds with exactly one word, which decodes to the table opcode of M,
`dest_reg = a`, `src_reg = b` and `imm4 = 0`. -/
theorem C5_alu_register_pair_encoding (label_table : List LabelEntry)
    (result : GigaAssemblerResult) (M : String) (op a b line column : Nat)
    (hM : (M, op) ∈ alu_mnemonics) (ha : a ≤ 15) (hb : b ≤ 15) :
    (giga_assemble label_table
      (single_instruction M [.register a, .register b] line column) result).1 = 0 ∧
    (giga_assemble label_table
      (single_instruction M [.register a, .register b] line column) result).2.1.has_error = 0 ∧
    (giga_assemble label_table
      (single_instruction M [.register a, .register b] line column) result).2.1.word_count = 1 ∧
    giga_decode_instruction (bytecode_word (giga_assemble label_table
      (single_instruction M [.register a, .register b] line column) result).2.1 0)
      = { raw := op * 4096 + a * 256 + b * 16 + 0, opcode := op, dest_reg := a,
          src_reg := b, imm4 := 0 } := by
  simp only [alu_mnemonics, List.mem_cons, Prod.mk.injEq, List.mem_singleton,
    List.not_mem_nil, or_false] at hM
  rcases hM with ⟨rfl, rfl⟩ | ⟨rfl, rfl⟩ | ⟨rfl, rfl⟩ | ⟨rfl, rfl⟩ | ⟨rfl, rfl⟩ <;>
    exact giga_assemble_single_decoded label_table result _ _ line column _ a b 0
      (by decide) (by simp [assemble_pass2_switch, GigaParsedInstruction.operand_count,
        GIGA_OP_NOP, GIGA_OP_MOVI, GIGA_OP_MOV, GIGA_OP_ADD, GIGA_OP_SUB, GIGA_OP_AND,
        GIGA_OP_OR, GIGA_OP_XOR])
      (by omega) (by omega) (by omega) (by omega)

theorem C5_alu_register_pair_encoding_witness :
    (giga_assemble [] (single_instruction "XOR" [.register 15, .register 9] 1 1)
      empty_result).1 = 0 ∧
    (giga_assemble [] (single_instruction "XOR" [.register 15, .register 9] 1 1)
      empty_result).2.1.has_error = 0 ∧
    (giga_assemble [] (single_instruction "XOR" [.register 15, .register 9] 1 1)
      empty_result).2.1.word_count = 1 ∧
    giga_decode_instruction (bytecode_word (giga_assemble []
      (single_instruction "XOR" [.register 15, .register 9] 1 1) empty_result).2.1 0)
      = { raw := 7 * 4096 + 15 * 256 + 9 * 16 + 0, opcode := 7, dest_reg := 15,
          src_reg := 9, imm4 := 0 } :=
  C5_alu_register_pair_encoding [] empty_result "XOR" 7 15 9 1 1 (by decide) (by decide)
    (by decide)

/-- C7: for every register index r in 0..15 and memory address m in 0..255,
`LD` with operands (register r, memory m) assembles to one word with opcode
0xB, `dest = r`, `src = m >> 4`, `imm4 = m & 15`, and `ST` with operands
(memory m, register r) to one word with opcode 0xC, `src = r`,
`dest = m >> 4`, `imm4 = m & 15`; for m = 5 the high-nibble field is 0 and
`imm4` is 5. -/
theorem C7_load_store_address_split (label_table : List LabelEntry)
    (result : GigaAssemblerResult) (r m line column : Nat) (hr : r ≤ 15) (hm : m ≤ 255) :
    ((giga_assemble label_table
        (single_instruction "LD" [.register r, .memory m] line column) result).1 = 0 ∧
      (giga_assemble label_table
        (single_instruction "LD" [.register r, .memory m] line column) result).2.1.word_count
          = 1 ∧
      giga_decode_instruction (bytecode_word (giga_assemble label_table
        (single_instruction "LD" [.register r, .memory m] line column) result).2.1 0)
        = { raw := 0xB * 4096 + r * 256 + (m >>> 4) * 16 + (m &&& 15), opcode := 0xB,
            dest_reg := r, src_reg := m >>> 4, imm4 := m &&& 15 }) ∧
    ((giga_assemble label_table
        (single_instruction "ST" [.memory m, .register r] line column) result).1 = 0 ∧
      (giga_assemble label_table
        (single_instruction "ST" [.memory m, .register r] line column) result).2.1.word_count
          = 1 ∧
      giga_decode_instruction (bytecode_word (giga_assemble label_table
        (single_instruction "ST" [.memory m, .register r] line column) result).2.1 0)
        = { raw := 0xC * 4096 + (m >>> 4) * 256 + r * 16 + (m &&& 15), opcode := 0xC,
            dest_reg := m >>> 4, src_reg := r, imm4 := m &&& 15 }) ∧
    ((5 : Nat) >>> 4 = 0 ∧ (5 : Nat) &&& 15 = 5) := by
  have hhi : (m >>> 4) &&& 15 = m >>> 4 := by
    rw [and_15_eq_mod, Nat.shiftRight_eq_div_pow]
    have : m / 2 ^ 4 < 16 := by norm_num; omega
    omega
  have hhi_lt : m >>> 4 < 16 := by
    rw [Nat.shiftRight_eq_div_pow]; norm_num; omega
  have hlo_lt : m &&& 15 < 16 := by rw [and_15_eq_mod]; omega
  have hld := giga_assemble_single_decoded label_table result "LD"
    [.register r, .memory m] line column 0xB r (m >>> 4) (m &&& 15) (by decide)
    (by simp [assemble_pass2_switch, GigaParsedInstruction.operand_count,
        GIGA_OP_NOP, GIGA_OP_MOVI, GIGA_OP_MOV, GIGA_OP_ADD, GIGA_OP_SUB, GIGA_OP_AND,
        GIGA_OP_OR, GIGA_OP_XOR, GIGA_OP_NOT, GIGA_OP_SHL, GIGA_OP_SHR, GIGA_OP_LD, hhi])
    (by omega) (by omega) hhi_lt hlo_lt
  have hst := giga_assemble_single_decoded label_table result "ST"
    [.memory m, .register r] line column 0xC (m >>> 4) r (m &&& 15) (by decide)
    (by simp [assemble_pass2_switch, GigaParsedInstruction.operand_count,
        GIGA_OP_NOP, GIGA_OP_MOVI, GIGA_OP_MOV, GIGA_OP_ADD, GIGA_OP_SUB, GIGA_OP_AND,
        GIGA_OP_OR, GIGA_OP_XOR, GIGA_OP_NOT, GIGA_OP_SHL, GIGA_OP_SHR, GIGA_OP_LD,
        GIGA_OP_ST, hhi])
    (by omega) hhi_lt (by omega) hlo_lt
  exact ⟨⟨hld.1, hld.2.2.1, hld.2.2.2⟩, ⟨hst.1, hst.2.2.1, hst.2.2.2⟩, by decide, by decide⟩

theorem C7_load_store_address_split_witness :
    ((giga_assemble [] (single_instruction "LD" [.register 3, .memory 200] 1 1)
        empty_result).1 = 0 ∧
      (giga_assemble [] (single_instruction "LD" [.register 3, .memory 200] 1 1)
        empty_result).2.1.word_count = 1 ∧
      giga_decode_instruction (bytecode_word (giga_assemble []
        (single_instruction "LD" [.register 3, .memory 200] 1 1) empty_result).2.1 0)
        = { raw := 0xB * 4096 + 3 * 256 + (200 >>> 4) * 16 + (200 &&& 15), opcode := 0xB,
            dest_reg := 3, src_reg := 200 >>> 4, imm4 := 200 &&& 15 }) ∧
    ((giga_assemble [] (single_instruction "ST" [.memory 200, .register 3] 1 1)
        empty_result).1 = 0 ∧
      (giga_assemble [] (single_instruction "ST" [.memory 200, .register 3] 1 1)
        empty_result).2.1.word_count = 1 ∧
      giga_decode_instruction (bytecode_word (giga_assemble []
        (single_instruction "ST" [.memory 200, .register 3] 1 1) empty_result).2.1 0)
        = { raw := 0xC * 4096 + (200 >>> 4) * 256 + 3 * 16 + (200 &&& 15), opcode := 0xC,
            dest_reg := 200 >>> 4, src_reg := 3, imm4 := 200 &&& 15 }) ∧
    ((5 : Nat) >>> 4 = 0 ∧ (5 : Nat) &&& 15 = 5) :=
  C7_load_store_address_split [] empty_result 3 200 1 1 (by decide) (by decide)

/-! ### Label resolution -/

/-- C4: in every statement list that assembles successfully and in which the
label name L (a name without NUL byte) is defined by exactly one Label
statement, every instruction `JMP L` is emitted as the word `0xD000 | k`, k
being the number of Instruction statements in front of the Label statement of
L, wherever the jump stands relative to the definition. -/
theorem C4_jump_resolves_to_label_address (label_table : List LabelEntry)
    (result : GigaAssemblerResult) (statements pre post before after : List GigaStatement)
    (lab : GigaParsedLabel) (jmp : GigaParsedInstruction)
    (hok : (giga_assemble label_table statements result).1 = 0)
    (hnul : 0 ∉ lab.label_name)
    (hlabel : statements = pre ++ GigaStatement.label lab :: post)
    (hone : statements.countP (defines_label lab.label_name) = 1)
    (hjmp : statements = before ++ GigaStatement.instruction jmp :: after)
    (hto : is_jump_to lab.label_name jmp) :
    bytecode_word (giga_assemble label_table statements result).2.1
        (count_instructions before)
      = 0xD000 ||| count_instructions pre := by
  obtain ⟨_, hcount, _, ws, hres, _, _, hword⟩ :=
    giga_assemble_success label_table statements result hok
  have hpost : ∀ l, GigaStatement.label l ∈ post → l.label_name ≠ lab.label_name := by
    intro l hl hname
    rw [hlabel, List.countP_append, List.countP_cons] at hone
    simp only [defines_label, decide_True, ↓reduceIte] at hone
    have h0 : List.countP (defines_label lab.label_name) post = 0 := by omega
    rw [List.countP_eq_zero] at h0
    exact h0 _ hl (by simp [defines_label, hname])
  have hk : count_instructions pre < 128 := by
    rw [hlabel, count_instructions_append] at hcount
    omega
  have hfind : label_table_find (pass1_labels statements 0).reverse lab.label_name
      = count_instructions pre := by
    rw [hlabel, label_table_find_pass1 pre post lab 0 hnul hpost, Nat.zero_add]
  have hidx : (instructions_of statements)[count_instructions before]? = some jmp := by
    rw [hjmp, instructions_of_append, count_instructions,
      List.getElem?_append_right (le_refl _)]
    simp [instructions_of]
  have hw := hword _ jmp hidx
  obtain ⟨hmn, hop⟩ := hto
  have hlen : ¬ jmp.operand_count < 1 := by
    cases hops : jmp.operands with
    | nil => simp [hops] at hop
    | cons o os => simp [GigaParsedInstruction.operand_count, hops]
  have hget : jmp.operands.getD 0 GigaOperand.none = GigaOperand.label lab.label_name := by
    cases hops : jmp.operands with
    | nil => simp [hops] at hop
    | cons o os => simpa [hops] using hop
  have hmo : mnemonic_to_opcode (bytes "JMP") = some GIGA_OP_JMP := by decide
  have hne : ¬ count_instructions pre = 65535 := by omega
  simp only [instruction_word, hmn, hmo, assemble_pass2_switch, hlen, hget, hfind, hne,
    GIGA_OP_JMP, GIGA_OP_NOP, GIGA_OP_MOVI, GIGA_OP_MOV, GIGA_OP_ADD, GIGA_OP_SUB,
    GIGA_OP_AND, GIGA_OP_OR, GIGA_OP_XOR, GIGA_OP_NOT, GIGA_OP_SHL, GIGA_OP_SHR,
    GIGA_OP_LD, GIGA_OP_ST, ↓reduceIte, Nat.reduceEqDiff, or_self, Option.some.injEq] at hw
  rw [hres]
  simp only [bytecode_word, Option.getD_some]
  rw [← hw]
  exact jmp_word (count_instructions pre) (by omega)

theorem C4_jump_resolves_to_label_address_witness :
    bytecode_word (giga_assemble [] forward_jump_program empty_result).2.1
        (count_instructions [])
      = 0xD000 ||| count_instructions (forward_jump_program.take 2) :=
  C4_jump_resolves_to_label_address [] empty_result forward_jump_program
    (forward_jump_program.take 2) (forward_jump_program.drop 3) []
    (forward_jump_program.drop 1)
    { label_name := bytes "END", source_line := 3, source_column := 1 }
    { mnemonic_text := bytes "JMP", operands := [GigaOperand.label (bytes "END")],
      source_line := 1, source_column := 1 }
    (by decide) (by decide) (by decide) (by decide) (by decide) ⟨rfl, rfl⟩

/-! ### Source texts through the whole front end -/

theorem movi_text_all :
    ∀ r : Fin 8, ∀ v : Fin 16,
      (assemble_source (movi_text r.val v.val)).map (fun out =>
          (out.1, out.2.has_error, out.2.word_count, bytecode_word out.2 0,
            bytecode_word out.2 1))
        = some (0, 0, 1, 0x2000 ||| r.val <<< 8 ||| v.val, 0) := by
  decide

/-- C6: for every register digit r in 0..7 and every value v in 0..15 written
in decimal, lexer, parser and assembler succeed on the text `MOVI Rr, v` and
yield exactly one word, `0x2000 | r<<8 | v`; `MOVI R0, 15` yields `0x200F`,
which decodes to opcode 2, dest 0, imm4 15. -/
theorem C6_movi_text_assembles (r v : Nat) (hr : r ≤ 7) (hv : v ≤ 15) :
    (assemble_source (movi_text r v)).map (fun out =>
        (out.1, out.2.has_error, out.2.word_count, bytecode_word out.2 0))
      = some (0, 0, 1, 0x2000 ||| r <<< 8 ||| v) ∧
    movi_text 0 15 = bytes "MOVI R0, 15" ∧
    (assemble_source (bytes "MOVI R0, 15")).map (fun out => bytecode_word out.2 0)
      = some 0x200F ∧
    giga_decode_instruction 0x200F
      = { raw := 0x200F, opcode := 0x2, dest_reg := 0, src_reg := 0, imm4 := 15 } := by
  refine ⟨?_, by decide, by decide, by decide⟩
  have h := movi_text_all ⟨r, by omega⟩ ⟨v, by omega⟩
  cases ha : assemble_source (movi_text r v) with
  | none => simp [ha] at h
  | some out =>
    simp only [ha, Option.map_some', Option.some.injEq, Prod.mk.injEq] at h ⊢
    exact ⟨h.1, h.2.1, h.2.2.1, h.2.2.2.1⟩

theorem C6_movi_text_assembles_witness :
    (assemble_source (movi_text 7 12)).map (fun out =>
        (out.1, out.2.has_error, out.2.word_count, bytecode_word out.2 0))
      = some (0, 0, 1, 0x2000 ||| 7 <<< 8 ||| 12) ∧
    movi_text 0 15 = bytes "MOVI R0, 15" ∧
    (assemble_source (bytes "MOVI R0, 15")).map (fun out => bytecode_word out.2 0)
      = some 0x200F ∧
    giga_decode_instruction 0x200F
      = { raw := 0x200F, opcode := 0x2, dest_reg := 0, src_reg := 0, imm4 := 15 } :=
  C6_movi_text_assembles 7 12 (by decide) (by decide)

theorem mem_instructions_of (statements : List GigaStatement)
    (inst : GigaParsedInstruction) (h : inst ∈ instructions_of statements) :
    GigaStatement.instruction inst ∈ statements := by
  induction statements with
  | nil => simp [instructions_of] at h
  | cons x xs ih =>
    cases x with
    | instruction inst' =>
      simp only [instructions_of, List.mem_cons] at h
      rcases h with rfl | h
      · simp
      · exact List.mem_cons_of_mem _ (ih h)
    | label l => exact List.mem_cons_of_mem _ (ih (by simpa [instructions_of] using h))
    | directive d => exact List.mem_cons_of_mem _ (ih (by simpa [instructions_of] using h))

theorem parsed_statements_in_range (source : List Nat) :
    statements_in_range (parsed_statements source) := by
  unfold parsed_statements
  cases h : parse_source source with
  | none => intro stmt hstmt; simp at hstmt
  | some out => simpa using parse_source_in_range source out h

/-- Every word of a successful assembly of statements in range decodes to the
opcode of its instruction and the fields of the opcode table. -/
theorem assembled_words_decode (label_table : List LabelEntry)
    (result : GigaAssemblerResult) (statements : List GigaStatement)
    (hrange : statements_in_range statements)
    (hasm : (giga_assemble label_table statements result).1 = 0) :
    (giga_assemble label_table statements result).2.1.word_count
        = count_instructions statements ∧
    ∀ i inst, (instructions_of statements)[i]? = some inst →
      ∃ opcode dest src imm4,
        mnemonic_to_opcode inst.mnemonic_text = some opcode ∧
        spec_field_mapping
            (label_table_find (giga_assemble label_table statements result).2.2)
            opcode inst.operands = some (dest, src, imm4) ∧
        giga_decode_instruction
            (bytecode_word (giga_assemble label_table statements result).2.1 i)
          = { raw := opcode * 4096 + dest * 256 + src * 16 + imm4, opcode := opcode,
              dest_reg := dest, src_reg := src, imm4 := imm4 } := by
  obtain ⟨_, hcount, htbl, ws, hres, _, _, hword⟩ :=
    giga_assemble_success label_table statements result hasm
  rw [hres, htbl]
  refine ⟨rfl, ?_⟩
  intro i inst hi
  have hw := hword i inst hi
  have hin : instruction_in_range inst :=
    hrange _ (mem_instructions_of statements inst (List.getElem?_mem hi))
  have hbound : ∀ name, label_table_find (pass1_labels statements 0).reverse name = 0xFFFF ∨
      label_table_find (pass1_labels statements 0).reverse name < 4096 := by
    intro name
    rcases label_table_find_bound (pass1_labels statements 0).reverse
      (count_instructions statements) name (by
        intro e he
        rw [List.mem_reverse] at he
        have := (pass1_labels_address statements 0 e he).2
        omega) with h | h
    · exact Or.inl h
    · exact Or.inr (by omega)
  unfold instruction_word at hw
  cases hm : mnemonic_to_opcode inst.mnemonic_text with
  | none => simp [hm] at hw
  | some opcode =>
    simp only [hm] at hw
    cases hs : assemble_pass2_switch (pass1_labels statements 0).reverse opcode inst with
    | error message => simp [hs] at hw
    | ok fields =>
      obtain ⟨dest, src, imm4⟩ := fields
      simp only [hs, Option.some.injEq] at hw
      obtain ⟨hspec, hd, hsr, himm⟩ :=
        switch_agrees_with_table _ opcode inst dest src imm4 hin.2 hbound hs
      have ho := mnemonic_to_opcode_lt _ _ hm
      refine ⟨opcode, dest, src, imm4, rfl, hspec, ?_⟩
      simp only [bytecode_word, Option.getD_some]
      rw [← hw, decode_encode opcode dest src imm4 ho hd hsr himm,
        encode_instruction_eq_sum opcode dest src imm4 ho hd hsr himm]

/-- C1: for every source text on which lexer, parser and `giga_assemble` all
succeed, `word_count` is the number of Instruction statements and the i-th
emitted word decodes to the opcode of the i-th instruction's mnemonic and
exactly the dest, src and imm4 that the opcode table's field mapping gives for
its operands (label targets resolved in the label table); the word is the sum
`opcode*4096 + dest*256 + src*16 + imm4`, so no field is truncated or spills
into another. -/
theorem C1_assembled_source_decodes_to_table_fields (source : List Nat)
    (label_table : List LabelEntry) (result : GigaAssemblerResult)
    (_hparse : parse_return source = some 0)
    (hasm : (giga_assemble label_table (parsed_statements source) result).1 = 0) :
    (giga_assemble label_table (parsed_statements source) result).2.1.word_count
        = count_instructions (parsed_statements source) ∧
    ∀ i inst, (instructions_of (parsed_statements source))[i]? = some inst →
      ∃ opcode dest src imm4,
        mnemonic_to_opcode inst.mnemonic_text = some opcode ∧
        spec_field_mapping
            (label_table_find
              (giga_assemble label_table (parsed_statements source) result).2.2)
            opcode inst.operands = some (dest, src, imm4) ∧
        giga_decode_instruction
            (bytecode_word (giga_assemble label_table (parsed_statements source) result).2.1 i)
          = { raw := opcode * 4096 + dest * 256 + src * 16 + imm4, opcode := opcode,
              dest_reg := dest, src_reg := src, imm4 := imm4 } :=
  assembled_words_decode label_table result (parsed_statements source)
    (parsed_statements_in_range source) hasm

theorem C1_assembled_source_decodes_to_table_fields_witness :
    parse_return (bytes "JMP END\nMOVI R3, 9\nEND: ST [7], R1\nHALT") = some 0 ∧
    (giga_assemble [] (parsed_statements (bytes "JMP END\nMOVI R3, 9\nEND: ST [7], R1\nHALT"))
        empty_result).2.1.word_count
      = count_instructions
          (parsed_statements (bytes "JMP END\nMOVI R3, 9\nEND: ST [7], R1\nHALT")) :=
  ⟨by decide,
    (C1_assembled_source_decodes_to_table_fields
      (bytes "JMP END\nMOVI R3, 9\nEND: ST [7], R1\nHALT") [] empty_result
      (by decide) (by decide)).1⟩

/-- C8 (behaviour of the code): the parser rejects `LD R0, [20]` and
`ST [20], R1`: it returns 1 with `has_error = 1` and the message
`Expected operand` at the number 20 (line 1, column 9, resp. column 5), so
nothing is assembled; an address written in the source goes through the
4-bit check of `giga_parser_parse_number`.  The assembler itself, given the
memory operand 20, extracts the high nibble 1 and the low nibble 4. -/
theorem C8_source_address_20_is_rejected :
    parse_report (bytes "LD R0, [20]") = some (1, 1, some "Expected operand", 1, 9) ∧
    parse_report (bytes "ST [20], R1") = some (1, 1, some "Expected operand", 1, 5) ∧
    assemble_source (bytes "LD R0, [20]") = Option.none ∧
    assemble_source (bytes "ST [20], R1") = Option.none ∧
    parse_report (bytes "LD R0, [15]") = some (0, 0, Option.none, 0, 0) ∧
    assemble_pass2_switch [] GIGA_OP_LD
        { mnemonic_text := bytes "LD", operands := [.register 0, .memory 20],
          source_line := 1, source_column := 1 } = .ok (0, 1, 4) ∧
    assemble_pass2_switch [] GIGA_OP_ST
        { mnemonic_text := bytes "ST", operands := [.memory 20, .register 1],
          source_line := 1, source_column := 1 } = .ok (1, 1, 4) := by
  refine ⟨by decide, by decide, by decide, by decide, by decide, rfl, rfl⟩

set_option maxRecDepth 100000 in
/-- C9 (behaviour of the code): a list of exactly 128 valid instructions is
rejected with `Program too large`, reported at the 128th instruction (here
line 128, column 1), with no bytecode; 127 instructions assemble to 127
words. -/
theorem C9_limit_is_127_instructions :
    giga_assemble [] (nop_program 128) empty_result
      = (1,
          { bytecode := Option.none, word_count := 0, has_error := 1,
            error_message := some "Program too large", error_line := 128,
            error_column := 1 },
          []) ∧
    (giga_assemble [] (nop_program 127) empty_result).1 = 0 ∧
    (giga_assemble [] (nop_program 127) empty_result).2.1.word_count = 127 := by
  refine ⟨by decide, by decide, by decide⟩

/-- C10 (behaviour of the code): parsing `MOVI R0, 16` fails, with return
value 1 and `has_error = 1`, but the message left in the parser is
`Expected operand` (line 1, column 10): the range message that
`giga_parser_parse_number` sets on the token 16 is overwritten by
`giga_parser_parse_instruction`. -/
theorem C10_range_error_is_overwritten :
    parse_report (bytes "MOVI R0, 16") = some (1, 1, some "Expected operand", 1, 10) ∧
    (giga_parser_parse_number (giga_parser_init (giga_lexer_init (bytes "16") 2))
        GigaOperand.none).2.1.error_message
      = some "Immediate value exceeds 4 bits (max 15)" ∧
    (giga_parser_parse_operand (giga_parser_init (giga_lexer_init (bytes "16") 2))
        GigaOperand.none).2.1.error_message
      = some "Immediate value exceeds 4 bits (max 15)" ∧
    (giga_parser_parse_operand (giga_parser_init (giga_lexer_init (bytes "16") 2))
        GigaOperand.none).1 = false := by
  refine ⟨by decide, by decide, by decide, by decide⟩

/-! ### The mnemonic table -/

theorem ite_some_and_cases {c : Prop} [Decidable c] {a o : Nat} {x : Option Nat}
    (h : (if c then some a else x) = some o) : (c ∧ a = o) ∨ x = some o := by
  split_ifs at h with hc
  · exact Or.inl ⟨hc, Option.some.inj h⟩
  · exact Or.inr h

/-- Whatever `mnemonic_to_opcode` accepts is, byte for byte, one of the fifteen
mnemonics, and the opcode is the one of the table. -/
theorem mnemonic_to_opcode_sound (mnemonic : List Nat) (opcode : Nat)
    (h : mnemonic_to_opcode mnemonic = some opcode) :
    ∃ s, (s, opcode) ∈ mnemonic_table ∧ mnemonic = bytes s := by
  unfold mnemonic_to_opcode at h
  rcases ite_some_and_cases h with ⟨hc, rfl⟩ | h
  · exact ⟨"NOP", by decide, (name_match_iff mnemonic (bytes "NOP") (by decide)).1 hc⟩
  rcases ite_some_and_cases h with ⟨hc, rfl⟩ | h
  · exact ⟨"MOV", by decide, (name_match_iff mnemonic (bytes "MOV") (by decide)).1 hc⟩
  rcases ite_some_and_cases h with ⟨hc, rfl⟩ | h
  · exact ⟨"MOVI", by decide, (name_match_iff mnemonic (bytes "MOVI") (by decide)).1 hc⟩
  rcases ite_some_and_cases h with ⟨hc, rfl⟩ | h
  · exact ⟨"ADD", by decide, (name_match_iff mnemonic (bytes "ADD") (by decide)).1 hc⟩
  rcases ite_some_and_cases h with ⟨hc, rfl⟩ | h
  · exact ⟨"SUB", by decide, (name_match_iff mnemonic (bytes "SUB") (by decide)).1 hc⟩
  rcases ite_some_and_cases h with ⟨hc, rfl⟩ | h
  · exact ⟨"AND", by decide, (name_match_iff mnemonic (bytes "AND") (by decide)).1 hc⟩
  rcases ite_some_and_cases h with ⟨hc, rfl⟩ | h
  · exact ⟨"OR", by decide, (name_match_iff mnemonic (bytes "OR") (by decide)).1 hc⟩
  rcases ite_some_and_cases h with ⟨hc, rfl⟩ | h
  · exact ⟨"XOR", by decide, (name_match_iff mnemonic (bytes "XOR") (by decide)).1 hc⟩
  rcases ite_some_and_cases h with ⟨hc, rfl⟩ | h
  · exact ⟨"NOT", by decide, (name_match_iff mnemonic (bytes "NOT") (by decide)).1 hc⟩
  rcases ite_some_and_cases h with ⟨hc, rfl⟩ | h
  · exact ⟨"SHL", by decide, (name_match_iff mnemonic (bytes "SHL") (by decide)).1 hc⟩
  rcases ite_some_and_cases h with ⟨hc, rfl⟩ | h
  · exact ⟨"SHR", by decide, (name_match_iff mnemonic (bytes "SHR") (by decide)).1 hc⟩
  rcases ite_some_and_cases h with ⟨hc, rfl⟩ | h
  · exact ⟨"LD", by decide, (name_match_iff mnemonic (bytes "LD") (by decide)).1 hc⟩
  rcases ite_some_and_cases h with ⟨hc, rfl⟩ | h
  · exact ⟨"ST", by decide, (name_match_iff mnemonic (bytes "ST") (by decide)).1 hc⟩
  rcases ite_some_and_cases h with ⟨hc, rfl⟩ | h
  · exact ⟨"JMP", by decide, (name_match_iff mnemonic (bytes "JMP") (by decide)).1 hc⟩
  rcases ite_some_and_cases h with ⟨hc, rfl⟩ | h
  · exact ⟨"HALT", by decide, (name_match_iff mnemonic (bytes "HALT") (by decide)).1 hc⟩
  cases h

/-- Each of the fifteen mnemonics is mapped to its opcode. -/
theorem mnemonic_to_opcode_complete (s : String) (opcode : Nat)
    (h : (s, opcode) ∈ mnemonic_table) : mnemonic_to_opcode (bytes s) = some opcode := by
  have hall : ∀ entry ∈ mnemonic_table,
      mnemonic_to_opcode (bytes entry.1) = some entry.2 := by decide
  exact hall (s, opcode) h

theorem mnemonic_to_opcode_iff (mnemonic : List Nat) (opcode : Nat) :
    mnemonic_to_opcode mnemonic = some opcode ↔
      ∃ s, (s, opcode) ∈ mnemonic_table ∧ mnemonic = bytes s := by
  constructor
  · exact mnemonic_to_opcode_sound mnemonic opcode
  · rintro ⟨s, hs, rfl⟩
    exact mnemonic_to_opcode_complete s opcode hs

theorem mnemonic_to_opcode_mem (mnemonic : List Nat) (opcode : Nat)
    (h : mnemonic_to_opcode mnemonic = some opcode) :
    opcode ∈ [0, 1, 2, 3, 4, 5, 6, 7, 8, 9, 10, 11, 12, 13, 15] := by
  obtain ⟨s, hs, _⟩ := mnemonic_to_opcode_sound mnemonic opcode h
  simp only [mnemonic_table, List.mem_cons, Prod.mk.injEq, List.mem_singleton,
    List.not_mem_nil, or_false] at hs
  rcases hs with ⟨_, rfl⟩ | ⟨_, rfl⟩ | ⟨_, rfl⟩ | ⟨_, rfl⟩ | ⟨_, rfl⟩ | ⟨_, rfl⟩ |
    ⟨_, rfl⟩ | ⟨_, rfl⟩ | ⟨_, rfl⟩ | ⟨_, rfl⟩ | ⟨_, rfl⟩ | ⟨_, rfl⟩ | ⟨_, rfl⟩ |
    ⟨_, rfl⟩ | ⟨_, rfl⟩ <;> decide

/-! ### Errors of pass 2 -/

theorem instruction_error_none_iff (label_table : List LabelEntry)
    (inst : GigaParsedInstruction) :
    instruction_error label_table inst = Option.none ↔
      ∃ w, instruction_word label_table inst = some w := by
  unfold instruction_error instruction_word
  cases hm : mnemonic_to_opcode inst.mnemonic_text with
  | none => simp
  | some opcode =>
    cases hs : assemble_pass2_switch label_table opcode inst with
    | error message => simp [hs]
    | ok fields => simp [hs]

/-- Pass 2 returns 0 when no instruction has an error, and otherwise returns 1
with the message and the position of the first instruction that has one. -/
theorem pass2_loop_first_defect (statements : List GigaStatement)
    (label_table : List LabelEntry) (result : GigaAssemblerResult) :
    (first_defect label_table statements = Option.none →
      (assemble_pass2_loop statements label_table result).1 = 0) ∧
    (∀ inst message, first_defect label_table statements = some (inst, message) →
      (assemble_pass2_loop statements label_table result).1 = 1 ∧
      (assemble_pass2_loop statements label_table result).2.has_error = 1 ∧
      (assemble_pass2_loop statements label_table result).2.error_message = some message ∧
      (assemble_pass2_loop statements label_table result).2.error_line = inst.source_line ∧
      (assemble_pass2_loop statements label_table result).2.error_column
        = inst.source_column) := by
  induction statements generalizing result with
  | nil => simp [first_defect, assemble_pass2_loop]
  | cons x xs ih =>
    cases x with
    | label l => simpa [first_defect, assemble_pass2_loop] using ih result
    | directive d => simpa [first_defect, assemble_pass2_loop] using ih result
    | instruction inst =>
      simp only [first_defect, assemble_pass2_loop, instruction_error]
      cases hm : mnemonic_to_opcode inst.mnemonic_text with
      | none => simp [assembler_error]
      | some opcode =>
        cases hs : assemble_pass2_switch label_table opcode inst with
        | error message => simp [hs, assembler_error]
        | ok fields => simpa [hs] using ih _

/-- Shape of `giga_assemble` on a non-empty list with fewer than 128
instructions: pass 1 records the labels, pass 2 runs on the fresh array. -/
theorem giga_assemble_below_limit (label_table : List LabelEntry)
    (statements : List GigaStatement) (result : GigaAssemblerResult)
    (hne : statements ≠ []) (hcount : count_instructions statements < 128) :
    giga_assemble label_table statements result
      = if (assemble_pass2_loop statements (pass1_labels statements 0).reverse
            pass2_start).1 ≠ 0 then
          (1, { (assemble_pass2_loop statements (pass1_labels statements 0).reverse
                  pass2_start).2 with bytecode := Option.none },
            (pass1_labels statements 0).reverse)
        else
          (0, (assemble_pass2_loop statements (pass1_labels statements 0).reverse
                pass2_start).2,
            (pass1_labels statements 0).reverse) := by
  cases statements with
  | nil => exact absurd rfl hne
  | cons x xs =>
    have hp1 := pass1_loop_ok (x :: xs) 0 []
      { bytecode := Option.none, word_count := 0, has_error := 0,
        error_message := Option.none, error_line := 0, error_column := 0 } (by omega)
    simp only [giga_assemble, assemble_pass1, label_table_free, hp1, assemble_pass2,
      List.append_nil, ne_eq, not_true_eq_false, ↓reduceIte, pass2_start]

/-- Outcome of `giga_assemble` when an instruction has an error and the list
has fewer than 128 instructions: return value 1, no bytecode, and the message
and position of the first such instruction. -/
theorem giga_assemble_first_defect (label_table : List LabelEntry)
    (statements : List GigaStatement) (result : GigaAssemblerResult)
    (inst : GigaParsedInstruction) (message : String)
    (hcount : count_instructions statements < 128)
    (hd : first_defect (pass1_labels statements 0).reverse statements
      = some (inst, message)) :
    (giga_assemble label_table statements result).1 = 1 ∧
    (giga_assemble label_table statements result).2.1.bytecode = Option.none ∧
    (giga_assemble label_table statements result).2.1.has_error = 1 ∧
    (giga_assemble label_table statements result).2.1.error_message = some message ∧
    (giga_assemble label_table statements result).2.1.error_line = inst.source_line ∧
    (giga_assemble label_table statements result).2.1.error_column = inst.source_column := by
  have hne : statements ≠ [] := by
    rintro rfl
    simp [first_defect] at hd
  obtain ⟨h1, h2, h3, h4, h5⟩ := (pass2_loop_first_defect statements
    (pass1_labels statements 0).reverse pass2_start).2 inst message hd
  rw [giga_assemble_below_limit label_table statements result hne hcount]
  simp [h1, h2, h3, h4, h5]

/-- Outcome of `giga_assemble` when no instruction has an error and the list is
non-empty with fewer than 128 instructions: return value 0. -/
theorem giga_assemble_no_defect (label_table : List LabelEntry)
    (statements : List GigaStatement) (result : GigaAssemblerResult)
    (hne : statements ≠ []) (hcount : count_instructions statements < 128)
    (hd : first_defect (pass1_labels statements 0).reverse statements = Option.none) :
    (giga_assemble label_table statements result).1 = 0 := by
  have h0 := (pass2_loop_first_defect statements
    (pass1_labels statements 0).reverse pass2_start).1 hd
  rw [giga_assemble_below_limit label_table statements result hne hcount]
  simp [h0]

/-- The first defect is an instruction of the list, all instructions in front
of it are free of errors. -/
theorem first_defect_split (label_table : List LabelEntry)
    (statements : List GigaStatement) (inst : GigaParsedInstruction) (message : String) :
    first_defect label_table statements = some (inst, message) ↔
      ∃ before after, statements = before ++ GigaStatement.instruction inst :: after ∧
        (∀ i ∈ instructions_of before, instruction_error label_table i = Option.none) ∧
        instruction_error label_table inst = some message := by
  induction statements with
  | nil => simp [first_defect]
  | cons x xs ih =>
    constructor
    · intro h
      cases x with
      | label l =>
        obtain ⟨b, a, hs, hb, he⟩ := ih.1 (by simpa [first_defect] using h)
        exact ⟨GigaStatement.label l :: b, a, by simp [hs], by simpa [instructions_of] using hb,
          he⟩
      | directive d =>
        obtain ⟨b, a, hs, hb, he⟩ := ih.1 (by simpa [first_defect] using h)
        exact ⟨GigaStatement.directive d :: b, a, by simp [hs],
          by simpa [instructions_of] using hb, he⟩
      | instruction i0 =>
        simp only [first_defect] at h
        cases he0 : instruction_error label_table i0 with
        | some m0 =>
          simp only [he0, Option.some.injEq, Prod.mk.injEq] at h
          obtain ⟨rfl, rfl⟩ := h
          exact ⟨[], xs, rfl, by simp [instructions_of], he0⟩
        | none =>
          simp only [he0] at h
          obtain ⟨b, a, hs, hb, he⟩ := ih.1 h
          refine ⟨GigaStatement.instruction i0 :: b, a, by simp [hs], ?_, he⟩
          intro i hi
          simp only [instructions_of, List.mem_cons] at hi
          rcases hi with rfl | hi
          · exact he0
          · exact hb i hi
    · rintro ⟨b, a, hs, hb, he⟩
      cases b with
      | nil =>
        simp only [List.nil_append, List.cons.injEq] at hs
        obtain ⟨rfl, rfl⟩ := hs
        simp [first_defect, he]
      | cons y ys =>
        simp only [List.cons_append, List.cons.injEq] at hs
        obtain ⟨rfl, rfl⟩ := hs
        have hrec := ih.2 ⟨ys, a, rfl, fun i hi => hb i (by
          cases x <;> simp [instructions_of, hi]), he⟩
        cases x with
        | label l => simpa [first_defect] using hrec
        | directive d => simpa [first_defect] using hrec
        | instruction i0 =>
          have h0 := hb i0 (by simp [instructions_of])
          simpa [first_defect, h0] using hrec
set_option maxHeartbeats 4000000 in
/-- Pass 2 reports an error for an instruction exactly when the instruction has
an unknown mnemonic, too few operands, an operand of a wrong kind or an
undefined label. -/
theorem instruction_error_iff_defect (label_table : List LabelEntry)
    (inst : GigaParsedInstruction) :
    (∃ message, instruction_error label_table inst = some message) ↔
      instruction_defect label_table inst := by
  obtain ⟨mnemonic, ops, line, column⟩ := inst
  unfold instruction_defect has_unknown_mnemonic has_too_few_operands
    has_wrong_operand_kind has_undefined_label instruction_error
  simp only [GigaParsedInstruction.operand_count]
  cases hm : mnemonic_to_opcode mnemonic with
  | none => simp
  | some opcode =>
    have hmem := mnemonic_to_opcode_mem _ _ hm
    simp only [reduceCtorEq, Option.some.injEq, exists_eq_left', false_or]
    clear hm
    have hlen2 : ∀ n : Nat, ¬ (n + 1 + 1 < 2) := fun n => by omega
    have hlen1 : ∀ n : Nat, ¬ (n + 1 < 1) := fun n => by omega
    have hlen2' : ∀ n : Nat, 2 ≤ n + 1 + 1 := fun n => by omega
    simp only [List.mem_cons, List.mem_singleton, List.not_mem_nil, or_false] at hmem
    rcases hmem with rfl | rfl | rfl | rfl | rfl | rfl | rfl | rfl | rfl | rfl | rfl | rfl |
      rfl | rfl | rfl <;>
      simp only [assemble_pass2_switch, required_operands, operand_kinds_ok, GIGA_OP_JMP,
        GIGA_OP_NOP, GIGA_OP_MOVI, GIGA_OP_MOV, GIGA_OP_ADD, GIGA_OP_SUB, GIGA_OP_AND,
        GIGA_OP_OR, GIGA_OP_XOR, GIGA_OP_NOT, GIGA_OP_SHL, GIGA_OP_SHR, GIGA_OP_LD, GIGA_OP_ST,
        GIGA_OP_HALT, GigaParsedInstruction.operand_count, ↓reduceIte, Nat.reduceEqDiff,
        or_false, false_or, or_true, true_or, or_self] <;>
      rcases ops with _ | ⟨o0, _ | ⟨o1, rest⟩⟩ <;>
      (try cases o0) <;> (try cases o1) <;>
      simp [GigaOperand.is_register, GigaOperand.is_immediate, GigaOperand.is_memory,
        GigaOperand.is_label, hlen1, hlen2, hlen2']
    all_goals (split_ifs with h <;> simp [h])

/-! ### Claims on the errors of the assembler -/

theorem first_defect_none_iff (label_table : List LabelEntry)
    (statements : List GigaStatement) :
    first_defect label_table statements = Option.none ↔
      ∀ i ∈ instructions_of statements, instruction_error label_table i = Option.none := by
  induction statements with
  | nil => simp [first_defect, instructions_of]
  | cons x xs ih =>
    cases x with
    | label l => simpa [first_defect, instructions_of] using ih
    | directive d => simpa [first_defect, instructions_of] using ih
    | instruction inst =>
      simp only [first_defect, instructions_of, List.mem_cons, forall_eq_or_imp]
      cases he : instruction_error label_table inst with
      | none => simpa using ih
      | some message => simp

theorem instruction_error_none_iff_no_defect (label_table : List LabelEntry)
    (inst : GigaParsedInstruction) :
    instruction_error label_table inst = Option.none ↔
      ¬ instruction_defect label_table inst := by
  rw [← instruction_error_iff_defect]
  cases instruction_error label_table inst <;> simp

/-- A list with an instruction that pass 2 does not encode is rejected. -/
theorem giga_assemble_rejects (label_table : List LabelEntry)
    (statements : List GigaStatement) (result : GigaAssemblerResult)
    (inst : GigaParsedInstruction) (hmem : inst ∈ instructions_of statements)
    (hdef : instruction_defect (pass1_labels statements 0).reverse inst) :
    (giga_assemble label_table statements result).1 = 1 ∧
    (giga_assemble label_table statements result).2.1.has_error = 1 ∧
    (giga_assemble label_table statements result).2.1.bytecode = Option.none := by
  by_cases hcount : count_instructions statements < 128
  · cases hfd : first_defect (pass1_labels statements 0).reverse statements with
    | none =>
      have := (first_defect_none_iff _ _).1 hfd inst hmem
      exact absurd hdef ((instruction_error_none_iff_no_defect _ _).1 this)
    | some found =>
      obtain ⟨i, message⟩ := found
      obtain ⟨h1, h2, h3, _⟩ :=
        giga_assemble_first_defect label_table statements result i message hcount hfd
      exact ⟨h1, h3, h2⟩
  · obtain ⟨i, _, h1, h2⟩ := giga_assemble_too_large label_table statements result
      (by omega)
    exact ⟨h1, by rw [h2], by rw [h2]⟩

/-- Outcome of `giga_assemble` for a list with fewer than 128 instructions
whose first instruction with a defect is `inst`. -/
theorem giga_assemble_reports (label_table : List LabelEntry)
    (statements before after : List GigaStatement) (result : GigaAssemblerResult)
    (inst : GigaParsedInstruction) (message : String)
    (hsplit : statements = before ++ GigaStatement.instruction inst :: after)
    (hcount : count_instructions statements < 128)
    (hbefore : ∀ i ∈ instructions_of before,
      ¬ instruction_defect (pass1_labels statements 0).reverse i)
    (herr : instruction_error (pass1_labels statements 0).reverse inst = some message) :
    (giga_assemble label_table statements result).1 = 1 ∧
    (giga_assemble label_table statements result).2.1.bytecode = Option.none ∧
    (giga_assemble label_table statements result).2.1.has_error = 1 ∧
    (giga_assemble label_table statements result).2.1.error_message = some message ∧
    (giga_assemble label_table statements result).2.1.error_line = inst.source_line ∧
    (giga_assemble label_table statements result).2.1.error_column = inst.source_column :=
  giga_assemble_first_defect label_table statements result inst message hcount
    ((first_defect_split _ _ _ _).2 ⟨before, after, hsplit,
      fun i hi => (instruction_error_none_iff_no_defect _ _).2 (hbefore i hi), herr⟩)

/-- C12: mnemonic lookup is exact: `mnemonic_to_opcode` maps a byte string to an
opcode iff the string is one of the fifteen mnemonics of the table and the
opcode is its table opcode; lowercase and mixed-case spellings, prefixes and
extensions are not mapped; and an instruction whose mnemonic is any other
byte string makes `giga_assemble` fail with `Unknown mnemonic` at the line and
column of that instruction (the instruction being the first one with a defect
in a list of fewer than 128 instructions). -/
theorem C12_mnemonic_lookup_is_exact (label_table : List LabelEntry)
    (result : GigaAssemblerResult) (statements before after : List GigaStatement)
    (inst : GigaParsedInstruction)
    (hsplit : statements = before ++ GigaStatement.instruction inst :: after)
    (hcount : count_instructions statements < 128)
    (hbefore : ∀ i ∈ instructions_of before,
      ¬ instruction_defect (pass1_labels statements 0).reverse i)
    (hother : ∀ entry ∈ mnemonic_table, inst.mnemonic_text ≠ bytes entry.1) :
    (∀ mnemonic opcode, mnemonic_to_opcode mnemonic = some opcode ↔
      ∃ s, (s, opcode) ∈ mnemonic_table ∧ mnemonic = bytes s) ∧
    mnemonic_table.map (fun entry => mnemonic_to_opcode (bytes entry.1))
      = [some 0x0, some 0x1, some 0x2, some 0x3, some 0x4, some 0x5, some 0x6, some 0x7,
          some 0x8, some 0x9, some 0xA, some 0xB, some 0xC, some 0xD, some 0xF] ∧
    ["nop", "Add", "hALT", "MO", "HAL", "MOVIX", "ORR", ""].map
        (fun s => mnemonic_to_opcode (bytes s))
      = List.replicate 8 Option.none ∧
    (giga_assemble label_table statements result).1 = 1 ∧
    (giga_assemble label_table statements result).2.1.bytecode = Option.none ∧
    (giga_assemble label_table statements result).2.1.has_error = 1 ∧
    (giga_assemble label_table statements result).2.1.error_message
      = some "Unknown mnemonic" ∧
    (giga_assemble label_table statements result).2.1.error_line = inst.source_line ∧
    (giga_assemble label_table statements result).2.1.error_column = inst.source_column := by
  have hnone : mnemonic_to_opcode inst.mnemonic_text = Option.none := by
    cases hm : mnemonic_to_opcode inst.mnemonic_text with
    | none => rfl
    | some opcode =>
      obtain ⟨s, hs, heq⟩ := mnemonic_to_opcode_sound _ _ hm
      exact absurd heq (hother (s, opcode) hs)
  refine ⟨mnemonic_to_opcode_iff, by decide, by decide, ?_⟩
  exact giga_assemble_reports label_table statements before after result inst
    "Unknown mnemonic" hsplit hcount hbefore (by simp [instruction_error, hnone])

theorem C12_mnemonic_lookup_is_exact_witness :
    (giga_assemble [] lowercase_program empty_result).1 = 1 ∧
    (giga_assemble [] lowercase_program empty_result).2.1.error_message
      = some "Unknown mnemonic" ∧
    (giga_assemble [] lowercase_program empty_result).2.1.error_line = 2 ∧
    (giga_assemble [] lowercase_program empty_result).2.1.error_column = 3 :=
  have h := C12_mnemonic_lookup_is_exact [] empty_result lowercase_program
    (lowercase_program.take 1) [] 
    { mnemonic_text := bytes "halt", operands := [], source_line := 2, source_column := 3 }
    (by decide) (by decide)
    (by
      intro i hi
      simp only [lowercase_program, List.take, instructions_of, List.mem_singleton] at hi
      subst hi
      rw [← instruction_error_none_iff_no_defect]
      rfl)
    (by decide)
  ⟨h.2.2.2.1, h.2.2.2.2.2.2.1, h.2.2.2.2.2.2.2.1, h.2.2.2.2.2.2.2.2⟩
/-- The operand switch of pass 2 looks at the operands its opcode requires and
at no operand beyond them. -/
theorem switch_ignores_extra_operands (label_table : List LabelEntry) (opcode : Nat)
    (inst : GigaParsedInstruction)
    (h : required_operands opcode ≤ inst.operand_count) :
    assemble_pass2_switch label_table opcode inst
      = assemble_pass2_switch label_table opcode
          { inst with operands := inst.operands.take (required_operands opcode) } := by
  obtain ⟨mnemonic, ops, line, column⟩ := inst
  simp only [GigaParsedInstruction.operand_count] at h
  rcases Nat.lt_or_ge opcode 16 with hlt | hge
  · interval_cases opcode <;>
      simp only [required_operands, GIGA_OP_JMP,
        GIGA_OP_NOP, GIGA_OP_MOVI, GIGA_OP_MOV, GIGA_OP_ADD, GIGA_OP_SUB, GIGA_OP_AND,
        GIGA_OP_OR, GIGA_OP_XOR, GIGA_OP_NOT, GIGA_OP_SHL, GIGA_OP_SHR, GIGA_OP_LD, GIGA_OP_ST,
        GIGA_OP_HALT, ↓reduceIte, Nat.reduceEqDiff,
        or_false, false_or, or_true, true_or, or_self] at h ⊢ <;>
      rcases ops with _ | ⟨o0, _ | ⟨o1, rest⟩⟩ <;>
      simp [assemble_pass2_switch, GigaParsedInstruction.operand_count, GIGA_OP_JMP,
        GIGA_OP_NOP, GIGA_OP_MOVI, GIGA_OP_MOV, GIGA_OP_ADD, GIGA_OP_SUB, GIGA_OP_AND,
        GIGA_OP_OR, GIGA_OP_XOR, GIGA_OP_NOT, GIGA_OP_SHL, GIGA_OP_SHR, GIGA_OP_LD, GIGA_OP_ST,
        GIGA_OP_HALT] at h ⊢
  · have hne : ∀ k, k < 16 → ¬ opcode = k := fun k hk => by omega
    simp only [assemble_pass2_switch, GIGA_OP_JMP, GIGA_OP_NOP,
      GIGA_OP_MOVI, GIGA_OP_MOV, GIGA_OP_ADD, GIGA_OP_SUB, GIGA_OP_AND, GIGA_OP_OR,
      GIGA_OP_XOR, GIGA_OP_NOT, GIGA_OP_SHL, GIGA_OP_SHR, GIGA_OP_LD, GIGA_OP_ST,
      GIGA_OP_HALT, hne 0 (by decide), hne 1 (by decide), hne 2 (by decide),
      hne 3 (by decide), hne 4 (by decide), hne 5 (by decide), hne 6 (by decide),
      hne 7 (by decide), hne 8 (by decide), hne 9 (by decide), hne 10 (by decide),
      hne 11 (by decide), hne 12 (by decide), hne 13 (by decide), hne 15 (by decide),
      ↓reduceIte, or_self]

/-- C13 (counterexample): an instruction with more operands than its opcode
requires is not rejected: `NOP` with one operand (required: 0) assembles, and
the source text `MOV R1, R2, R3` (three operands, required: 2) parses and
assembles to the word of `MOV R1, R2`. -/
theorem C13_extra_operands_are_accepted :
    [GigaOperand.register 0].length ≠ required_operands GIGA_OP_NOP ∧
    (giga_assemble [] (single_instruction "NOP" [GigaOperand.register 0] 1 1)
      empty_result).1 = 0 ∧
    (instructions_of (parsed_statements (bytes "MOV R1, R2, R3"))).map
        (fun inst => (inst.mnemonic_text, inst.operand_count))
      = [(bytes "MOV", 3)] ∧
    required_operands GIGA_OP_MOV = 2 ∧
    (assemble_source (bytes "MOV R1, R2, R3")).map
        (fun out => (out.1, out.2.word_count, bytecode_word out.2 0))
      = some (0, 1, 0x1120) := by
  refine ⟨by decide, by decide, by decide, by decide, by decide⟩

/-- C13 (amended): `giga_assemble` rejects every statement list that holds an
instruction with fewer operands than its opcode requires (1 for NOT, SHL, SHR
and JMP; 2 for MOVI, MOV, ADD, SUB, AND, OR, XOR, LD and ST): it returns 1 with
`has_error = 1` and no bytecode.  Operands beyond the required number are not
looked at: the operand switch gives the same result with and without them. -/
theorem C13_too_few_operands_are_rejected (label_table : List LabelEntry)
    (result : GigaAssemblerResult) (statements : List GigaStatement)
    (inst : GigaParsedInstruction) (hmem : inst ∈ instructions_of statements)
    (hfew : has_too_few_operands inst) :
    ((giga_assemble label_table statements result).1 = 1 ∧
      (giga_assemble label_table statements result).2.1.has_error = 1 ∧
      (giga_assemble label_table statements result).2.1.bytecode = Option.none) ∧
    (∀ (table : List LabelEntry) (opcode : Nat) (other : GigaParsedInstruction),
      required_operands opcode ≤ other.operand_count →
      assemble_pass2_switch table opcode other
        = assemble_pass2_switch table opcode
            { other with operands := other.operands.take (required_operands opcode) }) ∧
    [GIGA_OP_NOP, GIGA_OP_HALT, GIGA_OP_NOT, GIGA_OP_SHL, GIGA_OP_SHR, GIGA_OP_JMP,
        GIGA_OP_MOVI, GIGA_OP_MOV, GIGA_OP_ADD, GIGA_OP_SUB, GIGA_OP_AND, GIGA_OP_OR,
        GIGA_OP_XOR, GIGA_OP_LD, GIGA_OP_ST].map required_operands
      = [0, 0, 1, 1, 1, 1, 2, 2, 2, 2, 2, 2, 2, 2, 2] :=
  ⟨giga_assemble_rejects label_table statements result inst hmem
      (Or.inr (Or.inl hfew)),
    switch_ignores_extra_operands, by decide⟩

theorem C13_too_few_operands_are_rejected_witness :
    (giga_assemble [] (single_instruction "ADD" [GigaOperand.register 1] 4 2)
      empty_result).1 = 1 ∧
    (giga_assemble [] (single_instruction "ADD" [GigaOperand.register 1] 4 2)
      empty_result).2.1.has_error = 1 ∧
    (giga_assemble [] (single_instruction "ADD" [GigaOperand.register 1] 4 2)
      empty_result).2.1.bytecode = Option.none :=
  (C13_too_few_operands_are_rejected [] empty_result
    (single_instruction "ADD" [GigaOperand.register 1] 4 2)
    { mnemonic_text := bytes "ADD", operands := [GigaOperand.register 1], source_line := 4,
      source_column := 2 }
    (by simp [single_instruction, instructions_of])
    ⟨GIGA_OP_ADD, by decide, by decide⟩).1

/-- A name without NUL byte that no entry of the table carries is not found. -/
theorem label_table_find_undefined (entries : List LabelEntry) (name : List Nat)
    (hnul : 0 ∉ name) (h : ∀ e ∈ entries, e.name ≠ name) :
    label_table_find entries name = 0xFFFF := by
  have := label_table_find_append_of_no_match entries [] name
    (fun e he hmatch => h e he ((name_match_iff e.name name hnul).1 hmatch))
  simpa [label_table_find] using this

/-- A name without NUL byte that no Label statement defines is not in the table
of pass 1. -/
theorem label_undefined_in_pass1 (statements : List GigaStatement) (L : List Nat)
    (hnul : 0 ∉ L) (hundef : statements.countP (defines_label L) = 0) :
    label_table_find (pass1_labels statements 0).reverse L = 0xFFFF := by
  apply label_table_find_undefined _ _ hnul
  intro e he hname
  rw [List.mem_reverse] at he
  obtain ⟨l, hl, hn⟩ := pass1_labels_names statements 0 e he
  rw [List.countP_eq_zero] at hundef
  exact hundef _ hl (by simp [defines_label, hn, hname])

/-- The error of pass 2 for a jump to a name that the table does not hold. -/
theorem instruction_error_undefined_label (label_table : List LabelEntry)
    (jmp : GigaParsedInstruction) (L : List Nat) (hto : is_jump_to L jmp)
    (hfind : label_table_find label_table L = 0xFFFF) :
    instruction_error label_table jmp = some "Undefined label" := by
  obtain ⟨hmn, hop⟩ := hto
  have hlen : ¬ jmp.operand_count < 1 := by
    cases hops : jmp.operands with
    | nil => simp [hops] at hop
    | cons o os => simp [GigaParsedInstruction.operand_count, hops]
  have hget : jmp.operands.getD 0 GigaOperand.none = GigaOperand.label L := by
    cases hops : jmp.operands with
    | nil => simp [hops] at hop
    | cons o os => simpa [hops] using hop
  have hmo : mnemonic_to_opcode (bytes "JMP") = some GIGA_OP_JMP := by decide
  simp only [instruction_error, hmn, hmo, assemble_pass2_switch, hlen, hget, hfind,
    GIGA_OP_JMP, GIGA_OP_NOP, GIGA_OP_MOVI, GIGA_OP_MOV, GIGA_OP_ADD, GIGA_OP_SUB,
    GIGA_OP_AND, GIGA_OP_OR, GIGA_OP_XOR, GIGA_OP_NOT, GIGA_OP_SHL, GIGA_OP_SHR,
    GIGA_OP_LD, GIGA_OP_ST, ↓reduceIte, Nat.reduceEqDiff, or_self]

/-- C14: if a statement list has fewer than 128 instructions, every instruction
in front of some JMP is valid (has none of the four defects), and the first
operand of that JMP is a label name (without NUL byte) that no Label statement
of the list defines, then `giga_assemble` returns 1 with `has_error = 1`, the
message `Undefined label`, the line and column of that JMP, and no bytecode. -/
theorem C14_undefined_label_is_reported (label_table : List LabelEntry)
    (result : GigaAssemblerResult) (statements before after : List GigaStatement)
    (jmp : GigaParsedInstruction) (L : List Nat)
    (hcount : count_instructions statements < 128)
    (hsplit : statements = before ++ GigaStatement.instruction jmp :: after)
    (hbefore : ∀ i ∈ instructions_of before,
      ¬ instruction_defect (pass1_labels statements 0).reverse i)
    (hto : is_jump_to L jmp) (hnul : 0 ∉ L)
    (hundef : statements.countP (defines_label L) = 0) :
    (giga_assemble label_table statements result).1 = 1 ∧
    (giga_assemble label_table statements result).2.1.bytecode = Option.none ∧
    (giga_assemble label_table statements result).2.1.has_error = 1 ∧
    (giga_assemble label_table statements result).2.1.error_message
      = some "Undefined label" ∧
    (giga_assemble label_table statements result).2.1.error_line = jmp.source_line ∧
    (giga_assemble label_table statements result).2.1.error_column = jmp.source_column :=
  giga_assemble_reports label_table statements before after result jmp "Undefined label"
    hsplit hcount hbefore
    (instruction_error_undefined_label _ jmp L hto
      (label_undefined_in_pass1 statements L hnul hundef))

theorem C14_undefined_label_is_reported_witness :
    (giga_assemble [] undefined_label_program empty_result).1 = 1 ∧
    (giga_assemble [] undefined_label_program empty_result).2.1.bytecode = Option.none ∧
    (giga_assemble [] undefined_label_program empty_result).2.1.has_error = 1 ∧
    (giga_assemble [] undefined_label_program empty_result).2.1.error_message
      = some "Undefined label" ∧
    (giga_assemble [] undefined_label_program empty_result).2.1.error_line = 2 ∧
    (giga_assemble [] undefined_label_program empty_result).2.1.error_column = 5 :=
  C14_undefined_label_is_reported [] empty_result undefined_label_program
    (undefined_label_program.take 1) (undefined_label_program.drop 2)
    { mnemonic_text := bytes "JMP", operands := [GigaOperand.label (bytes "END")],
      source_line := 2, source_column := 5 } (bytes "END")
    (by decide) (by decide)
    (by
      intro i hi
      simp only [undefined_label_program, List.take, instructions_of,
        List.mem_singleton] at hi
      subst hi
      rw [← instruction_error_none_iff_no_defect]
      rfl)
    ⟨rfl, rfl⟩ (by decide) (by decide)
/-- C15: for a non-empty statement list `giga_assemble` returns non-zero iff
`has_error` is 1 in the result; on failure `bytecode` is NULL; and when the
list has fewer than 128 instructions, the reported message, line and column
are those of the first instruction in program order that has an unknown
mnemonic, too few operands, an operand of a wrong kind or an undefined
label. -/
theorem C15_first_error_is_reported (label_table : List LabelEntry)
    (result : GigaAssemblerResult) (statements : List GigaStatement)
    (hne : statements ≠ []) :
    ((giga_assemble label_table statements result).1 ≠ 0 ↔
      (giga_assemble label_table statements result).2.1.has_error = 1) ∧
    ((giga_assemble label_table statements result).1 ≠ 0 →
      (giga_assemble label_table statements result).2.1.bytecode = Option.none) ∧
    (count_instructions statements < 128 →
      (giga_assemble label_table statements result).1 ≠ 0 →
      ∃ before inst after message,
        statements = before ++ GigaStatement.instruction inst :: after ∧
        (∀ i ∈ instructions_of before,
          ¬ instruction_defect (pass1_labels statements 0).reverse i) ∧
        instruction_defect (pass1_labels statements 0).reverse inst ∧
        instruction_error (pass1_labels statements 0).reverse inst = some message ∧
        (giga_assemble label_table statements result).2.1.error_message = some message ∧
        (giga_assemble label_table statements result).2.1.error_line = inst.source_line ∧
        (giga_assemble label_table statements result).2.1.error_column
          = inst.source_column) := by
  by_cases hcount : count_instructions statements < 128
  · cases hfd : first_defect (pass1_labels statements 0).reverse statements with
    | none =>
      have h0 := giga_assemble_no_defect label_table statements result hne hcount hfd
      obtain ⟨_, _, _, ws, hres, _⟩ :=
        giga_assemble_success label_table statements result h0
      refine ⟨?_, fun h => absurd h0 h, fun _ h => absurd h0 h⟩
      rw [h0, hres]
      simp
    | some found =>
      obtain ⟨inst, message⟩ := found
      obtain ⟨h1, h2, h3, h4, h5, h6⟩ :=
        giga_assemble_first_defect label_table statements result inst message hcount hfd
      obtain ⟨before, after, hs, hb, he⟩ := (first_defect_split _ _ _ _).1 hfd
      refine ⟨by rw [h1, h3]; simp, fun _ => h2, fun _ _ =>
        ⟨before, inst, after, message, hs, ?_, ?_, he, h4, h5, h6⟩⟩
      · exact fun i hi => (instruction_error_none_iff_no_defect _ _).1 (hb i hi)
      · exact (instruction_error_iff_defect _ _).1 ⟨message, he⟩
  · obtain ⟨i, _, h1, h2⟩ := giga_assemble_too_large label_table statements result
      (by omega)
    refine ⟨by rw [h1, h2]; simp, fun _ => by rw [h2], fun h => absurd h hcount⟩

theorem C15_first_error_is_reported_witness :
    ((giga_assemble [] lowercase_program empty_result).1 ≠ 0 ↔
      (giga_assemble [] lowercase_program empty_result).2.1.has_error = 1) ∧
    ((giga_assemble [] lowercase_program empty_result).1 ≠ 0 →
      (giga_assemble [] lowercase_program empty_result).2.1.bytecode = Option.none) :=
  ⟨(C15_first_error_is_reported [] empty_result lowercase_program (by decide)).1,
    (C15_first_error_is_reported [] empty_result lowercase_program (by decide)).2.1⟩

/-- On a non-empty list `giga_assemble` ignores the label table and the result
it is handed. -/
theorem giga_assemble_independent (statements : List GigaStatement)
    (hne : statements ≠ []) (table table' : List LabelEntry)
    (result result' : GigaAssemblerResult) :
    giga_assemble table statements result = giga_assemble table' statements result' := by
  cases statements with
  | nil => exact absurd rfl hne
  | cons x xs => rfl

/-- C16: the outcome of `giga_assemble` on a non-empty list B does not depend on
an earlier assembly of a list A: after A, with or without
`giga_assembler_free` in between, assembling B gives the same return value,
result (words, word count, error fields) and label table as assembling B with
an empty label table and a fresh result; in particular a name (without NUL
byte) that B does not define is not found in the table B is assembled with,
whatever A defined, and a jump in B to a label defined only in A fails with
`Undefined label`. -/
theorem C16_assembly_is_independent_of_history (A B : List GigaStatement)
    (table0 : List LabelEntry) (result0 result1 : GigaAssemblerResult) (L : List Nat)
    (hB : B ≠ []) (hcount : count_instructions B < 128) (hnul : 0 ∉ L)
    (hundef : B.countP (defines_label L) = 0) :
    giga_assemble (giga_assemble table0 A result0).2.2 B (giga_assemble table0 A result0).2.1
      = giga_assemble [] B result1 ∧
    giga_assemble
        (giga_assembler_free (giga_assemble table0 A result0).2.2
          (giga_assemble table0 A result0).2.1).2
        B
        (giga_assembler_free (giga_assemble table0 A result0).2.2
          (giga_assemble table0 A result0).2.1).1
      = giga_assemble [] B result1 ∧
    label_table_find
        (giga_assemble (giga_assemble table0 A result0).2.2 B
          (giga_assemble table0 A result0).2.1).2.2 L
      = 0xFFFF ∧
    (giga_assemble [] defines_end_program empty_result).1 = 0 ∧
    label_table_find (giga_assemble [] defines_end_program empty_result).2.2 (bytes "END")
      = 1 ∧
    (giga_assemble (giga_assemble [] defines_end_program empty_result).2.2
        jumps_to_end_program
        (giga_assemble [] defines_end_program empty_result).2.1).2.1.error_message
      = some "Undefined label" := by
  refine ⟨giga_assemble_independent B hB _ _ _ _, giga_assemble_independent B hB _ _ _ _,
    ?_, by decide, by decide, by decide⟩
  rw [giga_assemble_below_limit _ B _ hB hcount]
  have := label_undefined_in_pass1 B L hnul hundef
  split_ifs <;> exact this

theorem C16_assembly_is_independent_of_history_witness :
    giga_assemble (giga_assemble [] defines_end_program empty_result).2.2
        jumps_to_end_program (giga_assemble [] defines_end_program empty_result).2.1
      = giga_assemble [] jumps_to_end_program empty_result :=
  (C16_assembly_is_independent_of_history defines_end_program jumps_to_end_program []
    empty_result empty_result (bytes "END") (by decide) (by decide) (by decide)
    (by decide)).1

theorem pass1_loop_remove_directives (statements : List GigaStatement) (a : Nat)
    (label_table : List LabelEntry) (result : GigaAssemblerResult) :
    assemble_pass1_loop (remove_directives statements) a label_table result
      = assemble_pass1_loop statements a label_table result := by
  induction statements generalizing a label_table with
  | nil => rfl
  | cons x xs ih =>
    cases x with
    | label l => simp only [remove_directives, assemble_pass1_loop, ih]
    | directive d => simp only [remove_directives, assemble_pass1_loop, ih]
    | instruction inst =>
      simp only [remove_directives, assemble_pass1_loop, ih]

theorem pass2_loop_remove_directives (statements : List GigaStatement)
    (label_table : List LabelEntry) (result : GigaAssemblerResult) :
    assemble_pass2_loop (remove_directives statements) label_table result
      = assemble_pass2_loop statements label_table result := by
  induction statements generalizing result with
  | nil => rfl
  | cons x xs ih =>
    cases x with
    | label l => simp only [remove_directives, assemble_pass2_loop, ih]
    | directive d => simp only [remove_directives, assemble_pass2_loop, ih]
    | instruction inst =>
      simp only [remove_directives, assemble_pass2_loop, ih]

theorem remove_directives_ne_nil (statements : List GigaStatement)
    (h : statements.any is_label_or_instruction = true) :
    remove_directives statements ≠ [] := by
  induction statements with
  | nil => simp at h
  | cons x xs ih =>
    cases x with
    | label l => simp [remove_directives]
    | instruction inst => simp [remove_directives]
    | directive d =>
      simp only [remove_directives]
      exact ih (by simpa [is_label_or_instruction] using h)

theorem giga_assemble_of_ne_nil (label_table : List LabelEntry)
    (statements : List GigaStatement) (result : GigaAssemblerResult)
    (hne : statements ≠ []) :
    giga_assemble label_table statements result
      = if (assemble_pass1 statements [] empty_result).1 ≠ 0 then
          (1, (assemble_pass1 statements [] empty_result).2.1,
            (assemble_pass1 statements [] empty_result).2.2)
        else if (assemble_pass2 statements (assemble_pass1 statements [] empty_result).2.2
            (assemble_pass1 statements [] empty_result).2.1).1 ≠ 0 then
          (1, { (assemble_pass2 statements (assemble_pass1 statements [] empty_result).2.2
                  (assemble_pass1 statements [] empty_result).2.1).2 with
                bytecode := Option.none },
            (assemble_pass1 statements [] empty_result).2.2)
        else
          (0, (assemble_pass2 statements (assemble_pass1 statements [] empty_result).2.2
                (assemble_pass1 statements [] empty_result).2.1).2,
            (assemble_pass1 statements [] empty_result).2.2) := by
  cases statements with
  | nil => exact absurd rfl hne
  | cons x xs => rfl

/-- C17: Directive statements are inert: for every statement list with at least
one Label or Instruction statement, removing all Directive statements leaves
the outcome of `giga_assemble` unchanged (return value, the whole result with
words, word count, error message and position, and the label table). -/
theorem C17_directives_are_inert (label_table : List LabelEntry)
    (result : GigaAssemblerResult) (statements : List GigaStatement)
    (h : statements.any is_label_or_instruction = true) :
    giga_assemble label_table (remove_directives statements) result
      = giga_assemble label_table statements result := by
  have hne' := remove_directives_ne_nil statements h
  have hne : statements ≠ [] := by
    rintro rfl
    simp at h
  rw [giga_assemble_of_ne_nil _ _ _ hne, giga_assemble_of_ne_nil _ _ _ hne']
  simp only [assemble_pass1, assemble_pass2, pass1_loop_remove_directives,
    pass2_loop_remove_directives]

theorem C17_directives_are_inert_witness :
    giga_assemble [] (remove_directives directive_program) empty_result
      = giga_assemble [] directive_program empty_result :=
  C17_directives_are_inert [] empty_result directive_program (by decide)

/-! ### Number literals above 15 -/

/-- Claim C11, refuted by the code: the accumulator of `giga_parser_parse_number`
is a `uint8_t`, so a literal is reduced modulo 256 before the test `value > 15`.
`MOVI R0, 256` and `MOVI R0, 0x100` are parsed with return value 0 and no error,
as `MOVI R0, 0`, and assemble to the word `0x2000`; `MOVI R0, 271` is parsed as
`MOVI R0, 15`.  The literals 16, 255 and `0x10` are rejected. -/
theorem C11_literal_256_is_accepted_as_0 :
    parse_report (bytes "MOVI R0, 256") = some (0, 0, Option.none, 0, 0) ∧
    parsed_statements (bytes "MOVI R0, 256")
      = [GigaStatement.instruction
          { mnemonic_text := bytes "MOVI"
            operands := [GigaOperand.register 0, GigaOperand.immediate 0]
            source_line := 1, source_column := 1 }] ∧
    (assemble_source (bytes "MOVI R0, 256")).map
        (fun out => (out.1, out.2.word_count, bytecode_word out.2 0))
      = some (0, 1, 0x2000) ∧
    parse_report (bytes "MOVI R0, 0x100") = some (0, 0, Option.none, 0, 0) ∧
    parsed_statements (bytes "MOVI R0, 0x100")
      = [GigaStatement.instruction
          { mnemonic_text := bytes "MOVI"
            operands := [GigaOperand.register 0, GigaOperand.immediate 0]
            source_line := 1, source_column := 1 }] ∧
    parse_return (bytes "MOVI R0, 271") = some 0 ∧
    parsed_statements (bytes "MOVI R0, 271")
      = [GigaStatement.instruction
          { mnemonic_text := bytes "MOVI"
            operands := [GigaOperand.register 0, GigaOperand.immediate 15]
            source_line := 1, source_column := 1 }] ∧
    parse_return (bytes "MOVI R0, 16") = some 1 ∧
    parse_return (bytes "MOVI R0, 255") = some 1 ∧
    parse_return (bytes "MOVI R0, 0x10") = some 1 := by
  refine ⟨by decide, by decide, by decide, by decide, by decide, by decide, by decide,
    by decide, by decide, by decide⟩

/-! ### The token stream of a small program -/

/-- Claim C18: the 14 bytes `MOV R0, 5`, newline, `HALT` give exactly seven
tokens: identifier `MOV` at 1:1, identifier `R0` at 1:5, comma at 1:7, number `5`
at 1:9, newline at 1:10, identifier `HALT` at 2:1 and end-of-input at 2:5 with
length 0. -/
theorem C18_tokens_of_mov_halt :
    (bytes "MOV R0, 5\nHALT").length = 14 ∧
    tokenize (bytes "MOV R0, 5\nHALT")
      = [{ kind := GigaTokenKind.IDENTIFIER, text_begin := some 0, text_length := 3,
           line_number := 1, column_number := 1 },
         { kind := GigaTokenKind.IDENTIFIER, text_begin := some 4, text_length := 2,
           line_number := 1, column_number := 5 },
         { kind := GigaTokenKind.COMMA, text_begin := some 6, text_length := 1,
           line_number := 1, column_number := 7 },
         { kind := GigaTokenKind.NUMBER, text_begin := some 8, text_length := 1,
           line_number := 1, column_number := 9 },
         { kind := GigaTokenKind.NEWLINE, text_begin := some 9, text_length := 1,
           line_number := 1, column_number := 10 },
         { kind := GigaTokenKind.IDENTIFIER, text_begin := some 10, text_length := 4,
           line_number := 2, column_number := 1 },
         { kind := GigaTokenKind.EOF, text_begin := Option.none, text_length := 0,
           line_number := 2, column_number := 5 }] ∧
    (tokenize (bytes "MOV R0, 5\nHALT")).map (giga_token_text (bytes "MOV R0, 5\nHALT"))
      = [bytes "MOV", bytes "R0", bytes ",", bytes "5", bytes "\n", bytes "HALT", []] := by
  refine ⟨by decide, by decide, by decide⟩

/-! ### The lexer on the unread bytes -/

theorem drop_length_takeWhile (p : Nat → Bool) (l : List Nat) :
    l.drop (l.takeWhile p).length = l.dropWhile p := by
  induction l with
  | nil => rfl
  | cons a l ih =>
    by_cases h : p a = true
    · simp [List.takeWhile_cons, List.dropWhile_cons, h, ih]
    · simp [List.takeWhile_cons, List.dropWhile_cons, h]

theorem remaining_eq_length (lexer : GigaLexer) (hw : lexer_whole lexer) :
    giga_lexer_remaining lexer = (lexer_rest lexer).length := by
  unfold giga_lexer_remaining lexer_rest
  rw [hw, List.length_drop]

theorem peek_eq_head (lexer : GigaLexer) (hw : lexer_whole lexer) :
    giga_lexer_peek lexer = (lexer_rest lexer).headD 0 := by
  unfold giga_lexer_peek lexer_rest
  rw [hw]
  by_cases h : lexer.current_index ≥ lexer.buffer.length
  · rw [if_pos h, List.drop_eq_nil_of_le h]
    rfl
  · rw [if_neg h, List.drop_eq_getElem_cons (by omega)]
    simp only [List.getD_eq_getElem?_getD, List.headD_cons]
    rw [List.getElem?_eq_getElem (by omega)]
    rfl

@[simp] theorem lexer_shift_whole (lexer : GigaLexer) (k : Nat) :
    lexer_whole (lexer_shift lexer k) ↔ lexer_whole lexer := Iff.rfl

@[simp] theorem lexer_newline_whole (lexer : GigaLexer) (k : Nat) :
    lexer_whole (lexer_newline lexer k) ↔ lexer_whole lexer := Iff.rfl

@[simp] theorem lexer_shift_rest (lexer : GigaLexer) (k : Nat) :
    lexer_rest (lexer_shift lexer k) = (lexer_rest lexer).drop k := by
  simp [lexer_rest, lexer_shift, List.drop_drop]

@[simp] theorem lexer_newline_rest (lexer : GigaLexer) (k : Nat) :
    lexer_rest (lexer_newline lexer k) = (lexer_rest lexer).drop k := by
  simp [lexer_rest, lexer_newline, List.drop_drop]

theorem lexer_shift_zero (lexer : GigaLexer) : lexer_shift lexer 0 = lexer := rfl

theorem lexer_shift_shift (lexer : GigaLexer) (a b : Nat) :
    lexer_shift (lexer_shift lexer a) b = lexer_shift lexer (a + b) := by
  simp [lexer_shift, Nat.add_assoc]

theorem lexer_shift_newline (lexer : GigaLexer) (a b : Nat) :
    lexer_newline (lexer_shift lexer a) b = lexer_newline lexer (a + b) := by
  simp [lexer_shift, lexer_newline, Nat.add_assoc]

/-- One `giga_lexer_advance` over the first unread byte. -/
theorem advance_of_rest (lexer : GigaLexer) (hw : lexer_whole lexer) (c : Nat)
    (tail : List Nat) (h : lexer_rest lexer = c :: tail) :
    (giga_lexer_advance lexer).2
      = if c = 10 then lexer_newline lexer 1 else lexer_shift lexer 1 := by
  have hidx : lexer.current_index < lexer.buffer.length := by
    by_contra hge
    unfold lexer_rest at h
    rw [List.drop_eq_nil_of_le (by omega)] at h
    exact absurd h (by simp)
  have hc : lexer.buffer.getD lexer.current_index 0 = c := by
    have := peek_eq_head lexer hw
    unfold giga_lexer_peek at this
    rw [if_neg (by rw [hw]; omega), h] at this
    exact this
  unfold giga_lexer_advance
  rw [if_neg (by rw [hw]; omega)]
  simp only [hc]
  split_ifs <;> rfl

/-- The loop `giga_lexer_advance_while` consumes the longest run of bytes that
pass its test. -/
theorem advance_while_eq (p : Nat → Bool) (hp0 : p 0 = false) (hp10 : p 10 = false)
    (fuel : Nat) (lexer : GigaLexer) (hw : lexer_whole lexer)
    (hf : (lexer_rest lexer).length ≤ fuel) :
    giga_lexer_advance_while p fuel lexer
      = lexer_shift lexer ((lexer_rest lexer).takeWhile p).length := by
  induction fuel generalizing lexer with
  | zero =>
    have : lexer_rest lexer = [] := List.length_eq_zero.1 (by omega)
    rw [this]
    rfl
  | succ fuel ih =>
    unfold giga_lexer_advance_while
    rw [peek_eq_head lexer hw]
    cases hr : lexer_rest lexer with
    | nil =>
      simp only [List.headD_nil, hp0, Bool.false_eq_true, ↓reduceIte, List.takeWhile_nil,
        List.length_nil]
      rfl
    | cons c tail =>
      simp only [List.headD_cons]
      by_cases hc : p c = true
      · have hc10 : c ≠ 10 := by
          rintro rfl
          rw [hp10] at hc
          exact Bool.false_ne_true hc
        rw [if_pos hc, advance_of_rest lexer hw c tail hr, if_neg hc10,
          ih (lexer_shift lexer 1) hw (by
            rw [lexer_shift_rest, hr]
            simp only [List.drop_succ_cons, List.drop_zero]
            rw [hr] at hf
            simp only [List.length_cons] at hf
            omega),
          lexer_shift_shift, lexer_shift_rest, hr]
        simp only [List.drop_succ_cons, List.drop_zero, List.takeWhile_cons, hc, ↓reduceIte,
          List.length_cons]
        rw [Nat.add_comm]
      · rw [if_neg hc]
        simp only [List.takeWhile_cons, hc, Bool.false_eq_true, ↓reduceIte, List.length_nil]
        rfl

/-- The skip loop consumes `scan_skip_len` bytes of the current line. -/
theorem skip_loop_eq (fuel : Nat) (lexer : GigaLexer) (hw : lexer_whole lexer) :
    giga_lexer_skip_loop fuel lexer
      = lexer_shift lexer (scan_skip_len fuel (lexer_rest lexer)) := by
  induction fuel generalizing lexer with
  | zero => rfl
  | succ fuel ih =>
    unfold giga_lexer_skip_loop scan_skip_len
    simp only []
    rw [advance_while_eq is_horizontal_space (by decide) (by decide) _ lexer hw
      (by rw [remaining_eq_length lexer hw])]
    rw [peek_eq_head _ ((lexer_shift_whole _ _).2 hw), lexer_shift_rest,
      drop_length_takeWhile]
    by_cases hc : ((lexer_rest lexer).dropWhile is_horizontal_space).headD 0 = 59
    · rw [if_pos hc, if_pos hc]
      rw [advance_while_eq is_comment_byte (by decide) (by decide) _ _
        ((lexer_shift_whole _ _).2 hw)
        (by rw [remaining_eq_length _ ((lexer_shift_whole _ _).2 hw)])]
      rw [lexer_shift_shift, ih _ ((lexer_shift_whole _ _).2 hw), lexer_shift_shift,
        lexer_shift_rest, lexer_shift_rest, drop_length_takeWhile]
      rw [← drop_length_takeWhile is_comment_byte
        ((lexer_rest lexer).dropWhile is_horizontal_space)]
      rw [← drop_length_takeWhile is_horizontal_space (lexer_rest lexer), List.drop_drop]
    · rw [if_neg hc, if_neg hc]

theorem getD_of_rest (lexer : GigaLexer) (c : Nat) (tail : List Nat)
    (h : lexer_rest lexer = c :: tail) :
    lexer.buffer.getD lexer.current_index 0 = c := by
  unfold lexer_rest at h
  have hidx : lexer.current_index < lexer.buffer.length := by
    by_contra hge
    rw [List.drop_eq_nil_of_le (by omega)] at h
    exact absurd h (by simp)
  rw [List.drop_eq_getElem_cons hidx] at h
  simp only [List.getD_eq_getElem?_getD]
  rw [List.getElem?_eq_getElem hidx]
  exact (List.cons.inj h).1

theorem advance_while_shift_one (p : Nat → Bool) (hp0 : p 0 = false) (hp10 : p 10 = false)
    (lexer : GigaLexer) (hw : lexer_whole lexer) (k : Nat) :
    giga_lexer_advance_while p (giga_lexer_remaining (lexer_shift lexer k))
        (lexer_shift lexer k)
      = lexer_shift lexer (k + (((lexer_rest lexer).drop k).takeWhile p).length) := by
  rw [advance_while_eq p hp0 hp10 _ _ ((lexer_shift_whole _ _).2 hw)
    (by rw [remaining_eq_length _ ((lexer_shift_whole _ _).2 hw)]),
    lexer_shift_shift, lexer_shift_rest]

/-- The token `giga_lexer_next_token` cuts once white space and comments are
skipped, read off the unread bytes. -/
theorem next_token_of_skip (lexer0 lexer : GigaLexer) (hw : lexer_whole lexer)
    (hs : giga_lexer_skip_spaces_and_comments lexer0 = lexer) :
    giga_lexer_next_token lexer0
      = ({ kind := (scan_token (lexer_rest lexer)).1
           text_begin :=
             if (scan_token (lexer_rest lexer)).1 = GigaTokenKind.EOF then Option.none
             else some lexer.current_index
           text_length := (scan_token (lexer_rest lexer)).2
           line_number := lexer.line_number
           column_number := lexer.column_number },
         if (scan_token (lexer_rest lexer)).1 = GigaTokenKind.NEWLINE then
           lexer_newline lexer 1
         else lexer_shift lexer (scan_token (lexer_rest lexer)).2) := by
  have hp := peek_eq_head lexer hw
  unfold giga_lexer_next_token
  simp only [hs]
  cases hr : lexer_rest lexer with
  | nil =>
    rw [hr] at hp
    simp only [List.headD_nil] at hp
    simp only [hp, true_or, ↓reduceIte, scan_token]
    rfl
  | cons c tail =>
    rw [hr] at hp
    simp only [List.headD_cons] at hp
    have hidx : ¬ lexer.current_index ≥ lexer.buffer_length := by
      intro hge
      have := remaining_eq_length lexer hw
      rw [hr] at this
      unfold giga_lexer_remaining at this
      simp only [List.length_cons] at this
      omega
    have hadv := advance_of_rest lexer hw c tail hr
    have hget := getD_of_rest lexer c tail hr
    have hw1 : lexer_whole (lexer_shift lexer 1) := (lexer_shift_whole _ _).2 hw
    have hpeek1 : giga_lexer_peek (lexer_shift lexer 1) = tail.headD 0 := by
      rw [peek_eq_head _ hw1, lexer_shift_rest, hr]
      rfl
    have hwhile : ∀ p : Nat → Bool, p 0 = false → p 10 = false →
        giga_lexer_advance_while p (giga_lexer_remaining (lexer_shift lexer 1))
            (lexer_shift lexer 1)
          = lexer_shift lexer (1 + (tail.takeWhile p).length) := by
      intro p hp0 hp10
      rw [advance_while_shift_one p hp0 hp10 lexer hw 1, hr]
      rfl
    simp only [hp, hidx, or_false]
    by_cases h0 : c = 0
    · subst h0
      simp only [↓reduceIte, scan_token]
      rfl
    by_cases h10 : c = 10
    · subst h10
      simp only [hadv, ↓reduceIte, scan_token, giga_lexer_make_token, lexer_newline,
        Nat.add_sub_cancel_left, OfNat.ofNat_ne_zero, reduceCtorEq]
    rw [if_neg h10] at hadv
    simp only [hadv, h0, h10, ↓reduceIte]
    by_cases h44 : c = 44
    · subst h44
      simp only [↓reduceIte, scan_token, giga_lexer_make_token, lexer_shift,
        Nat.add_sub_cancel_left, OfNat.ofNat_ne_zero, reduceCtorEq, Nat.reduceEqDiff]
    by_cases h58 : c = 58
    · subst h58
      simp only [↓reduceIte, scan_token, giga_lexer_make_token, lexer_shift,
        Nat.add_sub_cancel_left, OfNat.ofNat_ne_zero, reduceCtorEq, Nat.reduceEqDiff]
    by_cases h46 : c = 46
    · subst h46
      simp only [↓reduceIte, scan_token, giga_lexer_make_token,
        hwhile giga_lexer_is_identifier_continue (by decide) (by decide)]
      simp [lexer_shift]
    simp only [h44, h58, h46, ↓reduceIte, scan_token]
    by_cases hdig : isdigit c = true
    · simp only [hdig, ↓reduceIte]
      have hone : (lexer_shift lexer 1).current_index - lexer.current_index = 1 := by
        simp [lexer_shift, h0, h10]
      have hbuf : (lexer_shift lexer 1).buffer.getD lexer.current_index 0 = c := hget
      simp only [hone, hbuf, hpeek1, true_and]
      by_cases hhex : c = 48 ∧ (tail.headD 0 = 120 ∨ tail.headD 0 = 88)
      · rw [if_pos hhex, if_pos hhex]
        obtain ⟨x, tail2, rfl⟩ : ∃ x tail2, tail = x :: tail2 := by
          cases tail with
          | nil => simp at hhex
          | cons x tail2 => exact ⟨x, tail2, rfl⟩
        have hx10 : x ≠ 10 := by
          rintro rfl
          simp at hhex
        have hadv2 : (giga_lexer_advance (lexer_shift lexer 1)).2 = lexer_shift lexer 2 := by
          rw [advance_of_rest _ hw1 x tail2 (by rw [lexer_shift_rest, hr]; rfl), if_neg hx10,
            lexer_shift_shift]
        rw [hadv2, advance_while_shift_one isxdigit (by decide) (by decide) lexer hw 2, hr]
        simp [giga_lexer_make_token, lexer_shift, h0, h10]
      · rw [if_neg hhex, if_neg hhex, hwhile isdigit (by decide) (by decide)]
        simp [giga_lexer_make_token, lexer_shift, h0, h10]
    · simp only [hdig, Bool.false_eq_true, ↓reduceIte]
      by_cases hid : giga_lexer_is_identifier_start c = true
      · simp only [hid, ↓reduceIte, giga_lexer_make_token,
          hwhile giga_lexer_is_identifier_continue (by decide) (by decide)]
        simp [lexer_shift, h0, h10]
      · simp [hid, giga_lexer_make_token, lexer_shift, h0, h10]

/-- The next token and the lexer behind it, read off the unread bytes: `s`
bytes of white space and comments, then the token of `scan_token`. -/
theorem next_token_eq (lexer : GigaLexer) (hw : lexer_whole lexer) (s : Nat)
    (hs : s = scan_skip_len ((lexer_rest lexer).length + 1) (lexer_rest lexer)) :
    giga_lexer_next_token lexer
      = ({ kind := (scan_token ((lexer_rest lexer).drop s)).1
           text_begin :=
             if (scan_token ((lexer_rest lexer).drop s)).1 = GigaTokenKind.EOF then
               Option.none
             else some (lexer.current_index + s)
           text_length := (scan_token ((lexer_rest lexer).drop s)).2
           line_number := lexer.line_number
           column_number := lexer.column_number + s },
         if (scan_token ((lexer_rest lexer).drop s)).1 = GigaTokenKind.NEWLINE then
           lexer_newline lexer (s + 1)
         else lexer_shift lexer (s + (scan_token ((lexer_rest lexer).drop s)).2)) := by
  have hskip : giga_lexer_skip_spaces_and_comments lexer = lexer_shift lexer s := by
    unfold giga_lexer_skip_spaces_and_comments
    rw [remaining_eq_length lexer hw, skip_loop_eq _ lexer hw, hs]
  rw [next_token_of_skip lexer (lexer_shift lexer s) ((lexer_shift_whole _ _).2 hw) hskip,
    lexer_shift_rest, lexer_shift_newline, lexer_shift_shift]
  rfl

/-! ### White space, comments and tokens on byte lists -/

theorem scan_skip_len_cons_space (fuel c : Nat) (tail : List Nat)
    (hc : is_horizontal_space c = true) :
    scan_skip_len (fuel + 1) (c :: tail) = 1 + scan_skip_len (fuel + 1) tail := by
  unfold scan_skip_len
  simp only [List.takeWhile_cons, List.dropWhile_cons, hc, ↓reduceIte, List.length_cons]
  split_ifs <;> omega

theorem scan_skip_len_token_start (fuel c : Nat) (tail : List Nat)
    (hc : is_horizontal_space c = false) (h59 : c ≠ 59) :
    scan_skip_len fuel (c :: tail) = 0 := by
  cases fuel with
  | zero => rfl
  | succ fuel =>
    unfold scan_skip_len
    simp [List.takeWhile_cons, List.dropWhile_cons, hc, h59]

theorem scan_skip_len_nil (fuel : Nat) : scan_skip_len fuel [] = 0 := by
  cases fuel with
  | zero => rfl
  | succ fuel =>
    unfold scan_skip_len
    simp

/-- Behind a comment the skip loop consumes nothing more: the comment ends at
a newline, at a NUL byte or at the end of the buffer. -/
theorem scan_skip_len_after_comment (fuel : Nat) (l : List Nat) :
    scan_skip_len fuel (l.dropWhile is_comment_byte) = 0 := by
  induction l with
  | nil => exact scan_skip_len_nil fuel
  | cons a l ih =>
    by_cases ha : is_comment_byte a = true
    · simpa [List.dropWhile_cons, ha] using ih
    · have hsp : is_horizontal_space a = false := by
        have : a = 0 ∨ a = 10 := by
          simp only [is_comment_byte, bne_iff_ne, ne_eq, Bool.and_eq_true, not_and_or,
            not_not] at ha
          exact ha
        rcases this with rfl | rfl <;> decide
      have h59 : a ≠ 59 := by
        rintro rfl
        exact ha (by decide)
      simpa [List.dropWhile_cons, ha] using scan_skip_len_token_start fuel a l hsp h59

theorem scan_skip_len_cons_comment (fuel : Nat) (tail : List Nat) :
    scan_skip_len (fuel + 2) (59 :: tail)
      = 1 + (tail.takeWhile is_comment_byte).length := by
  unfold scan_skip_len
  have h1 : is_horizontal_space 59 = false := by decide
  have h2 : is_comment_byte 59 = true := by decide
  simp only [List.takeWhile_cons, List.dropWhile_cons, h1, h2, Bool.false_eq_true, ↓reduceIte,
    List.headD_cons, List.length_nil, List.length_cons, scan_skip_len_after_comment]
  omega

theorem takeWhile_append_stop (p : Nat → Bool) (l : List Nat) (h : Nat) (tail : List Nat)
    (hp : p h = false) : (l ++ h :: tail).takeWhile p = l.takeWhile p := by
  induction l with
  | nil => simp [List.takeWhile_cons, hp]
  | cons a l ih =>
    by_cases ha : p a = true
    · simp [List.takeWhile_cons, ha, ih]
    · simp [List.takeWhile_cons, ha]

theorem takeWhile_length_le (p : Nat → Bool) (l : List Nat) :
    (l.takeWhile p).length ≤ l.length := by
  induction l with
  | nil => simp
  | cons a l ih =>
    by_cases ha : p a = true
    · simp [List.takeWhile_cons, ha, ih]
    · simp [List.takeWhile_cons, ha]

theorem takeWhile_all (p : Nat → Bool) (l : List Nat) (h : ∀ x ∈ l, p x = true) :
    l.takeWhile p = l := by
  induction l with
  | nil => rfl
  | cons a l ih =>
    have ha : p a = true := h a (List.mem_cons_self a l)
    simp [List.takeWhile_cons, ha, ih (fun x hx => h x (List.mem_cons_of_mem a hx))]

/-- A token that starts in front of a `;` or a newline does not depend on what
follows that byte. -/
theorem scan_token_append_stop (l : List Nat) (hl : l ≠ []) (h : Nat) (tail : List Nat)
    (hh : h = 59 ∨ h = 10) : scan_token (l ++ h :: tail) = scan_token l := by
  have hid : giga_lexer_is_identifier_continue h = false := by
    rcases hh with rfl | rfl <;> decide
  have hdig : isdigit h = false := by
    rcases hh with rfl | rfl <;> decide
  have hxd : isxdigit h = false := by
    rcases hh with rfl | rfl <;> decide
  cases l with
  | nil => exact absurd rfl hl
  | cons c l =>
    cases l with
    | nil =>
      have hx : ¬ (h = 120 ∨ h = 88) := by
        rcases hh with rfl | rfl <;> decide
      simp [scan_token, List.takeWhile_cons, hid, hdig, hx]
    | cons x l =>
      simp only [List.cons_append, scan_token, List.headD_cons, List.drop_succ_cons,
        List.drop_zero]
      rw [← List.cons_append, takeWhile_append_stop _ _ _ _ hid,
        takeWhile_append_stop _ _ _ _ hdig, takeWhile_append_stop _ _ _ _ hxd]

theorem scan_token_length_le (l : List Nat) : (scan_token l).2 ≤ l.length := by
  cases l with
  | nil => simp [scan_token]
  | cons c l =>
    have h1 := takeWhile_length_le giga_lexer_is_identifier_continue l
    have h2 := takeWhile_length_le isdigit l
    simp only [scan_token, List.length_cons]
    split_ifs with _ _ _ _ _ _ hhex
    any_goals simp only
    any_goals omega
    obtain ⟨x, l2, rfl⟩ : ∃ x l2, l = x :: l2 := by
      cases l with
      | nil => simp at hhex
      | cons x l2 => exact ⟨x, l2, rfl⟩
    have h3 := takeWhile_length_le isxdigit l2
    simp only [List.drop_succ_cons, List.drop_zero, List.length_cons]
    omega

theorem scan_token_length_pos (l : List Nat) (h : (scan_token l).1 ≠ GigaTokenKind.EOF) :
    1 ≤ (scan_token l).2 := by
  cases l with
  | nil => simp [scan_token] at h
  | cons c l =>
    simp only [scan_token] at h ⊢
    split_ifs at h ⊢
    any_goals simp only
    any_goals omega
    all_goals exact absurd rfl h

theorem scan_token_newline_length (l : List Nat)
    (h : (scan_token l).1 = GigaTokenKind.NEWLINE) : (scan_token l).2 = 1 := by
  cases l with
  | nil => simp [scan_token] at h
  | cons c l =>
    simp only [scan_token] at h ⊢
    split_ifs at h ⊢
    any_goals rfl

theorem scan_token_newline (tail : List Nat) :
    scan_token (10 :: tail) = (GigaTokenKind.NEWLINE, 1) := by
  simp [scan_token]

/-! ### The token list on the unread bytes -/

/-- The lexer behind a token of kind `kind` and length `n` found after `s`
skipped bytes. -/
theorem next_lexer_eq (lexer : GigaLexer) (hw : lexer_whole lexer) (s : Nat)
    (hs : s = scan_skip_len ((lexer_rest lexer).length + 1) (lexer_rest lexer)) :
    lexer_whole (giga_lexer_next_token lexer).2 ∧
    (giga_lexer_next_token lexer).2.buffer = lexer.buffer ∧
    lexer_rest (giga_lexer_next_token lexer).2
      = (lexer_rest lexer).drop (s + (scan_token ((lexer_rest lexer).drop s)).2) ∧
    (giga_lexer_next_token lexer).2.current_index
      = lexer.current_index + (s + (scan_token ((lexer_rest lexer).drop s)).2) ∧
    (giga_lexer_next_token lexer).2.line_number
      = (if (scan_token ((lexer_rest lexer).drop s)).1 = GigaTokenKind.NEWLINE then
          lexer.line_number + 1 else lexer.line_number) ∧
    (giga_lexer_next_token lexer).2.column_number
      = (if (scan_token ((lexer_rest lexer).drop s)).1 = GigaTokenKind.NEWLINE then 1
          else lexer.column_number + (s + (scan_token ((lexer_rest lexer).drop s)).2)) := by
  rw [next_token_eq lexer hw s hs]
  by_cases hk : (scan_token ((lexer_rest lexer).drop s)).1 = GigaTokenKind.NEWLINE
  · have hn := scan_token_newline_length _ hk
    simp only [hk, ↓reduceIte, hn]
    exact ⟨hw, rfl, lexer_newline_rest _ _, rfl, rfl, rfl⟩
  · simp only [hk, ↓reduceIte]
    exact ⟨hw, rfl, lexer_shift_rest _ _, rfl, rfl, rfl⟩

/-- The token found after `s` skipped bytes, with its text. -/
theorem next_token_fields (lexer : GigaLexer) (hw : lexer_whole lexer) (s : Nat)
    (hs : s = scan_skip_len ((lexer_rest lexer).length + 1) (lexer_rest lexer)) :
    (giga_lexer_next_token lexer).1.kind = (scan_token ((lexer_rest lexer).drop s)).1 ∧
    (giga_lexer_next_token lexer).1.text_begin
      = (if (scan_token ((lexer_rest lexer).drop s)).1 = GigaTokenKind.EOF then Option.none
          else some (lexer.current_index + s)) ∧
    (giga_lexer_next_token lexer).1.text_length = (scan_token ((lexer_rest lexer).drop s)).2 ∧
    (giga_lexer_next_token lexer).1.line_number = lexer.line_number ∧
    (giga_lexer_next_token lexer).1.column_number = lexer.column_number + s ∧
    giga_token_text lexer.buffer (giga_lexer_next_token lexer).1
      = (if (scan_token ((lexer_rest lexer).drop s)).1 = GigaTokenKind.EOF then []
          else ((lexer_rest lexer).drop s).take
            (scan_token ((lexer_rest lexer).drop s)).2) := by
  rw [next_token_eq lexer hw s hs]
  refine ⟨rfl, rfl, rfl, rfl, rfl, ?_⟩
  unfold giga_token_text
  by_cases hk : (scan_token ((lexer_rest lexer).drop s)).1 = GigaTokenKind.EOF
  · simp only [hk, ↓reduceIte]
  · simp only [hk, ↓reduceIte]
    simp [lexer_rest, List.drop_drop, Nat.add_comm]

theorem forall2_map_eq {α β γ : Type} (R : α → β → Prop) (f : α → γ) (g : β → γ)
    (h : ∀ a b, R a b → f a = g b) (l1 : List α) (l2 : List β)
    (hl : List.Forall₂ R l1 l2) : l1.map f = l2.map g := by
  induction hl with
  | nil => rfl
  | cons hab _ ih => simp [h _ _ hab, ih]

/-- Two lexers with the same unread bytes, line and column give the same
tokens up to the offsets in their buffers, whatever bound on the number of
tokens is used beyond the number of unread bytes. -/
theorem tokens_of_equal_rest (buffer1 buffer2 : List Nat) (fuel1 : Nat) :
    ∀ (fuel2 : Nat) (lexer1 lexer2 : GigaLexer),
      lexer1.buffer = buffer1 → lexer2.buffer = buffer2 →
      lexer_whole lexer1 → lexer_whole lexer2 →
      lexer_rest lexer1 = lexer_rest lexer2 →
      lexer1.line_number = lexer2.line_number →
      lexer1.column_number = lexer2.column_number →
      (lexer_rest lexer1).length < fuel1 → (lexer_rest lexer2).length < fuel2 →
      List.Forall₂
        (fun token1 token2 =>
          token1.kind = token2.kind ∧
          giga_token_text buffer1 token1 = giga_token_text buffer2 token2 ∧
          token1.line_number = token2.line_number ∧
          token1.column_number = token2.column_number)
        (giga_lexer_tokens fuel1 lexer1) (giga_lexer_tokens fuel2 lexer2) := by
  induction fuel1 with
  | zero => intro _ _ _ _ _ _ _ _ _ _ h; omega
  | succ fuel1 ih =>
    intro fuel2 lexer1 lexer2 hb1 hb2 hw1 hw2 hrest hline hcol hf1 hf2
    cases fuel2 with
    | zero => omega
    | succ fuel2 =>
      obtain ⟨hk1, -, -, hl1, hc1, ht1⟩ := next_token_fields lexer1 hw1 _ rfl
      obtain ⟨hk2, -, -, hl2, hc2, ht2⟩ := next_token_fields lexer2 hw2 _ rfl
      obtain ⟨hnw1, hnb1, hnr1, -, hnl1, hnc1⟩ := next_lexer_eq lexer1 hw1 _ rfl
      obtain ⟨hnw2, hnb2, hnr2, -, hnl2, hnc2⟩ := next_lexer_eq lexer2 hw2 _ rfl
      rw [hb1] at ht1
      rw [hb2] at ht2
      rw [hrest] at hk1 ht1 hnr1 hnl1 hnc1 hc1 hf1
      have hhead :
          (giga_lexer_next_token lexer1).1.kind = (giga_lexer_next_token lexer2).1.kind ∧
          giga_token_text buffer1 (giga_lexer_next_token lexer1).1
            = giga_token_text buffer2 (giga_lexer_next_token lexer2).1 ∧
          (giga_lexer_next_token lexer1).1.line_number
            = (giga_lexer_next_token lexer2).1.line_number ∧
          (giga_lexer_next_token lexer1).1.column_number
            = (giga_lexer_next_token lexer2).1.column_number :=
        ⟨by rw [hk1, hk2], by rw [ht1, ht2], by rw [hl1, hl2, hline],
          by rw [hc1, hc2, hcol]⟩
      unfold giga_lexer_tokens
      simp only []
      by_cases hk : (giga_lexer_next_token lexer2).1.kind = GigaTokenKind.EOF
      · rw [if_pos hk, if_pos (hhead.1.trans hk)]
        exact List.Forall₂.cons hhead List.Forall₂.nil
      · rw [if_neg hk, if_neg (by rw [hhead.1]; exact hk)]
        refine List.Forall₂.cons hhead ?_
        have hpos := scan_token_length_pos _ (by rw [← hk2]; exact hk)
        have hlen : ((lexer_rest lexer2).drop
            (scan_skip_len ((lexer_rest lexer2).length + 1) (lexer_rest lexer2))).length
              ≠ 0 := by
          intro h0
          have := scan_token_length_le ((lexer_rest lexer2).drop
            (scan_skip_len ((lexer_rest lexer2).length + 1) (lexer_rest lexer2)))
          omega
        rw [List.length_drop] at hlen
        refine ih fuel2 _ _ (hnb1.trans hb1) (hnb2.trans hb2) hnw1 hnw2
          (by rw [hnr1, hnr2]) (by rw [hnl1, hnl2, hline]) (by rw [hnc1, hnc2, hcol]) ?_ ?_
        · rw [hnr1, List.length_drop]
          omega
        · rw [hnr2, List.length_drop]
          omega

/-- The bound of `giga_lexer_tokens` is never what ends the list: with more
calls allowed than bytes are unread, the list ends with the end-of-input token,
and no token before it is one. -/
theorem tokens_end_with_eof (fuel : Nat) :
    ∀ (lexer : GigaLexer), lexer_whole lexer → (lexer_rest lexer).length < fuel →
      ∃ (front : List GigaToken) (last : GigaToken),
        giga_lexer_tokens fuel lexer = front ++ [last] ∧ last.kind = GigaTokenKind.EOF ∧
        ∀ token ∈ front, token.kind ≠ GigaTokenKind.EOF := by
  induction fuel with
  | zero => intro _ _ h; omega
  | succ fuel ih =>
    intro lexer hw hf
    unfold giga_lexer_tokens
    simp only []
    by_cases hk : (giga_lexer_next_token lexer).1.kind = GigaTokenKind.EOF
    · rw [if_pos hk]
      exact ⟨[], _, rfl, hk, by simp⟩
    · rw [if_neg hk]
      obtain ⟨hk2, -, -, -, -, -⟩ := next_token_fields lexer hw _ rfl
      obtain ⟨hnw, -, hnr, -, -, -⟩ := next_lexer_eq lexer hw _ rfl
      have hpos := scan_token_length_pos _ (by rw [← hk2]; exact hk)
      have hle := scan_token_length_le ((lexer_rest lexer).drop
        (scan_skip_len ((lexer_rest lexer).length + 1) (lexer_rest lexer)))
      rw [List.length_drop] at hle
      obtain ⟨front, last, h1, h2, h3⟩ := ih (giga_lexer_next_token lexer).2 hnw (by
        rw [hnr, List.length_drop]
        omega)
      refine ⟨(giga_lexer_next_token lexer).1 :: front, last, by rw [h1]; rfl, h2, ?_⟩
      intro token ht
      rcases List.mem_cons.1 ht with rfl | ht
      · exact hk
      · exact h3 token ht

/-- Tokenizing a buffer always reaches the end-of-input token. -/
theorem tokenize_ends_with_eof (buffer : List Nat) :
    ∃ (front : List GigaToken) (last : GigaToken),
      tokenize buffer = front ++ [last] ∧ last.kind = GigaTokenKind.EOF ∧
      ∀ token ∈ front, token.kind ≠ GigaTokenKind.EOF :=
  tokens_end_with_eof _ _ rfl (by simp [lexer_rest, giga_lexer_init])

/-! ### A line comment in front of a newline -/

theorem comment_run_dichotomy (X C Y : List Nat) (hC : ∀ c ∈ C, is_comment_byte c = true) :
    (((X ++ 10 :: Y).takeWhile is_comment_byte).length = X.length ∧
      ((X ++ 59 :: (C ++ 10 :: Y)).takeWhile is_comment_byte).length
        = X.length + 1 + C.length) ∨
    (((X ++ 59 :: (C ++ 10 :: Y)).takeWhile is_comment_byte).length
        = ((X ++ 10 :: Y).takeWhile is_comment_byte).length ∧
      ((X ++ 10 :: Y).takeWhile is_comment_byte).length < X.length) := by
  induction X with
  | nil =>
    left
    have h59 : is_comment_byte 59 = true := by decide
    have h10 : is_comment_byte 10 = false := by decide
    constructor
    · simp [List.takeWhile_cons, h10]
    · simp only [List.nil_append, List.takeWhile_cons, h59, ↓reduceIte, List.length_cons,
        takeWhile_append_stop _ _ _ _ h10, takeWhile_all _ _ hC, List.length_nil]
      omega
  | cons a X ih =>
    by_cases ha : is_comment_byte a = true
    · simp only [List.cons_append, List.takeWhile_cons, ha, ↓reduceIte, List.length_cons]
      rcases ih with ⟨h1, h2⟩ | ⟨h1, h2⟩
      · left
        exact ⟨by omega, by omega⟩
      · right
        exact ⟨by omega, by omega⟩
    · right
      simp [List.takeWhile_cons, ha]

/-- Skipping in front of `X`, a comment and a newline, against skipping in
front of `X` and the newline: either both stop at the same byte of `X`, or `X`
is skipped whole and the comment with it. -/
theorem skip_dichotomy (X C Y : List Nat) (hC : ∀ c ∈ C, is_comment_byte c = true)
    (fuel1 fuel2 : Nat) :
    (scan_skip_len (fuel2 + 2) (X ++ 10 :: Y) = X.length ∧
      scan_skip_len (fuel1 + 2) (X ++ 59 :: (C ++ 10 :: Y)) = X.length + 1 + C.length) ∨
    (scan_skip_len (fuel1 + 2) (X ++ 59 :: (C ++ 10 :: Y))
        = scan_skip_len (fuel2 + 2) (X ++ 10 :: Y) ∧
      scan_skip_len (fuel2 + 2) (X ++ 10 :: Y) < X.length) := by
  induction X with
  | nil =>
    left
    have h10 : is_comment_byte 10 = false := by decide
    constructor
    · exact scan_skip_len_token_start _ 10 Y (by decide) (by decide)
    · simp only [List.nil_append, scan_skip_len_cons_comment,
        takeWhile_append_stop _ _ _ _ h10, takeWhile_all _ _ hC, List.length_nil]
  | cons a X ih =>
    by_cases ha : is_horizontal_space a = true
    · have hsp : ∀ (f : Nat) (t : List Nat),
          scan_skip_len (f + 2) (a :: t) = 1 + scan_skip_len (f + 2) t :=
        fun f t => scan_skip_len_cons_space (f + 1) a t ha
      simp only [List.cons_append, hsp, List.length_cons]
      rcases ih with ⟨h1, h2⟩ | ⟨h1, h2⟩
      · left
        exact ⟨by omega, by omega⟩
      · right
        exact ⟨by omega, by omega⟩
    · by_cases h59 : a = 59
      · subst h59
        simp only [List.cons_append, scan_skip_len_cons_comment, List.length_cons]
        rcases comment_run_dichotomy X C Y hC with ⟨h1, h2⟩ | ⟨h1, h2⟩
        · left
          exact ⟨by omega, by omega⟩
        · right
          exact ⟨by omega, by omega⟩
      · right
        have ha2 : is_horizontal_space a = false := by simpa using ha
        simp [scan_skip_len_token_start _ a _ ha2 h59]

theorem drop_comment_line (X C Y : List Nat) :
    (X ++ 59 :: (C ++ 10 :: Y)).drop (X.length + 1 + C.length) = 10 :: Y := by
  rw [Nat.add_assoc, List.drop_append, Nat.add_comm 1, List.drop_succ_cons, List.drop_left]

/-- The simulation behind C19: a lexer in front of a rest of `X`, a comment and
a newline, against a lexer at the same place in the text without the comment. -/
theorem tokens_comment_sim (X C Y : List Nat) (hC : ∀ c ∈ C, is_comment_byte c = true)
    (fuel1 : Nat) :
    ∀ (fuel2 : Nat) (lexer1 lexer2 : GigaLexer),
      lexer1.buffer = X ++ 59 :: (C ++ 10 :: Y) → lexer2.buffer = X ++ 10 :: Y →
      lexer_whole lexer1 → lexer_whole lexer2 →
      lexer1.current_index = lexer2.current_index →
      lexer2.current_index ≤ X.length →
      lexer1.line_number = lexer2.line_number →
      lexer1.column_number = lexer2.column_number →
      (lexer_rest lexer1).length < fuel1 → (lexer_rest lexer2).length < fuel2 →
      List.Forall₂
        (comment_tokens_agree (X ++ 59 :: (C ++ 10 :: Y)) (X ++ 10 :: Y) X.length)
        (giga_lexer_tokens fuel1 lexer1) (giga_lexer_tokens fuel2 lexer2) := by
  induction fuel1 with
  | zero => intro _ _ _ _ _ _ _ _ _ _ _ h; omega
  | succ fuel1 ih =>
    intro fuel2 lexer1 lexer2 hb1 hb2 hw1 hw2 hidx hle hline hcol hf1 hf2
    cases fuel2 with
    | zero => omega
    | succ fuel2 =>
      have hr1 : lexer_rest lexer1 = X.drop lexer2.current_index ++ 59 :: (C ++ 10 :: Y) := by
        unfold lexer_rest
        rw [hb1, hidx, List.drop_append_of_le_length hle]
      have hr2 : lexer_rest lexer2 = X.drop lexer2.current_index ++ 10 :: Y := by
        unfold lexer_rest
        rw [hb2, List.drop_append_of_le_length hle]
      have hX : (X.drop lexer2.current_index).length = X.length - lexer2.current_index :=
        List.length_drop _ _
      generalize X.drop lexer2.current_index = X1 at hr1 hr2 hX
      have e1 : (lexer_rest lexer1).length + 1 = (X1.length + C.length + Y.length + 1) + 2 := by
        rw [hr1]
        simp only [List.length_append, List.length_cons]
        omega
      have e2 : (lexer_rest lexer2).length + 1 = (X1.length + Y.length) + 2 := by
        rw [hr2]
        simp only [List.length_append, List.length_cons]
        omega
      unfold giga_lexer_tokens
      simp only []
      rcases skip_dichotomy X1 C Y hC (X1.length + C.length + Y.length + 1)
          (X1.length + Y.length) with ⟨h2, h1⟩ | ⟨h1, h2⟩
      · -- the rest of `X` is skipped, and the comment with it
        have hs1 : X1.length + 1 + C.length
            = scan_skip_len ((lexer_rest lexer1).length + 1) (lexer_rest lexer1) := by
          rw [e1, hr1]
          exact h1.symm
        have hs2 : X1.length
            = scan_skip_len ((lexer_rest lexer2).length + 1) (lexer_rest lexer2) := by
          rw [e2, hr2]
          exact h2.symm
        obtain ⟨hk1, -, -, hl1, -, ht1⟩ := next_token_fields lexer1 hw1 _ hs1
        obtain ⟨hk2, hbeg2, -, hl2, -, ht2⟩ := next_token_fields lexer2 hw2 _ hs2
        obtain ⟨hnw1, hnb1, hnr1, -, hnl1, hnc1⟩ := next_lexer_eq lexer1 hw1 _ hs1
        obtain ⟨hnw2, hnb2, hnr2, -, hnl2, hnc2⟩ := next_lexer_eq lexer2 hw2 _ hs2
        have hd1 : (lexer_rest lexer1).drop (X1.length + 1 + C.length) = 10 :: Y := by
          rw [hr1]
          exact drop_comment_line X1 C Y
        have hd2 : (lexer_rest lexer2).drop X1.length = 10 :: Y := by
          rw [hr2]
          exact List.drop_left _ _
        rw [hd1, scan_token_newline] at hk1 ht1 hnr1 hnl1 hnc1
        rw [hd2, scan_token_newline] at hk2 ht2 hnr2 hnl2 hnc2 hbeg2
        simp only [reduceCtorEq, ↓reduceIte] at hk1 hk2 ht1 ht2 hnl1 hnl2 hnc1 hnc2 hbeg2
        rw [hb1] at ht1
        rw [hb2] at ht2
        have hne1 : (giga_lexer_next_token lexer1).1.kind ≠ GigaTokenKind.EOF := by
          rw [hk1]
          decide
        have hne2 : (giga_lexer_next_token lexer2).1.kind ≠ GigaTokenKind.EOF := by
          rw [hk2]
          decide
        rw [if_neg hne1, if_neg hne2]
        refine List.Forall₂.cons ⟨by rw [hk1, hk2], by rw [ht1, ht2], by rw [hl1, hl2, hline],
          ?_⟩ ?_
        · intro hbeg
          exfalso
          apply hbeg
          rw [hbeg2]
          congr 1
          omega
        · refine List.Forall₂.imp ?_
            (tokens_of_equal_rest _ _ fuel1 fuel2 _ _ (hnb1.trans hb1) (hnb2.trans hb2)
              hnw1 hnw2 ?_ (by rw [hnl1, hnl2, hline]) (by rw [hnc1, hnc2]) ?_ ?_)
          · intro t1 t2 h
            exact ⟨h.1, h.2.1, h.2.2.1, fun _ => h.2.2.2⟩
          · have hY1 : lexer_rest (giga_lexer_next_token lexer1).2 = Y := by
              rw [hnr1]
              show List.drop (X1.length + 1 + C.length + 1) (lexer_rest lexer1) = Y
              rw [← List.drop_drop, hd1]
              rfl
            have hY2 : lexer_rest (giga_lexer_next_token lexer2).2 = Y := by
              rw [hnr2]
              show List.drop (X1.length + 1) (lexer_rest lexer2) = Y
              rw [← List.drop_drop, hd2]
              rfl
            rw [hY1, hY2]
          · rw [hnr1, List.length_drop]
            omega
          · rw [hnr2, List.length_drop]
            omega
      · -- both lexers stop at the same byte of `X`
        have hs1 : scan_skip_len (X1.length + Y.length + 2) (X1 ++ 10 :: Y)
            = scan_skip_len ((lexer_rest lexer1).length + 1) (lexer_rest lexer1) := by
          rw [e1, hr1]
          exact h1.symm
        have hs2 : scan_skip_len (X1.length + Y.length + 2) (X1 ++ 10 :: Y)
            = scan_skip_len ((lexer_rest lexer2).length + 1) (lexer_rest lexer2) := by
          rw [e2, hr2]
        generalize scan_skip_len (X1.length + Y.length + 2) (X1 ++ 10 :: Y) = s
          at hs1 hs2 h1 h2
        obtain ⟨hk1, -, -, hl1, hc1, ht1⟩ := next_token_fields lexer1 hw1 s hs1
        obtain ⟨hk2, -, -, hl2, hc2, ht2⟩ := next_token_fields lexer2 hw2 s hs2
        obtain ⟨hnw1, hnb1, hnr1, hni1, hnl1, hnc1⟩ := next_lexer_eq lexer1 hw1 s hs1
        obtain ⟨hnw2, hnb2, hnr2, hni2, hnl2, hnc2⟩ := next_lexer_eq lexer2 hw2 s hs2
        have hd1 : (lexer_rest lexer1).drop s = X1.drop s ++ 59 :: (C ++ 10 :: Y) := by
          rw [hr1, List.drop_append_of_le_length (Nat.le_of_lt h2)]
        have hd2 : (lexer_rest lexer2).drop s = X1.drop s ++ 10 :: Y := by
          rw [hr2, List.drop_append_of_le_length (Nat.le_of_lt h2)]
        have hL : (X1.drop s).length = X1.length - s := List.length_drop _ _
        have hLne : X1.drop s ≠ [] := by
          intro h0
          rw [h0] at hL
          simp only [List.length_nil] at hL
          omega
        have hn := scan_token_length_le (X1.drop s)
        have hn1 : (scan_token ((lexer_rest lexer1).drop s)).2 = (scan_token (X1.drop s)).2 := by
          rw [hd1, scan_token_append_stop _ hLne 59 _ (Or.inl rfl)]
        have hn2 : (scan_token ((lexer_rest lexer2).drop s)).2 = (scan_token (X1.drop s)).2 := by
          rw [hd2, scan_token_append_stop _ hLne 10 _ (Or.inr rfl)]
        rw [hd1, scan_token_append_stop _ hLne 59 _ (Or.inl rfl)] at hk1 ht1 hnl1 hnc1 hni1
        rw [hd2, scan_token_append_stop _ hLne 10 _ (Or.inr rfl)] at hk2 ht2 hnl2 hnc2 hni2
        rw [List.take_append_of_le_length hn, hb1] at ht1
        rw [List.take_append_of_le_length hn, hb2] at ht2
        have hhead : comment_tokens_agree (X ++ 59 :: (C ++ 10 :: Y)) (X ++ 10 :: Y) X.length
            (giga_lexer_next_token lexer1).1 (giga_lexer_next_token lexer2).1 :=
          ⟨by rw [hk1, hk2], by rw [ht1, ht2], by rw [hl1, hl2, hline],
            fun _ => by rw [hc1, hc2, hcol]⟩
        by_cases hk : (giga_lexer_next_token lexer2).1.kind = GigaTokenKind.EOF
        · rw [if_pos hk, if_pos (hhead.1.trans hk)]
          exact List.Forall₂.cons hhead List.Forall₂.nil
        · rw [if_neg hk, if_neg (by rw [hhead.1]; exact hk)]
          refine List.Forall₂.cons hhead ?_
          have hpos := scan_token_length_pos (X1.drop s) (by rw [← hk2]; exact hk)
          refine ih fuel2 _ _ (hnb1.trans hb1) (hnb2.trans hb2) hnw1 hnw2
            (by rw [hni1, hni2, hidx]) ?_ (by rw [hnl1, hnl2, hline])
            (by rw [hnc1, hnc2, hcol]) ?_ ?_
          · rw [hni2]
            omega
          · rw [hnr1, hn1, List.length_drop]
            omega
          · rw [hnr2, hn2, List.length_drop]
            omega

/-- Claim C19: a line comment is absorbed.  For all byte strings `X` and `Y`
and every comment body `C` without newline and NUL byte, the tokens of
`X ; C newline Y` and of `X newline Y` have the same kinds and the same texts,
in the same order; they also have the same lines, and the same columns except
for the one token that starts at the newline behind `X` (the newline token, whose
column is moved by the length of the comment). -/
theorem C19_line_comment_is_absorbed (X C Y : List Nat) (hC : ∀ c ∈ C, c ≠ 10 ∧ c ≠ 0) :
    (tokenize (X ++ bytes ";" ++ C ++ bytes "\n" ++ Y)).map
        (fun token =>
          (token.kind, giga_token_text (X ++ bytes ";" ++ C ++ bytes "\n" ++ Y) token))
      = (tokenize (X ++ bytes "\n" ++ Y)).map
        (fun token => (token.kind, giga_token_text (X ++ bytes "\n" ++ Y) token)) ∧
    List.Forall₂
      (comment_tokens_agree (X ++ bytes ";" ++ C ++ bytes "\n" ++ Y) (X ++ bytes "\n" ++ Y)
        X.length)
      (tokenize (X ++ bytes ";" ++ C ++ bytes "\n" ++ Y))
      (tokenize (X ++ bytes "\n" ++ Y)) := by
  have hC2 : ∀ c ∈ C, is_comment_byte c = true := by
    intro c hc
    have := hC c hc
    simp [is_comment_byte, this.1, this.2]
  have e1 : X ++ bytes ";" ++ C ++ bytes "\n" ++ Y = X ++ 59 :: (C ++ 10 :: Y) := by
    have a : bytes ";" = [59] := by decide
    have b : bytes "\n" = [10] := by decide
    rw [a, b]
    simp
  have e2 : X ++ bytes "\n" ++ Y = X ++ 10 :: Y := by
    have b : bytes "\n" = [10] := by decide
    rw [b]
    simp
  rw [e1, e2]
  have hsim : List.Forall₂
      (comment_tokens_agree (X ++ 59 :: (C ++ 10 :: Y)) (X ++ 10 :: Y) X.length)
      (tokenize (X ++ 59 :: (C ++ 10 :: Y))) (tokenize (X ++ 10 :: Y)) :=
    tokens_comment_sim X C Y hC2 _ _ _ _ rfl rfl rfl rfl rfl (Nat.zero_le _) rfl rfl
      (by simp [lexer_rest, giga_lexer_init]) (by simp [lexer_rest, giga_lexer_init])
  refine ⟨?_, hsim⟩
  exact forall2_map_eq _ _ _ (fun a b h => by rw [h.1, h.2.1]) _ _ hsim

theorem C19_line_comment_is_absorbed_witness :
    (∀ c ∈ bytes " load five", c ≠ 10 ∧ c ≠ 0) ∧
    (tokenize (bytes "MOV R0, 5 " ++ bytes ";" ++ bytes " load five" ++ bytes "\n"
        ++ bytes "HALT")).map
        (fun token =>
          (token.kind,
            giga_token_text (bytes "MOV R0, 5 " ++ bytes ";" ++ bytes " load five"
              ++ bytes "\n" ++ bytes "HALT") token))
      = (tokenize (bytes "MOV R0, 5 " ++ bytes "\n" ++ bytes "HALT")).map
        (fun token =>
          (token.kind, giga_token_text (bytes "MOV R0, 5 " ++ bytes "\n" ++ bytes "HALT")
            token)) ∧
    List.Forall₂
      (comment_tokens_agree
        (bytes "MOV R0, 5 " ++ bytes ";" ++ bytes " load five" ++ bytes "\n" ++ bytes "HALT")
        (bytes "MOV R0, 5 " ++ bytes "\n" ++ bytes "HALT") (bytes "MOV R0, 5 ").length)
      (tokenize (bytes "MOV R0, 5 " ++ bytes ";" ++ bytes " load five" ++ bytes "\n"
        ++ bytes "HALT"))
      (tokenize (bytes "MOV R0, 5 " ++ bytes "\n" ++ bytes "HALT")) :=
  ⟨by decide,
    C19_line_comment_is_absorbed (bytes "MOV R0, 5 ") (bytes " load five") (bytes "HALT")
      (by decide)⟩

/-! ### Number tokens -/

theorem takeWhile_run (p : Nat → Bool) (run tail : List Nat) (hrun : ∀ d ∈ run, p d = true)
    (htail : p (tail.headD 0) = false) : (run ++ tail).takeWhile p = run := by
  cases tail with
  | nil => simpa using takeWhile_all p run hrun
  | cons h tail =>
    rw [takeWhile_append_stop p run h tail (by simpa using htail), takeWhile_all p run hrun]

/-- The token at a lexer that stands on a token start, with the lexer behind. -/
theorem next_token_at_start (lexer : GigaLexer) (hw : lexer_whole lexer) (c : Nat)
    (rest : List Nat) (hr : lexer_rest lexer = c :: rest)
    (hc : is_horizontal_space c = false) (h59 : c ≠ 59)
    (hk : (scan_token (c :: rest)).1 ≠ GigaTokenKind.EOF) :
    (giga_lexer_next_token lexer).1
      = { kind := (scan_token (c :: rest)).1
          text_begin := some lexer.current_index
          text_length := (scan_token (c :: rest)).2
          line_number := lexer.line_number
          column_number := lexer.column_number } ∧
    giga_token_text lexer.buffer (giga_lexer_next_token lexer).1
      = (c :: rest).take (scan_token (c :: rest)).2 ∧
    lexer_rest (giga_lexer_next_token lexer).2
      = (c :: rest).drop (scan_token (c :: rest)).2 := by
  have hs : 0 = scan_skip_len ((lexer_rest lexer).length + 1) (lexer_rest lexer) := by
    rw [hr, scan_skip_len_token_start _ c rest hc h59]
  obtain ⟨-, -, -, -, -, ht⟩ := next_token_fields lexer hw 0 hs
  obtain ⟨-, -, hnr, -, -, -⟩ := next_lexer_eq lexer hw 0 hs
  have heq := next_token_eq lexer hw 0 hs
  simp only [List.drop_zero, hr, Nat.zero_add, Nat.add_zero, hk, ↓reduceIte] at ht hnr heq
  refine ⟨?_, ht, hnr⟩
  rw [heq]

/-- Claim C20: at the start of a token, a maximal run of decimal digits that is
not the `0` of a `0x` or `0X` prefix is returned as one NUMBER token whose text is
the run; the digit `0` followed by `x` or `X` is returned as one NUMBER token
whose text is the prefix and all hexadecimal digits, of either case, that follow
it.  In both cases the lexer is left behind the token.  The text
`0 5 15 0xF 0xa` gives five NUMBER tokens with the texts `0`, `5`, `15`, `0xF`
and `0xa`, and the end-of-input token. -/
theorem C20_number_tokens (lexer : GigaLexer) (hw : lexer_whole lexer)
    (run tail : List Nat) :
    (run ≠ [] → (∀ d ∈ run, isdigit d = true) → isdigit (tail.headD 0) = false →
      ¬ (run = [48] ∧ (tail.headD 0 = 120 ∨ tail.headD 0 = 88)) →
      lexer_rest lexer = run ++ tail →
      (giga_lexer_next_token lexer).1
        = { kind := GigaTokenKind.NUMBER
            text_begin := some lexer.current_index
            text_length := run.length
            line_number := lexer.line_number
            column_number := lexer.column_number } ∧
      giga_token_text lexer.buffer (giga_lexer_next_token lexer).1 = run ∧
      lexer_rest (giga_lexer_next_token lexer).2 = tail) ∧
    (∀ x : Nat, (x = 120 ∨ x = 88) → (∀ d ∈ run, isxdigit d = true) →
      isxdigit (tail.headD 0) = false →
      lexer_rest lexer = 48 :: x :: run ++ tail →
      (giga_lexer_next_token lexer).1
        = { kind := GigaTokenKind.NUMBER
            text_begin := some lexer.current_index
            text_length := run.length + 2
            line_number := lexer.line_number
            column_number := lexer.column_number } ∧
      giga_token_text lexer.buffer (giga_lexer_next_token lexer).1 = 48 :: x :: run ∧
      lexer_rest (giga_lexer_next_token lexer).2 = tail) ∧
    (tokenize (bytes "0 5 15 0xF 0xa")).map
        (fun token => (token.kind, giga_token_text (bytes "0 5 15 0xF 0xa") token))
      = [(GigaTokenKind.NUMBER, bytes "0"), (GigaTokenKind.NUMBER, bytes "5"),
         (GigaTokenKind.NUMBER, bytes "15"), (GigaTokenKind.NUMBER, bytes "0xF"),
         (GigaTokenKind.NUMBER, bytes "0xa"), (GigaTokenKind.EOF, [])] := by
  refine ⟨?_, ?_, by decide⟩
  · intro hne hrun htail hnot hr
    obtain ⟨d, ds, rfl⟩ : ∃ d ds, run = d :: ds := by
      cases run with
      | nil => exact absurd rfl hne
      | cons d ds => exact ⟨d, ds, rfl⟩
    have hd : isdigit d = true := hrun d (List.mem_cons_self d ds)
    have hds : ∀ y ∈ ds, isdigit y = true := fun y hy => hrun y (List.mem_cons_of_mem d hy)
    have hd2 : 48 ≤ d ∧ d ≤ 57 := by
      simpa [isdigit] using hd
    have hnohex : ¬ (d = 48 ∧ ((ds ++ tail).headD 0 = 120 ∨ (ds ++ tail).headD 0 = 88)) := by
      cases ds with
      | nil => simpa using hnot
      | cons y ds =>
        have hy : 48 ≤ y ∧ y ≤ 57 := by
          simpa [isdigit] using hrun y (by simp)
        simp only [List.cons_append, List.headD_cons]
        omega
    have hscan : scan_token (d :: (ds ++ tail)) = (GigaTokenKind.NUMBER, 1 + ds.length) := by
      have h0 : d ≠ 0 := by omega
      have h10 : d ≠ 10 := by omega
      have h44 : d ≠ 44 := by omega
      have h58 : d ≠ 58 := by omega
      have h46 : d ≠ 46 := by omega
      simp only [scan_token, h0, h10, h44, h58, h46, hd, hnohex, ↓reduceIte,
        takeWhile_run isdigit ds tail hds htail]
    have hsp : is_horizontal_space d = false := by
      simp only [is_horizontal_space, Bool.or_eq_false_iff, beq_eq_false_iff_ne]
      omega
    obtain ⟨h1, h2, h3⟩ := next_token_at_start lexer hw d (ds ++ tail) hr hsp (by omega)
      (by rw [hscan]; simp)
    rw [hscan] at h1 h2 h3
    refine ⟨?_, ?_, ?_⟩
    · rw [h1, List.length_cons, Nat.add_comm]
    · rw [h2, Nat.add_comm, List.take_succ_cons, List.take_left]
    · rw [h3, Nat.add_comm, List.drop_succ_cons, List.drop_left]
  · intro x hx hrun htail hr
    have hscan : scan_token (48 :: (x :: (run ++ tail)))
        = (GigaTokenKind.NUMBER, 2 + run.length) := by
      have hd : isdigit 48 = true := by decide
      have hhex : (48 : Nat) = 48 ∧ ((x :: (run ++ tail)).headD 0 = 120 ∨
          (x :: (run ++ tail)).headD 0 = 88) := ⟨rfl, hx⟩
      simp only [scan_token, hd, hhex, ↓reduceIte, List.drop_succ_cons, List.drop_zero,
        takeWhile_run isxdigit run tail hrun htail, OfNat.ofNat_ne_zero, Nat.reduceEqDiff,
        and_self]
    obtain ⟨h1, h2, h3⟩ := next_token_at_start lexer hw 48 (x :: (run ++ tail)) hr
      (by decide) (by decide) (by rw [hscan]; simp)
    rw [hscan] at h1 h2 h3
    refine ⟨?_, ?_, ?_⟩
    · rw [h1, Nat.add_comm]
    · rw [h2, Nat.add_comm, List.take_succ_cons, List.take_succ_cons, List.take_left]
    · rw [h3, Nat.add_comm, List.drop_succ_cons, List.drop_succ_cons, List.drop_left]

theorem C20_number_tokens_witness :
    ((giga_lexer_next_token (giga_lexer_init (bytes "15 0xF,") 7)).1
        = { kind := GigaTokenKind.NUMBER, text_begin := some 0, text_length := 2,
            line_number := 1, column_number := 1 } ∧
      giga_token_text (bytes "15 0xF,") (giga_lexer_next_token
          (giga_lexer_init (bytes "15 0xF,") 7)).1 = bytes "15" ∧
      lexer_rest (giga_lexer_next_token (giga_lexer_init (bytes "15 0xF,") 7)).2
        = bytes " 0xF,") ∧
    ((giga_lexer_next_token
          { buffer := bytes "15 0xF,", buffer_length := 7, current_index := 3,
            line_number := 1, column_number := 4 }).1
        = { kind := GigaTokenKind.NUMBER, text_begin := some 3, text_length := 3,
            line_number := 1, column_number := 4 } ∧
      giga_token_text (bytes "15 0xF,") (giga_lexer_next_token
          { buffer := bytes "15 0xF,", buffer_length := 7, current_index := 3,
            line_number := 1, column_number := 4 }).1 = bytes "0xF" ∧
      lexer_rest (giga_lexer_next_token
          { buffer := bytes "15 0xF,", buffer_length := 7, current_index := 3,
            line_number := 1, column_number := 4 }).2 = bytes ",") :=
  ⟨(C20_number_tokens (giga_lexer_init (bytes "15 0xF,") 7) rfl (bytes "15")
      (bytes " 0xF,")).1 (by decide) (by decide) (by decide) (by decide) (by decide),
    (C20_number_tokens
      { buffer := bytes "15 0xF,", buffer_length := 7, current_index := 3,
        line_number := 1, column_number := 4 } rfl (bytes "F") (bytes ",")).2.1 120
      (by decide) (by decide) (by decide) (by decide)⟩

/-! ### The ALU on nibbles -/

theorem alu_add_all :
    ∀ a b : Fin 16,
      (alu_add a.val b.val).result = (a.val + b.val) % 16 ∧
      (alu_add a.val b.val).carry_flag = (if a.val + b.val > 15 then 1 else 0) := by
  decide

/-- Claim C26: for all a and b in 0..15, `alu_add(a, b)` has the result
(a + b) mod 16 and the carry flag 1 if a + b > 15 and 0 otherwise. -/
theorem C26_alu_add_result_and_carry (a b : Nat) (ha : a ≤ 15) (hb : b ≤ 15) :
    (alu_add a b).result = (a + b) % 16 ∧
    (alu_add a b).carry_flag = (if a + b > 15 then 1 else 0) :=
  alu_add_all ⟨a, by omega⟩ ⟨b, by omega⟩

theorem C26_alu_add_result_and_carry_witness :
    (alu_add 9 8).result = (9 + 8) % 16 ∧
    (alu_add 9 8).carry_flag = (if 9 + 8 > 15 then 1 else 0) :=
  C26_alu_add_result_and_carry 9 8 (by decide) (by decide)

theorem alu_sub_all :
    ∀ a b : Fin 16,
      ((alu_sub a.val b.val).result : Int) = ((a.val : Int) - (b.val : Int)) % 16 ∧
      (alu_sub a.val b.val).result ≤ 15 ∧
      ((alu_sub a.val b.val).carry_flag = 1 ↔ a.val ≥ b.val) ∧
      ((alu_sub a.val b.val).carry_flag = 0 ∨ (alu_sub a.val b.val).carry_flag = 1) := by
  decide

/-- Claim C27: for all a and b in 0..15, `alu_sub(a, b)` has the result
(a - b) mod 16, a value in 0..15, and the carry flag, which is 0 or 1, is 1
exactly when a >= b (no borrow); 3 - 5 gives 14 with carry 0 and 15 - 1 gives 14
with carry 1. -/
theorem C27_alu_sub_result_and_carry (a b : Nat) (ha : a ≤ 15) (hb : b ≤ 15) :
    (((alu_sub a b).result : Int) = ((a : Int) - (b : Int)) % 16 ∧
      (alu_sub a b).result ≤ 15 ∧
      ((alu_sub a b).carry_flag = 1 ↔ a ≥ b) ∧
      ((alu_sub a b).carry_flag = 0 ∨ (alu_sub a b).carry_flag = 1)) ∧
    ((alu_sub 3 5).result = 14 ∧ (alu_sub 3 5).carry_flag = 0) ∧
    ((alu_sub 15 1).result = 14 ∧ (alu_sub 15 1).carry_flag = 1) :=
  ⟨alu_sub_all ⟨a, by omega⟩ ⟨b, by omega⟩, by decide, by decide⟩

theorem C27_alu_sub_result_and_carry_witness :
    (((alu_sub 2 11).result : Int) = ((2 : Int) - (11 : Int)) % 16 ∧
      (alu_sub 2 11).result ≤ 15 ∧
      ((alu_sub 2 11).carry_flag = 1 ↔ 2 ≥ 11) ∧
      ((alu_sub 2 11).carry_flag = 0 ∨ (alu_sub 2 11).carry_flag = 1)) ∧
    ((alu_sub 3 5).result = 14 ∧ (alu_sub 3 5).carry_flag = 0) ∧
    ((alu_sub 15 1).result = 14 ∧ (alu_sub 15 1).carry_flag = 1) :=
  C27_alu_sub_result_and_carry 2 11 (by decide) (by decide)

/-! ### Program load and fetch -/

theorem word_bytes (w : Nat) (hw : w < 65536) :
    (((((w >>> 8) &&& 0xFF) % 256) <<< 8) ||| ((w &&& 0xFF) % 256)) % 65536 = w := by
  have h1 : w &&& 0xFF = w % 256 := Nat.and_pow_two_sub_one_eq_mod w 8
  have h2 : (w >>> 8) &&& 0xFF = (w >>> 8) % 256 := Nat.and_pow_two_sub_one_eq_mod _ 8
  rw [h1, h2, Nat.shiftRight_eq_div_pow, lor_shift8 _ _ (Nat.mod_lt _ (by omega))]
  omega

/-- What the copy loop leaves in memory: the bytes of the words it copies, and
everything in front of them unchanged. -/
theorem load_loop_memory (program_words : List Nat) (count : Nat) :
    ∀ (index : Nat) (memory : List Nat), memory.length = 256 → (index + count) * 2 ≤ 256 →
      (giga_vm_load_loop program_words count index memory).length = 256 ∧
      (∀ i, index ≤ i → i < index + count →
        (giga_vm_load_loop program_words count index memory).getD (i * 2) 0
            = ((program_words.getD i 0) &&& 0xFF) % 256 ∧
        (giga_vm_load_loop program_words count index memory).getD (i * 2 + 1) 0
            = (((program_words.getD i 0) >>> 8) &&& 0xFF) % 256) ∧
      (∀ j, j < index * 2 →
        (giga_vm_load_loop program_words count index memory).getD j 0 = memory.getD j 0) := by
  induction count with
  | zero =>
    intro index memory hlen _
    refine ⟨hlen, ?_, fun _ _ => rfl⟩
    intro i h1 h2
    omega
  | succ count ih =>
    intro index memory hlen hcap
    unfold giga_vm_load_loop
    simp only []
    obtain ⟨h1, h2, h3⟩ := ih (index + 1)
      ((memory.set (index * 2) ((program_words.getD index 0 &&& 0xFF) % 256)).set
        (index * 2 + 1) (((program_words.getD index 0 >>> 8) &&& 0xFF) % 256))
      (by simp [hlen]) (by omega)
    refine ⟨h1, ?_, ?_⟩
    · intro i hi1 hi2
      by_cases hi : i = index
      · subst hi
        rw [h3 (i * 2) (by omega), h3 (i * 2 + 1) (by omega)]
        simp only [List.getD_eq_getElem?_getD]
        rw [List.getElem?_set_ne (by omega), List.getElem?_set_self (by simp [hlen]; omega),
          List.getElem?_set_self (by simp [hlen]; omega)]
        simp
      · exact h2 i (by omega) (by omega)
    · intro j hj
      rw [h3 j (by omega)]
      simp only [List.getD_eq_getElem?_getD]
      rw [List.getElem?_set_ne (by omega), List.getElem?_set_ne (by omega)]

/-- Claim C25: a sequence of n 16-bit words (an array in memory, so n < 2^63) is
loaded into an initialised VM iff n <= 128.  After a load that succeeds, word i has
its low byte at address 2i and its high byte at 2i+1, the program counter is 0
and `loaded_program_words` is n; and for every value pc of the 16-bit program
counter `giga_vm_fetch_word` succeeds iff pc < n and then gives the pc-th
word. -/
theorem C25_load_and_fetch (state : GigaVmState) (program_words : List Nat)
    (hwords : ∀ w ∈ program_words, w < 65536) (hsize : program_words.length < 2 ^ 63) :
    ((giga_vm_load_program (giga_vm_init state) program_words program_words.length).1 = 0 ↔
      program_words.length ≤ 128) ∧
    (program_words.length ≤ 128 →
      (∀ i, i < program_words.length →
        (giga_vm_load_program (giga_vm_init state) program_words
            program_words.length).2.memory.getD (2 * i) 0 = program_words.getD i 0 % 256 ∧
        (giga_vm_load_program (giga_vm_init state) program_words
            program_words.length).2.memory.getD (2 * i + 1) 0
          = program_words.getD i 0 / 256) ∧
      (giga_vm_load_program (giga_vm_init state) program_words
          program_words.length).2.program_counter = 0 ∧
      (giga_vm_load_program (giga_vm_init state) program_words
          program_words.length).2.loaded_program_words = program_words.length ∧
      ∀ pc, pc < 65536 →
        ((giga_vm_fetch_word
            { (giga_vm_load_program (giga_vm_init state) program_words
                program_words.length).2 with program_counter := pc }).1 = 0 ↔
          pc < program_words.length) ∧
        (pc < program_words.length →
          (giga_vm_fetch_word
            { (giga_vm_load_program (giga_vm_init state) program_words
                program_words.length).2 with program_counter := pc }).2
            = some (program_words.getD pc 0))) := by
  have hmod : (program_words.length * 2) % 2 ^ 64 = program_words.length * 2 :=
    Nat.mod_eq_of_lt (by omega)
  constructor
  · unfold giga_vm_load_program
    simp only [hmod, GIGA_VM_MEMORY_SIZE]
    by_cases h : program_words.length * 2 > 256
    · simp only [h, ↓reduceIte]
      constructor
      · intro h0
        exact absurd h0 (by decide)
      · intro h1
        omega
    · simp only [h, ↓reduceIte, true_iff]
      omega
  · intro hn
    have hle : ¬ program_words.length * 2 > 256 := by omega
    obtain ⟨-, hmem, -⟩ := load_loop_memory program_words program_words.length 0
      (giga_vm_init state).memory (by simp only [giga_vm_init, GIGA_VM_MEMORY_SIZE, List.length_replicate]) (by omega)
    have hload : giga_vm_load_program (giga_vm_init state) program_words program_words.length
        = (0, { giga_vm_init state with
            memory := giga_vm_load_loop program_words program_words.length 0
              (giga_vm_init state).memory
            loaded_program_words := program_words.length
            program_counter := 0 }) := by
      unfold giga_vm_load_program
      simp only [hmod, GIGA_VM_MEMORY_SIZE, hle, ↓reduceIte]
    have hword : ∀ i, i < program_words.length → program_words.getD i 0 < 65536 := by
      intro i hi
      apply hwords
      rw [List.getD_eq_getElem?_getD, List.getElem?_eq_getElem hi]
      exact List.getElem_mem _
    rw [hload]
    refine ⟨?_, rfl, rfl, ?_⟩
    · intro i hi
      have hw := hword i hi
      obtain ⟨hlo, hhi⟩ := hmem i (by omega) (by omega)
      have h1 : program_words.getD i 0 &&& 0xFF = program_words.getD i 0 % 256 :=
        Nat.and_pow_two_sub_one_eq_mod _ 8
      have h2 : (program_words.getD i 0 >>> 8) &&& 0xFF
          = (program_words.getD i 0 >>> 8) % 256 := Nat.and_pow_two_sub_one_eq_mod _ 8
      rw [Nat.mul_comm] at hlo hhi
      simp only []
      rw [hlo, hhi, h1, h2, Nat.shiftRight_eq_div_pow]
      constructor
      · omega
      · omega
    · intro pc _
      unfold giga_vm_fetch_word
      simp only []
      by_cases hpc : pc ≥ program_words.length
      · simp only [hpc, ↓reduceIte]
        constructor
        · constructor
          · intro h0
            exact absurd h0 (by decide)
          · intro h1
            omega
        · intro h1
          omega
      · simp only [hpc, ↓reduceIte, true_iff]
        refine ⟨by omega, fun _ => ?_⟩
        obtain ⟨hlo, hhi⟩ := hmem pc (by omega) (by omega)
        rw [hlo, hhi, word_bytes _ (hword pc (by omega))]

theorem C25_load_and_fetch_witness :
    ((giga_vm_load_program (giga_vm_init (giga_vm_init
        { registers := [], flags_zero := 0, flags_carry := 0, flags_negative := 0,
          flags_overflow := 0, program_counter := 0, memory := [],
          loaded_program_words := 0 })) [0x1001, 0x3002, 0xF000] 3).1 = 0 ↔
      [0x1001, 0x3002, 0xF000].length ≤ 128) ∧
    (giga_vm_fetch_word
      { (giga_vm_load_program (giga_vm_init (giga_vm_init
          { registers := [], flags_zero := 0, flags_carry := 0, flags_negative := 0,
            flags_overflow := 0, program_counter := 0, memory := [],
            loaded_program_words := 0 })) [0x1001, 0x3002, 0xF000] 3).2
        with program_counter := 1 }).2 = some 0x3002 :=
  ⟨(C25_load_and_fetch (giga_vm_init
      { registers := [], flags_zero := 0, flags_carry := 0, flags_negative := 0,
        flags_overflow := 0, program_counter := 0, memory := [],
        loaded_program_words := 0 }) [0x1001, 0x3002, 0xF000] (by decide) (by decide)).1,
    (((C25_load_and_fetch (giga_vm_init
      { registers := [], flags_zero := 0, flags_carry := 0, flags_negative := 0,
        flags_overflow := 0, program_counter := 0, memory := [],
        loaded_program_words := 0 }) [0x1001, 0x3002, 0xF000] (by decide) (by decide)).2
      (by decide)).2.2.2 1 (by decide)).2 (by decide)⟩

/-! ### Register and memory operands in source texts -/

theorem add_text_all :
    ∀ i j : Fin 8,
      parse_statements (add_text i.val j.val)
        = some (0, [GigaStatement.instruction
            { mnemonic_text := bytes "ADD"
              operands := [GigaOperand.register i.val, GigaOperand.register j.val]
              source_line := 1, source_column := 1 }]) := by
  decide

/-- Claim C22: for all register digits i and j in 0..7 the text `ADD Ri, Rj`
with a newline is parsed with return value 0 into exactly one statement, the
instruction `ADD` with the two operands register i and register j; there is no
Label or Directive statement. -/
theorem C22_add_registers_text_parses (i j : Nat) (hi : i ≤ 7) (hj : j ≤ 7) :
    parse_statements (add_text i j)
      = some (0, [GigaStatement.instruction
          { mnemonic_text := bytes "ADD"
            operands := [GigaOperand.register i, GigaOperand.register j]
            source_line := 1, source_column := 1 }]) ∧
    add_text 0 1 = bytes "ADD R0, R1\n" :=
  ⟨add_text_all ⟨i, by omega⟩ ⟨j, by omega⟩, by decide⟩

theorem C22_add_registers_text_parses_witness :
    parse_statements (add_text 7 3)
      = some (0, [GigaStatement.instruction
          { mnemonic_text := bytes "ADD"
            operands := [GigaOperand.register 7, GigaOperand.register 3]
            source_line := 1, source_column := 1 }]) ∧
    add_text 0 1 = bytes "ADD R0, R1\n" :=
  C22_add_registers_text_parses 7 3 (by decide) (by decide)

theorem memory_number_text_all :
    ∀ n : Fin 16, parse_operand_text (memory_number_text n.val)
      = (true, GigaOperand.memory n.val) := by
  decide

theorem memory_register_text_all :
    ∀ k : Fin 8, parse_operand_text (memory_register_text k.val)
      = (true, GigaOperand.memory k.val) := by
  decide

/-- Claim C24: for every n in 0..15 the operand text `[n]` is parsed as a memory
operand with address n, and for every k in 0..7 the operand text `[Rk]` as a
memory operand whose address is k; `LD R0, [5]` with a newline gives one
instruction with two operands, the second being memory address 5. -/
theorem C24_memory_operand_texts (n k : Nat) (hn : n ≤ 15) (hk : k ≤ 7) :
    parse_operand_text (memory_number_text n) = (true, GigaOperand.memory n) ∧
    parse_operand_text (memory_register_text k) = (true, GigaOperand.memory k) ∧
    memory_number_text 12 = bytes "[12]" ∧ memory_register_text 3 = bytes "[R3]" ∧
    parse_statements (bytes "LD R0, [5]\n")
      = some (0, [GigaStatement.instruction
          { mnemonic_text := bytes "LD"
            operands := [GigaOperand.register 0, GigaOperand.memory 5]
            source_line := 1, source_column := 1 }]) :=
  ⟨memory_number_text_all ⟨n, by omega⟩, memory_register_text_all ⟨k, by omega⟩, by decide,
    by decide, by decide⟩

theorem C24_memory_operand_texts_witness :
    parse_operand_text (memory_number_text 15) = (true, GigaOperand.memory 15) ∧
    parse_operand_text (memory_register_text 7) = (true, GigaOperand.memory 7) ∧
    memory_number_text 12 = bytes "[12]" ∧ memory_register_text 3 = bytes "[R3]" ∧
    parse_statements (bytes "LD R0, [5]\n")
      = some (0, [GigaStatement.instruction
          { mnemonic_text := bytes "LD"
            operands := [GigaOperand.register 0, GigaOperand.memory 5]
            source_line := 1, source_column := 1 }]) :=
  C24_memory_operand_texts 15 7 (by decide) (by decide)

/-! ### Identifiers in operand position -/

/-- Claim C30: an identifier token in operand position whose text lies in the
buffer is parsed as a register operand iff its text is exactly the two bytes `R`
and a digit 0..7, and the register index is then that digit; every other
identifier is parsed as a label reference that carries the text of the token.
In both cases the call returns 1 and consumes the token.  `R8`, `R10`, `r0` and
`RX` are label references. -/
theorem C30_register_or_label_reference (parser : GigaParser) (operand : GigaOperand)
    (hkind : parser.current_token.kind = GigaTokenKind.IDENTIFIER)
    (hlen : (token_text parser parser.current_token).length
      = parser.current_token.text_length) :
    (∀ d, 48 ≤ d → d ≤ 55 → token_text parser parser.current_token = [82, d] →
      giga_parser_parse_operand parser operand
        = (true, giga_parser_advance parser, GigaOperand.register (d - 48))) ∧
    ((¬ ∃ d, 48 ≤ d ∧ d ≤ 55 ∧ token_text parser parser.current_token = [82, d]) →
      giga_parser_parse_operand parser operand
        = (true, giga_parser_advance parser,
            GigaOperand.label (token_text parser parser.current_token))) ∧
    parse_operand_text (bytes "R8") = (true, GigaOperand.label (bytes "R8")) ∧
    parse_operand_text (bytes "R10") = (true, GigaOperand.label (bytes "R10")) ∧
    parse_operand_text (bytes "r0") = (true, GigaOperand.label (bytes "r0")) ∧
    parse_operand_text (bytes "RX") = (true, GigaOperand.label (bytes "RX")) := by
  have hmem : giga_parser_parse_memory_operand parser operand = (false, parser, operand) := by
    simp [giga_parser_parse_memory_operand, current_is_symbol, hkind]
  have hnum : giga_parser_parse_number parser operand = (false, parser, operand) := by
    simp [giga_parser_parse_number, hkind]
  have hlab : giga_parser_parse_label_reference parser operand
      = (true, giga_parser_advance parser,
          GigaOperand.label (token_text parser parser.current_token)) := by
    simp [giga_parser_parse_label_reference, hkind]
  refine ⟨?_, ?_, by decide, by decide, by decide, by decide⟩
  · intro d h1 h2 ht
    have hl2 : parser.current_token.text_length = 2 := by
      rw [← hlen, ht]
      rfl
    have hreg : giga_parser_parse_register parser operand
        = (true, giga_parser_advance parser, GigaOperand.register (d - 48)) := by
      have hmod : (d - 48) % 256 = d - 48 := by omega
      simp [giga_parser_parse_register, hkind, ht, hl2, h1, h2, hmod]
    simp [giga_parser_parse_operand, hmem, hreg]
  · intro hno
    have hreg : giga_parser_parse_register parser operand = (false, parser, operand) := by
      unfold giga_parser_parse_register
      simp only [hkind, ne_eq, not_true_eq_false, ↓reduceIte]
      by_cases h1 : parser.current_token.text_length < 2 ∨
          (token_text parser parser.current_token).getD 0 0 ≠ 82
      · rw [if_pos h1]
      rw [if_neg h1]
      by_cases h2 : parser.current_token.text_length > 3
      · rw [if_pos h2]
      rw [if_neg h2]
      by_cases h3 : parser.current_token.text_length = 2
      · have h3b : ¬ (parser.current_token.text_length = 3 ∧
            (token_text parser parser.current_token).getD 2 0 ≠ 0) := by omega
        rw [if_neg h3b, if_pos h3, if_pos h3]
        by_cases h4 : 48 ≤ (token_text parser parser.current_token).getD 1 0 ∧
            (token_text parser parser.current_token).getD 1 0 ≤ 55
        · exfalso
          apply hno
          refine ⟨(token_text parser parser.current_token).getD 1 0, h4.1, h4.2, ?_⟩
          rw [h3] at hlen
          match htext : token_text parser parser.current_token, hlen with
          | [a, b], _ =>
            rw [htext] at h1
            simp only [List.getD_cons_zero, ne_eq, not_or, not_not] at h1
            simp [h1.2]
        · rw [if_neg h4]
      · rw [if_neg h3]
        split_ifs <;> rfl
    simp [giga_parser_parse_operand, hmem, hreg, hnum, hlab]

theorem C30_register_or_label_reference_witness :
    giga_parser_parse_operand (giga_parser_init (giga_lexer_init (bytes "R5, LOOP") 8))
        GigaOperand.none
      = (true, giga_parser_advance (giga_parser_init (giga_lexer_init (bytes "R5, LOOP") 8)),
          GigaOperand.register (53 - 48)) :=
  (C30_register_or_label_reference (giga_parser_init (giga_lexer_init (bytes "R5, LOOP") 8))
    GigaOperand.none (by decide) (by decide)).1 53 (by decide) (by decide) (by decide)

/-! ### End of input -/

/-- When the lexer returns the end-of-input token, the token and the lexer
left behind are those of the first branch of `giga_lexer_next_token`. -/
theorem next_token_eof_form (lexer : GigaLexer)
    (h : (giga_lexer_next_token lexer).1.kind = GigaTokenKind.EOF) :
    giga_lexer_peek (giga_lexer_skip_spaces_and_comments lexer) = 0 ∧
    giga_lexer_next_token lexer
      = ({ kind := GigaTokenKind.EOF, text_begin := Option.none, text_length := 0,
           line_number := (giga_lexer_skip_spaces_and_comments lexer).line_number,
           column_number := (giga_lexer_skip_spaces_and_comments lexer).column_number },
         giga_lexer_skip_spaces_and_comments lexer) := by
  unfold giga_lexer_next_token at h ⊢
  simp only [] at h ⊢
  generalize giga_lexer_skip_spaces_and_comments lexer = lx at h ⊢
  by_cases h0 : giga_lexer_peek lx = 0 ∨ lx.current_index ≥ lx.buffer_length
  · rw [if_pos h0]
    refine ⟨?_, rfl⟩
    rcases h0 with h0 | h0
    · exact h0
    · unfold giga_lexer_peek
      rw [if_pos h0]
  · rw [if_neg h0] at h
    exfalso
    split_ifs at h <;> simp [giga_lexer_make_token] at h

/-- At a byte 0 or at the end of the buffer nothing is skipped. -/
theorem skip_of_peek_zero (lexer : GigaLexer) (h : giga_lexer_peek lexer = 0) :
    giga_lexer_skip_spaces_and_comments lexer = lexer := by
  have hw : ∀ fuel, giga_lexer_advance_while is_horizontal_space fuel lexer = lexer := by
    intro fuel
    cases fuel with
    | zero => rfl
    | succ fuel =>
      unfold giga_lexer_advance_while
      rw [h]
      rfl
  unfold giga_lexer_skip_spaces_and_comments giga_lexer_skip_loop
  simp only [hw, h]
  rfl

/-- Claim C21: end-of-input is absorbing.  Once `giga_lexer_next_token` has
returned an end-of-input token, the next call on the lexer it left returns the
same token again (end-of-input, length 0, same line and column) and leaves the
lexer unchanged; so does every later call. -/
theorem C21_end_of_input_is_absorbing (lexer : GigaLexer)
    (h : (giga_lexer_next_token lexer).1.kind = GigaTokenKind.EOF) :
    (giga_lexer_next_token lexer).1.text_length = 0 ∧
    ∀ n : Nat,
      giga_lexer_next_token
          ((fun later => (giga_lexer_next_token later).2)^[n] (giga_lexer_next_token lexer).2)
        = ((giga_lexer_next_token lexer).1, (giga_lexer_next_token lexer).2) := by
  obtain ⟨hpeek, hform⟩ := next_token_eof_form lexer h
  have hskip := skip_of_peek_zero _ hpeek
  have hfix : giga_lexer_next_token (giga_lexer_next_token lexer).2
      = ((giga_lexer_next_token lexer).1, (giga_lexer_next_token lexer).2) := by
    rw [hform]
    simp only []
    have hk : (giga_lexer_next_token (giga_lexer_skip_spaces_and_comments lexer)).1.kind
        = GigaTokenKind.EOF := by
      unfold giga_lexer_next_token
      simp only [hskip, hpeek, true_or, ↓reduceIte]
    obtain ⟨-, hform2⟩ := next_token_eof_form _ hk
    rw [hform2, hskip]
  refine ⟨by rw [hform], ?_⟩
  intro n
  induction n with
  | zero => exact hfix
  | succ n ih =>
    rw [Function.iterate_succ_apply]
    simp only [hfix]
    exact ih

theorem C21_end_of_input_is_absorbing_witness :
    (giga_lexer_next_token (giga_lexer_init (bytes "  ; done") 8)).1.text_length = 0 ∧
    ∀ n : Nat,
      giga_lexer_next_token
          ((fun later => (giga_lexer_next_token later).2)^[n]
            (giga_lexer_next_token (giga_lexer_init (bytes "  ; done") 8)).2)
        = ((giga_lexer_next_token (giga_lexer_init (bytes "  ; done") 8)).1,
            (giga_lexer_next_token (giga_lexer_init (bytes "  ; done") 8)).2) :=
  C21_end_of_input_is_absorbing (giga_lexer_init (bytes "  ; done") 8) (by decide)

/-! ### Several definitions of one label -/

/-- What pass 2 emits for a jump to a label that the table resolves to an
address below 4096. -/
theorem instruction_word_jump (label_table : List LabelEntry) (L : List Nat)
    (jmp : GigaParsedInstruction) (k : Nat) (hk : k < 4096)
    (hfind : label_table_find label_table L = k) (hto : is_jump_to L jmp) :
    instruction_word label_table jmp = some (0xD000 ||| k) ∧
    instruction_error label_table jmp = Option.none := by
  obtain ⟨hmn, hop⟩ := hto
  have hlen : ¬ jmp.operand_count < 1 := by
    cases hops : jmp.operands with
    | nil => simp [hops] at hop
    | cons o os => simp [GigaParsedInstruction.operand_count, hops]
  have hget : jmp.operands.getD 0 GigaOperand.none = GigaOperand.label L := by
    cases hops : jmp.operands with
    | nil => simp [hops] at hop
    | cons o os => simpa [hops] using hop
  have hmo : mnemonic_to_opcode (bytes "JMP") = some GIGA_OP_JMP := by decide
  have hne : ¬ k = 65535 := by omega
  constructor
  · simp only [instruction_word, hmn, hmo, assemble_pass2_switch, hlen, hget, hfind, hne,
      GIGA_OP_JMP, GIGA_OP_NOP, GIGA_OP_MOVI, GIGA_OP_MOV, GIGA_OP_ADD, GIGA_OP_SUB,
      GIGA_OP_AND, GIGA_OP_OR, GIGA_OP_XOR, GIGA_OP_NOT, GIGA_OP_SHL, GIGA_OP_SHR,
      GIGA_OP_LD, GIGA_OP_ST, ↓reduceIte, Nat.reduceEqDiff, or_self, Option.some.injEq]
    exact jmp_word k hk
  · simp only [instruction_error, hmn, hmo, assemble_pass2_switch, hlen, hget, hfind, hne,
      GIGA_OP_JMP, GIGA_OP_NOP, GIGA_OP_MOVI, GIGA_OP_MOV, GIGA_OP_ADD, GIGA_OP_SUB,
      GIGA_OP_AND, GIGA_OP_OR, GIGA_OP_XOR, GIGA_OP_NOT, GIGA_OP_SHL, GIGA_OP_SHR,
      GIGA_OP_LD, GIGA_OP_ST, ↓reduceIte, Nat.reduceEqDiff, or_self]

/-- Claim C28: a label name (without NUL byte) may be defined by any number of
Label statements.  In a list with fewer than 128 instructions whose instructions
other than the jumps to that name are accepted by pass 2, `giga_assemble`
returns 0, and every `JMP` to the name, wherever it stands, is emitted as the
word `0xD000 | k`, k being the number of Instruction statements in front of the
last Label statement that defines the name (no Label statement behind it does). -/
theorem C28_last_definition_wins (label_table : List LabelEntry)
    (result : GigaAssemblerResult) (statements pre post before after : List GigaStatement)
    (lab : GigaParsedLabel) (jmp : GigaParsedInstruction)
    (hnul : 0 ∉ lab.label_name)
    (hcount : count_instructions statements < 128)
    (hlabel : statements = pre ++ GigaStatement.label lab :: post)
    (hlast : post.countP (defines_label lab.label_name) = 0)
    (hothers : ∀ inst ∈ instructions_of statements, ¬ is_jump_to lab.label_name inst →
      instruction_error (pass1_labels statements 0).reverse inst = Option.none)
    (hjmp : statements = before ++ GigaStatement.instruction jmp :: after)
    (hto : is_jump_to lab.label_name jmp) :
    (giga_assemble label_table statements result).1 = 0 ∧
    bytecode_word (giga_assemble label_table statements result).2.1
        (count_instructions before)
      = 0xD000 ||| count_instructions pre := by
  have hk : count_instructions pre < 128 := by
    rw [hlabel, count_instructions_append] at hcount
    omega
  have hpost : ∀ l, GigaStatement.label l ∈ post → l.label_name ≠ lab.label_name := by
    intro l hl hname
    rw [List.countP_eq_zero] at hlast
    exact hlast _ hl (by simp [defines_label, hname])
  have hfind : label_table_find (pass1_labels statements 0).reverse lab.label_name
      = count_instructions pre := by
    rw [hlabel, label_table_find_pass1 pre post lab 0 hnul hpost, Nat.zero_add]
  have hne : statements ≠ [] := by
    rw [hlabel]
    simp
  have hall : ∀ inst ∈ instructions_of statements,
      instruction_error (pass1_labels statements 0).reverse inst = Option.none := by
    intro inst hmem
    by_cases hj : is_jump_to lab.label_name inst
    · exact (instruction_word_jump _ _ inst _ (by omega) hfind hj).2
    · exact hothers inst hmem hj
  have hok : (giga_assemble label_table statements result).1 = 0 :=
    giga_assemble_no_defect label_table statements result hne hcount
      ((first_defect_none_iff _ _).2 hall)
  refine ⟨hok, ?_⟩
  obtain ⟨_, _, _, ws, hres, _, _, hword⟩ :=
    giga_assemble_success label_table statements result hok
  have hidx : (instructions_of statements)[count_instructions before]? = some jmp := by
    rw [hjmp, instructions_of_append, count_instructions,
      List.getElem?_append_right (le_refl _)]
    simp [instructions_of]
  have hw := hword _ jmp hidx
  rw [(instruction_word_jump _ _ jmp _ (by omega) hfind hto).1] at hw
  rw [hres]
  simp only [bytecode_word, Option.getD_some]
  exact (Option.some.inj hw).symm

theorem C28_last_definition_wins_witness :
    (giga_assemble [] duplicate_label_program empty_result).1 = 0 ∧
    bytecode_word (giga_assemble [] duplicate_label_program empty_result).2.1
        (count_instructions (duplicate_label_program.take 2))
      = 0xD000 ||| count_instructions (duplicate_label_program.take 3) :=
  C28_last_definition_wins [] empty_result duplicate_label_program
    (duplicate_label_program.take 3) (duplicate_label_program.drop 4)
    (duplicate_label_program.take 2) (duplicate_label_program.drop 3)
    { label_name := bytes "END", source_line := 4, source_column := 1 }
    { mnemonic_text := bytes "JMP", operands := [GigaOperand.label (bytes "END")],
      source_line := 3, source_column := 1 }
    (by decide) (by decide) (by decide) (by decide) (by decide) (by decide) ⟨rfl, rfl⟩

/-! ### Lines and columns of tokens -/

theorem take_length_takeWhile (p : Nat → Bool) (l : List Nat) :
    l.take (l.takeWhile p).length = l.takeWhile p := by
  induction l with
  | nil => rfl
  | cons a l ih =>
    by_cases h : p a = true
    · simp [List.takeWhile_cons, h, ih]
    · simp [List.takeWhile_cons, h]

theorem takeWhile_no_newline (p : Nat → Bool) (hp10 : p 10 = false) (l : List Nat) :
    ∀ c ∈ l.takeWhile p, c ≠ 10 := by
  intro c hc h10
  have := List.mem_takeWhile_imp hc
  rw [h10, hp10] at this
  exact Bool.false_ne_true this

/-- The bytes skipped in front of a token hold no newline. -/
theorem skip_no_newline (fuel : Nat) (rest : List Nat) :
    scan_skip_len fuel rest ≤ rest.length ∧
    ∀ c ∈ rest.take (scan_skip_len fuel rest), c ≠ 10 := by
  cases fuel with
  | zero =>
    refine ⟨Nat.zero_le _, ?_⟩
    intro c hc
    simp [scan_skip_len] at hc
  | succ fuel =>
    unfold scan_skip_len
    have hs := takeWhile_no_newline is_horizontal_space (by decide) rest
    have hsl := takeWhile_length_le is_horizontal_space rest
    by_cases h59 : (rest.dropWhile is_horizontal_space).headD 0 = 59
    · rw [if_pos h59, scan_skip_len_after_comment, Nat.add_zero]
      have hc := takeWhile_no_newline is_comment_byte (by decide)
        (rest.dropWhile is_horizontal_space)
      have hcl := takeWhile_length_le is_comment_byte (rest.dropWhile is_horizontal_space)
      have hdl : (rest.dropWhile is_horizontal_space).length
          = rest.length - (rest.takeWhile is_horizontal_space).length := by
        rw [← drop_length_takeWhile, List.length_drop]
      refine ⟨by omega, ?_⟩
      intro c hmem
      rw [List.take_add, take_length_takeWhile, drop_length_takeWhile,
        take_length_takeWhile, List.mem_append] at hmem
      rcases hmem with hmem | hmem
      · exact hs c hmem
      · exact hc c hmem
    · rw [if_neg h59]
      refine ⟨hsl, ?_⟩
      intro c hmem
      rw [take_length_takeWhile] at hmem
      exact hs c hmem

/-- A token other than a newline token holds no newline byte; a newline token
is one newline byte. -/
theorem token_no_newline (rest : List Nat) :
    ((scan_token rest).1 ≠ GigaTokenKind.NEWLINE →
      ∀ c ∈ rest.take (scan_token rest).2, c ≠ 10) ∧
    ((scan_token rest).1 = GigaTokenKind.NEWLINE → rest.take 1 = [10]) := by
  cases rest with
  | nil => simp [scan_token]
  | cons c tail =>
    have hid := takeWhile_no_newline giga_lexer_is_identifier_continue (by decide) tail
    have hdg := takeWhile_no_newline isdigit (by decide) tail
    by_cases h0 : c = 0
    · subst h0
      simp [scan_token]
    by_cases h10 : c = 10
    · subst h10
      simp [scan_token]
    have hrun : ∀ p : Nat → Bool, p 10 = false →
        ∀ x ∈ (c :: tail).take (1 + (tail.takeWhile p).length), x ≠ 10 := by
      intro p hp x hx
      rw [Nat.add_comm, List.take_succ_cons, take_length_takeWhile, List.mem_cons] at hx
      rcases hx with rfl | hx
      · exact h10
      · exact takeWhile_no_newline p hp tail x hx
    have hone : ∀ x ∈ (c :: tail).take 1, x ≠ 10 := by
      intro x hx
      simp only [List.take_succ_cons, List.take_zero, List.mem_singleton] at hx
      rw [hx]
      exact h10
    simp only [scan_token, h0, h10, ↓reduceIte]
    by_cases h44 : c = 44
    · simp only [h44, ↓reduceIte]
      refine ⟨fun _ => ?_, fun h => by simp at h⟩
      rw [← h44]
      exact hone
    by_cases h58 : c = 58
    · simp only [h58, ↓reduceIte, Nat.reduceEqDiff]
      refine ⟨fun _ => ?_, fun h => by simp at h⟩
      rw [← h58]
      exact hone
    simp only [h44, h58, ↓reduceIte]
    by_cases h46 : c = 46
    · simp only [h46, ↓reduceIte]
      refine ⟨fun _ => ?_, fun h => by simp at h⟩
      rw [← h46]
      exact hrun giga_lexer_is_identifier_continue (by decide)
    simp only [h46, ↓reduceIte]
    by_cases hd : isdigit c = true
    · simp only [hd, ↓reduceIte]
      by_cases hhex : c = 48 ∧ (tail.headD 0 = 120 ∨ tail.headD 0 = 88)
      · simp only [if_pos hhex]
        refine ⟨fun _ => ?_, fun h => by simp at h⟩
        obtain ⟨x, tail2, rfl⟩ : ∃ x tail2, tail = x :: tail2 := by
          cases tail with
          | nil => simp at hhex
          | cons x tail2 => exact ⟨x, tail2, rfl⟩
        have hx10 : x ≠ 10 := by
          rintro rfl
          simp at hhex
        intro y hy
        have hdrop : List.drop 1 (x :: tail2) = tail2 := rfl
        rw [hdrop, Nat.add_comm, List.take_succ_cons, List.take_succ_cons,
          take_length_takeWhile, List.mem_cons, List.mem_cons] at hy
        rcases hy with rfl | rfl | hy
        · omega
        · exact hx10
        · exact takeWhile_no_newline isxdigit (by decide) tail2 y hy
      · simp only [if_neg hhex]
        refine ⟨fun _ => ?_, fun h => by simp at h⟩
        exact hrun isdigit (by decide)
    · simp only [hd, Bool.false_eq_true, ↓reduceIte]
      by_cases hi : giga_lexer_is_identifier_start c = true
      · simp only [hi, ↓reduceIte]
        refine ⟨fun _ => ?_, fun h => by simp at h⟩
        exact hrun giga_lexer_is_identifier_continue (by decide)
      · simp only [hi, Bool.false_eq_true, ↓reduceIte]
        refine ⟨fun _ => ?_, fun h => by simp at h⟩
        exact hone

theorem positions_shift (lexer : GigaLexer) (hp : lexer_positions lexer) (k : Nat)
    (hk : k ≤ (lexer_rest lexer).length)
    (hno : ∀ c ∈ (lexer_rest lexer).take k, c ≠ 10) :
    lexer_positions (lexer_shift lexer k) := by
  obtain ⟨hl, hc⟩ := hp
  have htake : lexer.buffer.take (lexer.current_index + k)
      = lexer.buffer.take lexer.current_index ++ (lexer_rest lexer).take k := by
    rw [List.take_add]
    rfl
  constructor
  · show lexer.line_number = line_of lexer.buffer (lexer.current_index + k)
    rw [hl]
    unfold line_of
    rw [htake, List.count_append, List.count_eq_zero.2 (fun h => hno 10 h rfl)]
    rfl
  · show lexer.column_number + k = column_of lexer.buffer (lexer.current_index + k)
    rw [hc]
    unfold column_of
    rw [htake, List.reverse_append, List.takeWhile_append_of_pos, List.length_append,
      List.length_reverse, List.length_take, Nat.min_eq_left hk]
    · omega
    · intro c hmem
      rw [List.mem_reverse] at hmem
      simpa using hno c hmem

theorem positions_newline (lexer : GigaLexer) (hp : lexer_positions lexer) (k : Nat)
    (hno : ∀ c ∈ (lexer_rest lexer).take k, c ≠ 10)
    (h10 : ((lexer_rest lexer).drop k).take 1 = [10]) :
    lexer_positions (lexer_newline lexer (k + 1)) := by
  obtain ⟨hl, hc⟩ := hp
  have htake : lexer.buffer.take (lexer.current_index + (k + 1))
      = lexer.buffer.take lexer.current_index ++ ((lexer_rest lexer).take k ++ [10]) := by
    rw [List.take_add]
    show _ ++ List.take (k + 1) (lexer_rest lexer) = _
    rw [List.take_add, h10]
  constructor
  · show lexer.line_number + 1 = line_of lexer.buffer (lexer.current_index + (k + 1))
    rw [hl]
    unfold line_of
    rw [htake, List.count_append, List.count_append,
      List.count_eq_zero.2 (fun h => hno 10 h rfl)]
    simp
    omega
  · show 1 = column_of lexer.buffer (lexer.current_index + (k + 1))
    unfold column_of
    rw [htake, ← List.append_assoc, List.reverse_append]
    simp

/-- The line and column of a token are those of its start offset, the token
starts at or behind the cursor, and the lexer is left at the end of the token
with its counters in step. -/
theorem next_token_positions (lexer : GigaLexer) (hw : lexer_whole lexer)
    (hp : lexer_positions lexer) :
    lexer_positions (giga_lexer_next_token lexer).2 ∧
    lexer.current_index ≤ (giga_lexer_next_token lexer).2.current_index ∧
    ∀ b, (giga_lexer_next_token lexer).1.text_begin = some b →
      lexer.current_index ≤ b ∧
      b + (giga_lexer_next_token lexer).1.text_length
        = (giga_lexer_next_token lexer).2.current_index ∧
      (giga_lexer_next_token lexer).1.line_number = line_of lexer.buffer b ∧
      (giga_lexer_next_token lexer).1.column_number = column_of lexer.buffer b := by
  obtain ⟨hsl, hsno⟩ := skip_no_newline ((lexer_rest lexer).length + 1) (lexer_rest lexer)
  obtain ⟨htno, htnl⟩ := token_no_newline ((lexer_rest lexer).drop
    (scan_skip_len ((lexer_rest lexer).length + 1) (lexer_rest lexer)))
  have hnle := scan_token_length_le ((lexer_rest lexer).drop
    (scan_skip_len ((lexer_rest lexer).length + 1) (lexer_rest lexer)))
  rw [List.length_drop] at hnle
  have hskip := positions_shift lexer hp _ hsl hsno
  rw [next_token_eq lexer hw _ rfl]
  generalize scan_skip_len ((lexer_rest lexer).length + 1) (lexer_rest lexer) = s at *
  generalize hkn : scan_token ((lexer_rest lexer).drop s) = kn at *
  obtain ⟨kind, n⟩ := kn
  simp only [] at htno htnl hnle ⊢
  refine ⟨?_, ?_, ?_⟩
  · by_cases hk : kind = GigaTokenKind.NEWLINE
    · rw [if_pos hk]
      exact positions_newline lexer hp s hsno (htnl hk)
    · rw [if_neg hk]
      refine positions_shift lexer hp (s + n) (by omega) ?_
      intro c hc
      rw [List.take_add, List.mem_append] at hc
      rcases hc with hc | hc
      · exact hsno c hc
      · exact htno hk c hc
  · by_cases hk : kind = GigaTokenKind.NEWLINE
    · rw [if_pos hk]
      show lexer.current_index ≤ lexer.current_index + (s + 1)
      omega
    · rw [if_neg hk]
      show lexer.current_index ≤ lexer.current_index + (s + n)
      omega
  · intro b hb
    by_cases hk : kind = GigaTokenKind.EOF
    · simp [hk] at hb
    · simp only [hk, ↓reduceIte, Option.some.injEq] at hb
      subst hb
      refine ⟨by omega, ?_, hskip.1, hskip.2⟩
      by_cases hk2 : kind = GigaTokenKind.NEWLINE
      · have hn1 : n = 1 := by
          have := scan_token_newline_length ((lexer_rest lexer).drop s) (by rw [hkn]; exact hk2)
          rw [hkn] at this
          exact this
        rw [if_pos hk2, hn1]
        show _ = lexer.current_index + (s + 1)
        omega
      · rw [if_neg hk2]
        show _ = lexer.current_index + (s + n)
        omega

/-- Along the token list every token with a text starts at or behind the cursor
the list was started from, carries the line and column of its start offset, and
does not start before the token in front of it ends. -/
theorem tokens_positions (fuel : Nat) :
    ∀ lexer : GigaLexer, lexer_whole lexer → lexer_positions lexer →
      (∀ token ∈ giga_lexer_tokens fuel lexer, ∀ b, token.text_begin = some b →
        lexer.current_index ≤ b ∧
        token.line_number = line_of lexer.buffer b ∧
        token.column_number = column_of lexer.buffer b) ∧
      List.Chain' token_follows (giga_lexer_tokens fuel lexer) := by
  induction fuel with
  | zero =>
    intro lexer _ _
    exact ⟨fun _ h => by simp [giga_lexer_tokens] at h, List.chain'_nil⟩
  | succ fuel ih =>
    intro lexer hw hp
    obtain ⟨hp2, hidx, htok⟩ := next_token_positions lexer hw hp
    obtain ⟨hw2, hb2, -, -, -, -⟩ := next_lexer_eq lexer hw _ rfl
    obtain ⟨ih1, ih2⟩ := ih (giga_lexer_next_token lexer).2 hw2 hp2
    rw [hb2] at ih1
    unfold giga_lexer_tokens
    simp only []
    by_cases hk : (giga_lexer_next_token lexer).1.kind = GigaTokenKind.EOF
    · rw [if_pos hk]
      refine ⟨?_, List.chain'_singleton _⟩
      intro token hmem b hb
      rw [List.mem_singleton] at hmem
      subst hmem
      obtain ⟨h1, -, h3, h4⟩ := htok b hb
      exact ⟨h1, h3, h4⟩
    · rw [if_neg hk]
      constructor
      · intro token hmem b hb
        rcases List.mem_cons.1 hmem with rfl | hmem
        · obtain ⟨h1, -, h3, h4⟩ := htok b hb
          exact ⟨h1, h3, h4⟩
        · obtain ⟨h1, h3, h4⟩ := ih1 token hmem b hb
          exact ⟨by omega, h3, h4⟩
      · rw [List.chain'_cons']
        refine ⟨?_, ih2⟩
        intro y hy b1 b2 hb1 hbb2
        obtain ⟨-, hend, -, -⟩ := htok b1 hb1
        obtain ⟨h1, -, -⟩ := ih1 y (List.mem_of_mem_head? hy) b2 hbb2
        omega

/-- Claim C29: for every buffer, every token of the buffer that has a text (the
end-of-input token has none) carries as line 1 plus the number of newline bytes
in front of its start offset and as column 1 plus the number of bytes between
the last newline in front of its start offset (or the start of the buffer) and
that offset; and every token starts at an offset not smaller than the end offset
of the token returned before it. -/
theorem C29_token_positions (buffer : List Nat) :
    (∀ token ∈ tokenize buffer, ∀ b, token.text_begin = some b →
      token.line_number = line_of buffer b ∧ token.column_number = column_of buffer b) ∧
    List.Chain' token_follows (tokenize buffer) ∧
    (line_of (bytes "MOV R0, 5\nHALT") 10 = 2 ∧ column_of (bytes "MOV R0, 5\nHALT") 10 = 1 ∧
      line_of (bytes "MOV R0, 5\nHALT") 8 = 1 ∧ column_of (bytes "MOV R0, 5\nHALT") 8 = 9) := by
  obtain ⟨h1, h2⟩ := tokens_positions (buffer.length + 1)
    (giga_lexer_init buffer buffer.length) rfl ⟨rfl, rfl⟩
  refine ⟨?_, h2, by decide⟩
  intro token hmem b hb
  exact (h1 token hmem b hb).2

/-! ### The parser does not depend on source positions -/

theorem lexer_sim_remaining (dl dc : Nat) (lexer1 lexer2 : GigaLexer)
    (h : lexer_sim dl dc lexer1 lexer2) :
    giga_lexer_remaining lexer1 = giga_lexer_remaining lexer2 := by
  rw [remaining_eq_length _ h.1, remaining_eq_length _ h.2.1, h.2.2.1]

/-- One call of the lexer on two lexers with the same unread bytes. -/
theorem next_token_sim (dl dc : Nat) (lexer1 lexer2 : GigaLexer)
    (h : lexer_sim dl dc lexer1 lexer2) :
    token_sim lexer1.buffer lexer2.buffer dl dc (giga_lexer_next_token lexer1).1
      (giga_lexer_next_token lexer2).1 ∧
    lexer_sim dl dc (giga_lexer_next_token lexer1).2 (giga_lexer_next_token lexer2).2 ∧
    (giga_lexer_next_token lexer1).2.buffer = lexer1.buffer ∧
    (giga_lexer_next_token lexer2).2.buffer = lexer2.buffer := by
  obtain ⟨hw1, hw2, hrest, hone, hline, hcol⟩ := h
  obtain ⟨hk1, -, hn1, hl1, hc1, ht1⟩ := next_token_fields lexer1 hw1 _ rfl
  obtain ⟨hk2, -, hn2, hl2, hc2, ht2⟩ := next_token_fields lexer2 hw2 _ rfl
  obtain ⟨hnw1, hnb1, hnr1, -, hnl1, hnc1⟩ := next_lexer_eq lexer1 hw1 _ rfl
  obtain ⟨hnw2, hnb2, hnr2, -, hnl2, hnc2⟩ := next_lexer_eq lexer2 hw2 _ rfl
  rw [hrest] at hk1 hn1 hc1 ht1 hnr1 hnl1 hnc1
  refine ⟨⟨by rw [hk1, hk2], by rw [hn1, hn2], by rw [ht1, ht2], by rw [hl1, hl2, hline], ?_⟩,
    ⟨hnw1, hnw2, by rw [hnr1, hnr2], ?_, ?_, ?_⟩, hnb1, hnb2⟩
  · rw [hc1, hc2, hl2, hcol]
    unfold shift_column
    omega
  · rw [hnl2]
    split_ifs <;> omega
  · rw [hnl1, hnl2, hline]
    split_ifs <;> omega
  · rw [hnc1, hnc2, hnl2, hcol]
    unfold shift_column
    split_ifs <;> omega

theorem advance_sim (front : List GigaStatement) (dl dc : Nat) (parser1 parser2 : GigaParser)
    (h : parser_sim front dl dc parser1 parser2) :
    parser_sim front dl dc (giga_parser_advance parser1) (giga_parser_advance parser2) := by
  obtain ⟨hlex, -, hla, herr, hst⟩ := h
  obtain ⟨htok, hlex2, hb1, hb2⟩ := next_token_sim dl dc _ _ hlex
  unfold giga_parser_advance
  refine ⟨hlex2, ?_, ?_, herr, hst⟩
  · simp only [hb1, hb2]
    exact hla
  · simp only [hb1, hb2]
    exact htok

theorem error_sim (front : List GigaStatement) (dl dc : Nat) (parser1 parser2 : GigaParser)
    (h : parser_sim front dl dc parser1 parser2) (message : String)
    (line1 column1 line2 column2 : Nat) :
    parser_sim front dl dc (giga_parser_error parser1 message line1 column1)
      (giga_parser_error parser2 message line2 column2) :=
  ⟨h.1, h.2.1, h.2.2.1, rfl, h.2.2.2.2⟩

theorem append_statement_sim (front : List GigaStatement) (dl dc : Nat)
    (parser1 parser2 : GigaParser) (h : parser_sim front dl dc parser1 parser2)
    (stmt : GigaStatement) :
    parser_sim front dl dc (giga_parser_append_statement parser1 (shift_statement dl dc stmt))
      (giga_parser_append_statement parser2 stmt) := by
  refine ⟨h.1, h.2.1, h.2.2.1, h.2.2.2.1, ?_⟩
  simp only [giga_parser_append_statement, h.2.2.2.2, List.map_append, List.map_cons,
    List.map_nil, List.append_assoc]

theorem current_text_sim (front : List GigaStatement) (dl dc : Nat)
    (parser1 parser2 : GigaParser) (h : parser_sim front dl dc parser1 parser2) :
    parser1.current_token.kind = parser2.current_token.kind ∧
    parser1.current_token.text_length = parser2.current_token.text_length ∧
    token_text parser1 parser1.current_token = token_text parser2 parser2.current_token :=
  ⟨h.2.1.1, h.2.1.2.1, h.2.1.2.2.1⟩

theorem current_is_symbol_sim (front : List GigaStatement) (dl dc : Nat)
    (parser1 parser2 : GigaParser) (h : parser_sim front dl dc parser1 parser2) (c : Nat) :
    current_is_symbol parser1 c = current_is_symbol parser2 c := by
  obtain ⟨hk, hl, ht⟩ := current_text_sim front dl dc _ _ h
  unfold current_is_symbol
  rw [hk, hl, ht]

theorem parse_register_sim (front : List GigaStatement) (dl dc : Nat)
    (parser1 parser2 : GigaParser) (h : parser_sim front dl dc parser1 parser2)
    (operand : GigaOperand) :
    parsed_sim front dl dc (giga_parser_parse_register parser1 operand)
      (giga_parser_parse_register parser2 operand) := by
  obtain ⟨hk, hl, ht⟩ := current_text_sim front dl dc _ _ h
  have ha := advance_sim front dl dc _ _ h
  unfold giga_parser_parse_register
  simp only [hk, hl, ht]
  split_ifs
  all_goals first
    | exact ⟨rfl, h, rfl⟩
    | exact ⟨rfl, ha, rfl⟩

theorem parse_number_sim (front : List GigaStatement) (dl dc : Nat)
    (parser1 parser2 : GigaParser) (h : parser_sim front dl dc parser1 parser2)
    (operand : GigaOperand) :
    parsed_sim front dl dc (giga_parser_parse_number parser1 operand)
      (giga_parser_parse_number parser2 operand) := by
  obtain ⟨hk, hl, ht⟩ := current_text_sim front dl dc _ _ h
  have ha := advance_sim front dl dc _ _ h
  unfold giga_parser_parse_number
  simp only [hk, hl, ht]
  by_cases hkind : parser2.current_token.kind ≠ GigaTokenKind.NUMBER
  · rw [if_pos hkind, if_pos hkind]
    exact ⟨rfl, h, rfl⟩
  · rw [if_neg hkind, if_neg hkind]
    generalize (if parser2.current_token.text_length ≥ 2 ∧
        (token_text parser2 parser2.current_token).getD 0 0 = 48 ∧
        ((token_text parser2 parser2.current_token).getD 1 0 = 120 ∨
          (token_text parser2 parser2.current_token).getD 1 0 = 88) then
        parse_number_hex ((token_text parser2 parser2.current_token).drop 2) 0
      else parse_number_decimal (token_text parser2 parser2.current_token) 0) = digits
    cases digits with
    | error message => exact ⟨rfl, error_sim front dl dc _ _ h _ _ _ _ _, rfl⟩
    | ok value =>
      simp only []
      split_ifs
      · exact ⟨rfl, error_sim front dl dc _ _ h _ _ _ _ _, rfl⟩
      · exact ⟨rfl, ha, rfl⟩

theorem parse_label_reference_sim (front : List GigaStatement) (dl dc : Nat)
    (parser1 parser2 : GigaParser) (h : parser_sim front dl dc parser1 parser2)
    (operand : GigaOperand) :
    parsed_sim front dl dc (giga_parser_parse_label_reference parser1 operand)
      (giga_parser_parse_label_reference parser2 operand) := by
  obtain ⟨hk, hl, ht⟩ := current_text_sim front dl dc _ _ h
  have ha := advance_sim front dl dc _ _ h
  unfold giga_parser_parse_label_reference
  simp only [hk, hl, ht]
  split_ifs
  · exact ⟨rfl, h, rfl⟩
  · exact ⟨rfl, ha, rfl⟩

theorem parse_memory_operand_sim (front : List GigaStatement) (dl dc : Nat)
    (parser1 parser2 : GigaParser) (h : parser_sim front dl dc parser1 parser2)
    (operand : GigaOperand) :
    parsed_sim front dl dc (giga_parser_parse_memory_operand parser1 operand)
      (giga_parser_parse_memory_operand parser2 operand) := by
  have hsym := current_is_symbol_sim front dl dc _ _ h 91
  have ha := advance_sim front dl dc _ _ h
  have hn := parse_number_sim front dl dc _ _ ha GigaOperand.none
  unfold giga_parser_parse_memory_operand
  simp only [hsym]
  by_cases hs : current_is_symbol parser2 91 = true
  swap
  · simp only [hs, not_false_eq_true, ↓reduceIte]
    exact ⟨rfl, h, rfl⟩
  simp only [hs, not_true_eq_false, ↓reduceIte]
  rcases hn1 : giga_parser_parse_number (giga_parser_advance parser1) GigaOperand.none
    with ⟨nb1, np1, no1⟩
  rcases hn2 : giga_parser_parse_number (giga_parser_advance parser2) GigaOperand.none
    with ⟨nb2, np2, no2⟩
  rw [hn1, hn2] at hn
  obtain ⟨hb, hp, ho⟩ := hn
  simp only [] at hb hp ho
  subst hb ho
  cases nb1 with
  | true =>
    simp only [↓reduceIte, not_true_eq_false]
    rw [current_is_symbol_sim front dl dc _ _ hp 93]
    split_ifs
    all_goals first
      | exact ⟨rfl, error_sim front dl dc _ _ hp _ _ _ _ _, rfl⟩
      | exact ⟨rfl, advance_sim front dl dc _ _ hp, rfl⟩
  | false =>
    simp only [Bool.false_eq_true, ↓reduceIte]
    have hr := parse_register_sim front dl dc _ _ hp no1
    rcases hr1 : giga_parser_parse_register np1 no1 with ⟨rb1, rp1, ro1⟩
    rcases hr2 : giga_parser_parse_register np2 no1 with ⟨rb2, rp2, ro2⟩
    rw [hr1, hr2] at hr
    obtain ⟨hb, hp2, ho⟩ := hr
    simp only [] at hb hp2 ho
    subst hb ho
    simp only []
    rw [current_is_symbol_sim front dl dc _ _ hp2 93]
    split_ifs
    all_goals first
      | exact ⟨rfl, error_sim front dl dc _ _ hp2 _ _ _ _ _, rfl⟩
      | exact ⟨rfl, advance_sim front dl dc _ _ hp2, rfl⟩

theorem parse_operand_sim (front : List GigaStatement) (dl dc : Nat)
    (parser1 parser2 : GigaParser) (h : parser_sim front dl dc parser1 parser2)
    (operand : GigaOperand) :
    parsed_sim front dl dc (giga_parser_parse_operand parser1 operand)
      (giga_parser_parse_operand parser2 operand) := by
  have hm := parse_memory_operand_sim front dl dc _ _ h operand
  unfold giga_parser_parse_operand
  simp only []
  rcases hm1 : giga_parser_parse_memory_operand parser1 operand with ⟨mb1, mp1, mo1⟩
  rcases hm2 : giga_parser_parse_memory_operand parser2 operand with ⟨mb2, mp2, mo2⟩
  rw [hm1, hm2] at hm
  obtain ⟨hb, hp, ho⟩ := hm
  simp only [] at hb hp ho
  subst hb ho
  cases mb1 with
  | true => exact ⟨rfl, hp, rfl⟩
  | false =>
    simp only [Bool.false_eq_true, ↓reduceIte]
    have hr := parse_register_sim front dl dc _ _ hp mo1
    rcases hr1 : giga_parser_parse_register mp1 mo1 with ⟨rb1, rp1, ro1⟩
    rcases hr2 : giga_parser_parse_register mp2 mo1 with ⟨rb2, rp2, ro2⟩
    rw [hr1, hr2] at hr
    obtain ⟨hb, hp2, ho⟩ := hr
    simp only [] at hb hp2 ho
    subst hb ho
    cases rb1 with
    | true => exact ⟨rfl, hp2, rfl⟩
    | false =>
      simp only [Bool.false_eq_true, ↓reduceIte]
      have hn := parse_number_sim front dl dc _ _ hp2 ro1
      rcases hn1 : giga_parser_parse_number rp1 ro1 with ⟨nb1, np1, no1⟩
      rcases hn2 : giga_parser_parse_number rp2 ro1 with ⟨nb2, np2, no2⟩
      rw [hn1, hn2] at hn
      obtain ⟨hb, hp3, ho⟩ := hn
      simp only [] at hb hp3 ho
      subst hb ho
      cases nb1 with
      | true => exact ⟨rfl, hp3, rfl⟩
      | false =>
        simp only [Bool.false_eq_true, ↓reduceIte]
        have hl := parse_label_reference_sim front dl dc _ _ hp3 no1
        rcases hl1 : giga_parser_parse_label_reference np1 no1 with ⟨lb1, lp1, lo1⟩
        rcases hl2 : giga_parser_parse_label_reference np2 no1 with ⟨lb2, lp2, lo2⟩
        rw [hl1, hl2] at hl
        obtain ⟨hb, hp4, ho⟩ := hl
        simp only [] at hb hp4 ho
        subst hb ho
        cases lb1 with
        | true => exact ⟨rfl, hp4, rfl⟩
        | false => exact ⟨rfl, hp4, rfl⟩

theorem parse_instruction_loop_sim (front : List GigaStatement) (dl dc : Nat) (fuel : Nat) :
    ∀ (parser1 parser2 : GigaParser) (inst : GigaParsedInstruction),
      parser_sim front dl dc parser1 parser2 →
      option_sim (parser_sim front dl dc)
        (giga_parser_parse_instruction_loop fuel parser1
          { inst with
            source_line := inst.source_line + dl
            source_column := shift_column dc inst.source_line inst.source_column })
        (giga_parser_parse_instruction_loop fuel parser2 inst) := by
  induction fuel with
  | zero =>
    intro _ _ _ _
    exact True.intro
  | succ fuel ih =>
    intro parser1 parser2 inst h
    obtain ⟨hk, -, -⟩ := current_text_sim front dl dc _ _ h
    have ha := advance_sim front dl dc _ _ h
    unfold giga_parser_parse_instruction_loop
    simp only [hk, GigaParsedInstruction.operand_count]
    by_cases hline : parser2.current_token.kind ≠ GigaTokenKind.NEWLINE ∧
        parser2.current_token.kind ≠ GigaTokenKind.EOF
    swap
    · rw [if_neg hline, if_neg hline]
      have hend : parser_sim front dl dc
          (if parser2.current_token.kind = GigaTokenKind.NEWLINE then
            giga_parser_advance parser1 else parser1)
          (if parser2.current_token.kind = GigaTokenKind.NEWLINE then
            giga_parser_advance parser2 else parser2) := by
        split_ifs
        · exact ha
        · exact h
      exact append_statement_sim front dl dc _ _ hend (GigaStatement.instruction inst)
    rw [if_pos hline, if_pos hline]
    have hcomma : parser_sim front dl dc
        (if parser2.current_token.kind = GigaTokenKind.COMMA then
          giga_parser_advance parser1 else parser1)
        (if parser2.current_token.kind = GigaTokenKind.COMMA then
          giga_parser_advance parser2 else parser2) := by
      split_ifs
      · exact ha
      · exact h
    generalize (if parser2.current_token.kind = GigaTokenKind.COMMA then
      giga_parser_advance parser1 else parser1) = q1 at hcomma ⊢
    generalize (if parser2.current_token.kind = GigaTokenKind.COMMA then
      giga_parser_advance parser2 else parser2) = q2 at hcomma ⊢
    by_cases hmax : inst.operands.length ≥ GIGA_MAX_OPERANDS
    · rw [if_pos hmax, if_pos hmax]
      exact append_statement_sim front dl dc _ _
        (error_sim front dl dc _ _ hcomma _ _ _ _ _) (GigaStatement.instruction inst)
    rw [if_neg hmax, if_neg hmax]
    have hop := parse_operand_sim front dl dc _ _ hcomma GigaOperand.none
    rcases ho1 : giga_parser_parse_operand q1 GigaOperand.none with ⟨ob1, op1, oo1⟩
    rcases ho2 : giga_parser_parse_operand q2 GigaOperand.none with ⟨ob2, op2, oo2⟩
    rw [ho1, ho2] at hop
    obtain ⟨hb, hp, ho⟩ := hop
    simp only [] at hb hp ho
    subst hb ho
    cases ob1 with
    | false =>
      simp only [Bool.false_eq_true, not_false_eq_true, ↓reduceIte]
      exact append_statement_sim front dl dc _ _
        (error_sim front dl dc _ _ hp _ _ _ _ _) (GigaStatement.instruction inst)
    | true =>
      simp only [not_true_eq_false, ↓reduceIte]
      exact ih op1 op2 { inst with operands := inst.operands ++ [oo1] } hp

theorem parse_instruction_sim (front : List GigaStatement) (dl dc : Nat)
    (parser1 parser2 : GigaParser) (h : parser_sim front dl dc parser1 parser2) :
    option_sim (parser_sim front dl dc) (giga_parser_parse_instruction parser1)
      (giga_parser_parse_instruction parser2) := by
  obtain ⟨hk, -, ht⟩ := current_text_sim front dl dc _ _ h
  have hfuel : giga_parser_fuel parser1 = giga_parser_fuel parser2 := by
    unfold giga_parser_fuel
    rw [lexer_sim_remaining dl dc _ _ h.1]
  unfold giga_parser_parse_instruction
  rw [hk, ht, hfuel, h.2.1.2.2.2.1, h.2.1.2.2.2.2]
  split_ifs
  · exact error_sim front dl dc _ _ h _ _ _ _ _
  · exact parse_instruction_loop_sim front dl dc _ _ _
      { mnemonic_text := token_text parser2 parser2.current_token, operands := [],
        source_line := parser2.current_token.line_number,
        source_column := parser2.current_token.column_number }
      (advance_sim front dl dc _ _ h)

theorem parse_label_sim (front : List GigaStatement) (dl dc : Nat)
    (parser1 parser2 : GigaParser) (h : parser_sim front dl dc parser1 parser2) :
    parser_sim front dl dc (giga_parser_parse_label parser1)
      (giga_parser_parse_label parser2) := by
  obtain ⟨hk, -, ht⟩ := current_text_sim front dl dc _ _ h
  unfold giga_parser_parse_label
  rw [hk, ht, h.2.1.2.2.2.1, h.2.1.2.2.2.2]
  by_cases hid : parser2.current_token.kind ≠ GigaTokenKind.IDENTIFIER
  · rw [if_pos hid, if_pos hid]
    exact error_sim front dl dc _ _ h _ _ _ _ _
  rw [if_neg hid, if_neg hid]
  have h1 := advance_sim front dl dc _ _ (append_statement_sim front dl dc _ _ h
    (GigaStatement.label
      { label_name := token_text parser2 parser2.current_token
        source_line := parser2.current_token.line_number
        source_column := parser2.current_token.column_number }))
  simp only [shift_statement] at h1
  simp only []
  generalize giga_parser_advance (giga_parser_append_statement parser1 _) = q1 at h1 ⊢
  generalize giga_parser_advance (giga_parser_append_statement parser2 _) = q2 at h1 ⊢
  have h2 := advance_sim front dl dc _ _ h1
  have h3 := advance_sim front dl dc _ _ h2
  rw [h1.2.1.1, h2.2.1.1]
  split_ifs
  · exact error_sim front dl dc _ _ h1 _ _ _ _ _
  · exact h3
  · exact h2

theorem skip_line_sim (front : List GigaStatement) (dl dc : Nat) (fuel : Nat) :
    ∀ (parser1 parser2 : GigaParser), parser_sim front dl dc parser1 parser2 →
      option_sim (parser_sim front dl dc) (giga_parser_skip_line fuel parser1)
        (giga_parser_skip_line fuel parser2) := by
  induction fuel with
  | zero =>
    intro _ _ _
    exact True.intro
  | succ fuel ih =>
    intro parser1 parser2 h
    unfold giga_parser_skip_line
    rw [h.2.1.1]
    split_ifs
    · exact ih _ _ (advance_sim front dl dc _ _ h)
    · exact h

theorem parse_directive_sim (front : List GigaStatement) (dl dc : Nat)
    (parser1 parser2 : GigaParser) (h : parser_sim front dl dc parser1 parser2) :
    option_sim (parser_sim front dl dc) (giga_parser_parse_directive parser1)
      (giga_parser_parse_directive parser2) := by
  obtain ⟨hk, -, ht⟩ := current_text_sim front dl dc _ _ h
  have hfuel : giga_parser_fuel parser1 = giga_parser_fuel parser2 := by
    unfold giga_parser_fuel
    rw [lexer_sim_remaining dl dc _ _ h.1]
  unfold giga_parser_parse_directive
  rw [hk, ht, hfuel, h.2.1.2.2.2.1, h.2.1.2.2.2.2]
  by_cases hd : parser2.current_token.kind ≠ GigaTokenKind.DIRECTIVE
  · rw [if_pos hd, if_pos hd]
    exact error_sim front dl dc _ _ h _ _ _ _ _
  rw [if_neg hd, if_neg hd]
  have h1 := advance_sim front dl dc _ _ (append_statement_sim front dl dc _ _ h
    (GigaStatement.directive
      { directive_name := token_text parser2 parser2.current_token
        source_line := parser2.current_token.line_number
        source_column := parser2.current_token.column_number }))
  simp only [shift_statement] at h1
  have hs := skip_line_sim front dl dc (giga_parser_fuel parser2) _ _ h1
  generalize giga_parser_skip_line (giga_parser_fuel parser2)
    (giga_parser_advance (giga_parser_append_statement parser1 _)) = s1 at hs ⊢
  generalize giga_parser_skip_line (giga_parser_fuel parser2)
    (giga_parser_advance (giga_parser_append_statement parser2 _)) = s2 at hs ⊢
  cases s1 with
  | none =>
    cases s2 with
    | none => exact True.intro
    | some q2 => exact hs.elim
  | some q1 =>
    cases s2 with
    | none => exact hs.elim
    | some q2 =>
      have hs2 : parser_sim front dl dc q1 q2 := hs
      simp only []
      rw [hs2.2.1.1]
      show parser_sim front dl dc _ _
      split_ifs
      · exact advance_sim front dl dc _ _ hs2
      · exact hs2

/-- The statement loop on two parsers in the same situation: the same return
value, and final parsers in the same situation. -/
theorem parse_loop_sim (front : List GigaStatement) (dl dc : Nat) (fuel : Nat) :
    ∀ (parser1 parser2 : GigaParser), parser_sim front dl dc parser1 parser2 →
      option_sim (fun r1 r2 => r1.1 = r2.1 ∧ parser_sim front dl dc r1.2 r2.2)
        (giga_parser_parse_loop fuel parser1) (giga_parser_parse_loop fuel parser2) := by
  induction fuel with
  | zero =>
    intro _ _ _
    exact True.intro
  | succ fuel ih =>
    intro parser1 parser2 h
    unfold giga_parser_parse_loop
    rw [h.2.1.1, h.2.2.1.1, h.2.2.2.1]
    by_cases heof : parser2.current_token.kind ≠ GigaTokenKind.EOF
    swap
    · rw [if_neg heof, if_neg heof]
      exact ⟨rfl, h⟩
    rw [if_pos heof, if_pos heof]
    by_cases herr : parser2.has_error ≠ 0
    · rw [if_pos herr, if_pos herr]
      exact ⟨rfl, h⟩
    rw [if_neg herr, if_neg herr]
    by_cases hnl : parser2.current_token.kind = GigaTokenKind.NEWLINE
    · rw [if_pos hnl, if_pos hnl]
      exact ih _ _ (advance_sim front dl dc _ _ h)
    rw [if_neg hnl, if_neg hnl]
    by_cases hdir : parser2.current_token.kind = GigaTokenKind.DIRECTIVE
    · rw [if_pos hdir, if_pos hdir]
      have hd := parse_directive_sim front dl dc _ _ h
      generalize giga_parser_parse_directive parser1 = d1 at hd ⊢
      generalize giga_parser_parse_directive parser2 = d2 at hd ⊢
      cases d1 with
      | none =>
        cases d2 with
        | none => exact True.intro
        | some q2 => exact hd.elim
      | some q1 =>
        cases d2 with
        | none => exact hd.elim
        | some q2 => exact ih _ _ hd
    rw [if_neg hdir, if_neg hdir]
    by_cases hid : parser2.current_token.kind = GigaTokenKind.IDENTIFIER
    swap
    · rw [if_neg hid, if_neg hid]
      exact ⟨rfl, error_sim front dl dc _ _ h _ _ _ _ _⟩
    rw [if_pos hid, if_pos hid]
    by_cases hcolon : parser2.lookahead_token.kind = GigaTokenKind.COLON
    · rw [if_pos hcolon, if_pos hcolon]
      exact ih _ _ (parse_label_sim front dl dc _ _ h)
    rw [if_neg hcolon, if_neg hcolon]
    have hi := parse_instruction_sim front dl dc _ _ h
    generalize giga_parser_parse_instruction parser1 = i1 at hi ⊢
    generalize giga_parser_parse_instruction parser2 = i2 at hi ⊢
    cases i1 with
    | none =>
      cases i2 with
      | none => exact True.intro
      | some q2 => exact hi.elim
    | some q1 =>
      cases i2 with
      | none => exact hi.elim
      | some q2 => exact ih _ _ hi

/-- More turns allowed do not change a result of the statement loop. -/
theorem parse_loop_mono (fuel : Nat) :
    ∀ (fuel2 : Nat) (parser : GigaParser) (out : Nat × GigaParser), fuel ≤ fuel2 →
      giga_parser_parse_loop fuel parser = some out →
      giga_parser_parse_loop fuel2 parser = some out := by
  induction fuel with
  | zero =>
    intro _ _ _ _ h
    simp [giga_parser_parse_loop] at h
  | succ fuel ih =>
    intro fuel2 parser out hle h
    cases fuel2 with
    | zero => omega
    | succ fuel2 =>
      have hle2 : fuel ≤ fuel2 := by omega
      unfold giga_parser_parse_loop at h ⊢
      by_cases heof : parser.current_token.kind ≠ GigaTokenKind.EOF
      swap
      · rw [if_neg heof] at h ⊢
        exact h
      rw [if_pos heof] at h ⊢
      by_cases herr : parser.has_error ≠ 0
      · rw [if_pos herr] at h ⊢
        exact h
      rw [if_neg herr] at h ⊢
      by_cases hnl : parser.current_token.kind = GigaTokenKind.NEWLINE
      · rw [if_pos hnl] at h ⊢
        exact ih _ _ _ hle2 h
      rw [if_neg hnl] at h ⊢
      by_cases hdir : parser.current_token.kind = GigaTokenKind.DIRECTIVE
      · rw [if_pos hdir] at h ⊢
        cases hd : giga_parser_parse_directive parser with
        | none => simp [hd] at h
        | some q =>
          simp only [hd] at h ⊢
          exact ih _ _ _ hle2 h
      rw [if_neg hdir] at h ⊢
      by_cases hid : parser.current_token.kind = GigaTokenKind.IDENTIFIER
      swap
      · rw [if_neg hid] at h ⊢
        exact h
      rw [if_pos hid] at h ⊢
      by_cases hcolon : parser.lookahead_token.kind = GigaTokenKind.COLON
      · rw [if_pos hcolon] at h ⊢
        exact ih _ _ _ hle2 h
      rw [if_neg hcolon] at h ⊢
      cases hi : giga_parser_parse_instruction parser with
      | none => simp [hi] at h
      | some q =>
        simp only [hi] at h ⊢
        exact ih _ _ _ hle2 h

/-- The result of the statement loop does not depend on the bound, once the
bound is large enough for a result. -/
theorem parse_loop_unique (fuel1 fuel2 : Nat) (parser : GigaParser)
    (out1 out2 : Nat × GigaParser)
    (h1 : giga_parser_parse_loop fuel1 parser = some out1)
    (h2 : giga_parser_parse_loop fuel2 parser = some out2) : out1 = out2 := by
  have a := parse_loop_mono fuel1 (fuel1 + fuel2) parser out1 (by omega) h1
  have b := parse_loop_mono fuel2 (fuel1 + fuel2) parser out2 (by omega) h2
  rw [a] at b
  exact Option.some.inj b

/-- The statement loop started in the same situation behind some statements
`front`: when one run gives a result, so does the other with any bound that is
large enough, with the same return value and the moved statements. -/
theorem parse_loop_transfer (front : List GigaStatement) (dl dc : Nat)
    (parser1 parser2 : GigaParser) (h : parser_sim front dl dc parser1 parser2)
    (fuel1 fuel2 : Nat) (out2 : Nat × GigaParser)
    (hfuel : parser_measure parser1 < fuel1)
    (h2 : giga_parser_parse_loop fuel2 parser2 = some out2) :
    ∃ out1, giga_parser_parse_loop fuel1 parser1 = some out1 ∧ out1.1 = out2.1 ∧
      out1.2.statements = front ++ out2.2.statements.map (shift_statement dl dc) := by
  obtain ⟨out1, h1⟩ := parse_loop_total fuel1 parser1 hfuel
  refine ⟨out1, h1, ?_⟩
  have hs := parse_loop_sim front dl dc fuel2 _ _ h
  rw [h2] at hs
  cases h1b : giga_parser_parse_loop fuel2 parser1 with
  | none =>
    rw [h1b] at hs
    exact hs.elim
  | some out1b =>
    rw [h1b] at hs
    have heq := parse_loop_unique _ _ _ _ _ h1 h1b
    subst heq
    exact ⟨hs.1, hs.2.2.2.2.2⟩

/-! ### A label in front of an instruction line -/

theorem identifier_start_facts (c : Nat) (h : giga_lexer_is_identifier_start c = true) :
    c ≠ 0 ∧ c ≠ 10 ∧ c ≠ 44 ∧ c ≠ 58 ∧ c ≠ 46 ∧ c ≠ 59 ∧ isdigit c = false ∧
    is_horizontal_space c = false := by
  have hc : c = 95 ∨ (65 ≤ c ∧ c ≤ 90) ∨ (97 ≤ c ∧ c ≤ 122) := by
    simp only [giga_lexer_is_identifier_start, isalpha, Bool.or_eq_true, beq_iff_eq,
      Bool.and_eq_true, decide_eq_true_eq] at h
    exact h
  refine ⟨by omega, by omega, by omega, by omega, by omega, by omega, ?_, ?_⟩
  · simp only [isdigit, Bool.and_eq_false_iff, decide_eq_false_iff_not]
    omega
  · simp only [is_horizontal_space, Bool.or_eq_false_iff, beq_eq_false_iff_ne]
    omega

/-- The identifier token at a lexer that stands on an identifier followed by a
colon. -/
theorem next_token_identifier (lexer : GigaLexer) (hw : lexer_whole lexer) (c : Nat)
    (cs tail : List Nat) (hstart : giga_lexer_is_identifier_start c = true)
    (hcont : ∀ x ∈ cs, giga_lexer_is_identifier_continue x = true)
    (hr : lexer_rest lexer = (c :: cs) ++ 58 :: tail) :
    giga_lexer_next_token lexer
      = ({ kind := GigaTokenKind.IDENTIFIER
           text_begin := some lexer.current_index
           text_length := (c :: cs).length
           line_number := lexer.line_number
           column_number := lexer.column_number },
         lexer_shift lexer (c :: cs).length) := by
  obtain ⟨h0, h10, h44, h58, h46, h59, hdig, hsp⟩ := identifier_start_facts c hstart
  have hs : 0 = scan_skip_len ((lexer_rest lexer).length + 1) (lexer_rest lexer) := by
    rw [hr]
    exact (scan_skip_len_token_start _ c _ hsp h59).symm
  have hscan : scan_token ((c :: cs) ++ 58 :: tail)
      = (GigaTokenKind.IDENTIFIER, 1 + cs.length) := by
    have hrun : (cs ++ 58 :: tail).takeWhile giga_lexer_is_identifier_continue = cs :=
      takeWhile_run giga_lexer_is_identifier_continue cs (58 :: tail) hcont
        (show giga_lexer_is_identifier_continue 58 = false by decide)
    simp only [List.cons_append, scan_token, h0, h10, h44, h58, h46, hdig, hstart,
      Bool.false_eq_true, ↓reduceIte, hrun]
  rw [next_token_eq lexer hw 0 hs]
  simp only [List.drop_zero, hr, hscan, reduceCtorEq, ↓reduceIte, Nat.add_zero, Nat.zero_add,
    List.length_cons]
  rw [Nat.add_comm]

/-- The colon token at a lexer that stands on a colon. -/
theorem next_token_colon (lexer : GigaLexer) (hw : lexer_whole lexer) (tail : List Nat)
    (hr : lexer_rest lexer = 58 :: tail) :
    giga_lexer_next_token lexer
      = ({ kind := GigaTokenKind.COLON
           text_begin := some lexer.current_index
           text_length := 1
           line_number := lexer.line_number
           column_number := lexer.column_number },
         lexer_shift lexer 1) := by
  have hs : 0 = scan_skip_len ((lexer_rest lexer).length + 1) (lexer_rest lexer) := by
    rw [hr]
    exact (scan_skip_len_token_start _ 58 _ (by decide) (by decide)).symm
  have hscan : scan_token (58 :: tail) = (GigaTokenKind.COLON, 1) := by
    simp [scan_token]
  rw [next_token_eq lexer hw 0 hs]
  simp only [List.drop_zero, hr, hscan, reduceCtorEq, ↓reduceIte, Nat.add_zero, Nat.zero_add]

/-- The parser initialised on a text that starts with an identifier and a
colon. -/
theorem parser_init_label (name rest : List Nat) (c : Nat) (cs : List Nat)
    (hname : name = c :: cs) (hstart : giga_lexer_is_identifier_start c = true)
    (hcont : ∀ x ∈ cs, giga_lexer_is_identifier_continue x = true) :
    giga_parser_init (giga_lexer_init (name ++ 58 :: rest) (name ++ 58 :: rest).length)
      = { lexer :=
            { buffer := name ++ 58 :: rest, buffer_length := (name ++ 58 :: rest).length,
              current_index := name.length + 1, line_number := 1,
              column_number := 1 + name.length + 1 }
          current_token :=
            { kind := GigaTokenKind.IDENTIFIER, text_begin := some 0,
              text_length := name.length, line_number := 1, column_number := 1 }
          lookahead_token :=
            { kind := GigaTokenKind.COLON, text_begin := some name.length, text_length := 1,
              line_number := 1, column_number := 1 + name.length }
          has_error := 0
          error_message := Option.none
          error_line := 0
          error_column := 0
          statements := [] } := by
  subst hname
  have h1 := next_token_identifier
    (giga_lexer_init ((c :: cs) ++ 58 :: rest) ((c :: cs) ++ 58 :: rest).length) rfl c cs rest
    hstart hcont rfl
  have h2 := next_token_colon
    (lexer_shift (giga_lexer_init ((c :: cs) ++ 58 :: rest)
      ((c :: cs) ++ 58 :: rest).length) (c :: cs).length) rfl rest (by
        rw [lexer_shift_rest]
        exact List.drop_left _ _)
  unfold giga_parser_init giga_parser_advance
  simp only [h1, h2]
  simp [lexer_shift, giga_lexer_init, Nat.add_assoc]

theorem parse_loop_label_step (fuel : Nat) (parser : GigaParser)
    (hk : parser.current_token.kind = GigaTokenKind.IDENTIFIER)
    (herr : parser.has_error = 0)
    (hla : parser.lookahead_token.kind = GigaTokenKind.COLON) :
    giga_parser_parse_loop (fuel + 1) parser
      = giga_parser_parse_loop fuel (giga_parser_parse_label parser) := by
  rw [giga_parser_parse_loop]
  simp [hk, herr, hla]

theorem parse_loop_newline_step (fuel : Nat) (parser : GigaParser)
    (hk : parser.current_token.kind = GigaTokenKind.NEWLINE)
    (herr : parser.has_error = 0) :
    giga_parser_parse_loop (fuel + 1) parser
      = giga_parser_parse_loop fuel (giga_parser_advance parser) := by
  rw [giga_parser_parse_loop]
  simp [hk, herr]

/-- A parser that stands behind the statements `front` on two fresh tokens is in
the situation of a freshly initialised parser. -/
theorem parser_sim_init (front : List GigaStatement) (dl dc : Nat) (lexer1 lexer2 : GigaLexer)
    (h : lexer_sim dl dc lexer1 lexer2) (message : Option String) (line column : Nat) :
    parser_sim front dl dc
      { lexer := (giga_lexer_next_token (giga_lexer_next_token lexer1).2).2
        current_token := (giga_lexer_next_token lexer1).1
        lookahead_token := (giga_lexer_next_token (giga_lexer_next_token lexer1).2).1
        has_error := 0
        error_message := message
        error_line := line
        error_column := column
        statements := front }
      (giga_parser_init lexer2) := by
  obtain ⟨ht1, hl1, hb1, hb2⟩ := next_token_sim dl dc _ _ h
  obtain ⟨ht2, hl2, hb3, hb4⟩ := next_token_sim dl dc _ _ hl1
  unfold giga_parser_init giga_parser_advance parser_sim
  simp only [hb3, hb4, hb1, hb2, List.map_nil, List.append_nil, and_true]
  exact ⟨hl2, ht1, by rw [← hb1, ← hb2]; exact ht2⟩

/-- Parsing a text behind `name:` or behind `name:` and a newline gives the
Label statement of `name` and then the statements of the text, moved one line
down behind the newline and `name.length + 1` columns to the right on the line
of the label; the return value is that of the text alone. -/
theorem parse_behind_label (name text : List Nat) (newline : Bool)
    (hid : is_identifier name = true) (out : Nat × GigaParser)
    (htext : parse_source text = some out) :
    ∃ out1,
      parse_source (name ++ 58 :: ((if newline then [10] else []) ++ text)) = some out1 ∧
      out1.1 = out.1 ∧
      out1.2.statements
        = GigaStatement.label { label_name := name, source_line := 1, source_column := 1 }
          :: out.2.statements.map
              (shift_statement (if newline then 1 else 0)
                (if newline then 0 else name.length + 1)) := by
  obtain ⟨c, cs, hname, hstart, hcont⟩ :
      ∃ c cs, name = c :: cs ∧ giga_lexer_is_identifier_start c = true ∧
        ∀ x ∈ cs, giga_lexer_is_identifier_continue x = true := by
    cases name with
    | nil => simp [is_identifier] at hid
    | cons c cs =>
      simp only [is_identifier, Bool.and_eq_true, List.all_eq_true] at hid
      exact ⟨c, cs, rfl, hid.1, hid.2⟩
  have hinit := parser_init_label name ((if newline then [10] else []) ++ text) c cs hname
    hstart hcont
  generalize hB : name ++ 58 :: ((if newline then [10] else []) ++ text) = B at hinit ⊢
  generalize hP0 : giga_parser_init (giga_lexer_init B B.length) = P0 at hinit
  have hwL : lexer_whole P0.lexer := by
    rw [hinit]
    rfl
  have hrestL : lexer_rest P0.lexer = (if newline then [10] else []) ++ text := by
    rw [hinit]
    show List.drop (name.length + 1) B = _
    rw [← hB, List.drop_append, List.drop_succ_cons, List.drop_zero]
  have hk0 : P0.current_token.kind = GigaTokenKind.IDENTIFIER := by rw [hinit]
  have hla0 : P0.lookahead_token.kind = GigaTokenKind.COLON := by rw [hinit]
  have herr0 : P0.has_error = 0 := by rw [hinit]
  have hst0 : P0.statements = [] := by rw [hinit]
  have hline0 : P0.lexer.line_number = 1 := by rw [hinit]
  have hcol0 : P0.lexer.column_number = 1 + name.length + 1 := by rw [hinit]
  have htext0 : token_text P0 P0.current_token = name := by
    rw [hinit]
    show List.take name.length (List.drop 0 B) = name
    rw [List.drop_zero, ← hB, List.take_left]
  have hpos0 : P0.current_token.line_number = 1 ∧ P0.current_token.column_number = 1 := by
    rw [hinit]
    exact ⟨rfl, rfl⟩
  have hfuel : ∃ n, giga_parser_fuel P0 = n + 1 := ⟨_, rfl⟩
  obtain ⟨n, hn⟩ := hfuel
  have hmeasure : parser_measure (giga_parser_parse_label P0) < n := by
    have a := parse_label_measure P0 hk0
    have b := parser_measure_lt_fuel P0
    omega
  -- the situation behind the label
  have hsim : ∃ Q fuel2, giga_parser_parse_loop fuel2 Q = some out ∧
      parser_sim
        [GigaStatement.label { label_name := name, source_line := 1, source_column := 1 }]
        (if newline then 1 else 0) (if newline then 0 else name.length + 1)
        (giga_parser_parse_label P0) Q := by
    have hlabel : giga_parser_parse_label P0
        = (if (giga_lexer_next_token P0.lexer).1.kind = GigaTokenKind.NEWLINE then
            giga_parser_advance (giga_parser_advance (giga_parser_advance
              (giga_parser_append_statement P0 (GigaStatement.label
                { label_name := name, source_line := 1, source_column := 1 }))))
          else
            giga_parser_advance (giga_parser_advance
              (giga_parser_append_statement P0 (GigaStatement.label
                { label_name := name, source_line := 1, source_column := 1 })))) := by
      unfold giga_parser_parse_label
      simp only [hk0, htext0, hpos0.1, hpos0.2, ne_eq, not_true_eq_false, ↓reduceIte]
      have hcur : (giga_parser_advance (giga_parser_append_statement P0 (GigaStatement.label
          { label_name := name, source_line := 1, source_column := 1 }))).current_token.kind
            = GigaTokenKind.COLON := hla0
      rw [if_neg (by rw [hcur]; exact fun h => h rfl)]
      rfl
    cases newline with
    | true =>
      have hr : lexer_rest P0.lexer = 10 :: text := by
        rw [hrestL]
        rfl
      have hs : 0 = scan_skip_len ((lexer_rest P0.lexer).length + 1) (lexer_rest P0.lexer) := by
        rw [hr]
        exact (scan_skip_len_token_start _ 10 _ (by decide) (by decide)).symm
      have hnext := next_token_eq P0.lexer hwL 0 hs
      simp only [List.drop_zero, hr, scan_token_newline, reduceCtorEq, ↓reduceIte,
        Nat.add_zero, Nat.zero_add] at hnext
      have hlex : lexer_sim 1 0 (giga_lexer_next_token P0.lexer).2
          (giga_lexer_init text text.length) := by
        rw [hnext]
        refine ⟨hwL, rfl, ?_, Nat.le_refl 1, ?_, rfl⟩
        · rw [lexer_newline_rest, hr]
          rfl
        · show P0.lexer.line_number + 1 = 1 + 1
          rw [hline0]
      have hnlk : (giga_lexer_next_token P0.lexer).1.kind = GigaTokenKind.NEWLINE := by
        rw [hnext]
      refine ⟨giga_parser_init (giga_lexer_init text text.length), _, htext, ?_⟩
      rw [hlabel, if_pos hnlk]
      show parser_sim _ 1 0 _ _
      have := parser_sim_init
        [GigaStatement.label { label_name := name, source_line := 1, source_column := 1 }]
        1 0 _ _ hlex P0.error_message P0.error_line P0.error_column
      simp only [giga_parser_advance, giga_parser_append_statement, herr0, hst0,
        List.nil_append] at this ⊢
      exact this
    | false =>
      have hr : lexer_rest P0.lexer = text := by
        rw [hrestL]
        rfl
      have hlex : lexer_sim 0 (name.length + 1) P0.lexer
          (giga_lexer_init text text.length) := by
        refine ⟨hwL, rfl, hr, Nat.le_refl 1, hline0, ?_⟩
        rw [hcol0]
        show 1 + name.length + 1 = 1 + (if (1 : Nat) = 1 then name.length + 1 else 0)
        rw [if_pos rfl]
        omega
      have hbase := parser_sim_init
        [GigaStatement.label { label_name := name, source_line := 1, source_column := 1 }]
        0 (name.length + 1) _ _ hlex P0.error_message P0.error_line P0.error_column
      have hkind := hbase.2.1.1
      by_cases hnl : (giga_lexer_next_token P0.lexer).1.kind = GigaTokenKind.NEWLINE
      · have hnl2 : (giga_parser_init (giga_lexer_init text text.length)).current_token.kind
            = GigaTokenKind.NEWLINE := by
          rw [← hkind]
          exact hnl
        obtain ⟨m, hm⟩ : ∃ m, giga_parser_fuel
            (giga_parser_init (giga_lexer_init text text.length)) = m + 1 := ⟨_, rfl⟩
        refine ⟨giga_parser_advance (giga_parser_init (giga_lexer_init text text.length)), m,
          ?_, ?_⟩
        · rw [← parse_loop_newline_step m _ hnl2 rfl, ← hm]
          exact htext
        · rw [hlabel, if_pos hnl]
          show parser_sim _ 0 (name.length + 1) _ _
          have := advance_sim _ _ _ _ _ hbase
          simp only [giga_parser_advance, giga_parser_append_statement, herr0, hst0,
            List.nil_append] at this ⊢
          exact this
      · refine ⟨giga_parser_init (giga_lexer_init text text.length), _, htext, ?_⟩
        rw [hlabel, if_neg hnl]
        show parser_sim _ 0 (name.length + 1) _ _
        simp only [giga_parser_advance, giga_parser_append_statement, herr0, hst0,
          List.nil_append] at hbase ⊢
        exact hbase
  obtain ⟨Q, fuel2, hQ, hsimQ⟩ := hsim
  obtain ⟨out1, h1, h2, h3⟩ := parse_loop_transfer _ _ _ _ _ hsimQ n fuel2 out hmeasure hQ
  refine ⟨out1, ?_, h2, ?_⟩
  · show giga_parser_parse (giga_parser_init (giga_lexer_init B B.length)) = some out1
    rw [hP0]
    unfold giga_parser_parse
    rw [hn, parse_loop_label_step n P0 hk0 herr0 hla0]
    exact h1
  · rw [h3]
    rfl

/-- Claim C23: for every identifier NAME and every text that parses (return
value 0) into exactly one Instruction statement, the text behind `NAME:` and a
newline, and the text behind `NAME:` on the same line, parse with return value 0
into the Label statement with the text, line 1 and column 1 of NAME followed by
that Instruction statement, with the same mnemonic and operands; its position is
one line further down behind the newline, and `NAME.length + 1` columns further
right on the line of the label.  `START:`, newline, `MOV R0, R1`, newline gives
Label START and then Instruction MOV. -/
theorem C23_label_then_instruction (name line : List Nat) (inst : GigaParsedInstruction)
    (hid : is_identifier name = true)
    (hline : parse_statements line = some (0, [GigaStatement.instruction inst])) :
    parse_statements (name ++ bytes ":" ++ bytes "\n" ++ line)
      = some (0,
          [GigaStatement.label { label_name := name, source_line := 1, source_column := 1 },
           GigaStatement.instruction { inst with source_line := inst.source_line + 1 }]) ∧
    parse_statements (name ++ bytes ":" ++ line)
      = some (0,
          [GigaStatement.label { label_name := name, source_line := 1, source_column := 1 },
           GigaStatement.instruction
            { inst with
              source_column :=
                inst.source_column + (if inst.source_line = 1 then name.length + 1 else 0) }]) ∧
    parse_statements (bytes "START:\nMOV R0, R1\n")
      = some (0,
          [GigaStatement.label
            { label_name := bytes "START", source_line := 1, source_column := 1 },
           GigaStatement.instruction
            { mnemonic_text := bytes "MOV"
              operands := [GigaOperand.register 0, GigaOperand.register 1]
              source_line := 2, source_column := 1 }]) := by
  obtain ⟨out, hout, hret, hst⟩ : ∃ out, parse_source line = some out ∧ out.1 = 0 ∧
      out.2.statements = [GigaStatement.instruction inst] := by
    unfold parse_statements at hline
    cases hp : parse_source line with
    | none => simp [hp] at hline
    | some out =>
      simp only [hp, Option.map_some', Option.some.injEq, Prod.mk.injEq] at hline
      exact ⟨out, rfl, hline.1, hline.2⟩
  have hcolon : bytes ":" = [58] := by decide
  have hnl : bytes "\n" = [10] := by decide
  refine ⟨?_, ?_, by decide⟩
  · obtain ⟨out1, h1, h2, h3⟩ := parse_behind_label name line true hid out hout
    have htext : name ++ bytes ":" ++ bytes "\n" ++ line
        = name ++ 58 :: ((if true = true then [10] else []) ++ line) := by
      rw [hcolon, hnl]
      simp
    unfold parse_statements
    rw [htext, h1, Option.map_some', h2, hret, h3, hst]
    simp [shift_statement, shift_column]
  · obtain ⟨out1, h1, h2, h3⟩ := parse_behind_label name line false hid out hout
    have htext : name ++ bytes ":" ++ line
        = name ++ 58 :: ((if false = true then [10] else []) ++ line) := by
      rw [hcolon]
      simp
    unfold parse_statements
    rw [htext, h1, Option.map_some', h2, hret, h3, hst]
    simp [shift_statement, shift_column]

theorem C23_label_then_instruction_witness :
    parse_statements (bytes "LOOP" ++ bytes ":" ++ bytes "\n" ++ bytes "  ADD R1, R2 ; sum\n")
      = some (0,
          [GigaStatement.label
            { label_name := bytes "LOOP", source_line := 1, source_column := 1 },
           GigaStatement.instruction
            { mnemonic_text := bytes "ADD"
              operands := [GigaOperand.register 1, GigaOperand.register 2]
              source_line := 1 + 1, source_column := 3 }]) ∧
    parse_statements (bytes "LOOP" ++ bytes ":" ++ bytes "  ADD R1, R2 ; sum\n")
      = some (0,
          [GigaStatement.label
            { label_name := bytes "LOOP", source_line := 1, source_column := 1 },
           GigaStatement.instruction
            { mnemonic_text := bytes "ADD"
              operands := [GigaOperand.register 1, GigaOperand.register 2]
              source_line := 1
              source_column := 3 + (if 1 = 1 then (bytes "LOOP").length + 1 else 0) }]) :=
  ⟨(C23_label_then_instruction (bytes "LOOP") (bytes "  ADD R1, R2 ; sum\n")
      { mnemonic_text := bytes "ADD"
        operands := [GigaOperand.register 1, GigaOperand.register 2]
        source_line := 1, source_column := 3 } (by decide) (by decide)).1,
    (C23_label_then_instruction (bytes "LOOP") (bytes "  ADD R1, R2 ; sum\n")
      { mnemonic_text := bytes "ADD"
        operands := [GigaOperand.register 1, GigaOperand.register 2]
        source_line := 1, source_column := 3 } (by decide) (by decide)).2.1⟩

/-! ### Flags of the ALU -/

theorem mask4_eq_mod (value : Nat) : mask4 value = value % 16 := by
  unfold mask4
  rw [and_15_eq_mod]
  omega

theorem alu_flags_add_sub_all :
    ∀ a b : Fin 16,
      (((alu_add a.val b.val).overflow_flag = 1 ↔
          (signed4 a.val + signed4 b.val < -8 ∨ signed4 a.val + signed4 b.val > 7)) ∧
        ((alu_add a.val b.val).overflow_flag = 0 ∨ (alu_add a.val b.val).overflow_flag = 1) ∧
        (alu_add a.val b.val).negative_flag = (alu_add a.val b.val).result / 8 % 2 ∧
        ((alu_add a.val b.val).zero_flag = 1 ↔ (alu_add a.val b.val).result = 0) ∧
        ((alu_add a.val b.val).zero_flag = 0 ∨ (alu_add a.val b.val).zero_flag = 1)) ∧
      (((alu_sub a.val b.val).overflow_flag = 1 ↔
          (signed4 a.val - signed4 b.val < -8 ∨ signed4 a.val - signed4 b.val > 7)) ∧
        ((alu_sub a.val b.val).overflow_flag = 0 ∨ (alu_sub a.val b.val).overflow_flag = 1) ∧
        (alu_sub a.val b.val).negative_flag = (alu_sub a.val b.val).result / 8 % 2 ∧
        ((alu_sub a.val b.val).zero_flag = 1 ↔ (alu_sub a.val b.val).result = 0) ∧
        ((alu_sub a.val b.val).zero_flag = 0 ∨ (alu_sub a.val b.val).zero_flag = 1)) := by
  decide

/-- Claim C38: for all a and b in 0..15, read as 4-bit two's-complement numbers
sa and sb, the overflow flag of `alu_add(a, b)` is 1 iff sa + sb lies outside
-8..7 and the overflow flag of `alu_sub(a, b)` is 1 iff sa - sb lies outside
-8..7 (the flags are 0 otherwise); in both cases the negative flag is bit 3 of
the result and the zero flag is 1 iff the result is 0. -/
theorem C38_overflow_negative_zero_flags (a b : Nat) (ha : a ≤ 15) (hb : b ≤ 15) :
    (((alu_add a b).overflow_flag = 1 ↔
        (signed4 a + signed4 b < -8 ∨ signed4 a + signed4 b > 7)) ∧
      ((alu_add a b).overflow_flag = 0 ∨ (alu_add a b).overflow_flag = 1) ∧
      (alu_add a b).negative_flag = (alu_add a b).result / 8 % 2 ∧
      ((alu_add a b).zero_flag = 1 ↔ (alu_add a b).result = 0) ∧
      ((alu_add a b).zero_flag = 0 ∨ (alu_add a b).zero_flag = 1)) ∧
    (((alu_sub a b).overflow_flag = 1 ↔
        (signed4 a - signed4 b < -8 ∨ signed4 a - signed4 b > 7)) ∧
      ((alu_sub a b).overflow_flag = 0 ∨ (alu_sub a b).overflow_flag = 1) ∧
      (alu_sub a b).negative_flag = (alu_sub a b).result / 8 % 2 ∧
      ((alu_sub a b).zero_flag = 1 ↔ (alu_sub a b).result = 0) ∧
      ((alu_sub a b).zero_flag = 0 ∨ (alu_sub a b).zero_flag = 1)) :=
  alu_flags_add_sub_all ⟨a, by omega⟩ ⟨b, by omega⟩

theorem C38_overflow_negative_zero_flags_witness :
    (((alu_add 7 1).overflow_flag = 1 ↔
        (signed4 7 + signed4 1 < -8 ∨ signed4 7 + signed4 1 > 7)) ∧
      ((alu_add 7 1).overflow_flag = 0 ∨ (alu_add 7 1).overflow_flag = 1) ∧
      (alu_add 7 1).negative_flag = (alu_add 7 1).result / 8 % 2 ∧
      ((alu_add 7 1).zero_flag = 1 ↔ (alu_add 7 1).result = 0) ∧
      ((alu_add 7 1).zero_flag = 0 ∨ (alu_add 7 1).zero_flag = 1)) ∧
    (((alu_sub 7 1).overflow_flag = 1 ↔
        (signed4 7 - signed4 1 < -8 ∨ signed4 7 - signed4 1 > 7)) ∧
      ((alu_sub 7 1).overflow_flag = 0 ∨ (alu_sub 7 1).overflow_flag = 1) ∧
      (alu_sub 7 1).negative_flag = (alu_sub 7 1).result / 8 % 2 ∧
      ((alu_sub 7 1).zero_flag = 1 ↔ (alu_sub 7 1).result = 0) ∧
      ((alu_sub 7 1).zero_flag = 0 ∨ (alu_sub 7 1).zero_flag = 1)) :=
  C38_overflow_negative_zero_flags 7 1 (by decide) (by decide)

/-! ### Logic operations and shifts -/

theorem alu_logic_nibbles :
    ∀ x y : Fin 16,
      ((alu_and x.val y.val).result = x.val &&& y.val ∧
        (alu_or x.val y.val).result = x.val ||| y.val ∧
        (alu_xor x.val y.val).result = x.val ^^^ y.val ∧
        (alu_not x.val).result = 15 - x.val) ∧
      ((alu_and x.val y.val).result ≤ 15 ∧ (alu_and x.val y.val).carry_flag = 0 ∧
        (alu_and x.val y.val).overflow_flag = 0 ∧
        (alu_and x.val y.val).zero_flag = (if (alu_and x.val y.val).result = 0 then 1 else 0) ∧
        (alu_and x.val y.val).negative_flag = (alu_and x.val y.val).result / 8 % 2) ∧
      ((alu_or x.val y.val).result ≤ 15 ∧ (alu_or x.val y.val).carry_flag = 0 ∧
        (alu_or x.val y.val).overflow_flag = 0 ∧
        (alu_or x.val y.val).zero_flag = (if (alu_or x.val y.val).result = 0 then 1 else 0) ∧
        (alu_or x.val y.val).negative_flag = (alu_or x.val y.val).result / 8 % 2) ∧
      ((alu_xor x.val y.val).result ≤ 15 ∧ (alu_xor x.val y.val).carry_flag = 0 ∧
        (alu_xor x.val y.val).overflow_flag = 0 ∧
        (alu_xor x.val y.val).zero_flag = (if (alu_xor x.val y.val).result = 0 then 1 else 0) ∧
        (alu_xor x.val y.val).negative_flag = (alu_xor x.val y.val).result / 8 % 2) ∧
      ((alu_not x.val).result ≤ 15 ∧ (alu_not x.val).carry_flag = 0 ∧
        (alu_not x.val).overflow_flag = 0 ∧
        (alu_not x.val).zero_flag = (if (alu_not x.val).result = 0 then 1 else 0) ∧
        (alu_not x.val).negative_flag = (alu_not x.val).result / 8 % 2) := by
  decide

theorem alu_logic_low_nibbles (a b : Nat) :
    alu_and a b = alu_and (a % 16) (b % 16) ∧ alu_or a b = alu_or (a % 16) (b % 16) ∧
    alu_xor a b = alu_xor (a % 16) (b % 16) ∧ alu_not a = alu_not (a % 16) ∧
    alu_shl a = alu_shl (a % 16) ∧ alu_shr a = alu_shr (a % 16) := by
  have ha : mask4 (a % 16) = mask4 a := by
    rw [mask4_eq_mod, mask4_eq_mod, Nat.mod_mod]
  have hb : mask4 (b % 16) = mask4 b := by
    rw [mask4_eq_mod, mask4_eq_mod, Nat.mod_mod]
  unfold alu_and alu_or alu_xor alu_not alu_shl alu_shr
  simp only [ha, hb, and_self]

/-- Claim C39: for all operands a and b (bytes in the code), `alu_and`, `alu_or` and
`alu_xor` return the bitwise AND, OR and XOR of the low 4 bits of a and b, and
`alu_not` returns 15 minus the low 4 bits of a; for each of the four the result
is in 0..15, the carry and overflow flags are 0, the zero flag is 1 iff the result
is 0 (and 0 otherwise) and the negative flag is bit 3 of the result.  `0xA AND
0x5` is 0 with zero flag 1, and `NOT 0` is `0xF`. -/
theorem C39_logic_operations (a b : Nat) :
    (((alu_and a b).result = (a % 16) &&& (b % 16) ∧
        (alu_or a b).result = (a % 16) ||| (b % 16) ∧
        (alu_xor a b).result = (a % 16) ^^^ (b % 16) ∧
        (alu_not a).result = 15 - a % 16) ∧
      ((alu_and a b).result ≤ 15 ∧ (alu_and a b).carry_flag = 0 ∧
        (alu_and a b).overflow_flag = 0 ∧
        (alu_and a b).zero_flag = (if (alu_and a b).result = 0 then 1 else 0) ∧
        (alu_and a b).negative_flag = (alu_and a b).result / 8 % 2) ∧
      ((alu_or a b).result ≤ 15 ∧ (alu_or a b).carry_flag = 0 ∧
        (alu_or a b).overflow_flag = 0 ∧
        (alu_or a b).zero_flag = (if (alu_or a b).result = 0 then 1 else 0) ∧
        (alu_or a b).negative_flag = (alu_or a b).result / 8 % 2) ∧
      ((alu_xor a b).result ≤ 15 ∧ (alu_xor a b).carry_flag = 0 ∧
        (alu_xor a b).overflow_flag = 0 ∧
        (alu_xor a b).zero_flag = (if (alu_xor a b).result = 0 then 1 else 0) ∧
        (alu_xor a b).negative_flag = (alu_xor a b).result / 8 % 2) ∧
      ((alu_not a).result ≤ 15 ∧ (alu_not a).carry_flag = 0 ∧
        (alu_not a).overflow_flag = 0 ∧
        (alu_not a).zero_flag = (if (alu_not a).result = 0 then 1 else 0) ∧
        (alu_not a).negative_flag = (alu_not a).result / 8 % 2)) ∧
    ((alu_and 0xA 0x5).result = 0 ∧ (alu_and 0xA 0x5).zero_flag = 1 ∧
      (alu_not 0).result = 0xF) := by
  obtain ⟨h1, h2, h3, h4, -, -⟩ := alu_logic_low_nibbles a b
  rw [h1, h2, h3, h4]
  exact ⟨alu_logic_nibbles ⟨a % 16, Nat.mod_lt _ (by omega)⟩ ⟨b % 16, Nat.mod_lt _ (by omega)⟩,
    by decide⟩

theorem alu_shift_nibbles :
    ∀ x : Fin 16,
      ((alu_shl x.val).result = (2 * x.val) % 16 ∧ (alu_shl x.val).carry_flag = x.val / 8 % 2 ∧
        (alu_shl x.val).overflow_flag = 0) ∧
      ((alu_shr x.val).result = x.val / 2 ∧ (alu_shr x.val).carry_flag = x.val % 2 ∧
        (alu_shr x.val).overflow_flag = 0) := by
  decide

/-- Claim C40: for every operand (a byte in the code) with low 4 bits a, `alu_shl` returns
the result (2 * a) mod 16 with carry flag bit 3 of a, and `alu_shr` returns the
result a div 2 with carry flag bit 0 of a, the bit shifted out in both cases; the
overflow flag is 0.  `shl 0x9` gives `0x2` with carry 1 and `shr 0x9` gives `0x4`
with carry 1. -/
theorem C40_shifts (operand : Nat) :
    (((alu_shl operand).result = (2 * (operand % 16)) % 16 ∧
        (alu_shl operand).carry_flag = operand % 16 / 8 % 2 ∧
        (alu_shl operand).overflow_flag = 0) ∧
      ((alu_shr operand).result = operand % 16 / 2 ∧
        (alu_shr operand).carry_flag = operand % 16 % 2 ∧
        (alu_shr operand).overflow_flag = 0)) ∧
    ((alu_shl 0x9).result = 0x2 ∧ (alu_shl 0x9).carry_flag = 1 ∧
      (alu_shr 0x9).result = 0x4 ∧ (alu_shr 0x9).carry_flag = 1) := by
  obtain ⟨-, -, -, -, h5, h6⟩ := alu_logic_low_nibbles operand operand
  rw [h5, h6]
  exact ⟨alu_shift_nibbles ⟨operand % 16, Nat.mod_lt _ (by omega)⟩, by decide⟩

/-! ### Progress and termination of tokenization -/

theorem tokens_length_le (fuel : Nat) :
    ∀ lexer : GigaLexer, (giga_lexer_tokens fuel lexer).length ≤ fuel := by
  induction fuel with
  | zero =>
    intro lexer
    simp [giga_lexer_tokens]
  | succ fuel ih =>
    intro lexer
    unfold giga_lexer_tokens
    simp only []
    split_ifs
    · simp
    · simp only [List.length_cons]
      have := ih (giga_lexer_next_token lexer).2
      omega

/-- Claim C36: on a lexer that runs over its whole buffer, of length n, with
the cursor inside it, no call of `giga_lexer_next_token` moves the cursor
backwards or beyond n; a call that returns a token other than end-of-input
strictly increases the cursor and returns a token of length at least 1 whose
span starts at or behind the old cursor and ends at the new one, inside the
buffer.  Hence the tokens of a buffer of length n are at most n tokens other
than end-of-input followed by the end-of-input token: tokenization terminates. -/
theorem C36_lexer_progress (lexer : GigaLexer) (buffer : List Nat)
    (hw : lexer_whole lexer) (hidx : lexer.current_index ≤ lexer.buffer.length) :
    ((giga_lexer_next_token lexer).2.current_index ≤ lexer.buffer.length ∧
      lexer.current_index ≤ (giga_lexer_next_token lexer).2.current_index ∧
      lexer_whole (giga_lexer_next_token lexer).2 ∧
      (giga_lexer_next_token lexer).2.buffer = lexer.buffer) ∧
    ((giga_lexer_next_token lexer).1.kind ≠ GigaTokenKind.EOF →
      lexer.current_index < (giga_lexer_next_token lexer).2.current_index ∧
      1 ≤ (giga_lexer_next_token lexer).1.text_length ∧
      ∃ b, (giga_lexer_next_token lexer).1.text_begin = some b ∧ lexer.current_index ≤ b ∧
        b + (giga_lexer_next_token lexer).1.text_length
          = (giga_lexer_next_token lexer).2.current_index) ∧
    ∃ (front : List GigaToken) (last : GigaToken),
      tokenize buffer = front ++ [last] ∧ last.kind = GigaTokenKind.EOF ∧
      (∀ token ∈ front, token.kind ≠ GigaTokenKind.EOF) ∧ front.length ≤ buffer.length := by
  obtain ⟨hsl, -⟩ := skip_no_newline ((lexer_rest lexer).length + 1) (lexer_rest lexer)
  have hnle := scan_token_length_le ((lexer_rest lexer).drop
    (scan_skip_len ((lexer_rest lexer).length + 1) (lexer_rest lexer)))
  rw [List.length_drop] at hnle
  have hrl : (lexer_rest lexer).length = lexer.buffer.length - lexer.current_index :=
    List.length_drop _ _
  obtain ⟨hk, hbeg, hlen, -, -, -⟩ := next_token_fields lexer hw _ rfl
  obtain ⟨hnw, hnb, -, hni, -, -⟩ := next_lexer_eq lexer hw _ rfl
  refine ⟨⟨by omega, by omega, hnw, hnb⟩, ?_, ?_⟩
  · intro hne
    rw [hk] at hne
    have hpos := scan_token_length_pos _ hne
    rw [if_neg hne] at hbeg
    refine ⟨by omega, by omega, _, hbeg, by omega, ?_⟩
    rw [hlen, hni]
    omega
  · obtain ⟨front, last, h1, h2, h3⟩ := tokenize_ends_with_eof buffer
    refine ⟨front, last, h1, h2, h3, ?_⟩
    have hl := tokens_length_le (buffer.length + 1) (giga_lexer_init buffer buffer.length)
    have hl2 : (tokenize buffer).length = front.length + 1 := by
      rw [h1]
      simp
    unfold tokenize at hl2
    omega

theorem C36_lexer_progress_witness :
    lexer_whole lexer_behind_add ∧
    ((giga_lexer_next_token lexer_behind_add).2.current_index
        ≤ lexer_behind_add.buffer.length ∧
      lexer_behind_add.current_index
        ≤ (giga_lexer_next_token lexer_behind_add).2.current_index ∧
      lexer_whole (giga_lexer_next_token lexer_behind_add).2 ∧
      (giga_lexer_next_token lexer_behind_add).2.buffer = lexer_behind_add.buffer) :=
  ⟨rfl, (C36_lexer_progress lexer_behind_add (bytes "ADD R1") rfl (by decide)).1⟩

/-! ### A NUL byte ends tokenization -/

theorem dropWhile_append_stop (p : Nat → Bool) (l : List Nat) (h : Nat) (tail : List Nat)
    (hp : p h = false) : (l ++ h :: tail).dropWhile p = l.dropWhile p ++ h :: tail := by
  induction l with
  | nil => simp [List.dropWhile_cons, hp]
  | cons a l ih =>
    by_cases ha : p a = true
    · simp [List.dropWhile_cons, ha, ih]
    · simp [List.dropWhile_cons, ha]

/-- One turn of the skip loop is all there is: behind a comment the loop stops. -/
theorem scan_skip_len_succ (fuel : Nat) (rest : List Nat) :
    scan_skip_len (fuel + 1) rest
      = (rest.takeWhile is_horizontal_space).length
        + (if (rest.dropWhile is_horizontal_space).headD 0 = 59 then
            ((rest.dropWhile is_horizontal_space).takeWhile is_comment_byte).length
          else 0) := by
  rw [scan_skip_len]
  split_ifs
  · rw [scan_skip_len_after_comment, Nat.add_zero]
  · rfl

theorem headD_append_nul (l tail : List Nat) : (l ++ 0 :: tail).headD 0 = l.headD 0 := by
  cases l <;> rfl

/-- What is skipped in front of a NUL byte does not depend on the bytes
behind it. -/
theorem scan_skip_len_nul (fuel1 fuel2 : Nat) (l tail : List Nat) :
    scan_skip_len (fuel1 + 1) (l ++ 0 :: tail) = scan_skip_len (fuel2 + 1) l := by
  have hs : is_horizontal_space 0 = false := by decide
  have hc : is_comment_byte 0 = false := by decide
  rw [scan_skip_len_succ, scan_skip_len_succ, takeWhile_append_stop _ _ _ _ hs,
    dropWhile_append_stop _ _ _ _ hs, headD_append_nul, takeWhile_append_stop _ _ _ _ hc]

/-- The token in front of a NUL byte does not depend on the bytes behind it. -/
theorem scan_token_nul (l tail : List Nat) : scan_token (l ++ 0 :: tail) = scan_token l := by
  have hid : giga_lexer_is_identifier_continue 0 = false := by decide
  have hdig : isdigit 0 = false := by decide
  have hxd : isxdigit 0 = false := by decide
  cases l with
  | nil => simp [scan_token]
  | cons c l =>
    cases l with
    | nil => simp [scan_token, List.takeWhile_cons, hid, hdig]
    | cons x l =>
      simp only [List.cons_append, scan_token, List.headD_cons, List.drop_succ_cons,
        List.drop_zero]
      rw [← List.cons_append, takeWhile_append_stop _ _ _ _ hid,
        takeWhile_append_stop _ _ _ _ hdig, takeWhile_append_stop _ _ _ _ hxd]

/-- The simulation behind C37: a lexer in front of a rest of `X`, a NUL byte
and more bytes, against a lexer at the same place of `X` alone. -/
theorem tokens_nul_sim (X Y : List Nat) (fuel1 : Nat) :
    ∀ (fuel2 : Nat) (lexer1 lexer2 : GigaLexer),
      lexer1.buffer = X ++ 0 :: Y → lexer2.buffer = X →
      lexer_whole lexer1 → lexer_whole lexer2 →
      lexer1.current_index = lexer2.current_index →
      lexer2.current_index ≤ X.length →
      lexer1.line_number = lexer2.line_number →
      lexer1.column_number = lexer2.column_number →
      (lexer_rest lexer1).length < fuel1 → (lexer_rest lexer2).length < fuel2 →
      giga_lexer_tokens fuel1 lexer1 = giga_lexer_tokens fuel2 lexer2 := by
  induction fuel1 with
  | zero => intro _ _ _ _ _ _ _ _ _ _ _ h; omega
  | succ fuel1 ih =>
    intro fuel2 lexer1 lexer2 hb1 hb2 hw1 hw2 hidx hle hline hcol hf1 hf2
    cases fuel2 with
    | zero => omega
    | succ fuel2 =>
      have hr2 : lexer_rest lexer2 = X.drop lexer2.current_index := by
        unfold lexer_rest
        rw [hb2]
      have hr1 : lexer_rest lexer1 = lexer_rest lexer2 ++ 0 :: Y := by
        rw [hr2]
        unfold lexer_rest
        rw [hb1, hidx, List.drop_append_of_le_length hle]
      have hX : (lexer_rest lexer2).length = X.length - lexer2.current_index := by
        rw [hr2, List.length_drop]
      have hskip : scan_skip_len ((lexer_rest lexer1).length + 1) (lexer_rest lexer1)
          = scan_skip_len ((lexer_rest lexer2).length + 1) (lexer_rest lexer2) := by
        rw [hr1]
        exact scan_skip_len_nul _ _ _ _
      obtain ⟨hsl, -⟩ := skip_no_newline ((lexer_rest lexer2).length + 1) (lexer_rest lexer2)
      have hdrop : (lexer_rest lexer1).drop
            (scan_skip_len ((lexer_rest lexer2).length + 1) (lexer_rest lexer2))
          = (lexer_rest lexer2).drop
              (scan_skip_len ((lexer_rest lexer2).length + 1) (lexer_rest lexer2))
            ++ 0 :: Y := by
        rw [hr1, List.drop_append_of_le_length hsl]
      have hscan : scan_token ((lexer_rest lexer1).drop
            (scan_skip_len ((lexer_rest lexer2).length + 1) (lexer_rest lexer2)))
          = scan_token ((lexer_rest lexer2).drop
              (scan_skip_len ((lexer_rest lexer2).length + 1) (lexer_rest lexer2))) := by
        rw [hdrop, scan_token_nul]
      have hnle := scan_token_length_le ((lexer_rest lexer2).drop
        (scan_skip_len ((lexer_rest lexer2).length + 1) (lexer_rest lexer2)))
      rw [List.length_drop] at hnle
      obtain ⟨hnw1, hnb1, hnr1, hni1, hnl1, hnc1⟩ := next_lexer_eq lexer1 hw1 _ hskip.symm
      obtain ⟨hnw2, hnb2, hnr2, hni2, hnl2, hnc2⟩ := next_lexer_eq lexer2 hw2 _ rfl
      obtain ⟨hk2, -, -, -, -, -⟩ := next_token_fields lexer2 hw2 _ rfl
      rw [hscan] at hnr1 hni1 hnl1 hnc1
      have htok : (giga_lexer_next_token lexer1).1 = (giga_lexer_next_token lexer2).1 := by
        rw [next_token_eq lexer1 hw1 _ hskip.symm, next_token_eq lexer2 hw2 _ rfl]
        simp only [hscan, hidx, hline, hcol]
      unfold giga_lexer_tokens
      simp only [htok]
      by_cases hk : (giga_lexer_next_token lexer2).1.kind = GigaTokenKind.EOF
      · rw [if_pos hk, if_pos hk]
      · rw [if_neg hk, if_neg hk]
        have hpos := scan_token_length_pos _ (by rw [← hk2]; exact hk)
        congr 1
        refine ih fuel2 _ _ (hnb1.trans hb1) (hnb2.trans hb2) hnw1 hnw2
          (by rw [hni1, hni2, hidx]) ?_ (by rw [hnl1, hnl2, hline]) (by rw [hnc1, hnc2, hcol])
          ?_ ?_
        · rw [hni2]
          omega
        · have hlen1 : (lexer_rest lexer1).length = (lexer_rest lexer2).length + (Y.length + 1) := by
            rw [hr1, List.length_append, List.length_cons]
          rw [hnr1, List.length_drop]
          omega
        · rw [hnr2, List.length_drop]
          omega

/-- Every token of a buffer that has a text lies inside the buffer. -/
theorem tokens_inside (fuel : Nat) :
    ∀ lexer : GigaLexer, lexer_whole lexer → lexer.current_index ≤ lexer.buffer.length →
      ∀ token ∈ giga_lexer_tokens fuel lexer, ∀ b, token.text_begin = some b →
        b + token.text_length ≤ lexer.buffer.length := by
  induction fuel with
  | zero =>
    intro _ _ _ token h
    simp [giga_lexer_tokens] at h
  | succ fuel ih =>
    intro lexer hw hidx token hmem b hb
    obtain ⟨hsl, -⟩ := skip_no_newline ((lexer_rest lexer).length + 1) (lexer_rest lexer)
    have hnle := scan_token_length_le ((lexer_rest lexer).drop
      (scan_skip_len ((lexer_rest lexer).length + 1) (lexer_rest lexer)))
    rw [List.length_drop] at hnle
    have hrl : (lexer_rest lexer).length = lexer.buffer.length - lexer.current_index :=
      List.length_drop _ _
    obtain ⟨hk, hbeg, hlen, -, -, -⟩ := next_token_fields lexer hw _ rfl
    obtain ⟨hnw, hnb, -, hni, -, -⟩ := next_lexer_eq lexer hw _ rfl
    have hhead : ∀ b, (giga_lexer_next_token lexer).1.text_begin = some b →
        b + (giga_lexer_next_token lexer).1.text_length ≤ lexer.buffer.length := by
      intro b hb
      rw [hbeg] at hb
      split_ifs at hb
      simp only [Option.some.injEq] at hb
      rw [hlen]
      omega
    unfold giga_lexer_tokens at hmem
    simp only [] at hmem
    split_ifs at hmem
    · rw [List.mem_singleton] at hmem
      subst hmem
      exact hhead b hb
    · rcases List.mem_cons.1 hmem with rfl | hmem
      · exact hhead b hb
      · have := ih (giga_lexer_next_token lexer).2 hnw (by rw [hnb, hni]; omega) token hmem b hb
        rw [hnb] at this
        exact this

/-- Claim C37: a NUL byte ends tokenization.  For all byte strings X and Y
(X with or without a NUL byte of its own), tokenizing X, a NUL byte and Y with
the full buffer length gives exactly the tokens of X alone: the same kinds,
offsets, lengths, lines and columns, hence the same texts; every token text lies
inside X, so no byte at or behind the NUL byte is part of a token, and the list
ends with the end-of-input token. -/
theorem C37_nul_ends_tokenization (X Y : List Nat) :
    tokenize (X ++ [0] ++ Y) = tokenize X ∧
    (∀ token ∈ tokenize (X ++ [0] ++ Y), ∀ b, token.text_begin = some b →
      b + token.text_length ≤ X.length ∧
      giga_token_text (X ++ [0] ++ Y) token = giga_token_text X token) ∧
    (∃ (front : List GigaToken) (last : GigaToken),
      tokenize (X ++ [0] ++ Y) = front ++ [last] ∧ last.kind = GigaTokenKind.EOF ∧
      ∀ token ∈ front, token.kind ≠ GigaTokenKind.EOF) ∧
    tokenize (bytes "NOP" ++ [0] ++ bytes "HALT")
      = [{ kind := GigaTokenKind.IDENTIFIER, text_begin := some 0, text_length := 3,
           line_number := 1, column_number := 1 },
         { kind := GigaTokenKind.EOF, text_begin := Option.none, text_length := 0,
           line_number := 1, column_number := 4 }] := by
  have heq : tokenize (X ++ [0] ++ Y) = tokenize X := by
    have e : X ++ [0] ++ Y = X ++ 0 :: Y := by simp
    rw [e]
    exact tokens_nul_sim X Y _ _ _ _ rfl rfl rfl rfl rfl (Nat.zero_le _) rfl rfl
      (by simp [lexer_rest, giga_lexer_init]) (by simp [lexer_rest, giga_lexer_init])
  refine ⟨heq, ?_, tokenize_ends_with_eof _, by decide⟩
  intro token hmem b hb
  rw [heq] at hmem
  have hin := tokens_inside (X.length + 1) (giga_lexer_init X X.length) rfl (Nat.zero_le _)
    token hmem b hb
  have hin2 : b + token.text_length ≤ X.length := hin
  refine ⟨hin2, ?_⟩
  unfold giga_token_text
  rw [hb]
  simp only []
  rw [List.append_assoc, List.drop_append_of_le_length (by omega),
    List.take_append_of_le_length (by rw [List.length_drop]; omega)]

/-! ### Number literals are accumulated in 8 bits -/

theorem parse_number_decimal_value (digits : List Nat) :
    ∀ value : Nat, (∀ d ∈ digits, isdigit d = true) →
      parse_number_decimal digits (value % 256)
        = .ok (digits.foldl (fun v c => v * 10 + digit_value c) value % 256) := by
  induction digits with
  | nil => intro value _; rfl
  | cons c digits ih =>
    intro value h
    have hc : 48 ≤ c ∧ c ≤ 57 := by
      simpa [isdigit] using h c (List.mem_cons_self c digits)
    have hno : ¬ (c < 48 ∨ c > 57) := by omega
    have hstep : (value % 256 * 10 + (c - 48)) % 256 = (value * 10 + digit_value c) % 256 := by
      simp only [digit_value, hc, and_self, ↓reduceIte]
      omega
    rw [parse_number_decimal, if_neg hno, hstep, List.foldl_cons]
    exact ih _ (fun d hd => h d (List.mem_cons_of_mem c hd))

theorem parse_number_hex_value (digits : List Nat) :
    ∀ value : Nat, (∀ d ∈ digits, isxdigit d = true) →
      parse_number_hex digits (value % 256)
        = .ok (digits.foldl (fun v c => v * 16 + digit_value c) value % 256) := by
  induction digits with
  | nil => intro value _; rfl
  | cons c digits ih =>
    intro value h
    have hc : (48 ≤ c ∧ c ≤ 57) ∨ (65 ≤ c ∧ c ≤ 70) ∨ (97 ≤ c ∧ c ≤ 102) := by
      have := h c (List.mem_cons_self c digits)
      simp only [isxdigit, isdigit, Bool.or_eq_true, Bool.and_eq_true, decide_eq_true_eq]
        at this
      omega
    have hrest := fun v => ih v (fun d hd => h d (List.mem_cons_of_mem c hd))
    rw [parse_number_hex, List.foldl_cons]
    by_cases h1 : 48 ≤ c ∧ c ≤ 57
    · have hstep : (value % 256 * 16 % 256 + (c - 48)) % 256
          = (value * 16 + digit_value c) % 256 := by
        simp only [digit_value, h1, and_self, ↓reduceIte]
        omega
      rw [if_pos h1, hstep]
      exact hrest _
    · by_cases h2 : 97 ≤ c ∧ c ≤ 102
      · have hstep : (value % 256 * 16 % 256 + (c - 97 + 10)) % 256
            = (value * 16 + digit_value c) % 256 := by
          simp only [digit_value, h1, h2, and_self, ↓reduceIte]
          omega
        rw [if_neg h1, if_pos h2, hstep]
        exact hrest _
      · have h3 : 65 ≤ c ∧ c ≤ 70 := by omega
        have hstep : (value % 256 * 16 % 256 + (c - 65 + 10)) % 256
            = (value * 16 + digit_value c) % 256 := by
          simp only [digit_value, h1, h2, ↓reduceIte]
          omega
        rw [if_neg h1, if_neg h2, if_pos h3, hstep]
        exact hrest _

/-- The digit loops of `giga_parser_parse_number` on a literal: never a digit
error, and the value is the numeric value modulo 256. -/
theorem parse_number_loops (text : List Nat)
    (hlit : is_decimal_literal text = true ∨ is_hex_literal text = true) :
    (if text.length ≥ 2 ∧ text.getD 0 0 = 48 ∧ (text.getD 1 0 = 120 ∨ text.getD 1 0 = 88) then
        parse_number_hex (text.drop 2) 0
      else parse_number_decimal text 0) = .ok (literal_value text % 256) := by
  rcases hlit with hdec | hhex
  · have hall : ∀ d ∈ text, isdigit d = true := by
      simp only [is_decimal_literal, Bool.and_eq_true, List.all_eq_true] at hdec
      exact hdec.2
    have hnohex : is_hex_literal text = false := by
      match text, hall with
      | [], _ => rfl
      | [_], _ => rfl
      | a :: x :: digits, hall =>
        have hx : 48 ≤ x ∧ x ≤ 57 := by
          simpa [isdigit] using hall x (by simp)
        have h1 : (x == 120) = false := by simp; omega
        have h2 : (x == 88) = false := by simp; omega
        simp [is_hex_literal, h1, h2]
    have hcond : ¬ (text.length ≥ 2 ∧ text.getD 0 0 = 48 ∧
        (text.getD 1 0 = 120 ∨ text.getD 1 0 = 88)) := by
      match text, hall with
      | [], _ => simp
      | [_], _ => simp
      | a :: x :: digits, hall =>
        have hx : 48 ≤ x ∧ x ≤ 57 := by
          simpa [isdigit] using hall x (by simp)
        simp only [List.getD_cons_succ, List.getD_cons_zero]
        omega
    rw [if_neg hcond, literal_value, hnohex]
    exact parse_number_decimal_value text 0 hall
  · match text, hhex with
    | z :: x :: digits, hhex =>
      have hhex2 := hhex
      simp only [is_hex_literal, Bool.and_eq_true, Bool.or_eq_true, beq_iff_eq,
        List.all_eq_true] at hhex2
      have hcond : (z :: x :: digits).length ≥ 2 ∧ (z :: x :: digits).getD 0 0 = 48 ∧
          ((z :: x :: digits).getD 1 0 = 120 ∨ (z :: x :: digits).getD 1 0 = 88) := by
        refine ⟨by simp, ?_, ?_⟩
        · simpa using hhex2.1.1
        · simpa using hhex2.1.2
      have hlv : literal_value (z :: x :: digits) = digits_value 16 digits := by
        simp [literal_value, hhex]
      rw [if_pos hcond, hlv]
      exact parse_number_hex_value digits 0 hhex2.2

/-- The number operand on a NUMBER token whose text is a literal: the value
modulo 256 is tested against 15. -/
theorem parse_number_of_literal (parser : GigaParser) (operand : GigaOperand)
    (hk : parser.current_token.kind = GigaTokenKind.NUMBER)
    (hlen : parser.current_token.text_length
      = (token_text parser parser.current_token).length)
    (hlit : is_decimal_literal (token_text parser parser.current_token) = true ∨
      is_hex_literal (token_text parser parser.current_token) = true) :
    giga_parser_parse_number parser operand
      = (if literal_value (token_text parser parser.current_token) % 256 ≤ 15 then
          (true, giga_parser_advance parser,
            GigaOperand.immediate
              (literal_value (token_text parser parser.current_token) % 256))
        else
          (false,
            giga_parser_error parser "Immediate value exceeds 4 bits (max 15)"
              parser.current_token.line_number parser.current_token.column_number,
            operand)) := by
  have hloops := parse_number_loops _ hlit
  unfold giga_parser_parse_number
  simp only [hk, ne_eq, not_true_eq_false, ↓reduceIte, hlen]
  rw [hloops]
  simp only []
  by_cases hv : literal_value (token_text parser parser.current_token) % 256 ≤ 15
  · rw [if_pos hv, if_neg (by omega)]
  · rw [if_neg hv, if_pos (by omega)]

/-- Claim C33: `giga_parser_parse_number` accumulates a number literal in 8
bits.  On a NUMBER token whose text is a decimal literal or a hexadecimal
literal (`0x` or `0X` and any number of hexadecimal digits, none included) of
numeric value v, the function succeeds iff v mod 256 is at most 15; it then
stores the immediate v mod 256 and advances, and otherwise leaves the operand
and reports the range error at the token.  So `MOVI R0, 256` and
`MOVI R0, 0x100` parse without error with immediate 0, `MOVI R0, 260` with
immediate 4, and `0x` alone is the immediate 0. -/
theorem C33_number_literal_modulo_256 (parser : GigaParser) (operand : GigaOperand)
    (hk : parser.current_token.kind = GigaTokenKind.NUMBER)
    (hlen : parser.current_token.text_length
      = (token_text parser parser.current_token).length)
    (hlit : is_decimal_literal (token_text parser parser.current_token) = true ∨
      is_hex_literal (token_text parser parser.current_token) = true) :
    giga_parser_parse_number parser operand
      = (if literal_value (token_text parser parser.current_token) % 256 ≤ 15 then
          (true, giga_parser_advance parser,
            GigaOperand.immediate
              (literal_value (token_text parser parser.current_token) % 256))
        else
          (false,
            giga_parser_error parser "Immediate value exceeds 4 bits (max 15)"
              parser.current_token.line_number parser.current_token.column_number,
            operand)) ∧
    ((giga_parser_parse_number parser operand).1 = true ↔
      literal_value (token_text parser parser.current_token) % 256 ≤ 15) ∧
    parse_statements (bytes "MOVI R0, 256")
      = some (0, [GigaStatement.instruction
          { mnemonic_text := bytes "MOVI"
            operands := [GigaOperand.register 0, GigaOperand.immediate 0]
            source_line := 1, source_column := 1 }]) ∧
    parse_statements (bytes "MOVI R0, 0x100")
      = some (0, [GigaStatement.instruction
          { mnemonic_text := bytes "MOVI"
            operands := [GigaOperand.register 0, GigaOperand.immediate 0]
            source_line := 1, source_column := 1 }]) ∧
    parse_statements (bytes "MOVI R0, 260")
      = some (0, [GigaStatement.instruction
          { mnemonic_text := bytes "MOVI"
            operands := [GigaOperand.register 0, GigaOperand.immediate 4]
            source_line := 1, source_column := 1 }]) ∧
    parse_statements (bytes "MOVI R0, 0x")
      = some (0, [GigaStatement.instruction
          { mnemonic_text := bytes "MOVI"
            operands := [GigaOperand.register 0, GigaOperand.immediate 0]
            source_line := 1, source_column := 1 }]) := by
  have hmain := parse_number_of_literal parser operand hk hlen hlit
  refine ⟨hmain, ?_, by decide, by decide, by decide, by decide⟩
  rw [hmain]
  split_ifs with hv
  · simp [hv]
  · simp [hv]

theorem C33_number_literal_modulo_256_witness :
    is_decimal_literal (bytes "260") = true ∧ literal_value (bytes "260") = 260 ∧
    ((giga_parser_parse_number (parser_at_number (bytes "260")) GigaOperand.none).1 = true ↔
      literal_value (bytes "260") % 256 ≤ 15) ∧
    (giga_parser_parse_number (parser_at_number (bytes "260")) GigaOperand.none).2.2
      = GigaOperand.immediate 4 :=
  ⟨by decide, by decide,
    (C33_number_literal_modulo_256 (parser_at_number (bytes "260")) GigaOperand.none rfl rfl
      (Or.inl (by decide))).2.1,
    by decide⟩

/-! ### The operand cap -/

theorem loop_operand_step (fuel : Nat) (parser parser' : GigaParser) (operand : GigaOperand)
    (inst : GigaParsedInstruction) (h : loop_operand parser = some (parser', operand))
    (hcount : inst.operands.length < 3) :
    giga_parser_parse_instruction_loop (fuel + 1) parser inst
      = giga_parser_parse_instruction_loop fuel parser'
          { inst with operands := inst.operands ++ [operand] } := by
  unfold loop_operand at h
  rw [giga_parser_parse_instruction_loop]
  by_cases hk : parser.current_token.kind ≠ GigaTokenKind.NEWLINE ∧
      parser.current_token.kind ≠ GigaTokenKind.EOF
  · rw [if_pos hk] at h
    rw [if_pos hk]
    simp only [] at h ⊢
    generalize (if parser.current_token.kind = GigaTokenKind.COMMA then
      giga_parser_advance parser else parser) = q at h ⊢
    have hc : ¬ inst.operand_count ≥ GIGA_MAX_OPERANDS := by
      simp only [GigaParsedInstruction.operand_count, GIGA_MAX_OPERANDS]
      omega
    rw [if_neg hc]
    by_cases hp : (giga_parser_parse_operand q GigaOperand.none).1 = true
    · rw [if_pos hp] at h
      simp only [Option.some.injEq, Prod.mk.injEq] at h
      rw [if_neg (by simp [hp]), h.1, h.2]
    · rw [if_neg hp] at h
      exact absurd h (by simp)
  · rw [if_neg hk] at h
    exact absurd h (by simp)

theorem loop_too_many (fuel : Nat) (parser : GigaParser) (inst : GigaParsedInstruction)
    (hk : parser.current_token.kind ≠ GigaTokenKind.NEWLINE ∧
      parser.current_token.kind ≠ GigaTokenKind.EOF)
    (hcount : 3 ≤ inst.operands.length) :
    giga_parser_parse_instruction_loop (fuel + 1) parser inst
      = some (giga_parser_append_statement
          (giga_parser_error
            (if parser.current_token.kind = GigaTokenKind.COMMA then
              giga_parser_advance parser else parser)
            "Too many operands"
            (if parser.current_token.kind = GigaTokenKind.COMMA then
              giga_parser_advance parser else parser).current_token.line_number
            (if parser.current_token.kind = GigaTokenKind.COMMA then
              giga_parser_advance parser else parser).current_token.column_number)
          (GigaStatement.instruction inst)) := by
  rw [giga_parser_parse_instruction_loop, if_pos hk]
  simp only []
  rw [if_pos (by simp only [GigaParsedInstruction.operand_count, GIGA_MAX_OPERANDS]; omega)]

theorem loop_operand_rest (parser parser' : GigaParser) (operand : GigaOperand)
    (h : loop_operand parser = some (parser', operand)) :
    parser'.statements = parser.statements := by
  unfold loop_operand at h
  by_cases hk : parser.current_token.kind ≠ GigaTokenKind.NEWLINE ∧
      parser.current_token.kind ≠ GigaTokenKind.EOF
  · rw [if_pos hk] at h
    simp only [] at h
    have hq : (if parser.current_token.kind = GigaTokenKind.COMMA then
        giga_parser_advance parser else parser).statements = parser.statements := by
      split_ifs
      · rfl
      · rfl
    generalize (if parser.current_token.kind = GigaTokenKind.COMMA then
      giga_parser_advance parser else parser) = q at h hq
    by_cases hp : (giga_parser_parse_operand q GigaOperand.none).1 = true
    · rw [if_pos hp] at h
      simp only [Option.some.injEq, Prod.mk.injEq] at h
      rw [← h.1, (parse_operand_spec _ _).1, hq]
    · rw [if_neg hp] at h
      exact absurd h (by simp)
  · rw [if_neg hk] at h
    exact absurd h (by simp)

theorem parse_loop_of_error (fuel : Nat) (parser : GigaParser) (h : parser.has_error ≠ 0) :
    giga_parser_parse_loop (fuel + 1) parser = some (1, parser) := by
  unfold giga_parser_parse_loop
  split_ifs
  · rfl
  · rfl

/-- Claim C31: the operand cap.  Take a parser without error at the start of
an instruction line (the current token is an identifier and no colon follows)
on which three turns of the operand loop parse three operands, with or without
commas in front of them, and behind which the line goes on with a fourth
operand.  Then the statement loop of `giga_parser_parse` returns 1 with
`has_error = 1`, the message `Too many operands`, and the line and column of the
token at which the fourth operand starts; the instruction is left in the list
with its first three operands.  Consequently every instruction statement of
every parse has at most three operands.  `MOV R0, R1, R2, R3` reports line 1,
column 17, `MOV R0 R1 R2 R3` column 14, and on a second line the line is 2. -/
theorem C31_too_many_operands (fuel : Nat) (parser : GigaParser) (token : GigaToken)
    (h0 : parser.has_error = 0)
    (hid : parser.current_token.kind = GigaTokenKind.IDENTIFIER)
    (hla : parser.lookahead_token.kind ≠ GigaTokenKind.COLON)
    (h4 : fourth_operand_token parser = some token) :
    (∃ (final : GigaParser) (inst : GigaParsedInstruction),
      giga_parser_parse_loop (fuel + 2) parser = some (1, final) ∧
      final.has_error = 1 ∧
      final.error_message = some "Too many operands" ∧
      final.error_line = token.line_number ∧
      final.error_column = token.column_number ∧
      final.statements = parser.statements ++ [GigaStatement.instruction inst] ∧
      inst.operand_count = 3) ∧
    (∀ (source : List Nat) (out : Nat × GigaParser), parse_source source = some out →
      ∀ inst, GigaStatement.instruction inst ∈ out.2.statements → inst.operand_count ≤ 3) ∧
    parse_report (bytes "MOV R0, R1, R2, R3")
      = some (1, 1, some "Too many operands", 1, 17) ∧
    parse_report (bytes "MOV R0 R1 R2 R3") = some (1, 1, some "Too many operands", 1, 14) ∧
    parse_report (bytes "NOP\nADD R0, 1, [2], L, R4\nHALT")
      = some (1, 1, some "Too many operands", 2, 17) := by
  refine ⟨?_, ?_, by decide, by decide, by decide⟩
  · unfold fourth_operand_token three_operands at h4
    rcases h1 : loop_operand (giga_parser_advance parser) with _ | ⟨p1, o1⟩
    · rw [h1] at h4
      exact absurd h4 (by simp)
    rcases h2 : loop_operand p1 with _ | ⟨p2, o2⟩
    · rw [h1] at h4
      simp only [Option.some_bind, h2] at h4
      exact absurd h4 (by simp)
    rcases h3 : loop_operand p2 with _ | ⟨p3, o3⟩
    · rw [h1] at h4
      simp only [Option.some_bind, h2, h3] at h4
      exact absurd h4 (by simp)
    rw [h1] at h4
    simp only [Option.some_bind, h2, h3, Option.map_some'] at h4
    by_cases hk : p3.current_token.kind ≠ GigaTokenKind.NEWLINE ∧
        p3.current_token.kind ≠ GigaTokenKind.EOF
    · rw [if_pos hk] at h4
      simp only [Option.some.injEq] at h4
      obtain ⟨r, hr, -⟩ := parse_instruction_total parser hid
      have hr2 := hr
      unfold giga_parser_parse_instruction at hr2
      rw [if_neg (by simp [hid])] at hr2
      generalize giga_parser_fuel parser = F at hr2
      have hnone : ∀ (p : GigaParser) (i : GigaParsedInstruction),
          giga_parser_parse_instruction_loop 0 p i = Option.none := by
        intro p i
        unfold giga_parser_parse_instruction_loop
        rfl
      match F, hr2 with
      | 0, hr2 => rw [hnone] at hr2; exact absurd hr2 (by simp)
      | 1, hr2 =>
        rw [loop_operand_step 0 _ _ _ _ h1 (by simp), hnone] at hr2
        exact absurd hr2 (by simp)
      | 2, hr2 =>
        rw [loop_operand_step 1 _ _ _ _ h1 (by simp),
          loop_operand_step 0 _ _ _ _ h2 (by simp), hnone] at hr2
        exact absurd hr2 (by simp)
      | 3, hr2 =>
        rw [loop_operand_step 2 _ _ _ _ h1 (by simp),
          loop_operand_step 1 _ _ _ _ h2 (by simp),
          loop_operand_step 0 _ _ _ _ h3 (by simp), hnone] at hr2
        exact absurd hr2 (by simp)
      | G + 4, hr2 =>
        rw [loop_operand_step (G + 3) _ _ _ _ h1 (by simp),
          loop_operand_step (G + 2) _ _ _ _ h2 (by simp),
          loop_operand_step (G + 1) _ _ _ _ h3 (by simp),
          loop_too_many G _ _ hk (by simp)] at hr2
        simp only [Option.some.injEq] at hr2
        have hstep : giga_parser_parse_loop (fuel + 2) parser
            = giga_parser_parse_loop (fuel + 1) r := by
          rw [giga_parser_parse_loop]
          rw [if_pos (by rw [hid]; decide), if_neg (by simp [h0]),
            if_neg (by rw [hid]; decide), if_neg (by rw [hid]; decide), if_pos hid,
            if_neg hla, hr]
        have herr : r.has_error ≠ 0 := by
          rw [← hr2]
          exact Nat.one_ne_zero
        refine ⟨r,
          { mnemonic_text := token_text parser parser.current_token
            operands := [o1, o2, o3]
            source_line := parser.current_token.line_number
            source_column := parser.current_token.column_number },
          by rw [hstep]; exact parse_loop_of_error fuel r herr, ?_, ?_, ?_, ?_, ?_, rfl⟩
        · rw [← hr2]; rfl
        · rw [← hr2]; rfl
        · rw [← hr2, ← h4]; rfl
        · rw [← hr2, ← h4]; rfl
        · rw [← hr2]
          show _ ++ _ = _ ++ _
          congr 1
          have h5 := loop_operand_rest _ _ _ h1
          have h6 := loop_operand_rest _ _ _ h2
          have h7 := loop_operand_rest _ _ _ h3
          rw [giga_parser_advance_statements] at h5
          rw [giga_parser_error_statements, ← h5, ← h6, ← h7]
          split_ifs
          · rfl
          · rfl
    · rw [if_neg hk] at h4
      exact absurd h4 (by simp)
  · intro source out h inst hmem
    exact (parse_source_in_range source out h _ hmem).1

theorem C31_too_many_operands_witness :
    fourth_operand_token (giga_parser_init (giga_lexer_init (bytes "MOV R0, R1, R2, R3") 18))
      = some { kind := GigaTokenKind.IDENTIFIER, text_begin := some 16, text_length := 2,
               line_number := 1, column_number := 17 } ∧
    ∃ (final : GigaParser) (inst : GigaParsedInstruction),
      giga_parser_parse_loop (1 + 2)
          (giga_parser_init (giga_lexer_init (bytes "MOV R0, R1, R2, R3") 18))
        = some (1, final) ∧
      final.has_error = 1 ∧
      final.error_message = some "Too many operands" ∧
      final.error_line = 1 ∧
      final.error_column = 17 ∧
      final.statements
        = (giga_parser_init (giga_lexer_init (bytes "MOV R0, R1, R2, R3") 18)).statements
          ++ [GigaStatement.instruction inst] ∧
      inst.operand_count = 3 :=
  ⟨by decide,
    (C31_too_many_operands 1 (giga_parser_init (giga_lexer_init (bytes "MOV R0, R1, R2, R3") 18))
      { kind := GigaTokenKind.IDENTIFIER, text_begin := some 16, text_length := 2,
        line_number := 1, column_number := 17 }
      (by decide) (by decide) (by decide) (by decide)).1⟩

/-! ### The error messages a parse can end with -/

theorem message_kept (before : Option String) : message_kept_or_set before before :=
  Or.inl rfl

theorem message_set (before : Option String) (message : String)
    (h : message ∈ parse_messages) : message_kept_or_set before (some message) :=
  Or.inr ⟨message, h, rfl⟩

theorem message_kept_or_set_trans (first second third : Option String)
    (h1 : message_kept_or_set first second) (h2 : message_kept_or_set second third) :
    message_kept_or_set first third := by
  rcases h2 with h2 | h2
  · rw [h2]
    exact h1
  · exact Or.inr h2

/-- Register operands never touch the error state; success needs an
identifier, failure leaves the parser as it was. -/
theorem parse_register_message (parser : GigaParser) (operand : GigaOperand) :
    (giga_parser_parse_register parser operand).2.1.error_message = parser.error_message ∧
    ((giga_parser_parse_register parser operand).1 = true →
      parser.current_token.kind = GigaTokenKind.IDENTIFIER) ∧
    ((giga_parser_parse_register parser operand).1 = false →
      (giga_parser_parse_register parser operand).2.1 = parser) := by
  unfold giga_parser_parse_register
  simp only []
  generalize (token_text parser parser.current_token).getD 1 0 = c
  by_cases hk : parser.current_token.kind ≠ GigaTokenKind.IDENTIFIER
  · rw [if_pos hk]
    simp
  · rw [if_neg hk]
    have hk2 : parser.current_token.kind = GigaTokenKind.IDENTIFIER := by
      simpa using hk
    split_ifs <;> simp [giga_parser_advance, hk2]

/-- Number operands: success keeps the message; failure leaves the parser as
it was, or happens at a NUMBER token that stays the current token. -/
theorem parse_number_message (parser : GigaParser) (operand : GigaOperand) :
    ((giga_parser_parse_number parser operand).1 = true →
      (giga_parser_parse_number parser operand).2.1.error_message = parser.error_message) ∧
    ((giga_parser_parse_number parser operand).1 = false →
      (giga_parser_parse_number parser operand).2.1 = parser ∨
      (giga_parser_parse_number parser operand).2.1.current_token.kind
        = GigaTokenKind.NUMBER) := by
  unfold giga_parser_parse_number
  simp only []
  by_cases hk : parser.current_token.kind ≠ GigaTokenKind.NUMBER
  · rw [if_pos hk]
    simp
  · rw [if_neg hk]
    have hk2 : parser.current_token.kind = GigaTokenKind.NUMBER := by
      simpa using hk
    split
    · simp [giga_parser_error, hk2]
    · split_ifs <;> simp [giga_parser_error, giga_parser_advance, hk2]

/-- Label references: success needs an identifier and keeps the message,
failure leaves the parser as it was. -/
theorem parse_label_reference_message (parser : GigaParser) (operand : GigaOperand) :
    (giga_parser_parse_label_reference parser operand).2.1.error_message
      = parser.error_message ∧
    ((giga_parser_parse_label_reference parser operand).1 = true →
      parser.current_token.kind = GigaTokenKind.IDENTIFIER) := by
  unfold giga_parser_parse_label_reference
  by_cases hk : parser.current_token.kind ≠ GigaTokenKind.IDENTIFIER
  · rw [if_pos hk]
    simp
  · rw [if_neg hk]
    have hk2 : parser.current_token.kind = GigaTokenKind.IDENTIFIER := by
      simpa using hk
    simp [giga_parser_advance, hk2]

/-- Memory operands: success keeps the message; failure leaves the parser as
it was or sets one of the two messages of the function. -/
theorem parse_memory_operand_message (parser : GigaParser) (operand : GigaOperand) :
    ((giga_parser_parse_memory_operand parser operand).1 = true →
      (giga_parser_parse_memory_operand parser operand).2.1.error_message
        = parser.error_message) ∧
    ((giga_parser_parse_memory_operand parser operand).1 = false →
      (giga_parser_parse_memory_operand parser operand).2.1 = parser ∨
      (giga_parser_parse_memory_operand parser operand).2.1.error_message
        = some "Expected number or register in memory address" ∨
      (giga_parser_parse_memory_operand parser operand).2.1.error_message
        = some "Expected ']' to close memory address") := by
  unfold giga_parser_parse_memory_operand
  by_cases hb : ¬ current_is_symbol parser 91 = true
  · rw [if_pos hb]
    simp
  · rw [if_neg hb]
    simp only []
    rcases hnum : giga_parser_parse_number (giga_parser_advance parser) GigaOperand.none
      with ⟨nb, np, no⟩
    have hn := parse_number_message (giga_parser_advance parser) GigaOperand.none
    rw [hnum] at hn
    obtain ⟨hn1, hn2⟩ := hn
    simp only [] at hn1 hn2
    cases nb with
    | true =>
      simp only [↓reduceIte]
      have hmsg : np.error_message = parser.error_message := hn1 rfl
      split_ifs <;> simp [giga_parser_error, giga_parser_advance, hmsg]
    | false =>
      simp only [Bool.false_eq_true, ↓reduceIte]
      rcases hreg : giga_parser_parse_register np no with ⟨rb, rp, ro⟩
      have hr := parse_register_message np no
      rw [hreg] at hr
      obtain ⟨hr1, hr2, hr3⟩ := hr
      simp only [] at hr1 hr2 hr3
      cases rb with
      | true =>
        have hid := hr2 rfl
        have hnp : np = giga_parser_advance parser := by
          rcases hn2 rfl with h | h
          · exact h
          · rw [hid] at h
            exact absurd h (by decide)
        have hmsg : rp.error_message = parser.error_message := by
          rw [hr1, hnp]
          rfl
        split_ifs <;> simp [giga_parser_error, giga_parser_advance, hmsg]
      | false =>
        simp [giga_parser_error]

/-- An operand that is parsed leaves the message it found or one of the two
messages of the memory operand; never a message of the number operand. -/
theorem parse_operand_message (parser : GigaParser) (operand : GigaOperand) :
    (giga_parser_parse_operand parser operand).1 = true →
    message_kept_or_set parser.error_message
      (giga_parser_parse_operand parser operand).2.1.error_message := by
  unfold giga_parser_parse_operand
  simp only []
  rcases hmo : giga_parser_parse_memory_operand parser operand with ⟨mb, mp, mo⟩
  have hm := parse_memory_operand_message parser operand
  rw [hmo] at hm
  obtain ⟨hm1, hm2⟩ := hm
  simp only [] at hm1 hm2
  cases mb with
  | true =>
    intro _
    simp only [↓reduceIte]
    rw [hm1 rfl]
    exact message_kept _
  | false =>
    simp only [Bool.false_eq_true, ↓reduceIte]
    have hkept : message_kept_or_set parser.error_message mp.error_message := by
      rcases hm2 rfl with h1 | h1 | h1
      · rw [h1]
        exact message_kept _
      · rw [h1]
        exact message_set _ _ (by decide)
      · rw [h1]
        exact message_set _ _ (by decide)
    rcases hreg : giga_parser_parse_register mp mo with ⟨rb, rp, ro⟩
    have hr := parse_register_message mp mo
    rw [hreg] at hr
    obtain ⟨hr1, hr2, hr3⟩ := hr
    simp only [] at hr1 hr2 hr3
    cases rb with
    | true =>
      intro _
      simp only [↓reduceIte]
      rw [hr1]
      exact hkept
    | false =>
      simp only [Bool.false_eq_true, ↓reduceIte]
      have hrp : rp = mp := hr3 rfl
      rcases hnum : giga_parser_parse_number rp ro with ⟨nb, np, no⟩
      have hn := parse_number_message rp ro
      rw [hnum] at hn
      obtain ⟨hn1, hn2⟩ := hn
      simp only [] at hn1 hn2
      cases nb with
      | true =>
        intro _
        simp only [↓reduceIte]
        rw [hn1 rfl, hrp]
        exact hkept
      | false =>
        simp only [Bool.false_eq_true, ↓reduceIte]
        rcases hlab : giga_parser_parse_label_reference np no with ⟨lb, lp, lo⟩
        have hl := parse_label_reference_message np no
        rw [hlab] at hl
        obtain ⟨hl1, hl2⟩ := hl
        simp only [] at hl1 hl2
        cases lb with
        | true =>
          intro _
          simp only [↓reduceIte]
          have hid := hl2 rfl
          have hnp : np = rp := by
            rcases hn2 rfl with h1 | h1
            · exact h1
            · rw [hid] at h1
              exact absurd h1 (by decide)
          rw [hl1, hnp, hrp]
          exact hkept
        | false =>
          intro h
          simp at h

theorem parse_instruction_loop_message (fuel : Nat) :
    ∀ (parser : GigaParser) (inst : GigaParsedInstruction) (final : GigaParser),
      giga_parser_parse_instruction_loop fuel parser inst = some final →
      message_kept_or_set parser.error_message final.error_message := by
  induction fuel with
  | zero =>
    intro parser inst final h
    rw [giga_parser_parse_instruction_loop] at h
    exact absurd h (by simp)
  | succ fuel ih =>
    intro parser inst final h
    rw [giga_parser_parse_instruction_loop] at h
    by_cases hk : parser.current_token.kind ≠ GigaTokenKind.NEWLINE ∧
        parser.current_token.kind ≠ GigaTokenKind.EOF
    · rw [if_pos hk] at h
      simp only [] at h
      have hq : (if parser.current_token.kind = GigaTokenKind.COMMA then
          giga_parser_advance parser else parser).error_message = parser.error_message := by
        split_ifs
        · rfl
        · rfl
      generalize (if parser.current_token.kind = GigaTokenKind.COMMA then
        giga_parser_advance parser else parser) = q at h hq
      by_cases hc : inst.operand_count ≥ GIGA_MAX_OPERANDS
      · rw [if_pos hc] at h
        simp only [Option.some.injEq] at h
        rw [← h]
        exact message_set _ _ (by decide)
      · rw [if_neg hc] at h
        by_cases hp : (giga_parser_parse_operand q GigaOperand.none).1 = true
        · rw [if_neg (by simp [hp])] at h
          have h1 := parse_operand_message q GigaOperand.none hp
          rw [hq] at h1
          exact message_kept_or_set_trans _ _ _ h1 (ih _ _ _ h)
        · rw [if_pos (by simpa using hp)] at h
          simp only [Option.some.injEq] at h
          rw [← h]
          exact message_set _ _ (by decide)
    · rw [if_neg hk] at h
      simp only [Option.some.injEq] at h
      rw [← h]
      split_ifs
      · exact message_kept _
      · exact message_kept _

theorem parse_instruction_message (parser final : GigaParser)
    (hid : parser.current_token.kind = GigaTokenKind.IDENTIFIER)
    (h : giga_parser_parse_instruction parser = some final) :
    message_kept_or_set parser.error_message final.error_message := by
  unfold giga_parser_parse_instruction at h
  rw [if_neg (by simp [hid])] at h
  have hloop := parse_instruction_loop_message _ _ _ _ h
  exact hloop

theorem advance_error_message (parser : GigaParser) :
    (giga_parser_advance parser).error_message = parser.error_message := rfl

theorem advance_has_error (parser : GigaParser) :
    (giga_parser_advance parser).has_error = parser.has_error := rfl

theorem advance_append_current (parser : GigaParser) (stmt : GigaStatement) :
    (giga_parser_advance (giga_parser_append_statement parser stmt)).current_token
      = parser.lookahead_token := rfl

/-- A label definition in front of a colon sets no error. -/
theorem parse_label_message (parser : GigaParser)
    (hid : parser.current_token.kind = GigaTokenKind.IDENTIFIER)
    (hla : parser.lookahead_token.kind = GigaTokenKind.COLON) :
    (giga_parser_parse_label parser).error_message = parser.error_message ∧
    (giga_parser_parse_label parser).has_error = parser.has_error ∧
    (giga_parser_parse_label parser).statements
      = parser.statements ++ [GigaStatement.label
          { label_name := token_text parser parser.current_token
            source_line := parser.current_token.line_number
            source_column := parser.current_token.column_number }] := by
  have hne : ¬ parser.current_token.kind ≠ GigaTokenKind.IDENTIFIER := by
    simp [hid]
  unfold giga_parser_parse_label
  rw [if_neg hne]
  simp only []
  generalize hstmt : GigaStatement.label
    { label_name := token_text parser parser.current_token
      source_line := parser.current_token.line_number
      source_column := parser.current_token.column_number } = stmt
  have hcolon : ¬ (giga_parser_advance (giga_parser_append_statement parser
      stmt)).current_token.kind ≠ GigaTokenKind.COLON := by
    rw [advance_append_current, hla]
    simp
  rw [if_neg hcolon]
  by_cases hnl : (giga_parser_advance (giga_parser_advance
      (giga_parser_append_statement parser stmt))).current_token.kind = GigaTokenKind.NEWLINE
  · rw [if_pos hnl]
    refine ⟨?_, ?_, ?_⟩
    · rw [advance_error_message, advance_error_message, advance_error_message]
      rfl
    · rw [advance_has_error, advance_has_error, advance_has_error]
      rfl
    · rw [giga_parser_advance_statements, giga_parser_advance_statements,
        giga_parser_advance_statements]
      rfl
  · rw [if_neg hnl]
    refine ⟨?_, ?_, ?_⟩
    · rw [advance_error_message, advance_error_message]
      rfl
    · rw [advance_has_error, advance_has_error]
      rfl
    · rw [giga_parser_advance_statements, giga_parser_advance_statements]
      rfl

theorem skip_line_message (fuel : Nat) :
    ∀ (parser final : GigaParser), giga_parser_skip_line fuel parser = some final →
      final.error_message = parser.error_message := by
  induction fuel with
  | zero =>
    intro parser final h
    rw [giga_parser_skip_line] at h
    exact absurd h (by simp)
  | succ fuel ih =>
    intro parser final h
    rw [giga_parser_skip_line] at h
    split_ifs at h
    · rw [ih _ _ h]
      rfl
    · simp only [Option.some.injEq] at h
      rw [h]

theorem parse_directive_message (parser final : GigaParser)
    (hk : parser.current_token.kind = GigaTokenKind.DIRECTIVE)
    (h : giga_parser_parse_directive parser = some final) :
    final.error_message = parser.error_message := by
  unfold giga_parser_parse_directive at h
  rw [if_neg (by simp [hk])] at h
  split at h
  · exact absurd h (by simp)
  · rename_i parser1 hskip
    have h1 := skip_line_message _ _ _ hskip
    simp only [Option.some.injEq] at h
    rw [← h]
    split_ifs
    · exact h1
    · exact h1

/-- The statement loop ends with the message it started with or one of
`parse_messages`. -/
theorem parse_loop_message (fuel : Nat) :
    ∀ (parser : GigaParser) (out : Nat × GigaParser),
      giga_parser_parse_loop fuel parser = some out →
      message_kept_or_set parser.error_message out.2.error_message := by
  induction fuel with
  | zero =>
    intro parser out h
    rw [giga_parser_parse_loop] at h
    exact absurd h (by simp)
  | succ fuel ih =>
    intro parser out h
    rw [giga_parser_parse_loop] at h
    by_cases h1 : parser.current_token.kind ≠ GigaTokenKind.EOF
    · rw [if_pos h1] at h
      by_cases h2 : parser.has_error ≠ 0
      · rw [if_pos h2] at h
        simp only [Option.some.injEq] at h
        rw [← h]
        exact message_kept _
      · rw [if_neg h2] at h
        by_cases h3 : parser.current_token.kind = GigaTokenKind.NEWLINE
        · rw [if_pos h3] at h
          have hstep := ih _ _ h
          exact hstep
        · rw [if_neg h3] at h
          by_cases h4 : parser.current_token.kind = GigaTokenKind.DIRECTIVE
          · rw [if_pos h4] at h
            rcases hdir : giga_parser_parse_directive parser with _ | parser1
            · rw [hdir] at h
              exact absurd h (by simp)
            · rw [hdir] at h
              have hm := parse_directive_message parser parser1 h4 hdir
              have hstep := ih _ _ h
              rw [hm] at hstep
              exact hstep
          · rw [if_neg h4] at h
            by_cases h5 : parser.current_token.kind = GigaTokenKind.IDENTIFIER
            · rw [if_pos h5] at h
              by_cases h6 : parser.lookahead_token.kind = GigaTokenKind.COLON
              · rw [if_pos h6] at h
                have hm := (parse_label_message parser h5 h6).1
                have hstep := ih _ _ h
                rw [hm] at hstep
                exact hstep
              · rw [if_neg h6] at h
                rcases hinst : giga_parser_parse_instruction parser with _ | parser1
                · rw [hinst] at h
                  exact absurd h (by simp)
                · rw [hinst] at h
                  exact message_kept_or_set_trans _ _ _
                    (parse_instruction_message parser parser1 h5 hinst) (ih _ _ h)
            · rw [if_neg h5] at h
              simp only [Option.some.injEq] at h
              rw [← h]
              exact message_set _ _ (by decide)
    · rw [if_neg h1] at h
      simp only [Option.some.injEq] at h
      rw [← h]
      exact message_kept _

/-- The parse of a source text ends without message or with one of
`parse_messages`. -/
theorem parse_source_message (source : List Nat) :
    ∃ out, parse_source source = some out ∧
      (out.2.error_message = Option.none ∨
        ∃ message ∈ parse_messages, out.2.error_message = some message) := by
  obtain ⟨out, hout⟩ := parse_source_total source
  refine ⟨out, hout, ?_⟩
  unfold parse_source giga_parser_parse at hout
  exact parse_loop_message _ _ _ hout

/-! ### The messages of the number operand never survive -/

/-- The text of a NUMBER token cut by the lexer is a decimal literal or a
hexadecimal literal. -/
theorem scan_token_number_literal (l : List Nat)
    (h : (scan_token l).1 = GigaTokenKind.NUMBER) :
    is_decimal_literal (l.take (scan_token l).2) = true ∨
    is_hex_literal (l.take (scan_token l).2) = true := by
  cases l with
  | nil => simp [scan_token] at h
  | cons c tail =>
    by_cases hd : isdigit c = true
    · have hc : 48 ≤ c ∧ c ≤ 57 := by
        simpa [isdigit] using hd
      have h0 : c ≠ 0 := by omega
      have h10 : c ≠ 10 := by omega
      have h44 : c ≠ 44 := by omega
      have h58 : c ≠ 58 := by omega
      have h46 : c ≠ 46 := by omega
      by_cases hhex : c = 48 ∧ (tail.headD 0 = 120 ∨ tail.headD 0 = 88)
      · right
        obtain ⟨x, tail2, rfl⟩ : ∃ x tail2, tail = x :: tail2 := by
          cases tail with
          | nil => simp at hhex
          | cons x tail2 => exact ⟨x, tail2, rfl⟩
        have hx : x = 120 ∨ x = 88 := by
          simpa using hhex.2
        have hscan : scan_token (c :: x :: tail2)
            = (GigaTokenKind.NUMBER, 2 + (tail2.takeWhile isxdigit).length) := by
          rw [hhex.1]
          simp [scan_token, isdigit, hx]
        rw [hscan]
        simp only []
        rw [Nat.add_comm, List.take_succ_cons, List.take_succ_cons, take_length_takeWhile]
        have hall : ∀ d ∈ tail2.takeWhile isxdigit, isxdigit d = true :=
          fun d hmem => List.mem_takeWhile_imp hmem
        simp only [is_hex_literal, Bool.and_eq_true, Bool.or_eq_true, beq_iff_eq,
          List.all_eq_true]
        exact ⟨⟨hhex.1, hx⟩, hall⟩
      · left
        have hscan : scan_token (c :: tail)
            = (GigaTokenKind.NUMBER, 1 + (tail.takeWhile isdigit).length) := by
          simp only [scan_token, h0, h10, h44, h58, h46, hd, hhex, ↓reduceIte]
        rw [hscan]
        simp only []
        rw [Nat.add_comm, List.take_succ_cons, take_length_takeWhile]
        have hall : ∀ d ∈ tail.takeWhile isdigit, isdigit d = true :=
          fun d hmem => List.mem_takeWhile_imp hmem
        simp only [is_decimal_literal, List.isEmpty_cons, Bool.not_false, Bool.true_and,
          List.all_cons, Bool.and_eq_true, List.all_eq_true]
        exact ⟨hd, hall⟩
    · exfalso
      simp only [scan_token] at h
      split_ifs at h

/-- The NUMBER tokens of the lexer are literals, with all their bytes in the
buffer. -/
theorem next_token_number_literal (lexer : GigaLexer) (hw : lexer_whole lexer)
    (hk : (giga_lexer_next_token lexer).1.kind = GigaTokenKind.NUMBER) :
    (is_decimal_literal (giga_token_text lexer.buffer (giga_lexer_next_token lexer).1) = true ∨
      is_hex_literal (giga_token_text lexer.buffer (giga_lexer_next_token lexer).1) = true) ∧
    (giga_lexer_next_token lexer).1.text_length
      = (giga_token_text lexer.buffer (giga_lexer_next_token lexer).1).length := by
  obtain ⟨hkind, -, hlen, -, -, htext⟩ := next_token_fields lexer hw _ rfl
  rw [hkind] at hk
  have hne : (scan_token ((lexer_rest lexer).drop
      (scan_skip_len ((lexer_rest lexer).length + 1) (lexer_rest lexer)))).1
      ≠ GigaTokenKind.EOF := by
    rw [hk]
    decide
  rw [if_neg hne] at htext
  have hle := scan_token_length_le ((lexer_rest lexer).drop
    (scan_skip_len ((lexer_rest lexer).length + 1) (lexer_rest lexer)))
  rw [htext, hlen]
  exact ⟨scan_token_number_literal _ hk, by rw [List.length_take]; omega⟩

theorem token_text_eq (parser : GigaParser) (token : GigaToken) :
    token_text parser token = giga_token_text parser.lexer.buffer token := rfl

theorem messages_disjoint :
    ∀ message ∈ number_messages, message ∉ parse_messages := by
  decide

/-- Claim C34: no parse ends with a message of the number operand.  For every
source text `giga_parser_parse` returns, and the message it leaves is none of
`Immediate value exceeds 4 bits (max 15)`, `Invalid hex digit` and
`Invalid decimal digit`.  An operand that `giga_parser_parse_operand` accepts
never leaves one of the three behind, so one of them is in the parser only
where the operand was refused, and there the operand loop puts `Expected operand`
in its place.  Every NUMBER token of the lexer is a decimal literal or `0x`, `0X`
followed by hexadecimal digits, and on such a token the number operand leaves
the message it found or the range message, never a digit message.  The text
`MOVI R0, 16` ends with `Expected operand`, and so does `LD R0, [99]`. -/
theorem C34_number_messages_never_final (source : List Nat) :
    (∃ out : Nat × GigaParser, parse_source source = some out ∧
      ∀ message ∈ number_messages, out.2.error_message ≠ some message) ∧
    (∀ (parser : GigaParser) (operand : GigaOperand),
      (∀ message ∈ number_messages, parser.error_message ≠ some message) →
      (giga_parser_parse_operand parser operand).1 = true →
      ∀ message ∈ number_messages,
        (giga_parser_parse_operand parser operand).2.1.error_message ≠ some message) ∧
    (∀ (fuel : Nat) (parser final : GigaParser) (inst : GigaParsedInstruction),
      parser.current_token.kind ≠ GigaTokenKind.NEWLINE →
      parser.current_token.kind ≠ GigaTokenKind.EOF →
      parser.current_token.kind ≠ GigaTokenKind.COMMA →
      inst.operand_count < GIGA_MAX_OPERANDS →
      (giga_parser_parse_operand parser GigaOperand.none).1 = false →
      giga_parser_parse_instruction_loop (fuel + 1) parser inst = some final →
      final.error_message = some "Expected operand") ∧
    (∀ (lexer : GigaLexer) (parser : GigaParser) (operand : GigaOperand),
      lexer_whole lexer →
      (giga_lexer_next_token lexer).1.kind = GigaTokenKind.NUMBER →
      parser.lexer.buffer = lexer.buffer →
      parser.current_token = (giga_lexer_next_token lexer).1 →
      (giga_parser_parse_number parser operand).2.1.error_message = parser.error_message ∨
      (giga_parser_parse_number parser operand).2.1.error_message
        = some "Immediate value exceeds 4 bits (max 15)") ∧
    parse_report (bytes "MOVI R0, 16") = some (1, 1, some "Expected operand", 1, 10) ∧
    parse_report (bytes "LD R0, [99]") = some (1, 1, some "Expected operand", 1, 9) := by
  refine ⟨?_, ?_, ?_, ?_, by decide, by decide⟩
  · obtain ⟨out, hout, hmsg⟩ := parse_source_message source
    refine ⟨out, hout, ?_⟩
    intro message hmem heq
    rcases hmsg with hnone | ⟨other, hother, hsome⟩
    · rw [hnone] at heq
      exact absurd heq (by simp)
    · rw [hsome] at heq
      simp only [Option.some.injEq] at heq
      rw [heq] at hother
      exact messages_disjoint message hmem hother
  · intro parser operand hclean hok message hmem heq
    rcases parse_operand_message parser operand hok with hkept | ⟨other, hother, hsome⟩
    · rw [hkept] at heq
      exact hclean message hmem heq
    · rw [hsome] at heq
      simp only [Option.some.injEq] at heq
      rw [heq] at hother
      exact messages_disjoint message hmem hother
  · intro fuel parser final inst hnl heof hcomma hcount hfail hloop
    rw [giga_parser_parse_instruction_loop, if_pos ⟨hnl, heof⟩] at hloop
    simp only [] at hloop
    rw [if_neg hcomma, if_neg (by omega), if_pos (by simp [hfail])] at hloop
    simp only [Option.some.injEq] at hloop
    rw [← hloop]
    rfl
  · intro lexer parser operand hw hk hbuf hcur
    obtain ⟨hlit, hlen⟩ := next_token_number_literal lexer hw hk
    have htext : token_text parser parser.current_token
        = giga_token_text lexer.buffer (giga_lexer_next_token lexer).1 := by
      rw [token_text_eq, hbuf, hcur]
    have hnum := parse_number_of_literal parser operand (by rw [hcur]; exact hk)
      (by rw [htext, hcur]; exact hlen) (by rw [htext]; exact hlit)
    rw [hnum]
    split_ifs
    · left
      rfl
    · right
      rfl

/-! ### Labels and mnemonics at the start of a statement -/

/-- The operand loop links exactly one instruction statement, with the
mnemonic and position it was started with. -/
theorem parse_instruction_loop_statement (fuel : Nat) :
    ∀ (parser : GigaParser) (inst : GigaParsedInstruction) (final : GigaParser),
      giga_parser_parse_instruction_loop fuel parser inst = some final →
      ∃ linked : GigaParsedInstruction,
        final.statements = parser.statements ++ [GigaStatement.instruction linked] ∧
        linked.mnemonic_text = inst.mnemonic_text ∧
        linked.source_line = inst.source_line ∧
        linked.source_column = inst.source_column := by
  induction fuel with
  | zero =>
    intro parser inst final h
    rw [giga_parser_parse_instruction_loop] at h
    exact absurd h (by simp)
  | succ fuel ih =>
    intro parser inst final h
    rw [giga_parser_parse_instruction_loop] at h
    by_cases hk : parser.current_token.kind ≠ GigaTokenKind.NEWLINE ∧
        parser.current_token.kind ≠ GigaTokenKind.EOF
    · rw [if_pos hk] at h
      simp only [] at h
      have hq : (if parser.current_token.kind = GigaTokenKind.COMMA then
          giga_parser_advance parser else parser).statements = parser.statements := by
        split_ifs
        · rfl
        · rfl
      generalize (if parser.current_token.kind = GigaTokenKind.COMMA then
        giga_parser_advance parser else parser) = q at h hq
      by_cases hc : inst.operand_count ≥ GIGA_MAX_OPERANDS
      · rw [if_pos hc] at h
        simp only [Option.some.injEq] at h
        refine ⟨inst, ?_, rfl, rfl, rfl⟩
        rw [← h, ← hq]
        rfl
      · rw [if_neg hc] at h
        by_cases hp : (giga_parser_parse_operand q GigaOperand.none).1 = true
        · rw [if_neg (by simp [hp])] at h
          obtain ⟨linked, h1, h2, h3, h4⟩ := ih _ _ _ h
          refine ⟨linked, ?_, h2, h3, h4⟩
          rw [h1, (parse_operand_spec q GigaOperand.none).1, hq]
        · rw [if_pos (by simpa using hp)] at h
          simp only [Option.some.injEq] at h
          refine ⟨inst, ?_, rfl, rfl, rfl⟩
          rw [← h, ← hq, ← (parse_operand_spec q GigaOperand.none).1]
          rfl
    · rw [if_neg hk] at h
      simp only [Option.some.injEq] at h
      refine ⟨inst, ?_, rfl, rfl, rfl⟩
      rw [← h]
      split_ifs
      · rfl
      · rfl

/-- Claim C35: `Expected ':' after label` is never reported.  For every source
text `giga_parser_parse` returns, and the message it leaves is not
`Expected ':' after label`.  At a statement that starts with an identifier, in
a parser without error: if the next token is a colon the statement loop calls
`giga_parser_parse_label`, which links a label statement with the identifier as
its name and sets no error; if the next token is anything else the loop calls
`giga_parser_parse_instruction`, which links an instruction statement with the
identifier as its mnemonic.  The text `START`, with or without a newline behind
it, parses without error as one instruction with zero operands; `START:` as one
label. -/
theorem C35_label_iff_colon (fuel : Nat) (parser : GigaParser)
    (h0 : parser.has_error = 0)
    (hid : parser.current_token.kind = GigaTokenKind.IDENTIFIER) :
    (∀ source : List Nat, ∃ out : Nat × GigaParser, parse_source source = some out ∧
      out.2.error_message ≠ some "Expected ':' after label") ∧
    (parser.lookahead_token.kind = GigaTokenKind.COLON →
      giga_parser_parse_loop (fuel + 1) parser
        = giga_parser_parse_loop fuel (giga_parser_parse_label parser) ∧
      (giga_parser_parse_label parser).statements
        = parser.statements ++ [GigaStatement.label
            { label_name := token_text parser parser.current_token
              source_line := parser.current_token.line_number
              source_column := parser.current_token.column_number }] ∧
      (giga_parser_parse_label parser).has_error = 0 ∧
      (giga_parser_parse_label parser).error_message = parser.error_message) ∧
    (parser.lookahead_token.kind ≠ GigaTokenKind.COLON →
      ∃ (behind : GigaParser) (inst : GigaParsedInstruction),
        giga_parser_parse_instruction parser = some behind ∧
        giga_parser_parse_loop (fuel + 1) parser = giga_parser_parse_loop fuel behind ∧
        behind.statements = parser.statements ++ [GigaStatement.instruction inst] ∧
        inst.mnemonic_text = token_text parser parser.current_token ∧
        inst.source_line = parser.current_token.line_number ∧
        inst.source_column = parser.current_token.column_number) ∧
    parse_statements (bytes "START\n")
      = some (0, [GigaStatement.instruction
          { mnemonic_text := bytes "START", operands := [], source_line := 1,
            source_column := 1 }]) ∧
    parse_report (bytes "START\n") = some (0, 0, Option.none, 0, 0) ∧
    parse_statements (bytes "START")
      = some (0, [GigaStatement.instruction
          { mnemonic_text := bytes "START", operands := [], source_line := 1,
            source_column := 1 }]) ∧
    parse_statements (bytes "START:\n")
      = some (0, [GigaStatement.label
          { label_name := bytes "START", source_line := 1, source_column := 1 }]) := by
  have h1 : parser.current_token.kind ≠ GigaTokenKind.EOF := by
    rw [hid]
    decide
  have h2 : ¬ parser.has_error ≠ 0 := by
    simp [h0]
  have h3 : ¬ parser.current_token.kind = GigaTokenKind.NEWLINE := by
    rw [hid]
    decide
  have h4 : ¬ parser.current_token.kind = GigaTokenKind.DIRECTIVE := by
    rw [hid]
    decide
  refine ⟨?_, ?_, ?_, by decide, by decide, by decide, by decide⟩
  · intro source
    obtain ⟨out, hout, hmsg⟩ := parse_source_message source
    refine ⟨out, hout, ?_⟩
    intro heq
    rcases hmsg with hnone | ⟨other, hother, hsome⟩
    · rw [hnone] at heq
      exact absurd heq (by simp)
    · rw [hsome] at heq
      simp only [Option.some.injEq] at heq
      rw [heq] at hother
      exact absurd hother (by decide)
  · intro hla
    obtain ⟨hm, he, hs⟩ := parse_label_message parser hid hla
    refine ⟨?_, hs, by rw [he, h0], hm⟩
    rw [giga_parser_parse_loop, if_pos h1, if_neg h2, if_neg h3, if_neg h4, if_pos hid,
      if_pos hla]
  · intro hla
    obtain ⟨behind, hbehind, -⟩ := parse_instruction_total parser hid
    have hloop := hbehind
    unfold giga_parser_parse_instruction at hloop
    rw [if_neg (by simp [hid])] at hloop
    obtain ⟨inst, hs1, hs2, hs3, hs4⟩ := parse_instruction_loop_statement _ _ _ _ hloop
    refine ⟨behind, inst, hbehind, ?_, ?_, hs2, hs3, hs4⟩
    · rw [giga_parser_parse_loop, if_pos h1, if_neg h2, if_neg h3, if_neg h4, if_pos hid,
        if_neg hla, hbehind]
    · rw [hs1]
      rfl

theorem C35_label_iff_colon_witness :
    (giga_parser_init (giga_lexer_init (bytes "START\n") 6)).has_error = 0 ∧
    (giga_parser_init (giga_lexer_init (bytes "START\n") 6)).current_token.kind
      = GigaTokenKind.IDENTIFIER ∧
    (giga_parser_init (giga_lexer_init (bytes "START\n") 6)).lookahead_token.kind
      ≠ GigaTokenKind.COLON ∧
    ∃ (behind : GigaParser) (inst : GigaParsedInstruction),
      giga_parser_parse_instruction (giga_parser_init (giga_lexer_init (bytes "START\n") 6))
        = some behind ∧
      giga_parser_parse_loop (8 + 1) (giga_parser_init (giga_lexer_init (bytes "START\n") 6))
        = giga_parser_parse_loop 8 behind ∧
      behind.statements
        = (giga_parser_init (giga_lexer_init (bytes "START\n") 6)).statements
          ++ [GigaStatement.instruction inst] ∧
      inst.mnemonic_text
        = token_text (giga_parser_init (giga_lexer_init (bytes "START\n") 6))
            (giga_parser_init (giga_lexer_init (bytes "START\n") 6)).current_token ∧
      inst.source_line
        = (giga_parser_init (giga_lexer_init (bytes "START\n") 6)).current_token.line_number ∧
      inst.source_column
        = (giga_parser_init
            (giga_lexer_init (bytes "START\n") 6)).current_token.column_number :=
  ⟨by decide, by decide, by decide,
    (C35_label_iff_colon 8 (giga_parser_init (giga_lexer_init (bytes "START\n") 6))
      (by decide) (by decide)).2.2.1 (by decide)⟩

/-! ### Operand ranges of parsed programs -/

theorem field_mapping_ld (resolve : List Nat → Nat) (operands : List GigaOperand)
    (dest src imm4 : Nat)
    (h : spec_field_mapping resolve GIGA_OP_LD operands = some (dest, src, imm4))
    (hr : ∀ o ∈ operands, operand_in_range o) : src = 0 := by
  unfold spec_field_mapping at h
  simp only [GIGA_OP_LD, GIGA_OP_NOP, GIGA_OP_HALT, GIGA_OP_MOVI, GIGA_OP_MOV, GIGA_OP_ADD,
    GIGA_OP_SUB, GIGA_OP_AND, GIGA_OP_OR, GIGA_OP_XOR, GIGA_OP_NOT, GIGA_OP_SHL, GIGA_OP_SHR,
    Nat.reduceEqDiff, or_self, ↓reduceIte] at h
  split at h
  · rename_i op0 address rest
    have ha : address ≤ 15 := hr (GigaOperand.memory address) (by simp)
    simp only [Option.some.injEq, Prod.mk.injEq] at h
    omega
  · exact absurd h (by simp)

theorem field_mapping_st (resolve : List Nat → Nat) (operands : List GigaOperand)
    (dest src imm4 : Nat)
    (h : spec_field_mapping resolve GIGA_OP_ST operands = some (dest, src, imm4))
    (hr : ∀ o ∈ operands, operand_in_range o) : dest = 0 := by
  unfold spec_field_mapping at h
  simp only [GIGA_OP_ST, GIGA_OP_LD, GIGA_OP_NOP, GIGA_OP_HALT, GIGA_OP_MOVI, GIGA_OP_MOV,
    GIGA_OP_ADD, GIGA_OP_SUB, GIGA_OP_AND, GIGA_OP_OR, GIGA_OP_XOR, GIGA_OP_NOT, GIGA_OP_SHL,
    GIGA_OP_SHR, Nat.reduceEqDiff, or_self, ↓reduceIte] at h
  split at h
  · rename_i address op1 rest
    have ha : address ≤ 15 := hr (GigaOperand.memory address) (by simp)
    simp only [Option.some.injEq, Prod.mk.injEq] at h
    omega
  · exact absurd h (by simp)

/-- Claim C32: ranges in a parsed program.  After a successful
`giga_parser_parse` on a source text, every instruction statement of the list
has at most three operands, every register operand an index of at most 7, every
immediate operand a value of at most 15 and every memory operand an address of
at most 15.  Hence, when the list assembles, every word of an `LD` decodes with
`src_reg = 0` and every word of an `ST` with `dest_reg = 0`: the high nibble of
the address is always 0.  The addresses 16 and 255 are refused by the parser;
`LD R1, [5]` and `ST [6], R2` assemble to `0xB105` and `0xC026`. -/
theorem C32_parsed_operands_in_range (source : List Nat)
    (hret : parse_return source = some 0) :
    (∀ inst, GigaStatement.instruction inst ∈ parsed_statements source →
      inst.operand_count ≤ 3 ∧
      (∀ register_index, GigaOperand.register register_index ∈ inst.operands →
        register_index ≤ 7) ∧
      (∀ immediate_value, GigaOperand.immediate immediate_value ∈ inst.operands →
        immediate_value ≤ 15) ∧
      (∀ memory_address, GigaOperand.memory memory_address ∈ inst.operands →
        memory_address ≤ 15)) ∧
    (∀ result : GigaAssemblerResult, assemble_source source = some (0, result) →
      ∀ i inst, (instructions_of (parsed_statements source))[i]? = some inst →
        (mnemonic_to_opcode inst.mnemonic_text = some GIGA_OP_LD →
          (giga_decode_instruction (bytecode_word result i)).src_reg = 0) ∧
        (mnemonic_to_opcode inst.mnemonic_text = some GIGA_OP_ST →
          (giga_decode_instruction (bytecode_word result i)).dest_reg = 0)) ∧
    parse_return (bytes "LD R0, [16]") = some 1 ∧
    parse_return (bytes "ST [255], R0") = some 1 ∧
    (assemble_source (bytes "LD R1, [5]\nST [6], R2")).map
        (fun out => (out.1, bytecode_word out.2 0, bytecode_word out.2 1))
      = some (0, 0xB105, 0xC026) := by
  have hrange := parsed_statements_in_range source
  refine ⟨?_, ?_, by decide, by decide, by decide⟩
  · intro inst hmem
    have hin : instruction_in_range inst := hrange _ hmem
    refine ⟨hin.1, ?_, ?_, ?_⟩
    · intro r hr
      exact hin.2 _ hr
    · intro v hv
      exact hin.2 _ hv
    · intro a ha
      exact hin.2 _ ha
  · intro result hasm i inst hi
    obtain ⟨out, hout⟩ := parse_source_total source
    have hcode : out.1 = 0 := by
      unfold parse_return at hret
      rw [hout] at hret
      simpa using hret
    have hstmts : parsed_statements source = out.2.statements := by
      unfold parsed_statements
      rw [hout]
      rfl
    obtain ⟨code, parser⟩ := out
    simp only at hcode hstmts
    subst hcode
    unfold assemble_source at hasm
    rw [hout] at hasm
    simp only [Option.some.injEq, Prod.mk.injEq] at hasm
    rw [hstmts] at hi hrange
    obtain ⟨-, hwords⟩ := assembled_words_decode [] empty_result parser.statements hrange
      hasm.1
    obtain ⟨opcode, dest, src, imm4, hop, hmap, hdec⟩ := hwords i inst hi
    have hin : instruction_in_range inst :=
      hrange _ (mem_instructions_of parser.statements inst (List.getElem?_mem hi))
    rw [← hasm.2, hdec]
    refine ⟨?_, ?_⟩
    · intro hld
      rw [hld] at hop
      simp only [Option.some.injEq] at hop
      rw [← hop] at hmap
      exact field_mapping_ld _ _ _ _ _ hmap hin.2
    · intro hst
      rw [hst] at hop
      simp only [Option.some.injEq] at hop
      rw [← hop] at hmap
      exact field_mapping_st _ _ _ _ _ hmap hin.2

theorem C32_parsed_operands_in_range_witness :
    parse_return (bytes "LD R1, [5]\nST [6], R2") = some 0 ∧
    ∀ inst, GigaStatement.instruction inst ∈ parsed_statements (bytes "LD R1, [5]\nST [6], R2") →
      inst.operand_count ≤ 3 ∧
      (∀ register_index, GigaOperand.register register_index ∈ inst.operands →
        register_index ≤ 7) ∧
      (∀ immediate_value, GigaOperand.immediate immediate_value ∈ inst.operands →
        immediate_value ≤ 15) ∧
      (∀ memory_address, GigaOperand.memory memory_address ∈ inst.operands →
        memory_address ≤ 15) :=
  ⟨by decide, (C32_parsed_operands_in_range (bytes "LD R1, [5]\nST [6], R2") (by decide)).1⟩

end Giga
